import Mathlib

/-!
# Quantization and columnar bundling

A shallow embedding of `catboost/libs/data/quantization.cpp`: the incremental dense
indexing, the column materializer (`MakeQuantizedColumnWithDefaultBin`,
`MakeQuantizedColumnWithoutDefaultBin`, `QuantizeNonDefaultValues`), the three
column aggregators (exclusive feature bundle, binary pack, features group) with
`TColumnsQuantizer::AggregateFeatures`, the border building (`CalcQuantizationAndNanMode`,
`ProcessFloatFeature`), the masks of the non-default values, the memory estimate of a
float feature, `AddIgnoredFeatures`, and the scheduling of `TColumnsQuantizer::Do` after
the first stage of `TQuantizationImpl::Do`.

Conventions.
* `ui32` / `ui8` / `ui16` values are natural numbers; every operation whose result is
  truncated in the source carries an explicit `% 2 ^ w`.
* A `ui32` shift `a << s` is `(a <<< s) % 2 ^ 32`. The source leaves a shift by 32 or more
  undefined; the theorems about shifts assume a count below 32.
* Indexing a vector out of range is undefined in the source; the embedding reads a
  default element (`getD`) and ignores the write (`List.set`). The theorems assume
  indices in range wherever a cell is read or written.
* Code that can throw returns `Except EError`.
* Parallel loops (`ParallelForEach`, `ParallelFill`) are run sequentially.
* Value types are type parameters: the value quantizer is the only code that looks
  inside a raw value.
-/

set_option linter.dupNamespace false

namespace NCB

/-! ## Failures -/

/-- The exceptions thrown by the embedded code. -/
inductive EError where
  /-- Thrown by `CB_ENSURE_INTERNAL(false, "...: unsupported src feature type")`. -/
  | UnsupportedSrcFeatureType
  /-- Thrown by `CB_ENSURE_INTERNAL(false, "...: unsupported bits per key")`. -/
  | UnsupportedBitsPerKey
  /-- Thrown by `CB_ENSURE(false, "... is not supported for features of type ...")`. -/
  | UnsupportedFeatureType
  /-- Thrown by `Get<TIndexedSubset<ui32>>` applied to another alternative of the variant. -/
  | BadVariantAccess
  /-- Thrown when an empty `TMaybe` is dereferenced. -/
  | MaybeIsEmpty
  /-- An exception raised inside `TValueQuantizer::Quantize`. -/
  | QuantizeFailed
  /-- Thrown by `CB_ENSURE(AllowNans, "There are NaNs in test dataset (feature number N) but
  there were no NaNs in learn dataset")`; carries the flat feature index of the message. -/
  | NanInTestDataset (flatFeatureIdx : Nat)
  /-- Thrown by `CB_ENSURE(..., "Feature #N: There are nan factors and nan values for float
  features are not allowed. Set nan_mode != Forbidden.")`; carries the feature id. -/
  | NanValuesNotAllowed (featureId : Nat)
  /-- Thrown by `CB_ENSURE_INTERNAL(..., "Feature #N: NanMode and quantization must be
  specified or not specified together")`; carries the feature id. -/
  | NanModeAndQuantizationMismatch (featureId : Nat)
  /-- Reported when a registry entry is read before it was set. -/
  | RegistryEntryMissing
  /-- A failed `Y_VERIFY`. -/
  | VerifyFailed
  /-- Thrown by `CB_ENSURE(false, "Unsupported column type")`. -/
  | UnsupportedColumnType
  /-- A write beyond the end of a storage, which the source does not check. -/
  | WriteOutOfBounds
  deriving DecidableEq

/-! ## Subset indexing -/

/-- The variant `TArraySubsetIndexing<ui32>` (`TFeaturesArraySubsetIndexing`).
Modelled from the spec: `array_subset.h` is not among the sources; the spec describes the
three alternatives as full (identity), ranges (block list) and indexed (explicit
selection). A block is a half-open range `[SrcBegin, SrcEnd)` of source positions;
blocks are laid out one after another in the destination. -/
inductive TArraySubsetIndexing where
  | TFullSubset (Size : Nat)
  | TRangesSubset (Blocks : List (Nat × Nat))
  | TIndexedSubset (Indices : List Nat)
  deriving DecidableEq

namespace TArraySubsetIndexing

/-- The source position of every object, in object order: `ForEach` / `ParallelForEach`
calls its argument with `(objectIdx, SrcIndices[objectIdx])` for every `objectIdx`. -/
def SrcIndices : TArraySubsetIndexing → List Nat
  | TFullSubset size => List.range size
  | TRangesSubset blocks => (blocks.map (fun b => List.range' b.1 (b.2 - b.1))).flatten
  | TIndexedSubset indices => indices

/-- Method `Size()`. -/
def Size (s : TArraySubsetIndexing) : Nat := s.SrcIndices.length

/-- Test `HoldsAlternative<TFullSubset<ui32>>`. -/
def IsFullSubset : TArraySubsetIndexing → Bool
  | TFullSubset _ => true
  | _ => false

end TArraySubsetIndexing

/-- Call `Sort(beginIter, endIter, [](auto lhs, auto rhs) { return lhs.first < rhs.first; })`
over a `TDoubleArrayIterator`: the pairs are ordered by their first component. The
order the source gives to pairs with equal first components is unspecified; here they
keep their relative order. -/
def SortByFirst (pairs : List (Nat × Nat)) : List (Nat × Nat) :=
  pairs.insertionSort (fun lhs rhs => lhs.1 ≤ rhs.1)

instance SortByFirst.instIsTotal : IsTotal (Nat × Nat) (fun lhs rhs => lhs.1 ≤ rhs.1) :=
  ⟨fun a b => Nat.le_total a.1 b.1⟩

instance SortByFirst.instIsTrans : IsTrans (Nat × Nat) (fun lhs rhs => lhs.1 ≤ rhs.1) :=
  ⟨fun _ _ _ hab hbc => Nat.le_trans hab hbc⟩

/-- Structure `TIncrementalDenseIndexing` (quantization.h). -/
structure TIncrementalDenseIndexing where
  /-- indices in SrcData for dense features, TFullSubset if there is no dense src data -/
  SrcSubsetIndexing : TArraySubsetIndexing
  /-- positions in dst data when iterating over dense SrcData in SrcSubsetIndexing order -/
  DstIndexing : TArraySubsetIndexing
  deriving DecidableEq

/-- The constructor `TIncrementalDenseIndexing::TIncrementalDenseIndexing`. -/
def TIncrementalDenseIndexing.TIncrementalDenseIndexing
    (srcSubsetIndexing : TArraySubsetIndexing) (hasDenseData : Bool) :
    TIncrementalDenseIndexing :=
  if hasDenseData && !srcSubsetIndexing.IsFullSubset then
    -- srcIndicesRef[objectIdx] = srcObjectIdx
    let srcIndices := srcSubsetIndexing.SrcIndices
    -- Iota(dstIndices.begin(), dstIndices.end(), ui32(0))
    let dstIndices := List.range srcSubsetIndexing.Size
    let sorted := SortByFirst (srcIndices.zip dstIndices)
    { SrcSubsetIndexing := .TIndexedSubset (sorted.map Prod.fst)
      DstIndexing := .TIndexedSubset (sorted.map Prod.snd) }
  else
    { SrcSubsetIndexing := .TFullSubset srcSubsetIndexing.Size
      DstIndexing := .TFullSubset srcSubsetIndexing.Size }

/-! ## Raw feature columns -/

/-- Dense column data (`ITypedArraySubset<T>`): values in physical storage, addressed
through a subset indexing. -/
structure TDenseData (α : Type) where
  /-- the value stored at every source position -/
  Src : Nat → α
  SubsetIndexing : TArraySubsetIndexing

namespace TDenseData

variable {α : Type}

/-- Method `CloneWithNewSubsetIndexing`: the same storage seen through another indexing. -/
def CloneWithNewSubsetIndexing (d : TDenseData α) (subsetIndexing : TArraySubsetIndexing) :
    TDenseData α :=
  { d with SubsetIndexing := subsetIndexing }

/-- Method `GetSize()`. -/
def GetSize (d : TDenseData α) : Nat := d.SubsetIndexing.Size

/-- The value of object `objectIdx`. -/
def GetValue (d : TDenseData α) (objectIdx : Nat) : α :=
  d.Src (d.SubsetIndexing.SrcIndices.getD objectIdx 0)

/-- Methods `ForEach(f)` / `ParallelForEach(f)`: the calls `f(objectIdx, value)` it makes, for
`objectIdx` in `0 .. GetSize()`. -/
def ForEach (d : TDenseData α) : List (Nat × α) :=
  (List.range d.GetSize).map (fun objectIdx => (objectIdx, d.GetValue objectIdx))

end TDenseData

/-- Sparse column data (`TConstPolymorphicValuesSparseArray<T, ui32>`): the non-default
entries `(index, value)` in increasing index order, the default value and the size. -/
structure TSparseArray (α : Type) where
  Size : Nat
  NonDefault : List (Nat × α)
  DefaultValue : α

namespace TSparseArray

variable {α : Type}

/-- Method `GetSize()`. -/
def GetSize (a : TSparseArray α) : Nat := a.Size

/-- Method `GetNonDefaultSize()`. -/
def GetNonDefaultSize (a : TSparseArray α) : Nat := a.NonDefault.length

/-- Method `GetDefaultSize()`. -/
def GetDefaultSize (a : TSparseArray α) : Nat := a.Size - a.NonDefault.length

/-- Method `GetDefaultValue()`. -/
def GetDefaultValue (a : TSparseArray α) : α := a.DefaultValue

/-- Method `ForEachNonDefault(f)`: the calls `f(idx, value)` it makes. -/
def ForEachNonDefault (a : TSparseArray α) : List (Nat × α) := a.NonDefault

/-- The value of object `objectIdx`: the stored entry if there is one, else the default. -/
def GetValue (a : TSparseArray α) (objectIdx : Nat) : α :=
  match a.NonDefault.lookup objectIdx with
  | some value => value
  | none => a.DefaultValue

/-- The invariant of the sparse indexing: indices strictly increase and are below the size. -/
def WellFormed (a : TSparseArray α) : Prop :=
  (a.NonDefault.map Prod.fst).Pairwise (fun i j => i < j) ∧ ∀ i ∈ a.NonDefault.map Prod.fst, i < a.Size

instance (a : TSparseArray α) : Decidable a.WellFormed := by
  unfold WellFormed
  infer_instance

end TSparseArray

/-- A raw column `TTypedFeatureValuesHolder<T, ...>`: the code tells the implementations
apart by `dynamic_cast`. -/
inductive TTypedFeatureValuesHolder (α : Type) where
  /-- Class `TPolymorphicArrayValuesHolder` -/
  | Dense (Data : TDenseData α)
  /-- Class `TSparsePolymorphicArrayValuesHolder` -/
  | Sparse (Data : TSparseArray α)
  /-- any other implementation of the interface -/
  | Other (Size : Nat)

namespace TTypedFeatureValuesHolder

variable {α : Type}

/-- Method `GetSize()`. -/
def GetSize : TTypedFeatureValuesHolder α → Nat
  | Dense data => data.GetSize
  | Sparse data => data.GetSize
  | Other size => size

/-- The value of object `objectIdx` of a dense or sparse column. -/
def GetValue? : TTypedFeatureValuesHolder α → Nat → Option α
  | Dense data, objectIdx => some (data.GetValue objectIdx)
  | Sparse data, objectIdx => some (data.GetValue objectIdx)
  | Other _, _ => none

end TTypedFeatureValuesHolder

/-- The columns the materializer accepts: a dense column, or a sparse column whose
indexing is well formed. -/
def TTypedFeatureValuesHolder.Supported {α : Type} : TTypedFeatureValuesHolder α → Prop
  | .Dense _ => True
  | .Sparse data => data.WellFormed
  | .Other _ => False

instance {α : Type} (c : TTypedFeatureValuesHolder α) : Decidable c.Supported := by
  cases c with
  | Dense d => exact isTrue trivial
  | Sparse a => exact inferInstanceAs (Decidable a.WellFormed)
  | Other n => exact isFalse (fun h => h)

/-! ## Value quantizer -/

/-- The interface of `TValueQuantizer<TSrcValue, FeatureValuesType>`. `Quantize` is
`NCB::Quantize` for floats (it throws on a NaN that is not allowed) and a perfect hash
lookup for categorical values; neither is in the sources, so it is a field. -/
structure TValueQuantizer (α : Type) where
  /-- Method `GetDstBitsPerKey()` -/
  DstBitsPerKey : Nat
  /-- Method `Quantize(srcValue)`, a `ui32` -/
  Quantize : α → Except EError Nat
  /-- Method `GetDefaultBin()` -/
  DefaultBin : Option Nat

/-! ## Column materializer -/

/-- Class `TCompressedArray` holding one stored value per element. -/
structure TCompressedArray where
  BitsPerKey : Nat
  Data : List Nat
  deriving DecidableEq

/-- Call `TCompressedArray::CreateWithUninitializedData(size, bitsPerKey)` seen through
`GetRawArray<TStoredDstValue>()`: element `i` holds the unspecified value `uninit i`
of the stored type. -/
def CreateWithUninitializedData (size storedBits : Nat) (uninit : Nat → Nat) : List Nat :=
  (List.range size).map (fun i => uninit i % 2 ^ storedBits)

/-- Call `ParallelFill(value, blockSize, localExecutor, dst)`. -/
def ParallelFill (value : Nat) (dst : List Nat) : List Nat :=
  List.replicate dst.length value

/-- The loop `for (i, srcValue) in visits: callback(dstIdx(i), valueQuantizer.Quantize(srcValue))`
shared by the branches of `QuantizeNonDefaultValues`; `σ` is the state the callback
updates. -/
def QuantizeEach {α σ : Type} (valueQuantizer : TValueQuantizer α)
    (callback : Nat → Nat → σ → σ) (visits : List (Nat × α)) (state : σ) : Except EError σ :=
  visits.foldlM
    (fun st visit => do
      let quantizedValue ← valueQuantizer.Quantize visit.2
      pure (callback visit.1 quantizedValue st))
    state

/-- The `(dstIdx, srcValue)` pairs `QuantizeNonDefaultValues` hands to its callback,
in the order of a sequential run. -/
def QuantizeNonDefaultValuesVisits {α : Type} (srcFeature : TTypedFeatureValuesHolder α)
    (incrementalDenseIndexing : TIncrementalDenseIndexing) : Except EError (List (Nat × α)) :=
  match srcFeature with
  | .Dense denseSrcFeature =>
    match incrementalDenseIndexing.SrcSubsetIndexing with
    | .TIndexedSubset _ =>
      match incrementalDenseIndexing.DstIndexing with
      | .TIndexedSubset dstIndices =>
        pure (((denseSrcFeature.CloneWithNewSubsetIndexing
                  incrementalDenseIndexing.SrcSubsetIndexing).ForEach).map
                (fun visit => (dstIndices.getD visit.1 0, visit.2)))
      | _ => throw .BadVariantAccess
    | _ => pure denseSrcFeature.ForEach
  | .Sparse sparseArray => pure sparseArray.ForEachNonDefault
  | .Other _ => throw .UnsupportedSrcFeatureType

/-- Function `QuantizeNonDefaultValues(srcFeature, incrementalDenseIndexing, valueQuantizer,
localExecutor, callback)`; the callback accepts `(dstIndex, quantizedValue)`. -/
def QuantizeNonDefaultValues {α σ : Type} (srcFeature : TTypedFeatureValuesHolder α)
    (incrementalDenseIndexing : TIncrementalDenseIndexing)
    (valueQuantizer : TValueQuantizer α) (callback : Nat → Nat → σ → σ) (state : σ) :
    Except EError σ := do
  let visits ← QuantizeNonDefaultValuesVisits srcFeature incrementalDenseIndexing
  QuantizeEach valueQuantizer callback visits state

/-- Function `MakeQuantizedColumnWithoutDefaultBin<TStoredDstValue>`; `storedBits` is
`sizeof(TStoredDstValue) * CHAR_BIT`, which the source asserts to be
`valueQuantizer.GetDstBitsPerKey()`. Returns the storage of the dense compressed
column it installs. -/
def MakeQuantizedColumnWithoutDefaultBin {α : Type} (storedBits : Nat)
    (srcFeature : TTypedFeatureValuesHolder α)
    (incrementalDenseIndexing : TIncrementalDenseIndexing)
    (valueQuantizer : TValueQuantizer α) (uninit : Nat → Nat) :
    Except EError TCompressedArray := do
  let dstBitsPerKey := valueQuantizer.DstBitsPerKey
  let dstArrayRef := CreateWithUninitializedData srcFeature.GetSize storedBits uninit
  let dstArrayRef ←
    match srcFeature with
    | .Sparse sparseArray =>
      if sparseArray.GetDefaultSize ≠ 0 then do
        let quantizedSrcDefaultValue ← valueQuantizer.Quantize sparseArray.GetDefaultValue
        pure (ParallelFill (quantizedSrcDefaultValue % 2 ^ storedBits) dstArrayRef)
      else
        pure dstArrayRef
    | _ => pure dstArrayRef
  let dstArrayRef ←
    QuantizeNonDefaultValues srcFeature incrementalDenseIndexing valueQuantizer
      (fun dstIdx quantizedValue dst => dst.set dstIdx (quantizedValue % 2 ^ storedBits))
      dstArrayRef
  pure { BitsPerKey := dstBitsPerKey, Data := dstArrayRef }

/-- Class `TSparseCompressedArray<TDst, ui32>` as built by `MakeQuantizedColumnWithDefaultBin`:
the ordered indices of the stored entries, their stored values, and the default. -/
structure TSparseCompressedArray where
  Size : Nat
  /-- Result of `indexingBuilder->Build(size)`: the indices passed to `AddOrdered`, in order -/
  Indexing : List Nat
  /-- the first `nonDefaultValuesCount` elements of `quantizedDataStorage` -/
  NonDefaultValues : TCompressedArray
  DefaultValue : Nat
  deriving DecidableEq

/-- The state of the callback of `MakeQuantizedColumnWithDefaultBin`: the indices added to
`indexingBuilder` and the stored values written so far (`nonDefaultValuesCount` is the
length of both). -/
structure TDefaultBinBuilderState where
  Indexing : List Nat
  Values : List Nat

/-- Lambda `onSrcNonDefaultValueCallback` of `MakeQuantizedColumnWithDefaultBin`. -/
def onSrcNonDefaultValueCallback {α : Type} (storedBits : Nat)
    (valueQuantizer : TValueQuantizer α) (defaultQuantizedBin : Nat)
    (state : TDefaultBinBuilderState) (visit : Nat × α) :
    Except EError TDefaultBinBuilderState := do
  let quantizedBin ← valueQuantizer.Quantize visit.2
  if quantizedBin ≠ defaultQuantizedBin then
    pure { Indexing := state.Indexing ++ [visit.1]
           Values := state.Values ++ [quantizedBin % 2 ^ storedBits] }
  else
    pure state

/-- Function `MakeQuantizedColumnWithDefaultBin<TStoredDstValue>`; `storedBits` is
`sizeof(TStoredDstValue) * CHAR_BIT`. The stored values are kept as a list; the
block-wise `yresize` of `quantizedDataStorage` is followed by
`onSrcNonDefaultValueCallbackWithStorage`. -/
def MakeQuantizedColumnWithDefaultBin {α : Type} (storedBits : Nat)
    (srcFeature : TTypedFeatureValuesHolder α) (valueQuantizer : TValueQuantizer α) :
    Except EError TSparseCompressedArray := do
  let defaultQuantizedBin ←
    match valueQuantizer.DefaultBin with
    | some bin => pure bin
    | none => throw .MaybeIsEmpty
  let visits ←
    match srcFeature with
    | .Dense denseSrcFeature => pure denseSrcFeature.ForEach
    | .Sparse sparseArray => pure sparseArray.ForEachNonDefault
    | .Other _ => throw .UnsupportedSrcFeatureType
  let state ←
    visits.foldlM (onSrcNonDefaultValueCallback storedBits valueQuantizer defaultQuantizedBin)
      { Indexing := [], Values := [] }
  pure
    { Size := srcFeature.GetSize
      Indexing := state.Indexing
      NonDefaultValues := { BitsPerKey := valueQuantizer.DstBitsPerKey, Data := state.Values }
      DefaultValue := defaultQuantizedBin }

/-! ## Column aggregators -/

/-- Enumeration `EFeatureType`. -/
inductive EFeatureType where
  | Float
  | Categorical
  | Text
  deriving DecidableEq

/-- Structure `TFeatureIdxWithType`: a per-type feature index with its type. -/
structure TFeatureIdxWithType where
  FeatureType : EFeatureType
  FeatureIdx : Nat
  deriving DecidableEq

instance : Inhabited TFeatureIdxWithType := ⟨{ FeatureType := .Text, FeatureIdx := 0 }⟩

/-- The part of `TQuantizedFeaturesInfo` the aggregators read: the value quantizer that
`TValueQuantizer(quantizedFeaturesInfo, featureIdx)` builds for every float and every
categorical feature. -/
structure TQuantizedFeaturesInfo (F C : Type) where
  FloatQuantizer : Nat → TValueQuantizer F
  CatQuantizer : Nat → TValueQuantizer C

/-- Structure `TRawObjectsData`: the raw float and categorical columns by per-type index. -/
structure TRawObjectsData (F C : Type) where
  FloatFeatures : Nat → TTypedFeatureValuesHolder F
  CatFeatures : Nat → TTypedFeatureValuesHolder C

/-- Function `GetDefaultQuantizedValue(quantizedFeaturesInfo, featureWithType)`. -/
def GetDefaultQuantizedValue {F C : Type} (quantizedFeaturesInfo : TQuantizedFeaturesInfo F C)
    (featureWithType : TFeatureIdxWithType) : Except EError (Option Nat) :=
  match featureWithType.FeatureType with
  | .Float => pure (quantizedFeaturesInfo.FloatQuantizer featureWithType.FeatureIdx).DefaultBin
  | .Categorical => pure (quantizedFeaturesInfo.CatQuantizer featureWithType.FeatureIdx).DefaultBin
  | _ => throw .UnsupportedFeatureType

/-- The fields of `TColumnsQuantizer` that `AggregateFeatures` reads; `ObjectCount` is
`QuantizedDataSubsetIndexing->Size()`. -/
structure TColumnsQuantizer (F C : Type) where
  IncrementalDenseIndexing : TIncrementalDenseIndexing
  ObjectCount : Nat
  RawObjectsData : TRawObjectsData F C
  QuantizedFeaturesInfo : TQuantizedFeaturesInfo F C

/-- The interface `TColumnsAggregator<FeatureValuesType>`; `Ctx` is its
`TAggregationContext`. `AddToAggregate dstBits context quantizedSrcValue dstValue` is the
new content of the destination cell, `dstBits` being the width of `TDstValue`. -/
structure TColumnsAggregator (Ctx : Type) where
  GetAggregatePartsCount : Nat → Nat
  GetAggregateBitsPerKey : Nat → Nat
  GetSrcPart : Nat → Nat → TFeatureIdxWithType
  GetDefaultValue : Nat → Except EError Nat
  GetAggregationContext : Nat → Nat → Ctx
  AddToAggregate : Nat → Ctx → Nat → Nat → Nat

/-! ### Exclusive feature bundle -/

/-- Structure `TBoundsInBundle`: the half-open range `[Begin, End)` of a part. -/
structure TBoundsInBundle where
  Begin : Nat
  End : Nat
  deriving DecidableEq

/-- Structure `TExclusiveBundlePart`. -/
structure TExclusiveBundlePart where
  FeatureType : EFeatureType
  FeatureIdx : Nat
  Bounds : TBoundsInBundle
  deriving DecidableEq

instance : Inhabited TExclusiveBundlePart :=
  ⟨{ FeatureType := .Text, FeatureIdx := 0, Bounds := { Begin := 0, End := 0 } }⟩

/-- Structure `TExclusiveFeaturesBundle`. -/
structure TExclusiveFeaturesBundle where
  SizeInBytes : Nat
  Parts : List TExclusiveBundlePart
  deriving DecidableEq

instance : Inhabited TExclusiveFeaturesBundle := ⟨{ SizeInBytes := 0, Parts := [] }⟩

namespace ExclusiveFeatureBundle

/-- Constant `CHAR_BIT`. -/
def CHAR_BIT : Nat := 8

/-- Method `GetAggregatePartsCount`. -/
def GetAggregatePartsCount (MetaData : List TExclusiveFeaturesBundle) (aggregateIdx : Nat) : Nat :=
  (MetaData.getD aggregateIdx default).Parts.length % 2 ^ 32

/-- Method `GetAggregateBitsPerKey`. -/
def GetAggregateBitsPerKey (MetaData : List TExclusiveFeaturesBundle) (aggregateIdx : Nat) : Nat :=
  ((MetaData.getD aggregateIdx default).SizeInBytes % 2 ^ 32 * CHAR_BIT) % 2 ^ 32

/-- Method `GetSrcPart`. -/
def GetSrcPart (MetaData : List TExclusiveFeaturesBundle) (aggregateIdx partIdx : Nat) :
    TFeatureIdxWithType :=
  { FeatureType := ((MetaData.getD aggregateIdx default).Parts.getD partIdx default).FeatureType
    FeatureIdx := ((MetaData.getD aggregateIdx default).Parts.getD partIdx default).FeatureIdx }

/-- Method `GetDefaultValue`: `MetaData[aggregateIdx].Parts.back().Bounds.End`. -/
def GetDefaultValue (MetaData : List TExclusiveFeaturesBundle) (aggregateIdx : Nat) : Nat :=
  ((MetaData.getD aggregateIdx default).Parts.getLastD default).Bounds.End

/-- Method `GetAggregationContext`: `boundsBegin`. -/
def GetAggregationContext (MetaData : List TExclusiveFeaturesBundle) (aggregateIdx partIdx : Nat) :
    Nat :=
  ((MetaData.getD aggregateIdx default).Parts.getD partIdx default).Bounds.Begin % 2 ^ 32

/-- Method `AddToAggregate<TDstValue>(boundsBegin, quantizedSrcValue, dstValue)`. -/
def AddToAggregate (dstBits : Nat) (boundsBegin quantizedSrcValue dstValue : Nat) : Nat :=
  if quantizedSrcValue ≠ 0 then
    ((boundsBegin + quantizedSrcValue - 1) % 2 ^ 32) % 2 ^ dstBits
  else
    dstValue

/-- The aggregator `TColumnsAggregator<EFeatureValuesType::ExclusiveFeatureBundle>`. -/
def Aggregator (MetaData : List TExclusiveFeaturesBundle) : TColumnsAggregator Nat where
  GetAggregatePartsCount := GetAggregatePartsCount MetaData
  GetAggregateBitsPerKey := GetAggregateBitsPerKey MetaData
  GetSrcPart := GetSrcPart MetaData
  GetDefaultValue := fun aggregateIdx => pure (GetDefaultValue MetaData aggregateIdx)
  GetAggregationContext := GetAggregationContext MetaData
  AddToAggregate := AddToAggregate

/-- The bounds `MetaData[aggregateIdx].Parts[partIdx].Bounds` of a part. -/
def PartBounds (MetaData : List TExclusiveFeaturesBundle) (aggregateIdx partIdx : Nat) :
    TBoundsInBundle :=
  ((MetaData.getD aggregateIdx default).Parts.getD partIdx default).Bounds

/-- Modelled from the spec: the reader of a bundle part (`GetBinFromBundle` behind
`TQuantizedFloatBundlePartValuesHolder`) is not among the sources; reading part p back
from a cell gives `cell - Begin_p + 1` when `Begin_p <= cell < End_p`, and 0 otherwise. -/
def GetBinFromBundle (bundle : Nat) (bounds : TBoundsInBundle) : Nat :=
  if bounds.Begin ≤ bundle ∧ bundle < bounds.End then bundle - bounds.Begin + 1 else 0

end ExclusiveFeatureBundle

/-! ### Binary pack -/

namespace BinaryPack

/-- Structure `TAggregationContext` of the binary pack aggregator. -/
structure TAggregationContext where
  BitIdx : Nat
  Mask : Nat
  deriving DecidableEq

/-- Method `GetAggregatePartsCount`; `BITS_PER_PACK` is
`sizeof(TBinaryFeaturesPack) * CHAR_BIT`, the subtraction is in `size_t`. -/
def GetAggregatePartsCount (BITS_PER_PACK : Nat) (PackedBinaryToSrcIndex : List TFeatureIdxWithType)
    (aggregateIdx : Nat) : Nat :=
  let startIdx := (BITS_PER_PACK * aggregateIdx) % 2 ^ 64
  (min BITS_PER_PACK ((PackedBinaryToSrcIndex.length + 2 ^ 64 - startIdx) % 2 ^ 64)) % 2 ^ 32

/-- Method `GetAggregateBitsPerKey`. -/
def GetAggregateBitsPerKey (BITS_PER_PACK : Nat) (_aggregateIdx : Nat) : Nat :=
  BITS_PER_PACK % 2 ^ 32

/-- Method `GetSrcPart`. -/
def GetSrcPart (BITS_PER_PACK : Nat) (PackedBinaryToSrcIndex : List TFeatureIdxWithType)
    (aggregateIdx partIdx : Nat) : TFeatureIdxWithType :=
  PackedBinaryToSrcIndex.getD (BITS_PER_PACK * aggregateIdx + partIdx) default

/-- Method `GetDefaultValue`: the loop `result |= *defaultBin << bitIdx` over the parts,
in `ui32`. -/
def GetDefaultValue {F C : Type} (BITS_PER_PACK : Nat)
    (PackedBinaryToSrcIndex : List TFeatureIdxWithType)
    (quantizedFeaturesInfo : TQuantizedFeaturesInfo F C) (aggregateIdx : Nat) :
    Except EError Nat :=
  (List.range (GetAggregatePartsCount BITS_PER_PACK PackedBinaryToSrcIndex aggregateIdx)).foldlM
    (fun result bitIdx => do
      let defaultBin ← GetDefaultQuantizedValue quantizedFeaturesInfo
        (GetSrcPart BITS_PER_PACK PackedBinaryToSrcIndex aggregateIdx bitIdx)
      match defaultBin with
      | some bin => pure (result ||| ((bin <<< bitIdx) % 2 ^ 32))
      | none => pure result)
    0

/-- Method `GetAggregationContext`: `(ui8)partIdx` and `~(ui32(1) << partIdx)`. -/
def GetAggregationContext (_aggregateIdx partIdx : Nat) : TAggregationContext :=
  { BitIdx := partIdx % 2 ^ 8
    Mask := (2 ^ 32 - 1) ^^^ ((1 <<< partIdx) % 2 ^ 32) }

/-- Method `AddToAggregate<TDstValue>(aggregationContext, quantizedSrcValue, dstValue)`. -/
def AddToAggregate (dstBits : Nat) (aggregationContext : TAggregationContext)
    (quantizedSrcValue dstValue : Nat) : Nat :=
  (((dstValue % 2 ^ 32) &&& aggregationContext.Mask)
    ||| ((quantizedSrcValue <<< aggregationContext.BitIdx) % 2 ^ 32)) % 2 ^ dstBits

/-- The aggregator `TColumnsAggregator<EFeatureValuesType::BinaryPack>`. -/
def Aggregator {F C : Type} (BITS_PER_PACK : Nat)
    (PackedBinaryToSrcIndex : List TFeatureIdxWithType)
    (quantizedFeaturesInfo : TQuantizedFeaturesInfo F C) : TColumnsAggregator TAggregationContext where
  GetAggregatePartsCount := GetAggregatePartsCount BITS_PER_PACK PackedBinaryToSrcIndex
  GetAggregateBitsPerKey := GetAggregateBitsPerKey BITS_PER_PACK
  GetSrcPart := GetSrcPart BITS_PER_PACK PackedBinaryToSrcIndex
  GetDefaultValue := GetDefaultValue BITS_PER_PACK PackedBinaryToSrcIndex quantizedFeaturesInfo
  GetAggregationContext := GetAggregationContext
  AddToAggregate := AddToAggregate

/-- The default bin the quantizer of a float or categorical part reports. -/
def PartDefaultBin {F C : Type} (quantizedFeaturesInfo : TQuantizedFeaturesInfo F C)
    (part : TFeatureIdxWithType) : Option Nat :=
  match part.FeatureType with
  | .Float => (quantizedFeaturesInfo.FloatQuantizer part.FeatureIdx).DefaultBin
  | .Categorical => (quantizedFeaturesInfo.CatQuantizer part.FeatureIdx).DefaultBin
  | .Text => none

/-- The composed default in the words of the spec: the bitwise OR, over the parts `i`, of
`(default bin of part i) << i`, a part without a default bin contributing 0. -/
def ComposedDefault (defaultBins : List (Option Nat)) : Nat :=
  (List.range defaultBins.length).foldl
    (fun result i => result ||| (((defaultBins.getD i none).getD 0) <<< i)) 0

end BinaryPack

/-! ### Features group -/

/-- Structure `TFeaturesGroup`; `SizeInBytes` is what `GetSizeInBytes()` returns. -/
structure TFeaturesGroup where
  SizeInBytes : Nat
  Parts : List TFeatureIdxWithType
  deriving DecidableEq

instance : Inhabited TFeaturesGroup := ⟨{ SizeInBytes := 0, Parts := [] }⟩

namespace FeaturesGroup

/-- Constant `CHAR_BIT`. -/
def CHAR_BIT : Nat := 8

/-- Method `GetAggregatePartsCount`. -/
def GetAggregatePartsCount (MetaData : List TFeaturesGroup) (aggregateIdx : Nat) : Nat :=
  (MetaData.getD aggregateIdx default).Parts.length % 2 ^ 32

/-- Method `GetAggregateBitsPerKey`. -/
def GetAggregateBitsPerKey (MetaData : List TFeaturesGroup) (aggregateIdx : Nat) : Nat :=
  ((MetaData.getD aggregateIdx default).SizeInBytes % 2 ^ 32 * CHAR_BIT) % 2 ^ 32

/-- Method `GetSrcPart`. -/
def GetSrcPart (MetaData : List TFeaturesGroup) (aggregateIdx partIdx : Nat) :
    TFeatureIdxWithType :=
  (MetaData.getD aggregateIdx default).Parts.getD partIdx default

/-- Method `GetDefaultValue`: the loop `result |= *defaultBin << (partIdx * CHAR_BIT)`. -/
def GetDefaultValue {F C : Type} (MetaData : List TFeaturesGroup)
    (quantizedFeaturesInfo : TQuantizedFeaturesInfo F C) (aggregateIdx : Nat) :
    Except EError Nat :=
  (List.range (GetAggregatePartsCount MetaData aggregateIdx)).foldlM
    (fun result partIdx => do
      let defaultBin ← GetDefaultQuantizedValue quantizedFeaturesInfo
        (GetSrcPart MetaData aggregateIdx partIdx)
      match defaultBin with
      | some bin => pure (result ||| ((bin <<< ((partIdx * CHAR_BIT) % 2 ^ 32)) % 2 ^ 32))
      | none => pure result)
    0

/-- Method `GetAggregationContext`: `partShift = (ui32)partIdx * CHAR_BIT`. -/
def GetAggregationContext (_aggregateIdx partIdx : Nat) : Nat :=
  ((partIdx % 2 ^ 32) * CHAR_BIT) % 2 ^ 32

/-- Method `AddToAggregate<TDstValue>(partShift, quantizedSrcValue, dstValue)`:
`*dstValue |= quantizedSrcValue << partShift`. -/
def AddToAggregate (dstBits : Nat) (partShift quantizedSrcValue dstValue : Nat) : Nat :=
  (dstValue ||| ((quantizedSrcValue <<< partShift) % 2 ^ 32)) % 2 ^ dstBits

/-- The aggregator `TColumnsAggregator<EFeatureValuesType::FeaturesGroup>`. -/
def Aggregator {F C : Type} (MetaData : List TFeaturesGroup)
    (quantizedFeaturesInfo : TQuantizedFeaturesInfo F C) : TColumnsAggregator Nat where
  GetAggregatePartsCount := GetAggregatePartsCount MetaData
  GetAggregateBitsPerKey := GetAggregateBitsPerKey MetaData
  GetSrcPart := GetSrcPart MetaData
  GetDefaultValue := GetDefaultValue MetaData quantizedFeaturesInfo
  GetAggregationContext := GetAggregationContext
  AddToAggregate := AddToAggregate

end FeaturesGroup

/-! ### AggregateFeatures -/

/-- The callback `AggregateFeatures` passes to `QuantizeNonDefaultValuesAndClearSrcData`:
`AddToAggregate(aggregationContext, quantizedValue, &dstDataRef[dstIdx])`. -/
def AggregateCallback {Ctx : Type} (columnsAggregator : TColumnsAggregator Ctx)
    (bitsPerKey : Nat) (aggregationContext : Ctx) (dstIdx quantizedValue : Nat)
    (dstDataRef : List Nat) : List Nat :=
  dstDataRef.set dstIdx
    (columnsAggregator.AddToAggregate bitsPerKey aggregationContext quantizedValue
      (dstDataRef.getD dstIdx 0))

/-- One iteration of the loop over the parts in `AggregateFeatures`. -/
def AggregatePart {F C Ctx : Type} (q : TColumnsQuantizer F C)
    (columnsAggregator : TColumnsAggregator Ctx) (aggregateIdx bitsPerKey : Nat)
    (dstDataRef : List Nat) (partIdx : Nat) : Except EError (List Nat) :=
  let aggregationContext := columnsAggregator.GetAggregationContext aggregateIdx partIdx
  let part := columnsAggregator.GetSrcPart aggregateIdx partIdx
  match part.FeatureType with
  | .Float =>
    QuantizeNonDefaultValues (q.RawObjectsData.FloatFeatures part.FeatureIdx)
      q.IncrementalDenseIndexing (q.QuantizedFeaturesInfo.FloatQuantizer part.FeatureIdx)
      (AggregateCallback columnsAggregator bitsPerKey aggregationContext) dstDataRef
  | .Categorical =>
    QuantizeNonDefaultValues (q.RawObjectsData.CatFeatures part.FeatureIdx)
      q.IncrementalDenseIndexing (q.QuantizedFeaturesInfo.CatQuantizer part.FeatureIdx)
      (AggregateCallback columnsAggregator bitsPerKey aggregationContext) dstDataRef
  | _ => throw .UnsupportedFeatureType

/-- Method `TColumnsQuantizer::AggregateFeatures<FeatureValuesType>(aggregateIdx)`: the
storage handed to `SaveData`. -/
def AggregateFeatures {F C Ctx : Type} (q : TColumnsQuantizer F C)
    (columnsAggregator : TColumnsAggregator Ctx) (aggregateIdx : Nat) (uninit : Nat → Nat) :
    Except EError TCompressedArray := do
  let bitsPerKey := columnsAggregator.GetAggregateBitsPerKey aggregateIdx
  if bitsPerKey = 8 ∨ bitsPerKey = 16 ∨ bitsPerKey = 32 then
    let objectCount := q.ObjectCount
    let dstDataRef := CreateWithUninitializedData objectCount bitsPerKey uninit
    let defaultValue ← columnsAggregator.GetDefaultValue aggregateIdx
    let dstDataRef := ParallelFill (defaultValue % 2 ^ bitsPerKey) dstDataRef
    let dstDataRef ←
      (List.range (columnsAggregator.GetAggregatePartsCount aggregateIdx)).foldlM
        (AggregatePart q columnsAggregator aggregateIdx bitsPerKey) dstDataRef
    pure { BitsPerKey := bitsPerKey, Data := dstDataRef }
  else
    throw .UnsupportedBitsPerKey

/-! ## Source columns of the parts of an aggregate -/

/-- A dense column seen through the subset indexing `S`. -/
def TTypedFeatureValuesHolder.IsDenseOver {α : Type} (S : TArraySubsetIndexing) :
    TTypedFeatureValuesHolder α → Prop
  | .Dense d => d.SubsetIndexing = S
  | _ => False

instance {α : Type} (S : TArraySubsetIndexing) (c : TTypedFeatureValuesHolder α) :
    Decidable (c.IsDenseOver S) := by
  cases c with
  | Dense d => exact inferInstanceAs (Decidable (d.SubsetIndexing = S))
  | Sparse a => exact isFalse (fun h => h)
  | Other n => exact isFalse (fun h => h)

/-- The source column of a part is a dense float or categorical column over `S`. -/
def TColumnsQuantizer.PartIsDenseOver {F C : Type} (q : TColumnsQuantizer F C)
    (S : TArraySubsetIndexing) (part : TFeatureIdxWithType) : Prop :=
  match part.FeatureType with
  | .Float => (q.RawObjectsData.FloatFeatures part.FeatureIdx).IsDenseOver S
  | .Categorical => (q.RawObjectsData.CatFeatures part.FeatureIdx).IsDenseOver S
  | .Text => False

instance {F C : Type} (q : TColumnsQuantizer F C) (S : TArraySubsetIndexing)
    (part : TFeatureIdxWithType) : Decidable (q.PartIsDenseOver S part) := by
  unfold TColumnsQuantizer.PartIsDenseOver
  cases part.FeatureType <;> infer_instance

/-- Quantizing the value of object `objectIdx` of the source column of a part directly,
with the quantizer of that feature. -/
def TColumnsQuantizer.QuantizePartValue {F C : Type} (q : TColumnsQuantizer F C)
    (part : TFeatureIdxWithType) (objectIdx : Nat) : Except EError Nat :=
  match part.FeatureType with
  | .Float =>
    match (q.RawObjectsData.FloatFeatures part.FeatureIdx).GetValue? objectIdx with
    | some value => (q.QuantizedFeaturesInfo.FloatQuantizer part.FeatureIdx).Quantize value
    | none => throw .UnsupportedSrcFeatureType
  | .Categorical =>
    match (q.RawObjectsData.CatFeatures part.FeatureIdx).GetValue? objectIdx with
    | some value => (q.QuantizedFeaturesInfo.CatQuantizer part.FeatureIdx).Quantize value
    | none => throw .UnsupportedSrcFeatureType
  | .Text => throw .UnsupportedFeatureType

/-! ## Example data -/

/-- A quantizer on natural numbers whose bin of `v` is `v` itself. -/
def exampleQuantizer (bitsPerKey : Nat) (defaultBin : Option Nat) : TValueQuantizer Nat where
  DstBitsPerKey := bitsPerKey
  Quantize := fun v => .ok v
  DefaultBin := defaultBin

/-- A dense column of four objects over the storage `0, 10, 20, ..`, selecting the
source positions 2, 0, 2, 1. -/
def exampleDense : TDenseData Nat where
  Src := fun i => 10 * i
  SubsetIndexing := .TIndexedSubset [2, 0, 2, 1]

/-- A sparse column of four objects: objects 1 and 3 hold 7 and 9, the others the
default value 5. -/
def exampleSparse : TSparseArray Nat where
  Size := 4
  NonDefault := [(1, 7), (3, 9)]
  DefaultValue := 5

/-- A sparse column of four objects whose default value 1 does not quantize to bin 0:
object 1 holds 0, object 2 holds 3, objects 0 and 3 hold the default value 1. -/
def exampleSparseOtherDefault : TSparseArray Nat where
  Size := 4
  NonDefault := [(1, 0), (2, 3)]
  DefaultValue := 1

/-- The number of objects of a column whose quantized bin differs from `defaultBin`, in
the words of the spec: counted over all objects of the column. -/
def CountObjectsOutsideDefaultBin {α : Type} (srcFeature : TTypedFeatureValuesHolder α)
    (valueQuantizer : TValueQuantizer α) (defaultBin : Nat) : Nat :=
  ((List.range srcFeature.GetSize).filter
    (fun objectIdx =>
      match srcFeature.GetValue? objectIdx with
      | some value =>
        match valueQuantizer.Quantize value with
        | .ok bin => decide (bin ≠ defaultBin)
        | .error _ => false
      | none => false)).length

/-- Two dense float columns of two objects with the values (1, 0) and (1, 1), and one
dense categorical column with the values (0, 1); every bin is the value itself and no
quantizer reports a default bin. -/
def exampleColumnsQuantizer : TColumnsQuantizer Nat Nat where
  IncrementalDenseIndexing :=
    TIncrementalDenseIndexing.TIncrementalDenseIndexing (.TFullSubset 2) true
  ObjectCount := 2
  RawObjectsData :=
    { FloatFeatures := fun featureIdx =>
        .Dense { Src := fun i => if featureIdx = 0 then (if i = 0 then 1 else 0) else 1
                 SubsetIndexing := .TFullSubset 2 }
      CatFeatures := fun _ =>
        .Dense { Src := fun i => if i = 0 then 0 else 1, SubsetIndexing := .TFullSubset 2 } }
  QuantizedFeaturesInfo :=
    { FloatQuantizer := fun _ => exampleQuantizer 8 none
      CatQuantizer := fun _ => exampleQuantizer 8 none }

/-- A bundle of the two float features: part 0 has the bounds [0, 1), part 1 the bounds
[1, 2), and the bundle default is 2. -/
def exampleBundles : List TExclusiveFeaturesBundle :=
  [{ SizeInBytes := 1
     Parts := [{ FeatureType := .Float, FeatureIdx := 0, Bounds := { Begin := 0, End := 1 } },
               { FeatureType := .Float, FeatureIdx := 1, Bounds := { Begin := 1, End := 2 } }] }]

/-- A binary pack of float feature 0 (bit 0) and categorical feature 0 (bit 1). -/
def examplePackedBinaryToSrcIndex : List TFeatureIdxWithType :=
  [{ FeatureType := .Float, FeatureIdx := 0 }, { FeatureType := .Categorical, FeatureIdx := 0 }]

/-- The bins of the example columns: float feature 0 has the bins (1, 0), every other
part the bins (1, 1). -/
def exampleBundleBins (partIdx objectIdx : Nat) : Nat :=
  if partIdx = 0 then (if objectIdx = 0 then 1 else 0) else 1

/-- The bins of the parts of the example binary pack: float feature 0 has the bins
(1, 0), categorical feature 0 the bins (0, 1). -/
def examplePackBins (partIdx objectIdx : Nat) : Nat :=
  if partIdx = 0 then (if objectIdx = 0 then 1 else 0) else (if objectIdx = 0 then 0 else 1)

/-- A registry in which every float and every categorical quantizer reports the default
bin 1. -/
def exampleInfoWithDefaults : TQuantizedFeaturesInfo Nat Nat where
  FloatQuantizer := fun _ => exampleQuantizer 8 (some 1)
  CatQuantizer := fun _ => exampleQuantizer 8 (some 1)

/-! ## Floats, NaN modes and the float part of the registry -/

/-- A `float`: NaN, or a non-NaN value. Only the order of the non-NaN values matters to the
code, so they are the elements of an ordered type `V` (the infinities included). -/
inductive TFloat (V : Type) where
  | NaN
  | Value (value : V)
  deriving DecidableEq

namespace TFloat

variable {V : Type}

/-- Function `IsNan`. -/
def IsNan : TFloat V → Bool
  | NaN => true
  | Value _ => false

/-- The comparison `a < b` of two floats: false when either is NaN. -/
def lt [LinearOrder V] : TFloat V → TFloat V → Bool
  | Value a, Value b => decide (a < b)
  | _, _ => false

/-- The comparison `a <= b` of two floats: false when either is NaN. -/
def le [LinearOrder V] : TFloat V → TFloat V → Bool
  | Value a, Value b => decide (a ≤ b)
  | _, _ => false

end TFloat

/-- Enumeration `ENanMode`. -/
inductive ENanMode where
  | Forbidden
  | Min
  | Max
  deriving DecidableEq

/-- Structure `NSplitSelection::TQuantization`: the borders and, when present, the index
`DefaultQuantizedBin->Idx` of the default bin. -/
structure TQuantization (V : Type) where
  Borders : List (TFloat V)
  DefaultQuantizedBin : Option Nat

/-- The binarization options of a float feature that the code reads; the border
selection type is only handed on to the split search. -/
structure TBinarizationOptions where
  BorderCount : Nat
  NanMode : ENanMode
  BorderSelectionType : Nat

/-- The float part of `TQuantizedFeaturesInfo`: per float feature the NaN mode and the
quantization once set, per flat feature the binarization options, the ignored flag of
the feature layout, the mapping of the layout from flat to float feature index, and the
allow-NaNs-in-test-only override. -/
structure TQuantizedFloatFeaturesInfo (V : Type) where
  NanModes : Nat → Option ENanMode
  Quantizations : Nat → Option (TQuantization V)
  FloatFeatureBinarization : Nat → TBinarizationOptions
  FloatFeaturesAllowNansInTestOnly : Bool
  IgnoredExternalFeatures : Nat → Bool
  GetInternalFeatureIdx : Nat → Nat

namespace TQuantizedFloatFeaturesInfo

variable {V : Type}

/-- Method `HasNanMode`. -/
def HasNanMode (info : TQuantizedFloatFeaturesInfo V) (floatFeatureIdx : Nat) : Bool :=
  (info.NanModes floatFeatureIdx).isSome

/-- Method `HasQuantization`. -/
def HasQuantization (info : TQuantizedFloatFeaturesInfo V) (floatFeatureIdx : Nat) : Bool :=
  (info.Quantizations floatFeatureIdx).isSome

/-- Modelled from the spec: `GetNanMode` is not among the sources; calling a `Get*` before
the corresponding `Set*` is a programming error that is reported. -/
def GetNanMode (info : TQuantizedFloatFeaturesInfo V) (floatFeatureIdx : Nat) :
    Except EError ENanMode :=
  match info.NanModes floatFeatureIdx with
  | some nanMode => pure nanMode
  | none => throw .RegistryEntryMissing

/-- Modelled from the spec: `GetQuantization` is not among the sources; calling a `Get*`
before the corresponding `Set*` is a programming error that is reported. -/
def GetQuantization (info : TQuantizedFloatFeaturesInfo V) (floatFeatureIdx : Nat) :
    Except EError (TQuantization V) :=
  match info.Quantizations floatFeatureIdx with
  | some quantization => pure quantization
  | none => throw .RegistryEntryMissing

/-- Method `SetNanMode`. -/
def SetNanMode (info : TQuantizedFloatFeaturesInfo V) (floatFeatureIdx : Nat)
    (nanMode : ENanMode) : TQuantizedFloatFeaturesInfo V :=
  { info with NanModes := Function.update info.NanModes floatFeatureIdx (some nanMode) }

/-- Method `SetQuantization`. -/
def SetQuantization (info : TQuantizedFloatFeaturesInfo V) (floatFeatureIdx : Nat)
    (quantization : TQuantization V) : TQuantizedFloatFeaturesInfo V :=
  { info with
    Quantizations := Function.update info.Quantizations floatFeatureIdx (some quantization) }

/-- Call `GetFeaturesLayout()->IgnoreExternalFeature(featureId)`. -/
def IgnoreExternalFeature (info : TQuantizedFloatFeaturesInfo V) (featureId : Nat) :
    TQuantizedFloatFeaturesInfo V :=
  { info with
    IgnoredExternalFeatures := Function.update info.IgnoredExternalFeatures featureId true }

end TQuantizedFloatFeaturesInfo

/-! ## The non-default test and the value quantizer of float features -/

/-- The fields of `TIsNonDefault<float, EFeatureValuesType::Float>`. -/
structure TIsNonDefaultFloat (V : Type) where
  FlatFeatureIdx : Nat
  NanMode : ENanMode
  AllowNans : Bool
  DefaultBinLowerBorder : TFloat V
  DefaultBinUpperBorder : TFloat V

namespace TIsNonDefaultFloat

variable {V : Type}

/-- The constructor `TIsNonDefault(quantizedFeaturesInfo, flatFeatureIdx)`; `Lowest` is
`std::numeric_limits<float>::lowest()`. `Borders.front()` of an empty border list is
undefined in the source and reads as NaN here. -/
def TIsNonDefault (Lowest : V) (quantizedFeaturesInfo : TQuantizedFloatFeaturesInfo V)
    (flatFeatureIdx : Nat) : Except EError (TIsNonDefaultFloat V) := do
  let floatFeatureIdx := quantizedFeaturesInfo.GetInternalFeatureIdx flatFeatureIdx
  let nanMode ← quantizedFeaturesInfo.GetNanMode floatFeatureIdx
  let allowNans :=
    (nanMode != ENanMode.Forbidden) || quantizedFeaturesInfo.FloatFeaturesAllowNansInTestOnly
  let quantization ← quantizedFeaturesInfo.GetQuantization floatFeatureIdx
  pure
    { FlatFeatureIdx := flatFeatureIdx
      NanMode := nanMode
      AllowNans := allowNans
      DefaultBinLowerBorder := .Value Lowest
      DefaultBinUpperBorder := quantization.Borders.headD .NaN }

/-- Method `IsNonDefault(srcValue)`. -/
def IsNonDefault [LinearOrder V] (f : TIsNonDefaultFloat V) (srcValue : TFloat V) :
    Except EError Bool :=
  if srcValue.IsNan then
    if f.AllowNans then
      if f.NanMode = ENanMode.Max then pure true else pure false
    else
      throw (.NanInTestDataset f.FlatFeatureIdx)
  else if srcValue.le f.DefaultBinLowerBorder || f.DefaultBinUpperBorder.lt srcValue then
    pure true
  else
    pure false

end TIsNonDefaultFloat

/-- Modelled from the spec: `NCB::Quantize` is not among the sources. The spec has it search
the value in the ascending border list, a value below the first border getting bin 0 and
a value above the last border the last bin: the bin is the number of borders below the
value. A NaN maps to the NaN bin when allowed (the last bin under `Max`, bin 0 otherwise)
and fails with a validation error naming the feature when not. -/
def Quantize {V : Type} [LinearOrder V] (flatFeatureIdx : Nat) (allowNans : Bool)
    (nanMode : ENanMode) (borders : List (TFloat V)) (value : TFloat V) : Except EError Nat :=
  if value.IsNan then
    if allowNans then
      pure (if nanMode = ENanMode.Max then borders.length else 0)
    else
      throw (.NanInTestDataset flatFeatureIdx)
  else
    pure (borders.filter (fun border => border.lt value)).length

/-- Modelled from the spec: `CalcHistogramWidthForBorders` is not among the sources; the
stored width is the smallest of 8, 16 and 32 bits that holds the bins `0 .. bordersCount`. -/
def CalcHistogramWidthForBorders (bordersCount : Nat) : Nat :=
  if bordersCount ≤ 255 then 8 else if bordersCount ≤ 65535 then 16 else 32

/-- The constructor `TValueQuantizer<float, EFeatureValuesType::Float>(quantizedFeaturesInfo,
flatFeatureIdx)` with its three methods. -/
def TValueQuantizer.Float {V : Type} [LinearOrder V]
    (quantizedFeaturesInfo : TQuantizedFloatFeaturesInfo V) (flatFeatureIdx : Nat) :
    Except EError (TValueQuantizer (TFloat V)) := do
  let floatFeatureIdx := quantizedFeaturesInfo.GetInternalFeatureIdx flatFeatureIdx
  let nanMode ← quantizedFeaturesInfo.GetNanMode floatFeatureIdx
  let allowNans :=
    (nanMode != ENanMode.Forbidden) || quantizedFeaturesInfo.FloatFeaturesAllowNansInTestOnly
  let quantization ← quantizedFeaturesInfo.GetQuantization floatFeatureIdx
  pure
    { DstBitsPerKey := CalcHistogramWidthForBorders quantization.Borders.length
      Quantize := NCB.Quantize flatFeatureIdx allowNans nanMode quantization.Borders
      DefaultBin := quantization.DefaultQuantizedBin }

/-- The value of `std::numeric_limits<float>::max()`, in tenths. -/
def exampleFloatMax : Int := 3402823466385288598117041834845169254400

/-- The value of `std::numeric_limits<float>::lowest()`, in tenths. -/
def exampleFloatLowest : Int := -3402823466385288598117041834845169254400

/-- A registry with one float feature (flat index 0) whose borders are `[0.5]`, in tenths,
and whose NaN mode is as given. -/
def exampleFloatInfo (nanMode : ENanMode) (allowNansInTestOnly : Bool) :
    TQuantizedFloatFeaturesInfo Int where
  NanModes := fun _ => some nanMode
  Quantizations := fun _ => some { Borders := [.Value 5], DefaultQuantizedBin := none }
  FloatFeatureBinarization := fun _ =>
    { BorderCount := 1, NanMode := nanMode, BorderSelectionType := 0 }
  FloatFeaturesAllowNansInTestOnly := allowNansInTestOnly
  IgnoredExternalFeatures := fun _ => false
  GetInternalFeatureIdx := fun flatFeatureIdx => flatFeatureIdx

/-! ## Border building: CalcQuantizationAndNanMode -/

/-- Structure `NSplitSelection::TFeatureValues`: the values handed to the split search and,
for a sparse column, the default value with the number of sampled objects holding it. -/
structure TFeatureValues (V : Type) where
  Values : List (TFloat V)
  DefaultValue : Option (TFloat V × Nat)

/-- The arguments of one call of `NSplitSelection::BestSplit`. -/
structure TBestSplitRequest (V : Type) where
  FeatureValues : TFeatureValues V
  FeatureValuesMayContainNans : Bool
  MaxBordersCount : Int
  BorderSelectionType : Nat
  QuantizedDefaultBinFraction : Option (TFloat V)
  InitialBorders : Option (List (TFloat V))

/-- The variant `TFeaturesArraySubsetInvertedIndexing`. In an inverted indexed subset the
mapping holds, for every object of the source, its position in the subset, or
`NOT_PRESENT`, which is `none` here; an index outside the mapping reads as `NOT_PRESENT`. -/
inductive TArraySubsetInvertedIndexing where
  | TFullSubset (Size : Nat)
  | TInvertedIndexedSubset (Size : Nat) (Mapping : List (Option Nat))

/-- An object of the source is in the subset. -/
def TArraySubsetInvertedIndexing.IsPresent :
    TArraySubsetInvertedIndexing → Nat → Bool
  | .TFullSubset _, _ => true
  | .TInvertedIndexedSubset _ mapping, objectIdx => (mapping.getD objectIdx none).isSome

/-- Structure `TSubsetIndexingForBuildBorders`. -/
structure TSubsetIndexingForBuildBorders where
  /-- for dense features, already composed with the subset of the raw data, incremental -/
  ComposedSubset : TArraySubsetIndexing
  /-- for sparse features -/
  InvertedSubset : Option TArraySubsetInvertedIndexing

/-- Lambda `processNonDefaultValue` of `CalcQuantizationAndNanMode`; the state is
`(hasNans, featureValues.Values)`. -/
def processNonDefaultValue {V : Type} (state : Bool × List (TFloat V)) (value : TFloat V) :
    Bool × List (TFloat V) :=
  if value.IsNan then (true, state.2) else (state.1, state.2 ++ [value])

/-- The first part of `CalcQuantizationAndNanMode`, up to the check of the NaN policy: it
draws the values of the sample and returns `hasNans` with the `featureValues` that the
split search will be given. -/
def CollectSampleValues {V : Type} (srcFeature : TTypedFeatureValuesHolder (TFloat V))
    (subsetIndexingForBuildBorders : TSubsetIndexingForBuildBorders) :
    Except EError (Bool × TFeatureValues V) :=
  let sampleCount := subsetIndexingForBuildBorders.ComposedSubset.Size
  match srcFeature with
  | .Dense denseSrcFeature =>
    let state :=
      ((denseSrcFeature.CloneWithNewSubsetIndexing
          subsetIndexingForBuildBorders.ComposedSubset).ForEach).foldl
        (fun st visit => processNonDefaultValue st visit.2) (false, [])
    pure (state.1, { Values := state.2, DefaultValue := none })
  | .Sparse sparseData =>
    match subsetIndexingForBuildBorders.InvertedSubset with
    | none => throw .MaybeIsEmpty
    | some invertedSubset =>
      let collected : (Bool × List (TFloat V)) × Nat :=
        match invertedSubset with
        | .TInvertedIndexedSubset _ invertedMapping =>
          sparseData.ForEachNonDefault.foldl
            (fun acc entry =>
              if (invertedMapping.getD entry.1 none).isSome then
                (processNonDefaultValue acc.1 entry.2, acc.2 + 1)
              else acc)
            ((false, []), 0)
        | .TFullSubset _ =>
          (sparseData.ForEachNonDefault.foldl
              (fun st entry => processNonDefaultValue st entry.2) (false, []),
            sparseData.GetNonDefaultSize)
      let nonDefaultValuesInSampleCount := collected.2 % 2 ^ 32
      let defaultValuesSampleCount :=
        (sampleCount % 2 ^ 32 + 2 ^ 32 - nonDefaultValuesInSampleCount) % 2 ^ 32
      if defaultValuesSampleCount ≠ 0 then
        if sparseData.GetDefaultValue.IsNan then
          pure (true, { Values := collected.1.2, DefaultValue := none })
        else
          pure (collected.1.1,
            { Values := collected.1.2
              DefaultValue := some (sparseData.GetDefaultValue, defaultValuesSampleCount) })
      else
        pure (collected.1.1, { Values := collected.1.2, DefaultValue := none })
  | .Other _ => throw .UnsupportedSrcFeatureType

/-- Function `CalcQuantizationAndNanMode`. `bestSplit` is `NSplitSelection::BestSplit`,
`Lowest` and `Max` are `std::numeric_limits<float>::lowest()` and `max()`, `featureId`
is `srcFeature.GetId()`, and `quantization` is the content of the output parameter on
entry, which is kept when no search is run. The result is `(*nanMode, *quantization)`.
The border count is assumed to fit `int`. -/
def CalcQuantizationAndNanMode {V : Type}
    (bestSplit : TBestSplitRequest V → TQuantization V) (Lowest Max : V)
    (srcFeature : TTypedFeatureValuesHolder (TFloat V)) (featureId : Nat)
    (subsetIndexingForBuildBorders : TSubsetIndexingForBuildBorders)
    (binarizationOptions : TBinarizationOptions)
    (initialBorders : Option (List (TFloat V)))
    (quantizedDefaultBinFraction : Option (TFloat V))
    (quantization : TQuantization V) : Except EError (ENanMode × TQuantization V) := do
  if ¬ (binarizationOptions.BorderCount > 0) then
    throw .VerifyFailed
  let (hasNans, featureValues) ← CollectSampleValues srcFeature subsetIndexingForBuildBorders
  if ¬ (binarizationOptions.NanMode ≠ ENanMode.Forbidden ∨ hasNans = false) then
    throw (.NanValuesNotAllowed featureId)
  let nanMode := if hasNans then binarizationOptions.NanMode else ENanMode.Forbidden
  let nonNanValuesBorderCount : Int :=
    if hasNans then (binarizationOptions.BorderCount : Int) - 1
    else (binarizationOptions.BorderCount : Int)
  let quantization :=
    if nonNanValuesBorderCount > 0 then
      bestSplit
        { FeatureValues := featureValues
          FeatureValuesMayContainNans := false
          MaxBordersCount := nonNanValuesBorderCount
          BorderSelectionType := binarizationOptions.BorderSelectionType
          QuantizedDefaultBinFraction := quantizedDefaultBinFraction
          InitialBorders := initialBorders }
    else quantization
  match nanMode with
  | .Min => pure (nanMode, { quantization with Borders := .Value Lowest :: quantization.Borders })
  | .Max => pure (nanMode, { quantization with Borders := quantization.Borders ++ [.Value Max] })
  | .Forbidden => pure (nanMode, quantization)

/-- The sample contains a NaN, in the words of the spec: some sampled value of a dense
column is a NaN, or some sampled object of a sparse column holds a NaN, be it a stored
value or the default value. -/
def SampleHasNan {V : Type} (srcFeature : TTypedFeatureValuesHolder (TFloat V))
    (subsetIndexingForBuildBorders : TSubsetIndexingForBuildBorders) : Bool :=
  match srcFeature with
  | .Dense denseSrcFeature =>
    subsetIndexingForBuildBorders.ComposedSubset.SrcIndices.any
      (fun srcIdx => (denseSrcFeature.Src srcIdx).IsNan)
  | .Sparse sparseData =>
    match subsetIndexingForBuildBorders.InvertedSubset with
    | some invertedSubset =>
      (List.range sparseData.Size).any
        (fun objectIdx =>
          invertedSubset.IsPresent objectIdx && (sparseData.GetValue objectIdx).IsNan)
    | none => false
  | .Other _ => false

/-- The sample subset fits the column: for a sparse column the inverted subset is there
and the size of the composed subset is the number of objects of the column that are in
the sample, all sizes being `ui32`. -/
def SampleIsConsistent {V : Type} (srcFeature : TTypedFeatureValuesHolder (TFloat V))
    (subsetIndexingForBuildBorders : TSubsetIndexingForBuildBorders) : Prop :=
  match srcFeature with
  | .Dense _ => True
  | .Sparse sparseData =>
    sparseData.WellFormed ∧ sparseData.Size < 2 ^ 32 ∧
    match subsetIndexingForBuildBorders.InvertedSubset with
    | some invertedSubset =>
      subsetIndexingForBuildBorders.ComposedSubset.Size =
        ((List.range sparseData.Size).filter invertedSubset.IsPresent).length
    | none => False
  | .Other _ => False

/-! ## Examples for the border building -/

/-- The raw values `[1.0, 2.0, NaN, 3.0]`, in tenths. -/
def exampleNanValues : List (TFloat Int) := [.Value 10, .Value 20, .NaN, .Value 30]

/-- The raw values `[1.0, 2.0, NaN, 3.0]` as a dense column. -/
def exampleNanDense : TDenseData (TFloat Int) where
  Src := fun i => exampleNanValues.getD i .NaN
  SubsetIndexing := .TFullSubset 4

/-- The sample of all four objects. -/
def exampleNanSub : TSubsetIndexingForBuildBorders where
  ComposedSubset := .TFullSubset 4
  InvertedSubset := some (.TFullSubset 4)

/-- A sparse column of four objects with stored values `1.0` and `3.0` at the objects 0 and 2
and NaN as its default value. -/
def exampleNanSparse : TSparseArray (TFloat Int) where
  Size := 4
  NonDefault := [(0, .Value 10), (2, .Value 30)]
  DefaultValue := .NaN

/-- The sample of the objects 0, 2 and 3 of a column of four objects. -/
def exampleNanSparseSub : TSubsetIndexingForBuildBorders where
  ComposedSubset := .TIndexedSubset [0, 2, 3]
  InvertedSubset := some (.TInvertedIndexedSubset 3 [some 0, none, some 1, some 2])

/-- The sample of the objects 0 and 2 of a column of four objects. -/
def exampleStoredOnlySub : TSubsetIndexingForBuildBorders where
  ComposedSubset := .TIndexedSubset [0, 2]
  InvertedSubset := some (.TInvertedIndexedSubset 2 [some 0, none, some 1, none])

/-- A split search that answers with the first `MaxBordersCount` of the borders
`[1.5, 2.5]`, in tenths. -/
def exampleBestSplit (request : TBestSplitRequest Int) : TQuantization Int where
  Borders := ([.Value 15, .Value 25] : List (TFloat Int)).take request.MaxBordersCount.toNat
  DefaultQuantizedBin := none

/-- A split search that answers every request with the border `1.5`, in tenths. -/
def exampleConstantSplit (_ : TBestSplitRequest Int) : TQuantization Int where
  Borders := [.Value 15]
  DefaultQuantizedBin := none

/-! ## MakeQuantizedColumn and ProcessFloatFeature -/

/-- The column a call leaves in `*dstFeature`: one of the holders
`TCompressedValuesHolderImpl`, `TSparseCompressedValuesHolderImpl`, or an external holder,
which keeps the raw data of the feature with its id. -/
inductive TQuantizedColumn (α : Type) where
  | Compressed (Storage : TCompressedArray)
  | SparseCompressed (Data : TSparseCompressedArray)
  | External (FeatureId : Nat) (Data : TDenseData α)
  | ExternalSparse (FeatureId : Nat) (Data : TSparseArray α)

/-- Function `MakeExternalValuesHolder`. -/
def MakeExternalValuesHolder {α : Type} (srcFeature : TTypedFeatureValuesHolder α)
    (featureId : Nat) : Except EError (TQuantizedColumn α) :=
  match srcFeature with
  | .Dense denseSrcFeature => pure (.External featureId denseSrcFeature)
  | .Sparse sparseSrcFeature => pure (.ExternalSparse featureId sparseSrcFeature)
  | .Other _ => throw .UnsupportedSrcFeatureType

/-- Function `MakeQuantizedColumn`. `newValueQuantizer` is the constructor
`TValueQuantizer(quantizedFeaturesInfo, flatFeatureIdx)` of the source type, and
`featureId` is `srcFeature.GetId()`. -/
def MakeQuantizedColumn {α : Type}
    (newValueQuantizer : Nat → Except EError (TValueQuantizer α))
    (srcFeature : TTypedFeatureValuesHolder α) (featureId : Nat)
    (incrementalDenseIndexing : TIncrementalDenseIndexing) (uninit : Nat → Nat) :
    Except EError (TQuantizedColumn α) := do
  let valueQuantizer ← newValueQuantizer featureId
  let makeQuantizedColumnForStoredDstValue :=
    fun (storedBits : Nat) =>
      if valueQuantizer.DefaultBin.isSome then
        (MakeQuantizedColumnWithDefaultBin storedBits srcFeature valueQuantizer).map
          TQuantizedColumn.SparseCompressed
      else
        (MakeQuantizedColumnWithoutDefaultBin storedBits srcFeature incrementalDenseIndexing
          valueQuantizer uninit).map TQuantizedColumn.Compressed
  if valueQuantizer.DstBitsPerKey = 8 then
    makeQuantizedColumnForStoredDstValue 8
  else if valueQuantizer.DstBitsPerKey = 16 then
    makeQuantizedColumnForStoredDstValue 16
  else if valueQuantizer.DstBitsPerKey = 32 then
    makeQuantizedColumnForStoredDstValue 32
  else
    throw .UnsupportedBitsPerKey

/-- The fields of `TQuantizationOptions` that `ProcessFloatFeature` reads. -/
structure TQuantizationOptions (V : Type) where
  CpuCompatibleFormat : Bool
  PackBinaryFeaturesForCpu : Bool
  DefaultValueFractionToEnableSparseStorage : Option (TFloat V)
  GpuCompatibleFormat : Bool := true
  CpuRamLimit : Nat := 2 ^ 64 - 1
  MaxSubsetSizeForBuildBordersAlgorithms : Nat := 200000
  BundleExclusiveFeaturesForCpu : Bool := true
  GroupFeaturesForCpu : Bool := false

/-- The first part of `ProcessFloatFeature`, up to the computation of the border count: the
registry is read, the check that the NaN mode and the quantization are there together is
made, and what is missing is calculated. The result is `(nanMode, *quantization)`. -/
def ProcessFloatFeatureCalc {V : Type}
    (bestSplit : TBestSplitRequest V → TQuantization V) (Lowest Max : V)
    (floatFeatureIdx : Nat) (srcFeature : TTypedFeatureValuesHolder (TFloat V))
    (featureId : Nat) (subsetIndexingForBuildBorders : TSubsetIndexingForBuildBorders)
    (options : TQuantizationOptions V) (initialBorders : Option (List (List (TFloat V))))
    (quantizedFeaturesInfo : TQuantizedFloatFeaturesInfo V) :
    Except EError (ENanMode × TQuantization V) := do
  let calculateNanMode := !quantizedFeaturesInfo.HasNanMode floatFeatureIdx
  let nanMode ←
    if quantizedFeaturesInfo.HasNanMode floatFeatureIdx then
      quantizedFeaturesInfo.GetNanMode floatFeatureIdx
    else pure ENanMode.Forbidden
  let calculateQuantization := !quantizedFeaturesInfo.HasQuantization floatFeatureIdx
  let quantization ←
    if quantizedFeaturesInfo.HasQuantization floatFeatureIdx then
      quantizedFeaturesInfo.GetQuantization floatFeatureIdx
    else pure { Borders := [], DefaultQuantizedBin := none }
  if calculateNanMode ≠ calculateQuantization then
    throw (.NanModeAndQuantizationMismatch featureId)
  if calculateNanMode || calculateQuantization then
    let initialBordersForFeature :=
      initialBorders.map (fun borders => borders.getD floatFeatureIdx [])
    CalcQuantizationAndNanMode bestSplit Lowest Max srcFeature featureId
      subsetIndexingForBuildBorders
      (quantizedFeaturesInfo.FloatFeatureBinarization featureId)
      initialBordersForFeature options.DefaultValueFractionToEnableSparseStorage
      { Borders := [], DefaultQuantizedBin := none }
  else
    pure (nanMode, quantization)

/-- The second part of `ProcessFloatFeature`, under the write lock: what was calculated is
recorded in the registry. -/
def ProcessFloatFeatureRecord {V : Type} (floatFeatureIdx featureId : Nat)
    (nanMode : ENanMode) (quantization : TQuantization V)
    (quantizedFeaturesInfo : TQuantizedFloatFeaturesInfo V) : TQuantizedFloatFeaturesInfo V :=
  let calculateNanMode := !quantizedFeaturesInfo.HasNanMode floatFeatureIdx
  let calculateQuantization := !quantizedFeaturesInfo.HasQuantization floatFeatureIdx
  if calculateNanMode || calculateQuantization then
    let info :=
      if calculateNanMode then quantizedFeaturesInfo.SetNanMode floatFeatureIdx nanMode
      else quantizedFeaturesInfo
    if calculateQuantization then
      let info :=
        if quantization.Borders.isEmpty then info.IgnoreExternalFeature featureId else info
      info.SetQuantization floatFeatureIdx quantization
    else info
  else quantizedFeaturesInfo

/-- The last part of `ProcessFloatFeature`: the column left in `*dstQuantizedFeature`, or
`none` when nothing is written there. -/
def ProcessFloatFeatureColumn {V : Type} [LinearOrder V] (borderCount : Nat)
    (srcFeature : TTypedFeatureValuesHolder (TFloat V)) (featureId : Nat)
    (options : TQuantizationOptions V)
    (calcQuantizationAndNanModeOnly storeFeaturesDataAsExternalValuesHolder : Bool)
    (incrementalDenseIndexing : Option TIncrementalDenseIndexing) (uninit : Nat → Nat)
    (quantizedFeaturesInfo : TQuantizedFloatFeaturesInfo V) :
    Except EError (Option (TQuantizedColumn (TFloat V))) :=
  if !calcQuantizationAndNanModeOnly && borderCount ≠ 0 then
    if storeFeaturesDataAsExternalValuesHolder then
      (MakeExternalValuesHolder srcFeature featureId).map some
    else if !options.CpuCompatibleFormat || !options.PackBinaryFeaturesForCpu ||
        borderCount > 1 then
      match incrementalDenseIndexing with
      | some incrementalDenseIndexing =>
        (MakeQuantizedColumn (TValueQuantizer.Float quantizedFeaturesInfo) srcFeature featureId
          incrementalDenseIndexing uninit).map some
      | none => throw .MaybeIsEmpty
    else pure none
  else pure none

/-- Function `ProcessFloatFeature`. The result is the outcome of the call, which for a call
that returns is the column left in `*dstQuantizedFeature` if one is written, together with
the registry as the call leaves it, also when it throws. `featureId` is
`srcFeature.GetId()`. -/
def ProcessFloatFeature {V : Type} [LinearOrder V]
    (bestSplit : TBestSplitRequest V → TQuantization V) (Lowest Max : V)
    (floatFeatureIdx : Nat) (srcFeature : TTypedFeatureValuesHolder (TFloat V))
    (featureId : Nat) (subsetIndexingForBuildBorders : TSubsetIndexingForBuildBorders)
    (options : TQuantizationOptions V) (initialBorders : Option (List (List (TFloat V))))
    (calcQuantizationAndNanModeOnly storeFeaturesDataAsExternalValuesHolder : Bool)
    (incrementalDenseIndexing : Option TIncrementalDenseIndexing) (uninit : Nat → Nat)
    (quantizedFeaturesInfo : TQuantizedFloatFeaturesInfo V) :
    Except EError (Option (TQuantizedColumn (TFloat V))) × TQuantizedFloatFeaturesInfo V :=
  match ProcessFloatFeatureCalc bestSplit Lowest Max floatFeatureIdx srcFeature featureId
      subsetIndexingForBuildBorders options initialBorders quantizedFeaturesInfo with
  | .error e => (.error e, quantizedFeaturesInfo)
  | .ok (nanMode, quantization) =>
    let borderCount := quantization.Borders.length
    let recorded :=
      ProcessFloatFeatureRecord floatFeatureIdx featureId nanMode quantization
        quantizedFeaturesInfo
    (ProcessFloatFeatureColumn borderCount srcFeature featureId options
        calcQuantizationAndNanModeOnly storeFeaturesDataAsExternalValuesHolder
        incrementalDenseIndexing uninit recorded,
      recorded)

/-! ## Examples for ProcessFloatFeature -/

/-- A registry in which nothing is set yet; every float feature is to get 2 borders under
the NaN policy `Min`. -/
def exampleEmptyFloatInfo : TQuantizedFloatFeaturesInfo Int where
  NanModes := fun _ => none
  Quantizations := fun _ => none
  FloatFeatureBinarization := fun _ =>
    { BorderCount := 2, NanMode := .Min, BorderSelectionType := 0 }
  FloatFeaturesAllowNansInTestOnly := false
  IgnoredExternalFeatures := fun _ => false
  GetInternalFeatureIdx := fun flatFeatureIdx => flatFeatureIdx

/-- A registry in which only the NaN mode of the float features is set. -/
def exampleNanModeOnlyFloatInfo : TQuantizedFloatFeaturesInfo Int :=
  { exampleEmptyFloatInfo with NanModes := fun _ => some .Min }

/-- A registry that holds the NaN mode `Min` and the borders `[lowest(), 1.5]` of float
feature 0. -/
def examplePopulatedFloatInfo : TQuantizedFloatFeaturesInfo Int :=
  (exampleEmptyFloatInfo.SetNanMode 0 .Min).SetQuantization 0
    { Borders := [.Value exampleFloatLowest, .Value 15], DefaultQuantizedBin := none }

/-- The options of a quantization for the CPU with packed binary features. -/
def exampleOptions : TQuantizationOptions Int where
  CpuCompatibleFormat := true
  PackBinaryFeaturesForCpu := true
  DefaultValueFractionToEnableSparseStorage := none

/-- A dense column of four objects that all hold `1.0`. -/
def exampleConstantDense : TDenseData (TFloat Int) where
  Src := fun _ => .Value 10
  SubsetIndexing := .TFullSubset 4

/-- A split search that finds no border, as for a constant feature. -/
def exampleNoBorderSplit (_ : TBestSplitRequest Int) : TQuantization Int where
  Borders := []
  DefaultQuantizedBin := none

/-! ## Masks of the non-default values -/

namespace TGetQuantizedNonDefaultValuesMasks

/-- Constant `BLOCK_SIZE`, which is `sizeof(ui64) * CHAR_BIT`. -/
def BLOCK_SIZE : Nat := 64

/-- The value `Max<ui32>()`, which marks that no block is open. -/
def MaxUi32 : Nat := 2 ^ 32 - 1

/-- The variables `UpdateInIncrementalOrder` writes: `*DstMasks`, `*DstNonDefaultCount`, and
the `currentBlockIdx` and `currentBlockMask` of its caller. -/
structure TMasksState where
  DstMasks : List (Nat × Nat)
  DstNonDefaultCount : Nat
  currentBlockIdx : Nat
  currentBlockMask : Nat

/-- Method `UpdateInIncrementalOrder(idx, &currentBlockIdx, &currentBlockMask)`. -/
def UpdateInIncrementalOrder (idx : Nat) (state : TMasksState) : TMasksState :=
  let nonDefaultCount := (state.DstNonDefaultCount + 1) % 2 ^ 32
  let blockIdx := idx / BLOCK_SIZE
  let bitMask := (1 <<< (idx % BLOCK_SIZE)) % 2 ^ 64
  if blockIdx = state.currentBlockIdx then
    { state with
      DstNonDefaultCount := nonDefaultCount
      currentBlockMask := state.currentBlockMask ||| bitMask }
  else
    { DstMasks :=
        if state.currentBlockIdx ≠ MaxUi32 then
          state.DstMasks ++ [(state.currentBlockIdx, state.currentBlockMask)]
        else state.DstMasks
      DstNonDefaultCount := nonDefaultCount
      currentBlockIdx := blockIdx
      currentBlockMask := bitMask }

/-- The declarations `currentBlockIdx = Max<ui32>()` and `currentBlockMask = 0` that open
every loop; `dst` is the content of `(*DstMasks, *DstNonDefaultCount)`. -/
def OpenBlock (dst : List (Nat × Nat) × Nat) : TMasksState :=
  { DstMasks := dst.1, DstNonDefaultCount := dst.2, currentBlockIdx := MaxUi32,
    currentBlockMask := 0 }

/-- The statement `if (currentBlockIdx != Max<ui32>()) DstMasks->push_back(...)` that closes
every loop; the result is the content of `(*DstMasks, *DstNonDefaultCount)`. -/
def CloseBlock (state : TMasksState) : List (Nat × Nat) × Nat :=
  (if state.currentBlockIdx ≠ MaxUi32 then
      state.DstMasks ++ [(state.currentBlockIdx, state.currentBlockMask)]
    else state.DstMasks,
    state.DstNonDefaultCount)

/-- The callback of the loops over the values: the object is recorded when its value is
non-default. -/
def UpdateIfNonDefault {α : Type} (IsNonDefault : α → Except EError Bool)
    (state : TMasksState) (visit : Nat × α) : Except EError TMasksState := do
  if ← IsNonDefault visit.2 then
    pure (UpdateInIncrementalOrder visit.1 state)
  else
    pure state

/-- Method `ProcessDenseColumn`. -/
def ProcessDenseColumn {α : Type} (IsNonDefault : α → Except EError Bool)
    (denseColumn : TDenseData α) (incrementalIndexing : TArraySubsetIndexing)
    (dst : List (Nat × Nat) × Nat) : Except EError (List (Nat × Nat) × Nat) := do
  let state ←
    ((denseColumn.CloneWithNewSubsetIndexing incrementalIndexing).ForEach).foldlM
      (UpdateIfNonDefault IsNonDefault) (OpenBlock dst)
  pure (CloseBlock state)

/-- Method `NonDefaultIndicesToMasks`. -/
def NonDefaultIndicesToMasks (nonDefaultIndices : List Nat) (dst : List (Nat × Nat) × Nat) :
    List (Nat × Nat) × Nat :=
  CloseBlock
    ((nonDefaultIndices.insertionSort (fun lhs rhs => lhs ≤ rhs)).foldl
      (fun state idx => UpdateInIncrementalOrder idx state) (OpenBlock dst))

/-- The element `invertedIndexedSubsetArray[idx]` as a number; an object that is not in the
subset reads as `NOT_PRESENT`. -/
def ReadMapping (NOT_PRESENT : Nat) (invertedIndexedSubsetArray : List (Option Nat))
    (idx : Nat) : Nat :=
  (invertedIndexedSubsetArray.getD idx none).getD NOT_PRESENT

/-- Method `ProcessSparseColumnWithSrcDefaultEqualToDstDefault`. `NOT_PRESENT` is the
constant `TInvertedIndexedSubset<ui32>::NOT_PRESENT`, which is not among the sources. -/
def ProcessSparseColumnWithSrcDefaultEqualToDstDefault {α : Type}
    (IsNonDefault : α → Except EError Bool) (NOT_PRESENT : Nat)
    (sparseArray : TSparseArray α)
    (incrementalInvertedIndexing : TArraySubsetInvertedIndexing)
    (dst : List (Nat × Nat) × Nat) : Except EError (List (Nat × Nat) × Nat) :=
  match incrementalInvertedIndexing with
  | .TInvertedIndexedSubset _ invertedIndexedSubsetArray => do
    let nonDefaultIndices ←
      sparseArray.ForEachNonDefault.foldlM
        (fun (nonDefaultIndices : List Nat) entry => do
          if ← IsNonDefault entry.2 then
            pure (nonDefaultIndices ++
              [ReadMapping NOT_PRESENT invertedIndexedSubsetArray entry.1])
          else
            pure nonDefaultIndices)
        []
    pure (NonDefaultIndicesToMasks nonDefaultIndices dst)
  | .TFullSubset _ => do
    let state ←
      sparseArray.ForEachNonDefault.foldlM (UpdateIfNonDefault IsNonDefault) (OpenBlock dst)
    pure (CloseBlock state)

/-- The callback of the loop of `ProcessSparseColumnWithSrcDefaultNotEqualToDstDefault` over
a full subset; the state is `(idx, masks)`. The objects from `idx` up to the entry hold the
source default value and are recorded, then the entry is when its value is non-default. -/
def UpdateWithGap {α : Type} (IsNonDefault : α → Except EError Bool)
    (state : Nat × TMasksState) (entry : Nat × α) : Except EError (Nat × TMasksState) := do
  let masks :=
    (List.range' state.1 (entry.1 - state.1)).foldl
      (fun masks idx => UpdateInIncrementalOrder idx masks) state.2
  let idx := max state.1 entry.1
  let masks ← UpdateIfNonDefault IsNonDefault masks entry
  pure (idx + 1, masks)

/-- The callback of the loop of `ProcessSparseColumnWithSrcDefaultNotEqualToDstDefault` over
an inverted indexed subset; the state is `(idx, nonDefaultIndices)`. -/
def CollectWithGap {α : Type} (IsNonDefault : α → Except EError Bool) (NOT_PRESENT : Nat)
    (invertedIndexedSubsetArray : List (Option Nat))
    (state : Nat × List Nat) (entry : Nat × α) : Except EError (Nat × List Nat) := do
  let nonDefaultIndices :=
    state.2 ++ (List.range' state.1 (entry.1 - state.1)).map
      (ReadMapping NOT_PRESENT invertedIndexedSubsetArray)
  let idx := max state.1 entry.1
  let nonDefaultIndices ←
    if ← IsNonDefault entry.2 then
      pure (nonDefaultIndices ++ [ReadMapping NOT_PRESENT invertedIndexedSubsetArray entry.1])
    else
      pure nonDefaultIndices
  pure (idx + 1, nonDefaultIndices)

/-- Method `ProcessSparseColumnWithSrcDefaultNotEqualToDstDefault`. -/
def ProcessSparseColumnWithSrcDefaultNotEqualToDstDefault {α : Type}
    (IsNonDefault : α → Except EError Bool) (NOT_PRESENT : Nat)
    (sparseArray : TSparseArray α)
    (incrementalInvertedIndexing : TArraySubsetInvertedIndexing)
    (dst : List (Nat × Nat) × Nat) : Except EError (List (Nat × Nat) × Nat) :=
  match incrementalInvertedIndexing with
  | .TInvertedIndexedSubset _ invertedIndexedSubsetArray => do
    let (idx, nonDefaultIndices) ←
      sparseArray.ForEachNonDefault.foldlM
        (CollectWithGap IsNonDefault NOT_PRESENT invertedIndexedSubsetArray) (0, [])
    let nonDefaultIndices :=
      nonDefaultIndices ++ (List.range' idx (sparseArray.GetSize - idx)).map
        (ReadMapping NOT_PRESENT invertedIndexedSubsetArray)
    pure (NonDefaultIndicesToMasks nonDefaultIndices dst)
  | .TFullSubset _ => do
    let (idx, masks) ←
      sparseArray.ForEachNonDefault.foldlM (UpdateWithGap IsNonDefault) (0, OpenBlock dst)
    let masks :=
      (List.range' idx (sparseArray.GetSize - idx)).foldl
        (fun masks idx => UpdateInIncrementalOrder idx masks) masks
    pure (CloseBlock masks)

/-- Method `ProcessSparseColumn`. -/
def ProcessSparseColumn {α : Type} (IsNonDefault : α → Except EError Bool)
    (NOT_PRESENT : Nat) (sparseArray : TSparseArray α)
    (incrementalInvertedIndexing : TArraySubsetInvertedIndexing)
    (dst : List (Nat × Nat) × Nat) : Except EError (List (Nat × Nat) × Nat) := do
  if ← IsNonDefault sparseArray.GetDefaultValue then
    ProcessSparseColumnWithSrcDefaultNotEqualToDstDefault IsNonDefault NOT_PRESENT sparseArray
      incrementalInvertedIndexing dst
  else
    ProcessSparseColumnWithSrcDefaultEqualToDstDefault IsNonDefault NOT_PRESENT sparseArray
      incrementalInvertedIndexing dst

/-- Method `ProcessColumn`. -/
def ProcessColumn {α : Type} (IsNonDefault : α → Except EError Bool) (NOT_PRESENT : Nat)
    (column : TTypedFeatureValuesHolder α) (incrementalIndexing : TArraySubsetIndexing)
    (invertedIncrementalIndexing : TArraySubsetInvertedIndexing)
    (dst : List (Nat × Nat) × Nat) : Except EError (List (Nat × Nat) × Nat) :=
  match column with
  | .Dense denseColumn => ProcessDenseColumn IsNonDefault denseColumn incrementalIndexing dst
  | .Sparse sparseColumn =>
    ProcessSparseColumn IsNonDefault NOT_PRESENT sparseColumn invertedIncrementalIndexing dst
  | .Other _ => throw .UnsupportedColumnType

end TGetQuantizedNonDefaultValuesMasks

/-- Function `GetQuantizedNonDefaultValuesMasks`, for both of its overloads.
`newIsNonDefault` is the constructor `TIsNonDefault(quantizedFeaturesInfo, flatFeatureIdx)`
of the source type, its result being the method `IsNonDefault`; `featureId` is the id of
the column; `masks` and `nonDefaultCount` are the contents of the output parameters on
entry, and the result is their content on return. -/
def GetQuantizedNonDefaultValuesMasks {α : Type}
    (newIsNonDefault : Nat → Except EError (α → Except EError Bool)) (NOT_PRESENT : Nat)
    (valuesHolder : TTypedFeatureValuesHolder α) (featureId : Nat)
    (incrementalIndexing : TArraySubsetIndexing)
    (invertedIncrementalIndexing : TArraySubsetInvertedIndexing)
    (masks : List (Nat × Nat)) (nonDefaultCount : Nat) :
    Except EError (List (Nat × Nat) × Nat) := do
  let isNonDefaultFunctor ← newIsNonDefault featureId
  TGetQuantizedNonDefaultValuesMasks.ProcessColumn isNonDefaultFunctor NOT_PRESENT valuesHolder
    incrementalIndexing invertedIncrementalIndexing (masks, nonDefaultCount)

/-- The constructor of `TIsNonDefault<float, EFeatureValuesType::Float>` seen as the test
it builds. -/
def newIsNonDefaultFloat {V : Type} [LinearOrder V] (Lowest : V)
    (quantizedFeaturesInfo : TQuantizedFloatFeaturesInfo V) (flatFeatureIdx : Nat) :
    Except EError (TFloat V → Except EError Bool) :=
  (TIsNonDefaultFloat.TIsNonDefault Lowest quantizedFeaturesInfo flatFeatureIdx).map
    (fun isNonDefaultFunctor => isNonDefaultFunctor.IsNonDefault)

/-- The objects the masks are about and their values: for a dense column the objects of the
column seen through `incrementalIndexing`, for a sparse column its objects. -/
def MaskedObjectCount {α : Type} (column : TTypedFeatureValuesHolder α)
    (incrementalIndexing : TArraySubsetIndexing) : Nat :=
  match column with
  | .Dense _ => incrementalIndexing.Size
  | .Sparse sparseColumn => sparseColumn.Size
  | .Other size => size

/-- The value of an object the masks are about. -/
def MaskedValue? {α : Type} (column : TTypedFeatureValuesHolder α)
    (incrementalIndexing : TArraySubsetIndexing) (objectIdx : Nat) : Option α :=
  match column with
  | .Dense denseColumn =>
    some ((denseColumn.CloneWithNewSubsetIndexing incrementalIndexing).GetValue objectIdx)
  | .Sparse sparseColumn => some (sparseColumn.GetValue objectIdx)
  | .Other _ => none

/-- The indices the loop of `UpdateWithGap` hands to `UpdateInIncrementalOrder`, with the
index it has reached, when the non-default test of a value answers `nonDefault`. -/
def GapIndices {α : Type} (nonDefault : α → Bool) :
    Nat → List (Nat × α) → Nat × List Nat
  | idx, [] => (idx, [])
  | idx, entry :: entries =>
    let rest := GapIndices nonDefault (max idx entry.1 + 1) entries
    (rest.1,
      List.range' idx (entry.1 - idx) ++ (if nonDefault entry.2 then [entry.1] else []) ++
        rest.2)

/-- The masks describe the objects of `indices`: the block indices increase strictly, no mask
is zero, every block holds one of the objects, and bit `i mod 64` of the mask of block
`i / 64` is set exactly when `i` is one of the objects. -/
def MasksCover (masks : List (Nat × Nat)) (indices : List Nat) : Prop :=
  (masks.map Prod.fst).Pairwise (fun lhs rhs => lhs < rhs) ∧
  (∀ m ∈ masks, m.2 ≠ 0) ∧
  (∀ m ∈ masks, ∃ j ∈ indices, j / 64 = m.1) ∧
  (∀ i, (∃ mask, (i / 64, mask) ∈ masks ∧ mask.testBit (i % 64) = true) ↔ i ∈ indices)

/-- The value of an object the masks are about is non-default, `nonDefault` being the answer
of the non-default test to a value. -/
def MaskedNonDefault {α : Type} (nonDefault : α → Bool) (column : TTypedFeatureValuesHolder α)
    (incrementalIndexing : TArraySubsetIndexing) (objectIdx : Nat) : Bool :=
  match MaskedValue? column incrementalIndexing objectIdx with
  | some value => nonDefault value
  | none => false

/-- The columns the statement about the masks covers: a dense column, or a well-formed
sparse column under a full subset. -/
def MaskedColumnCovered {α : Type} (column : TTypedFeatureValuesHolder α)
    (invertedIncrementalIndexing : TArraySubsetInvertedIndexing) : Prop :=
  match column with
  | .Dense _ => True
  | .Sparse sparseColumn =>
    sparseColumn.WellFormed ∧ ∃ size, invertedIncrementalIndexing = .TFullSubset size
  | .Other _ => False

/-! ## Examples for the masks -/

/-- A dense column of 70 objects: the objects 1 and 65 hold `1.0`, the others `0.0`. -/
def exampleMaskDense : TDenseData (TFloat Int) where
  Src := fun i => .Value (if i = 1 ∨ i = 65 then 10 else 0)
  SubsetIndexing := .TFullSubset 70

/-- A sparse column of 70 objects whose default value is `1.0`; the objects 0, 64 and 69
have the stored values `0.0`, `2.0` and `0.0`. -/
def exampleMaskSparse : TSparseArray (TFloat Int) where
  Size := 70
  NonDefault := [(0, .Value 0), (64, .Value 20), (69, .Value 0)]
  DefaultValue := .Value 10

/-- The answer of the non-default test of the example registry, whose borders are `[0.5]`,
to a value. -/
def exampleNonDefault : TFloat Int → Bool
  | .NaN => false
  | .Value v => decide (v ≤ exampleFloatLowest) || decide (5 < v)

/-! ## The memory budget of the scheduler -/

/-- The resource quota `options.CpuRamLimit - Min(cpuRamUsage, options.CpuRamLimit)` that the
constructor of `TColumnsQuantizer` and `TQuantizationImpl::Do` hand to the constructor of
`TResourceConstrainedExecutor`; `cpuRamUsage` is `NMemInfo::GetMemInfo().RSS`, and the
subtraction is the one of `ui64`. -/
def ResourceQuota (CpuRamLimit cpuRamUsage : Nat) : Nat :=
  (CpuRamLimit + 2 ^ 64 - min cpuRamUsage CpuRamLimit) % 2 ^ 64

/-- What the code does with `TResourceConstrainedExecutor`: it is constructed with a name, a
quota and the lenient mode, and tasks with their costs are added to it. -/
structure TResourceConstrainedExecutor (Task : Type) where
  ResourceName : String
  ResourceQuota : Nat
  LenientMode : Bool
  Queue : List (Nat × Task)

/-- The executor as the constructor of `TColumnsQuantizer` and `TQuantizationImpl::Do`
construct it. -/
def NewResourceConstrainedExecutor (Task : Type) (CpuRamLimit cpuRamUsage : Nat) :
    TResourceConstrainedExecutor Task where
  ResourceName := "CPU RAM"
  ResourceQuota := ResourceQuota CpuRamLimit cpuRamUsage
  LenientMode := true
  Queue := []

/-! ## The feature layout -/

/-- Structure `TFeatureMetaInfo`, with the fields the code reads; `FeatureType` is the field
`Type` of the source. -/
structure TFeatureMetaInfo where
  FeatureType : EFeatureType
  IsIgnored : Bool
  IsAvailable : Bool
  deriving DecidableEq

/-- Class `TFeaturesLayout`: the meta information of the features by external index. -/
structure TFeaturesLayout where
  ExternalIdxToMetaInfo : List TFeatureMetaInfo
  deriving DecidableEq

namespace TFeaturesLayout

/-- Method `GetExternalFeatureCount()`. -/
def GetExternalFeatureCount (layout : TFeaturesLayout) : Nat :=
  layout.ExternalIdxToMetaInfo.length

/-- Method `GetExternalFeaturesMetaInfo()`. -/
def GetExternalFeaturesMetaInfo (layout : TFeaturesLayout) : List TFeatureMetaInfo :=
  layout.ExternalIdxToMetaInfo

/-- Modelled from the spec: `IgnoreExternalFeature` is not among the sources; it marks the
feature ignored, which also makes it unavailable, and leaves the other features as they
are; an index beyond the features changes nothing. -/
def IgnoreExternalFeature (layout : TFeaturesLayout) (externalFeatureIdx : Nat) :
    TFeaturesLayout :=
  { ExternalIdxToMetaInfo :=
      match layout.ExternalIdxToMetaInfo[externalFeatureIdx]? with
      | some metaInfo =>
        layout.ExternalIdxToMetaInfo.set externalFeatureIdx
          { metaInfo with IsIgnored := true, IsAvailable := false }
      | none => layout.ExternalIdxToMetaInfo }

end TFeaturesLayout

/-- Function `AddIgnoredFeatures(addFromLayout, updatedLayout)`; the result is the content of
`*updatedLayout` on return. An element of the meta information that is not there reads as
not ignored. -/
def AddIgnoredFeatures (addFromLayout updatedLayout : TFeaturesLayout) : TFeaturesLayout :=
  let featuresIntersectionSize :=
    min addFromLayout.GetExternalFeatureCount updatedLayout.GetExternalFeatureCount
  (List.range featuresIntersectionSize).foldl
    (fun layout i =>
      if ((addFromLayout.GetExternalFeaturesMetaInfo[i]?).map
          (fun metaInfo => metaInfo.IsIgnored)).getD false then
        layout.IgnoreExternalFeature i
      else layout)
    updatedLayout

/-- Two layouts of four and three features. -/
def exampleAddFromLayout : TFeaturesLayout where
  ExternalIdxToMetaInfo :=
    [{ FeatureType := .Float, IsIgnored := true, IsAvailable := false },
     { FeatureType := .Float, IsIgnored := false, IsAvailable := true },
     { FeatureType := .Categorical, IsIgnored := false, IsAvailable := true },
     { FeatureType := .Float, IsIgnored := true, IsAvailable := false }]

/-- A layout of three features of which the second is ignored. -/
def exampleUpdatedLayout : TFeaturesLayout where
  ExternalIdxToMetaInfo :=
    [{ FeatureType := .Float, IsIgnored := false, IsAvailable := true },
     { FeatureType := .Float, IsIgnored := true, IsAvailable := false },
     { FeatureType := .Categorical, IsIgnored := false, IsAvailable := true }]

/-! ## The memory estimate of a float feature -/

/-- Function `GetNonDefaultValuesCount`. -/
def GetNonDefaultValuesCount {α : Type} (srcFeature : TTypedFeatureValuesHolder α) :
    Except EError Nat :=
  match srcFeature with
  | .Dense denseData => pure (denseData.GetSize % 2 ^ 32)
  | .Sparse sparseData => pure (sparseData.GetNonDefaultSize % 2 ^ 32)
  | .Other _ => throw .UnsupportedSrcFeatureType

/-- The statements of `EstimateMemUsageForFloatFeature` that set `nonDefaultSampleSize` and
`defaultValue`. `sampleSize` is a `ui32`, and `GetNonDefaultSize()` and `GetSize()` return
the size type of the sparse array, which is the `ui32` of
`TConstPolymorphicValuesSparseArray<float, ui32>`: the first product is a product of two
`ui32`. `defaultSize` is declared `ui64`, so the second product is one of `ui64`. A division
by a size of zero is undefined in the source and gives 0 here. -/
def EstimateSampleSizes {α : Type} (sampleSize : Nat)
    (srcFeature : TTypedFeatureValuesHolder α) : Except EError (Nat × Option (α × Nat)) :=
  match srcFeature with
  | .Dense _ => pure (sampleSize, none)
  | .Sparse sparseArray =>
    let nonDefaultSampleSize :=
      ((sampleSize * sparseArray.GetNonDefaultSize) % 2 ^ 32) / sparseArray.GetSize
    let defaultSize :=
      (sparseArray.GetSize + 2 ^ 32 - sparseArray.GetNonDefaultSize) % 2 ^ 32
    let defaultValue :=
      if defaultSize ≠ 0 then
        some (sparseArray.GetDefaultValue,
          max (((sampleSize * defaultSize) % 2 ^ 64) / sparseArray.GetSize) 1)
      else none
    pure (nonDefaultSampleSize, defaultValue)
  | .Other _ => throw .UnsupportedSrcFeatureType

/-- Function `EstimateMemUsageForFloatFeature`. The functions
`GetSampleSizeForBorderSelectionType`, `NSplitSelection::CalcMemoryForFindBestSplit` and
`TIndexHelper<ui64>::CompressedSize` are not among the sources and are parameters;
`HasBorders` and `GetBorders` are read as the quantization of the registry; `featureId` is
`srcFeature.GetId()`. The sum is one of `ui64`. -/
def EstimateMemUsageForFloatFeature {V : Type}
    (GetSampleSizeForBorderSelectionType : Nat → Nat → Nat → Nat)
    (CalcMemoryForFindBestSplit : Nat → Nat → Option (TFloat V × Nat) → Nat → Nat)
    (CompressedSize : Nat → Nat → Nat)
    (srcFeature : TTypedFeatureValuesHolder (TFloat V)) (featureId : Nat)
    (quantizedFeaturesInfo : TQuantizedFloatFeaturesInfo V)
    (options : TQuantizationOptions V)
    (doQuantization storeFeaturesDataAsExternalValuesHolder : Bool) : Except EError Nat := do
  let nonDefaultObjectCount ← GetNonDefaultValuesCount srcFeature
  let floatFeatureIdx := quantizedFeaturesInfo.GetInternalFeatureIdx featureId
  let (result, borderCount) ←
    if !quantizedFeaturesInfo.HasQuantization floatFeatureIdx then do
      let defaultBinarizationSettings :=
        quantizedFeaturesInfo.FloatFeatureBinarization (2 ^ 32 - 1)
      let sampleSize :=
        (GetSampleSizeForBorderSelectionType srcFeature.GetSize
          defaultBinarizationSettings.BorderSelectionType
          options.MaxSubsetSizeForBuildBordersAlgorithms) % 2 ^ 32
      let (nonDefaultSampleSize, defaultValue) ← EstimateSampleSizes sampleSize srcFeature
      let floatFeatureBinarizationSettings :=
        quantizedFeaturesInfo.FloatFeatureBinarization featureId
      let borderCount := floatFeatureBinarizationSettings.BorderCount
      pure ((4 * nonDefaultSampleSize +
          CalcMemoryForFindBestSplit borderCount nonDefaultSampleSize defaultValue
            floatFeatureBinarizationSettings.BorderSelectionType) % 2 ^ 64,
        borderCount)
    else do
      let quantization ← quantizedFeaturesInfo.GetQuantization floatFeatureIdx
      pure (0, quantization.Borders.length)
  if doQuantization && !storeFeaturesDataAsExternalValuesHolder then
    pure ((result +
      CompressedSize (CalcHistogramWidthForBorders borderCount) nonDefaultObjectCount * 8)
        % 2 ^ 64)
  else
    pure result

/-- A sparse column of 100000 objects of which the 50000 even ones have a stored value. -/
def exampleLargeSparse : TSparseArray (TFloat Int) where
  Size := 100000
  NonDefault := (List.range 50000).map (fun i => (2 * i, TFloat.Value 10))
  DefaultValue := .Value 0

/-! ## The storage of MakeQuantizedColumnWithDefaultBin -/

/-- Constant `ALLOC_BLOCK` of `MakeQuantizedColumnWithDefaultBin`. -/
def ALLOC_BLOCK : Nat := 8192

/-- The variables the callback of `MakeQuantizedColumnWithDefaultBin` writes, with the
storage: `Builder` holds the indices added and the values stored, `StorageSize` is
`quantizedDataStorage.size()`, in `ui64` elements. -/
structure TDefaultBinStorageState where
  Builder : TDefaultBinBuilderState
  nonDefaultValuesCount : Nat
  StorageSize : Nat

/-- Lambda `onSrcNonDefaultValueCallback` of `MakeQuantizedColumnWithDefaultBin`, with the
resizing of `quantizedDataStorage`; `storedBits / 8` is `sizeof(TStoredDstValue)`. The write
of the element at position `nonDefaultValuesCount` is checked here: one that is not within
the storage is an error, where the source has undefined behaviour. -/
def onSrcNonDefaultValueCallbackWithStorage {α : Type} (storedBits : Nat)
    (valueQuantizer : TValueQuantizer α) (defaultQuantizedBin : Nat)
    (state : TDefaultBinStorageState) (visit : Nat × α) :
    Except EError TDefaultBinStorageState := do
  let quantizedBin ← valueQuantizer.Quantize visit.2
  if quantizedBin ≠ defaultQuantizedBin then
    let storageSize :=
      if state.nonDefaultValuesCount % (ALLOC_BLOCK * 8 / (storedBits / 8)) = 0 then
        state.nonDefaultValuesCount + ALLOC_BLOCK
      else state.StorageSize
    if (state.nonDefaultValuesCount + 1) * (storedBits / 8) ≤ storageSize * 8 then
      pure
        { Builder :=
            { Indexing := state.Builder.Indexing ++ [visit.1]
              Values := state.Builder.Values ++ [quantizedBin % 2 ^ storedBits] }
          nonDefaultValuesCount := (state.nonDefaultValuesCount + 1) % 2 ^ 32
          StorageSize := storageSize }
    else
      throw .WriteOutOfBounds
  else
    pure state

/-- The state of the storage when all the elements of a block but one are written. -/
def exampleStorageState : TDefaultBinStorageState where
  Builder := { Indexing := List.range 16383, Values := List.replicate 16383 1 }
  nonDefaultValuesCount := 16383
  StorageSize := 8192

/-- What holds of the variables of the callback between two calls: the count is the number
of the values stored, and within a block the storage is the one of the last resize. -/
def StorageInvariant (storedBits : Nat) (state : TDefaultBinStorageState) : Prop :=
  state.nonDefaultValuesCount = state.Builder.Values.length ∧
  (state.nonDefaultValuesCount % (ALLOC_BLOCK * 8 / (storedBits / 8)) ≠ 0 →
    state.StorageSize =
      state.nonDefaultValuesCount / (ALLOC_BLOCK * 8 / (storedBits / 8)) *
        (ALLOC_BLOCK * 8 / (storedBits / 8)) + ALLOC_BLOCK)

/-! ## Masks under an inverted indexed subset -/

/-- The number of the objects of a sparse column that are inside the subset and whose value
is non-default, in the words of the spec; `nonDefault` is the answer of the non-default
test to a value. -/
def NonDefaultCountInsideSubset {α : Type} (nonDefault : α → Bool)
    (sparseColumn : TSparseArray α)
    (invertedIncrementalIndexing : TArraySubsetInvertedIndexing) : Nat :=
  ((List.range sparseColumn.Size).filter
    (fun objectIdx =>
      invertedIncrementalIndexing.IsPresent objectIdx &&
        nonDefault (sparseColumn.GetValue objectIdx))).length

/-- A sparse column of four objects whose default value is `0.0`; object 1 has the stored
value `2.0`. -/
def exampleAbsentSparse : TSparseArray (TFloat Int) where
  Size := 4
  NonDefault := [(1, .Value 20)]
  DefaultValue := .Value 0

/-- A sparse column of four objects whose default value is `1.0`; object 0 has the stored
value `0.0`. -/
def exampleAbsentDefaultSparse : TSparseArray (TFloat Int) where
  Size := 4
  NonDefault := [(0, .Value 0)]
  DefaultValue := .Value 10

/-- The inverted mapping of the subset of the objects 0 and 2 of four objects: the objects 1
and 3 are absent. -/
def exampleAbsentMapping : TArraySubsetInvertedIndexing :=
  .TInvertedIndexedSubset 2 [some 0, none, some 1, none]

/-! ## Examples for the aggregation of sparse columns and of groups -/

/-- One sparse float column of four objects whose default value is 1: object 1 holds 0,
the objects 0, 2 and 3 hold the default value; the bin of a value is the value itself and
the quantizer reports no default bin. -/
def exampleSparseColumnsQuantizer : TColumnsQuantizer Nat Nat where
  IncrementalDenseIndexing :=
    TIncrementalDenseIndexing.TIncrementalDenseIndexing (.TFullSubset 4) false
  ObjectCount := 4
  RawObjectsData :=
    { FloatFeatures := fun _ => .Sparse { Size := 4, NonDefault := [(1, 0)], DefaultValue := 1 }
      CatFeatures := fun _ => .Sparse { Size := 4, NonDefault := [(1, 0)], DefaultValue := 1 } }
  QuantizedFeaturesInfo :=
    { FloatQuantizer := fun _ => exampleQuantizer 8 none
      CatQuantizer := fun _ => exampleQuantizer 8 none }

/-- A binary pack whose only part is float feature 0. -/
def exampleSparsePackedBinaryToSrcIndex : List TFeatureIdxWithType :=
  [{ FeatureType := .Float, FeatureIdx := 0 }]

/-- Two dense float columns of two objects: feature 0 has the values (2, 0), feature 1 the
values (1, 1); the bin of a value is the value itself and every quantizer reports the
default bin 1. -/
def exampleGroupColumnsQuantizer : TColumnsQuantizer Nat Nat where
  IncrementalDenseIndexing :=
    TIncrementalDenseIndexing.TIncrementalDenseIndexing (.TFullSubset 2) true
  ObjectCount := 2
  RawObjectsData :=
    { FloatFeatures := fun featureIdx =>
        .Dense { Src := fun i => if featureIdx = 0 then (if i = 0 then 2 else 0) else 1
                 SubsetIndexing := .TFullSubset 2 }
      CatFeatures := fun _ =>
        .Dense { Src := fun _ => 0, SubsetIndexing := .TFullSubset 2 } }
  QuantizedFeaturesInfo := exampleInfoWithDefaults

/-- A group of two bytes whose parts are the float features 0 and 1. -/
def exampleGroups : List TFeaturesGroup :=
  [{ SizeInBytes := 2
     Parts := [{ FeatureType := .Float, FeatureIdx := 0 },
               { FeatureType := .Float, FeatureIdx := 1 }] }]

/-- Byte `partIdx` of the cell of a group. -/
def GroupByte (cell partIdx : Nat) : Nat :=
  (cell >>> (8 * partIdx)) % 256

/-! ## Scheduling: TColumnsQuantizer::Do -/

namespace TFeaturesLayout

/-- Modelled from the spec: `GetExternalFeatureIdx` is not among the sources; the external
index of the feature with the given index among the features of its type. -/
def GetExternalFeatureIdx (layout : TFeaturesLayout) (perTypeFeatureIdx : Nat)
    (featureType : EFeatureType) : Nat :=
  ((List.range layout.ExternalIdxToMetaInfo.length).filter
    (fun externalIdx =>
      (layout.ExternalIdxToMetaInfo[externalIdx]?).map (fun metaInfo => metaInfo.FeatureType)
        = some featureType)).getD perTypeFeatureIdx 0

/-- Modelled from the spec: `IterateOverAvailableFeatures<FeatureType>` is not among the
sources; the per-type indices of the available features of the type, in increasing
order, are handed to the callback. -/
def IterateOverAvailableFeatures (layout : TFeaturesLayout) (featureType : EFeatureType) :
    List Nat :=
  let ofType := layout.ExternalIdxToMetaInfo.filter
    (fun metaInfo => metaInfo.FeatureType = featureType)
  (List.range ofType.length).filter
    (fun perTypeFeatureIdx =>
      ((ofType[perTypeFeatureIdx]?).map (fun metaInfo => metaInfo.IsAvailable)).getD false)

end TFeaturesLayout

/-- The values of `EFeatureValuesType` that name an aggregate. -/
inductive EFeatureValuesType where
  | ExclusiveFeatureBundle
  | BinaryPack
  | FeaturesGroup
  deriving DecidableEq

/-- The part of `TQuantizedForCPUObjectsData` that the scheduling reads: for every flat
feature index the place of the feature in a bundle, a pack and a group if it has one,
the meta data of the bundles and of the groups, and the number of packs, which is
`PackedBinaryFeaturesData.SrcData.size()`. -/
structure TQuantizedForCPUObjectsData where
  FlatFeatureIndexToBundlePart : List (Option (Nat × Nat))
  FlatFeatureIndexToPackedBinaryIndex : List (Option (Nat × Nat))
  FlatFeatureIndexToGroupPart : List (Option (Nat × Nat))
  ExclusiveFeatureBundlesMetaData : List TExclusiveFeaturesBundle
  PackedBinarySrcDataSize : Nat
  FeaturesGroupsMetaData : List TFeaturesGroup

/-- A task of `TColumnsQuantizer`: the call its function makes. -/
inductive TQuantizationTask where
  | AggregateFeatures (FeatureValuesType : EFeatureValuesType) (aggregateIdx : Nat)
  | QuantizeAndClearSrcData (FeatureType : EFeatureType) (perTypeFeatureIdx : Nat)
  deriving DecidableEq

/-- Method `TResourceConstrainedExecutor::Add`, with the cost and the function of the task. -/
def TResourceConstrainedExecutor.Add {Task : Type} (executor : TResourceConstrainedExecutor Task)
    (functionWithResourceUsage : Nat × Task) : TResourceConstrainedExecutor Task :=
  { executor with Queue := executor.Queue ++ [functionWithResourceUsage] }

namespace TColumnsQuantizer

/-- Method `IsInAggregatedColumn`; an index beyond a vector reads as an empty `TMaybe`. -/
def IsInAggregatedColumn (QuantizedObjectsData : TQuantizedForCPUObjectsData)
    (flatFeatureIdx : Nat) : Bool :=
  if (QuantizedObjectsData.FlatFeatureIndexToBundlePart.getD flatFeatureIdx none).isSome then
    true
  else if (QuantizedObjectsData.FlatFeatureIndexToPackedBinaryIndex.getD flatFeatureIdx
      none).isSome then
    true
  else if (QuantizedObjectsData.FlatFeatureIndexToGroupPart.getD flatFeatureIdx none).isSome then
    true
  else
    false

/-- Method `GetAggregateCount()` of the aggregator of a kind. -/
def GetAggregateCount (QuantizedObjectsData : TQuantizedForCPUObjectsData) :
    EFeatureValuesType → Nat
  | .ExclusiveFeatureBundle => QuantizedObjectsData.ExclusiveFeatureBundlesMetaData.length % 2 ^ 32
  | .BinaryPack => QuantizedObjectsData.PackedBinarySrcDataSize % 2 ^ 32
  | .FeaturesGroup => QuantizedObjectsData.FeaturesGroupsMetaData.length % 2 ^ 32

/-- Method `GetAggregateBitsPerKey(aggregateIdx)` of the aggregator of a kind. -/
def GetAggregateBitsPerKey (BITS_PER_PACK : Nat)
    (QuantizedObjectsData : TQuantizedForCPUObjectsData) :
    EFeatureValuesType → Nat → Nat
  | .ExclusiveFeatureBundle =>
    ExclusiveFeatureBundle.GetAggregateBitsPerKey
      QuantizedObjectsData.ExclusiveFeatureBundlesMetaData
  | .BinaryPack => BinaryPack.GetAggregateBitsPerKey BITS_PER_PACK
  | .FeaturesGroup =>
    FeaturesGroup.GetAggregateBitsPerKey QuantizedObjectsData.FeaturesGroupsMetaData

/-- Method `ScheduleAggregateFeatures<FeatureValuesType>()`; the members of the class it
reads are parameters, and the result is the executor after the calls of `Add`. -/
def ScheduleAggregateFeatures {F C : Type} (q : TColumnsQuantizer F C) (BITS_PER_PACK : Nat)
    (QuantizedObjectsData : TQuantizedForCPUObjectsData)
    (FeatureValuesType : EFeatureValuesType)
    (executor : TResourceConstrainedExecutor TQuantizationTask) :
    TResourceConstrainedExecutor TQuantizationTask :=
  let objectCount := q.ObjectCount
  (List.range (GetAggregateCount QuantizedObjectsData FeatureValuesType)).foldl
    (fun executor aggregateIdx =>
      executor.Add
        ((objectCount *
            (GetAggregateBitsPerKey BITS_PER_PACK QuantizedObjectsData FeatureValuesType
              aggregateIdx / 8)) % 2 ^ 32,
          .AggregateFeatures FeatureValuesType aggregateIdx))
    executor

/-- The width `valueQuantizer.GetDstBitsPerKey()` of the quantizer of a feature of a type. -/
def GetDstBitsPerKey {F C : Type} (q : TColumnsQuantizer F C) (FeatureType : EFeatureType)
    (perTypeFeatureIdx : Nat) : Nat :=
  match FeatureType with
  | .Float => (q.QuantizedFeaturesInfo.FloatQuantizer perTypeFeatureIdx).DstBitsPerKey
  | .Categorical => (q.QuantizedFeaturesInfo.CatQuantizer perTypeFeatureIdx).DstBitsPerKey
  | .Text => 0

/-- Method `ScheduleNonAggregatedFeaturesForType<FeatureType, ..>()`. -/
def ScheduleNonAggregatedFeaturesForType {F C : Type} (q : TColumnsQuantizer F C)
    (FeaturesLayout : TFeaturesLayout) (QuantizedObjectsData : TQuantizedForCPUObjectsData)
    (FeatureType : EFeatureType)
    (executor : TResourceConstrainedExecutor TQuantizationTask) :
    TResourceConstrainedExecutor TQuantizationTask :=
  let objectCount := q.ObjectCount
  (FeaturesLayout.IterateOverAvailableFeatures FeatureType).foldl
    (fun executor perTypeFeatureIdx =>
      let flatFeatureIdx := FeaturesLayout.GetExternalFeatureIdx perTypeFeatureIdx FeatureType
      if IsInAggregatedColumn QuantizedObjectsData flatFeatureIdx then
        executor
      else
        executor.Add
          ((objectCount * (GetDstBitsPerKey q FeatureType perTypeFeatureIdx / 8)) % 2 ^ 32,
            .QuantizeAndClearSrcData FeatureType perTypeFeatureIdx))
    executor

/-- Method `ScheduleNonAggregatedFeatures()`. -/
def ScheduleNonAggregatedFeatures {F C : Type} (q : TColumnsQuantizer F C)
    (FeaturesLayout : TFeaturesLayout) (QuantizedObjectsData : TQuantizedForCPUObjectsData)
    (executor : TResourceConstrainedExecutor TQuantizationTask) :
    TResourceConstrainedExecutor TQuantizationTask :=
  ScheduleNonAggregatedFeaturesForType q FeaturesLayout QuantizedObjectsData .Categorical
    (ScheduleNonAggregatedFeaturesForType q FeaturesLayout QuantizedObjectsData .Float executor)

/-- Method `TColumnsQuantizer::Do()` up to the call of `ExecTasks()`: the executor the
constructor builds, with the tasks added to it. `cpuRamUsage` is the resident set size the
constructor reads. -/
def Do {F C V : Type} (q : TColumnsQuantizer F C) (Options : TQuantizationOptions V)
    (BITS_PER_PACK : Nat) (FeaturesLayout : TFeaturesLayout)
    (QuantizedObjectsData : TQuantizedForCPUObjectsData) (cpuRamUsage : Nat) :
    TResourceConstrainedExecutor TQuantizationTask :=
  let executor := NewResourceConstrainedExecutor TQuantizationTask Options.CpuRamLimit cpuRamUsage
  let executor :=
    if Options.CpuCompatibleFormat && Options.BundleExclusiveFeaturesForCpu then
      ScheduleNonAggregatedFeatures q FeaturesLayout QuantizedObjectsData
        (ScheduleAggregateFeatures q BITS_PER_PACK QuantizedObjectsData .ExclusiveFeatureBundle
          executor)
    else executor
  let executor :=
    if Options.CpuCompatibleFormat && Options.PackBinaryFeaturesForCpu then
      ScheduleAggregateFeatures q BITS_PER_PACK QuantizedObjectsData .BinaryPack executor
    else executor
  let executor :=
    if Options.CpuCompatibleFormat && Options.GroupFeaturesForCpu then
      ScheduleAggregateFeatures q BITS_PER_PACK QuantizedObjectsData .FeaturesGroup executor
    else executor
  executor

end TColumnsQuantizer

/-! ## The first stage of TQuantizationImpl::Do -/

/-- Function `ProcessCatFeature`. The registry of the categorical features is of a type `R`;
`UpdatePerfectHashAndMaybeQuantize` is the method of `TCatFeaturesPerfectHashHelper`, which
is not among the sources: it is handed the values, the storage to quantize into if there
is one, and the registry, and gives the registry and the storage as it leaves them;
`GetUniqueValuesCountsOnLearnOnly`, `IgnoreExternalFeature` and `newValueQuantizer` are the
registry's `GetUniqueValuesCounts(..).OnLearnOnly`, its layout's `IgnoreExternalFeature` and
the constructor of `TValueQuantizer`. The result is the column left in
`*dstQuantizedFeature` if one is written, with the registry as the call leaves it. -/
def ProcessCatFeature {V R : Type}
    (UpdatePerfectHashAndMaybeQuantize :
      Nat → List Nat → Bool → Option (Nat × Nat) → Option (TFloat V) → Option (List Nat) → R →
        Except EError (R × Option (List Nat)))
    (GetUniqueValuesCountsOnLearnOnly : R → Nat → Nat)
    (IgnoreExternalFeature : R → Nat → R)
    (newValueQuantizer : R → Nat → Except EError (TValueQuantizer Nat))
    (catFeatureIdx : Nat) (srcFeature : TTypedFeatureValuesHolder Nat) (featureId : Nat)
    (options : TQuantizationOptions V)
    (bundleExclusiveFeatures storeFeaturesDataAsExternalValuesHolder : Bool)
    (incrementalDenseIndexing : TIncrementalDenseIndexing) (uninit : Nat → Nat)
    (quantizedFeaturesInfo : R) : Except EError (Option (TQuantizedColumn Nat)) × R :=
  let updatePerfectHashOnly := bundleExclusiveFeatures
  let quantizeData := !updatePerfectHashOnly && !storeFeaturesDataAsExternalValuesHolder
  let onNonDefaultValues :=
    fun (srcNonDefaultValues : List Nat) (srcDefaultValue : Option (Nat × Nat)) =>
      let quantizeDataAtFirstPass :=
        quantizeData && srcDefaultValue.isNone &&
          options.DefaultValueFractionToEnableSparseStorage.isNone
      let quantizedDataValue :=
        if quantizeDataAtFirstPass then
          some (CreateWithUninitializedData srcNonDefaultValues.length 32 uninit)
        else none
      UpdatePerfectHashAndMaybeQuantize catFeatureIdx srcNonDefaultValues
        bundleExclusiveFeatures srcDefaultValue
        options.DefaultValueFractionToEnableSparseStorage quantizedDataValue
        quantizedFeaturesInfo
  let firstPass : Except EError (R × Option (List Nat)) :=
    match srcFeature with
    | .Dense denseSrcFeature =>
      onNonDefaultValues (denseSrcFeature.ForEach.map Prod.snd) none
    | .Sparse sparseArray =>
      let defaultValue :=
        if sparseArray.GetDefaultSize ≠ 0 then
          some (sparseArray.GetDefaultValue, sparseArray.GetDefaultSize)
        else none
      onNonDefaultValues (sparseArray.ForEachNonDefault.map Prod.snd) defaultValue
    | .Other _ => throw .UnsupportedSrcFeatureType
  match firstPass with
  | .error e => (.error e, quantizedFeaturesInfo)
  | .ok (quantizedFeaturesInfo, quantizedDataStorage) =>
    if GetUniqueValuesCountsOnLearnOnly quantizedFeaturesInfo catFeatureIdx > 1 then
      if !updatePerfectHashOnly then
        if storeFeaturesDataAsExternalValuesHolder then
          ((MakeExternalValuesHolder srcFeature featureId).map some, quantizedFeaturesInfo)
        else if (quantizedDataStorage.getD []).length ≠ 0 then
          (pure (some (.Compressed
              { BitsPerKey := 32, Data := quantizedDataStorage.getD [] })),
            quantizedFeaturesInfo)
        else
          ((MakeQuantizedColumn (newValueQuantizer quantizedFeaturesInfo) srcFeature featureId
              incrementalDenseIndexing uninit).map some,
            quantizedFeaturesInfo)
      else
        (pure none, quantizedFeaturesInfo)
    else
      (pure none, IgnoreExternalFeature quantizedFeaturesInfo featureId)

/-- What the tasks of the first stage of `TQuantizationImpl::Do` read and write: the two
parts of the registry, and the columns `data->ObjectsData.Data.FloatFeatures` and
`CatFeatures`, a column that is not written being `none`. -/
structure TQuantizedForCPUBuilderData (V R : Type) where
  QuantizedFloatFeaturesInfo : TQuantizedFloatFeaturesInfo V
  QuantizedCatFeaturesInfo : R
  FloatFeatures : Nat → Option (TQuantizedColumn (TFloat V))
  CatFeatures : Nat → Option (TQuantizedColumn Nat)

namespace TQuantizationImpl

/-- The function of the task that `TQuantizationImpl::Do` adds for a float feature: the call
of `ProcessFloatFeature`, whose last argument is a null pointer when only the quantization
is computed there. The id of the column is taken to be the external index of the feature;
the destruction of the source column that may follow the call is left out. -/
def ProcessFloatFeatureTask {V R : Type} [LinearOrder V]
    (bestSplit : TBestSplitRequest V → TQuantization V) (Lowest Max : V)
    (options : TQuantizationOptions V) (featuresLayout : TFeaturesLayout)
    (rawObjectsData : TRawObjectsData (TFloat V) Nat)
    (subsetIndexingForBuildBorders : TSubsetIndexingForBuildBorders)
    (initialBorders : Option (List (List (TFloat V))))
    (calcQuantizationAndNanModeOnly storeFeaturesDataAsExternalValuesHolders : Bool)
    (incrementalIndexing : Option TIncrementalDenseIndexing) (uninit : Nat → Nat)
    (data : TQuantizedForCPUBuilderData V R) (floatFeatureIdx : Nat) :
    Except EError (TQuantizedForCPUBuilderData V R) :=
  let bundleExclusiveFeatures :=
    options.CpuCompatibleFormat && options.BundleExclusiveFeaturesForCpu
  let calcQuantizationAndNanModeOnlyInProcessFloatFeatures :=
    calcQuantizationAndNanModeOnly || bundleExclusiveFeatures
  let result :=
    ProcessFloatFeature bestSplit Lowest Max floatFeatureIdx
      (rawObjectsData.FloatFeatures floatFeatureIdx)
      (featuresLayout.GetExternalFeatureIdx floatFeatureIdx .Float)
      subsetIndexingForBuildBorders options initialBorders
      calcQuantizationAndNanModeOnlyInProcessFloatFeatures
      storeFeaturesDataAsExternalValuesHolders incrementalIndexing uninit
      data.QuantizedFloatFeaturesInfo
  match result.1 with
  | .error e => throw e
  | .ok dstQuantizedFeature =>
    pure
      { data with
        QuantizedFloatFeaturesInfo := result.2
        FloatFeatures :=
          if calcQuantizationAndNanModeOnlyInProcessFloatFeatures then data.FloatFeatures
          else
            match dstQuantizedFeature with
            | some column => Function.update data.FloatFeatures floatFeatureIdx (some column)
            | none => data.FloatFeatures }

/-- The function of the task that `TQuantizationImpl::Do` adds for a categorical feature,
without the destruction of the source column that may follow the call. -/
def ProcessCatFeatureTask {V R : Type}
    (UpdatePerfectHashAndMaybeQuantize :
      Nat → List Nat → Bool → Option (Nat × Nat) → Option (TFloat V) → Option (List Nat) → R →
        Except EError (R × Option (List Nat)))
    (GetUniqueValuesCountsOnLearnOnly : R → Nat → Nat)
    (IgnoreExternalFeature : R → Nat → R)
    (newValueQuantizer : R → Nat → Except EError (TValueQuantizer Nat))
    (options : TQuantizationOptions V) (featuresLayout : TFeaturesLayout)
    (rawObjectsData : TRawObjectsData (TFloat V) Nat)
    (storeFeaturesDataAsExternalValuesHolders : Bool)
    (incrementalIndexing : Option TIncrementalDenseIndexing) (uninit : Nat → Nat)
    (data : TQuantizedForCPUBuilderData V R) (catFeatureIdx : Nat) :
    Except EError (TQuantizedForCPUBuilderData V R) :=
  let bundleExclusiveFeatures :=
    options.CpuCompatibleFormat && options.BundleExclusiveFeaturesForCpu
  match incrementalIndexing with
  | none => throw .MaybeIsEmpty
  | some incrementalDenseIndexing =>
    let result :=
      ProcessCatFeature UpdatePerfectHashAndMaybeQuantize GetUniqueValuesCountsOnLearnOnly
        IgnoreExternalFeature newValueQuantizer catFeatureIdx
        (rawObjectsData.CatFeatures catFeatureIdx)
        (featuresLayout.GetExternalFeatureIdx catFeatureIdx .Categorical)
        options bundleExclusiveFeatures storeFeaturesDataAsExternalValuesHolders
        incrementalDenseIndexing uninit data.QuantizedCatFeaturesInfo
    match result.1 with
    | .error e => throw e
    | .ok dstQuantizedFeature =>
      pure
        { data with
          QuantizedCatFeaturesInfo := result.2
          CatFeatures :=
            match dstQuantizedFeature with
            | some column => Function.update data.CatFeatures catFeatureIdx (some column)
            | none => data.CatFeatures }

/-- The first stage of `TQuantizationImpl::Do`: the tasks for the available float features
and, unless only the quantization is computed, for the available categorical features,
run one after the other in the order they are added in. `srcSubsetIndexing` is
`*srcObjectsCommonData.SubsetIndexing`. -/
def DoFirstStage {V R : Type} [LinearOrder V]
    (bestSplit : TBestSplitRequest V → TQuantization V) (Lowest Max : V)
    (UpdatePerfectHashAndMaybeQuantize :
      Nat → List Nat → Bool → Option (Nat × Nat) → Option (TFloat V) → Option (List Nat) → R →
        Except EError (R × Option (List Nat)))
    (GetUniqueValuesCountsOnLearnOnly : R → Nat → Nat)
    (IgnoreExternalFeature : R → Nat → R)
    (newValueQuantizer : R → Nat → Except EError (TValueQuantizer Nat))
    (options : TQuantizationOptions V) (featuresLayout : TFeaturesLayout)
    (rawObjectsData : TRawObjectsData (TFloat V) Nat)
    (subsetIndexingForBuildBorders : TSubsetIndexingForBuildBorders)
    (initialBorders : Option (List (List (TFloat V))))
    (calcQuantizationAndNanModeOnly storeFeaturesDataAsExternalValuesHolders : Bool)
    (srcSubsetIndexing : TArraySubsetIndexing) (hasDenseSrcData : Bool) (uninit : Nat → Nat)
    (data : TQuantizedForCPUBuilderData V R) :
    Except EError (TQuantizedForCPUBuilderData V R) := do
  let incrementalIndexing :=
    if !calcQuantizationAndNanModeOnly then
      some (TIncrementalDenseIndexing.TIncrementalDenseIndexing srcSubsetIndexing
        hasDenseSrcData)
    else none
  let data ←
    (featuresLayout.IterateOverAvailableFeatures .Float).foldlM
      (ProcessFloatFeatureTask bestSplit Lowest Max options featuresLayout rawObjectsData
        subsetIndexingForBuildBorders initialBorders calcQuantizationAndNanModeOnly
        storeFeaturesDataAsExternalValuesHolders incrementalIndexing uninit)
      data
  if !calcQuantizationAndNanModeOnly then
    (featuresLayout.IterateOverAvailableFeatures .Categorical).foldlM
      (ProcessCatFeatureTask UpdatePerfectHashAndMaybeQuantize
        GetUniqueValuesCountsOnLearnOnly IgnoreExternalFeature newValueQuantizer options
        featuresLayout rawObjectsData storeFeaturesDataAsExternalValuesHolders
        incrementalIndexing uninit)
      data
  else
    pure data

end TQuantizationImpl

/-! ## Examples for the scheduling -/

/-- A layout of four features: two available float features, an available categorical
feature, and an ignored float feature. -/
def exampleScheduleLayout : TFeaturesLayout where
  ExternalIdxToMetaInfo :=
    [{ FeatureType := .Float, IsIgnored := false, IsAvailable := true },
     { FeatureType := .Float, IsIgnored := false, IsAvailable := true },
     { FeatureType := .Categorical, IsIgnored := false, IsAvailable := true },
     { FeatureType := .Float, IsIgnored := true, IsAvailable := false }]

/-- One bundle, whose only part is the feature with the flat index 0; no pack and no
group. -/
def exampleScheduleData : TQuantizedForCPUObjectsData where
  FlatFeatureIndexToBundlePart := [some (0, 0), none, none, none]
  FlatFeatureIndexToPackedBinaryIndex := [none, none, none, none]
  FlatFeatureIndexToGroupPart := [none, none, none, none]
  ExclusiveFeatureBundlesMetaData :=
    [{ SizeInBytes := 1
       Parts := [{ FeatureType := .Float, FeatureIdx := 0, Bounds := { Begin := 0, End := 1 } }] }]
  PackedBinarySrcDataSize := 0
  FeaturesGroupsMetaData := []

/-- The raw columns of the example of the scheduling: every float column holds `1.0`, `2.0`,
NaN, `3.0`, every categorical column the four values of `exampleDense`. -/
def exampleScheduleRawObjectsData : TRawObjectsData (TFloat Int) Nat where
  FloatFeatures := fun _ => .Dense exampleNanDense
  CatFeatures := fun _ => .Dense exampleDense

/-- The data of the first stage before any task has run: a registry in which nothing is set,
and no column. -/
def exampleScheduleBuilderData : TQuantizedForCPUBuilderData Int Unit where
  QuantizedFloatFeaturesInfo := exampleEmptyFloatInfo
  QuantizedCatFeaturesInfo := ()
  FloatFeatures := fun _ => none
  CatFeatures := fun _ => none

/-! # Theorems -/

/-! ## Incremental dense indexing -/

theorem SortByFirst_perm (pairs : List (Nat × Nat)) : (SortByFirst pairs).Perm pairs :=
  List.perm_insertionSort _ pairs

theorem SortByFirst_sorted (pairs : List (Nat × Nat)) :
    ((SortByFirst pairs).map Prod.fst).Pairwise (fun a b => a ≤ b) := by
  rw [List.pairwise_map]
  exact List.sorted_insertionSort (fun lhs rhs => lhs.1 ≤ rhs.1) pairs

theorem SortByFirst_length (pairs : List (Nat × Nat)) :
    (SortByFirst pairs).length = pairs.length :=
  (SortByFirst_perm pairs).length_eq

/-- Every pair of `srcIndices.zip [0, 1, ..)` is `(srcIndices[d], d)` with `d` in range. -/
theorem mem_zip_range {srcIndices : List Nat} {p : Nat × Nat}
    (hp : p ∈ srcIndices.zip (List.range srcIndices.length)) :
    p.2 < srcIndices.length ∧ srcIndices.getD p.2 0 = p.1 := by
  obtain ⟨k, hk, hkp⟩ := List.getElem_of_mem hp
  have hk1 : k < srcIndices.length := by
    have := hk
    simp [List.length_zip] at this
    exact this
  have hp' : p = (srcIndices[k], k) := by
    rw [← hkp]
    simp [List.getElem_zip]
  subst hp'
  refine ⟨hk1, ?_⟩
  simp [List.getD_eq_getElem?_getD, List.getElem?_eq_getElem hk1]

theorem TIncrementalDenseIndexing.nonFull_eq (s : TArraySubsetIndexing)
    (hs : s.IsFullSubset = false) :
    TIncrementalDenseIndexing.TIncrementalDenseIndexing s true =
      { SrcSubsetIndexing :=
          .TIndexedSubset ((SortByFirst (s.SrcIndices.zip (List.range s.Size))).map Prod.fst)
        DstIndexing :=
          .TIndexedSubset ((SortByFirst (s.SrcIndices.zip (List.range s.Size))).map Prod.snd) } := by
  simp [TIncrementalDenseIndexing.TIncrementalDenseIndexing, hs]

theorem TArraySubsetIndexing.SrcIndices_indexed (indices : List Nat) :
    (TArraySubsetIndexing.TIndexedSubset indices).SrcIndices = indices := rfl

theorem zip_map_fst_map_snd (l : List (Nat × Nat)) :
    (l.map Prod.fst).zip (l.map Prod.snd) = l := by
  induction l with
  | nil => rfl
  | cons p l ih => simp [ih]

theorem zip_range_eq_map (srcIndices : List Nat) :
    srcIndices.zip (List.range srcIndices.length) =
      (List.range srcIndices.length).map (fun d => (srcIndices.getD d 0, d)) := by
  apply List.ext_getElem
  · simp [List.length_zip]
  · intro k h1 h2
    have hk : k < srcIndices.length := by
      simp [List.length_zip] at h1
      exact h1
    simp [List.getElem_zip, List.getD_eq_getElem?_getD, List.getElem?_eq_getElem hk]

theorem getD_map_fst (l : List (Nat × Nat)) (i : Nat) (hi : i < l.length) :
    (l.map Prod.fst).getD i 0 = l[i].1 := by
  simp [List.getD_eq_getElem?_getD, List.getElem?_eq_getElem hi]

theorem getD_map_snd (l : List (Nat × Nat)) (i : Nat) (hi : i < l.length) :
    (l.map Prod.snd).getD i 0 = l[i].2 := by
  simp [List.getD_eq_getElem?_getD, List.getElem?_eq_getElem hi]

theorem pairwise_getD {R : Nat → Nat → Prop} {l : List Nat} (h : l.Pairwise R) :
    ∀ i j, i < j → j < l.length → R (l.getD i 0) (l.getD j 0) := by
  intro i j hij hj
  have hi : i < l.length := Nat.lt_trans hij hj
  have := List.pairwise_iff_getElem.1 h i j hi hj hij
  simpa [List.getD_eq_getElem?_getD, List.getElem?_eq_getElem hi, List.getElem?_eq_getElem hj]
    using this

/-- The facts about the sorted pairs used by the theorems on `TIncrementalDenseIndexing`
and on the dense iteration: the destination order is a permutation of the objects, and
position `i` of the source order is the source index of object `Dst[i]`. -/
theorem TIncrementalDenseIndexing_pairs_aux (s : TArraySubsetIndexing) :
    ((SortByFirst (s.SrcIndices.zip (List.range s.SrcIndices.length))).map Prod.snd).Perm
      (List.range s.SrcIndices.length) ∧
    (∀ i, i < s.SrcIndices.length →
      ((SortByFirst (s.SrcIndices.zip (List.range s.SrcIndices.length))).map Prod.fst).getD i 0 =
        s.SrcIndices.getD
          (((SortByFirst (s.SrcIndices.zip (List.range s.SrcIndices.length))).map Prod.snd).getD i 0) 0) ∧
    (SortByFirst (s.SrcIndices.zip (List.range s.SrcIndices.length))).length =
      s.SrcIndices.length := by
  have hperm := SortByFirst_perm (s.SrcIndices.zip (List.range s.SrcIndices.length))
  have hlen := SortByFirst_length (s.SrcIndices.zip (List.range s.SrcIndices.length))
  have hlen2 : (s.SrcIndices.zip (List.range s.SrcIndices.length)).length = s.SrcIndices.length := by
    simp [List.length_zip]
  refine ⟨?_, ?_, ?_⟩
  · have h1 := hperm.map Prod.snd
    have h2 : (s.SrcIndices.zip (List.range s.SrcIndices.length)).map Prod.snd =
        List.range s.SrcIndices.length := by
      apply List.map_snd_zip
      simp
    rw [h2] at h1
    exact h1
  · intro i hi
    have hi2 : i < (SortByFirst (s.SrcIndices.zip (List.range s.SrcIndices.length))).length := by
      rw [hlen, hlen2]
      exact hi
    rw [getD_map_fst _ i hi2, getD_map_snd _ i hi2]
    have hmem : (SortByFirst (s.SrcIndices.zip (List.range s.SrcIndices.length)))[i] ∈
        s.SrcIndices.zip (List.range s.SrcIndices.length) :=
      hperm.subset (List.getElem_mem _)
    exact (mem_zip_range hmem).2.symm
  · rw [hlen, hlen2]

/-- C9 (as amended): for a non-full subset over a source with dense data the source
order built by `TIncrementalDenseIndexing` is non-decreasing, `Src[i] ≤ Src[j]` for all
positions `i < j`, and it is strictly increasing when the source indices of the subset
are pairwise distinct. -/
theorem TIncrementalDenseIndexing_src_order (s : TArraySubsetIndexing)
    (hs : s.IsFullSubset = false) :
    (∀ i j, i < j →
      j < (TIncrementalDenseIndexing.TIncrementalDenseIndexing s true).SrcSubsetIndexing.SrcIndices.length →
      (TIncrementalDenseIndexing.TIncrementalDenseIndexing s true).SrcSubsetIndexing.SrcIndices.getD i 0 ≤
        (TIncrementalDenseIndexing.TIncrementalDenseIndexing s true).SrcSubsetIndexing.SrcIndices.getD j 0) ∧
    (s.SrcIndices.Nodup → ∀ i j, i < j →
      j < (TIncrementalDenseIndexing.TIncrementalDenseIndexing s true).SrcSubsetIndexing.SrcIndices.length →
      (TIncrementalDenseIndexing.TIncrementalDenseIndexing s true).SrcSubsetIndexing.SrcIndices.getD i 0 <
        (TIncrementalDenseIndexing.TIncrementalDenseIndexing s true).SrcSubsetIndexing.SrcIndices.getD j 0) := by
  rw [TIncrementalDenseIndexing.nonFull_eq s hs]
  simp only [TArraySubsetIndexing.SrcIndices_indexed]
  have hsorted := SortByFirst_sorted (s.SrcIndices.zip (List.range s.Size))
  refine ⟨pairwise_getD hsorted, ?_⟩
  intro hnodup
  have hperm : ((SortByFirst (s.SrcIndices.zip (List.range s.Size))).map Prod.fst).Perm
      s.SrcIndices := by
    have h1 := (SortByFirst_perm (s.SrcIndices.zip (List.range s.Size))).map Prod.fst
    have h2 : (s.SrcIndices.zip (List.range s.Size)).map Prod.fst = s.SrcIndices := by
      apply List.map_fst_zip
      simp [TArraySubsetIndexing.Size]
    rw [h2] at h1
    exact h1
  have hnd : ((SortByFirst (s.SrcIndices.zip (List.range s.Size))).map Prod.fst).Nodup :=
    hperm.nodup_iff.2 hnodup
  have hlt : ((SortByFirst (s.SrcIndices.zip (List.range s.Size))).map Prod.fst).Pairwise
      (fun a b => a < b) := List.Sorted.lt_of_le hsorted hnd
  exact pairwise_getD hlt

/-- Witness for C9: the subset selecting source positions 5, 2, 7. -/
theorem TIncrementalDenseIndexing_src_order_witness :
    (∀ i j, i < j →
      j < (TIncrementalDenseIndexing.TIncrementalDenseIndexing (.TIndexedSubset [5, 2, 7]) true).SrcSubsetIndexing.SrcIndices.length →
      (TIncrementalDenseIndexing.TIncrementalDenseIndexing (.TIndexedSubset [5, 2, 7]) true).SrcSubsetIndexing.SrcIndices.getD i 0 ≤
        (TIncrementalDenseIndexing.TIncrementalDenseIndexing (.TIndexedSubset [5, 2, 7]) true).SrcSubsetIndexing.SrcIndices.getD j 0) ∧
    ((TArraySubsetIndexing.TIndexedSubset [5, 2, 7]).SrcIndices.Nodup → ∀ i j, i < j →
      j < (TIncrementalDenseIndexing.TIncrementalDenseIndexing (.TIndexedSubset [5, 2, 7]) true).SrcSubsetIndexing.SrcIndices.length →
      (TIncrementalDenseIndexing.TIncrementalDenseIndexing (.TIndexedSubset [5, 2, 7]) true).SrcSubsetIndexing.SrcIndices.getD i 0 <
        (TIncrementalDenseIndexing.TIncrementalDenseIndexing (.TIndexedSubset [5, 2, 7]) true).SrcSubsetIndexing.SrcIndices.getD j 0) :=
  TIncrementalDenseIndexing_src_order (.TIndexedSubset [5, 2, 7]) rfl

/-- C9 (as stated) fails: the indexed subset `[5, 2, 5]` selects source position 5 twice,
the source order is `[2, 5, 5]`, and positions 1 < 2 hold equal source indices. -/
theorem TIncrementalDenseIndexing_src_not_strict :
    (TArraySubsetIndexing.TIndexedSubset [5, 2, 5]).IsFullSubset = false ∧
    (TIncrementalDenseIndexing.TIncrementalDenseIndexing (.TIndexedSubset [5, 2, 5]) true).SrcSubsetIndexing.SrcIndices
      = [2, 5, 5] ∧
    ¬ (∀ i j, i < j →
      j < (TIncrementalDenseIndexing.TIncrementalDenseIndexing (.TIndexedSubset [5, 2, 5]) true).SrcSubsetIndexing.SrcIndices.length →
      (TIncrementalDenseIndexing.TIncrementalDenseIndexing (.TIndexedSubset [5, 2, 5]) true).SrcSubsetIndexing.SrcIndices.getD i 0 <
        (TIncrementalDenseIndexing.TIncrementalDenseIndexing (.TIndexedSubset [5, 2, 5]) true).SrcSubsetIndexing.SrcIndices.getD j 0) := by
  refine ⟨rfl, by decide, ?_⟩
  intro h
  exact absurd (h 1 2 (by decide) (by decide)) (by decide)

/-- C10: for a non-full subset of size N over a source with dense data, the pairs
`(SrcSubsetIndexing[i], DstIndexing[i])` are a reordering of the pairs `(srcIndex(d), d)`
for `d` in `0..N-1`; `DstIndexing` is a permutation of `0..N-1`, both arrays have N
entries, and `SrcSubsetIndexing[i]` is the source index the input subset gives to
object `DstIndexing[i]`. -/
theorem TIncrementalDenseIndexing_pairs (s : TArraySubsetIndexing)
    (hs : s.IsFullSubset = false) :
    ((TIncrementalDenseIndexing.TIncrementalDenseIndexing s true).SrcSubsetIndexing.SrcIndices.zip
        (TIncrementalDenseIndexing.TIncrementalDenseIndexing s true).DstIndexing.SrcIndices).Perm
      ((List.range s.Size).map (fun d => (s.SrcIndices.getD d 0, d))) ∧
    (TIncrementalDenseIndexing.TIncrementalDenseIndexing s true).DstIndexing.SrcIndices.Perm
      (List.range s.Size) ∧
    (TIncrementalDenseIndexing.TIncrementalDenseIndexing s true).SrcSubsetIndexing.Size = s.Size ∧
    (TIncrementalDenseIndexing.TIncrementalDenseIndexing s true).DstIndexing.Size = s.Size ∧
    ∀ i, i < s.Size →
      (TIncrementalDenseIndexing.TIncrementalDenseIndexing s true).SrcSubsetIndexing.SrcIndices.getD i 0 =
        s.SrcIndices.getD
          ((TIncrementalDenseIndexing.TIncrementalDenseIndexing s true).DstIndexing.SrcIndices.getD i 0) 0 := by
  rw [TIncrementalDenseIndexing.nonFull_eq s hs]
  simp only [TArraySubsetIndexing.SrcIndices_indexed, TArraySubsetIndexing.Size]
  have hperm := SortByFirst_perm (s.SrcIndices.zip (List.range s.SrcIndices.length))
  have hlen := SortByFirst_length (s.SrcIndices.zip (List.range s.SrcIndices.length))
  have hlen2 : (s.SrcIndices.zip (List.range s.SrcIndices.length)).length = s.SrcIndices.length := by
    simp [List.length_zip]
  refine ⟨?_, ?_, ?_, ?_, ?_⟩
  · rw [zip_map_fst_map_snd, ← zip_range_eq_map]
    exact hperm
  · have h1 := hperm.map Prod.snd
    have h2 : (s.SrcIndices.zip (List.range s.SrcIndices.length)).map Prod.snd =
        List.range s.SrcIndices.length := by
      apply List.map_snd_zip
      simp
    rw [h2] at h1
    exact h1
  · simp [hlen, hlen2]
  · simp [hlen, hlen2]
  · intro i hi
    have hi2 : i < (SortByFirst (s.SrcIndices.zip (List.range s.SrcIndices.length))).length := by
      rw [hlen, hlen2]
      exact hi
    rw [getD_map_fst _ i hi2, getD_map_snd _ i hi2]
    have hmem : (SortByFirst (s.SrcIndices.zip (List.range s.SrcIndices.length)))[i] ∈
        s.SrcIndices.zip (List.range s.SrcIndices.length) :=
      hperm.subset (List.getElem_mem _)
    exact (mem_zip_range hmem).2.symm

/-- Witness for C10: the subset selecting source positions 5, 2, 5. -/
theorem TIncrementalDenseIndexing_pairs_witness :
    (TIncrementalDenseIndexing.TIncrementalDenseIndexing (.TIndexedSubset [5, 2, 5]) true).DstIndexing.SrcIndices.Perm
      (List.range (TArraySubsetIndexing.TIndexedSubset [5, 2, 5]).Size) :=
  (TIncrementalDenseIndexing_pairs (.TIndexedSubset [5, 2, 5]) rfl).2.1

/-! ## Loops in `Except` -/

/-- A loop whose every step succeeds is the pure fold of the steps. -/
theorem foldlM_ok {σ β : Type} {f : σ → β → Except EError σ} {g : σ → β → σ} (l : List β)
    (h : ∀ s, ∀ b ∈ l, f s b = .ok (g s b)) (s : σ) :
    l.foldlM f s = .ok (l.foldl g s) := by
  induction l generalizing s with
  | nil => rfl
  | cons b l ih =>
    rw [List.foldlM_cons, h s b (List.mem_cons_self _ _)]
    exact ih (fun s b hb => h s b (List.mem_cons_of_mem _ hb)) (g s b)

theorem foldl_congr_mem {σ β : Type} {g g2 : σ → β → σ} (l : List β)
    (h : ∀ s, ∀ b ∈ l, g s b = g2 s b) (s : σ) :
    l.foldl g s = l.foldl g2 s := by
  induction l generalizing s with
  | nil => rfl
  | cons b l ih =>
    rw [List.foldl_cons, List.foldl_cons, h s b (List.mem_cons_self _ _)]
    exact ih (fun s b hb => h s b (List.mem_cons_of_mem _ hb)) (g2 s b)

/-! ## The combine operations -/

/-- C5: the exclusive feature bundle combine operation leaves the destination cell
unchanged when `value = 0`; when `value != 0` it writes `boundsBegin + value - 1`
converted to the cell type, which is `boundsBegin + value - 1` itself whenever that
number fits the cell. -/
theorem ExclusiveFeatureBundle_AddToAggregate_writes (dstBits boundsBegin value dstValue : Nat) :
    (value = 0 →
      ExclusiveFeatureBundle.AddToAggregate dstBits boundsBegin value dstValue = dstValue) ∧
    (value ≠ 0 → dstBits ≤ 32 →
      ExclusiveFeatureBundle.AddToAggregate dstBits boundsBegin value dstValue =
        (boundsBegin + value - 1) % 2 ^ dstBits) ∧
    (value ≠ 0 → dstBits ≤ 32 → boundsBegin + value - 1 < 2 ^ dstBits →
      ExclusiveFeatureBundle.AddToAggregate dstBits boundsBegin value dstValue =
        boundsBegin + value - 1) := by
  have hmod : ∀ x : Nat, dstBits ≤ 32 → x % 2 ^ 32 % 2 ^ dstBits = x % 2 ^ dstBits := by
    intro x hb
    exact Nat.mod_mod_of_dvd x (Nat.pow_dvd_pow 2 hb)
  refine ⟨?_, ?_, ?_⟩
  · intro h0
    simp [ExclusiveFeatureBundle.AddToAggregate, h0]
  · intro hne hb
    unfold ExclusiveFeatureBundle.AddToAggregate
    rw [if_pos hne, hmod _ hb]
  · intro hne hb hfit
    unfold ExclusiveFeatureBundle.AddToAggregate
    rw [if_pos hne, hmod _ hb, Nat.mod_eq_of_lt hfit]

/-- Witness for C5: an 8-bit cell holding 200, part bounds beginning at 10. -/
theorem ExclusiveFeatureBundle_AddToAggregate_writes_witness :
    ExclusiveFeatureBundle.AddToAggregate 8 10 0 200 = 200 ∧
    ExclusiveFeatureBundle.AddToAggregate 8 10 3 200 = 12 :=
  ⟨(ExclusiveFeatureBundle_AddToAggregate_writes 8 10 0 200).1 rfl,
   (ExclusiveFeatureBundle_AddToAggregate_writes 8 10 3 200).2.2 (by decide) (by decide)
     (by decide)⟩

theorem testBit_of_le_one {value : Nat} (hv : value ≤ 1) (k : Nat) :
    value.testBit k = (decide (k = 0) && decide (value = 1)) := by
  have h01 : value = 0 ∨ value = 1 := by omega
  rcases h01 with h | h
  · subst h
    simp
  · subst h
    cases k with
    | zero => simp
    | succ k =>
      have : (1 : Nat).testBit (k + 1) = false :=
        Nat.testBit_lt_two_pow (Nat.one_lt_two_pow (Nat.succ_ne_zero k))
      simp [this]

/-- C6: the binary pack combine operation, for a cell of `dstBits <= 32` bits, a part
index `p` below the pack width and a value in {0, 1}: afterwards bit `p` of the cell is
the value and every other bit of the cell is unchanged. -/
theorem BinaryPack_AddToAggregate_bits (dstBits aggregateIdx p value dstValue : Nat)
    (hbits : dstBits ≤ 32) (hp : p < dstBits) (hv : value ≤ 1) (hdst : dstValue < 2 ^ dstBits) :
    (BinaryPack.AddToAggregate dstBits (BinaryPack.GetAggregationContext aggregateIdx p)
        value dstValue).testBit p = decide (value = 1) ∧
    ∀ j, j ≠ p →
      (BinaryPack.AddToAggregate dstBits (BinaryPack.GetAggregationContext aggregateIdx p)
        value dstValue).testBit j = dstValue.testBit j := by
  have hp32 : p < 32 := Nat.lt_of_lt_of_le hp hbits
  have hp8 : p % 2 ^ 8 = p := Nat.mod_eq_of_lt (by omega)
  have hcell : ∀ j, (BinaryPack.AddToAggregate dstBits
      (BinaryPack.GetAggregationContext aggregateIdx p) value dstValue).testBit j =
      (decide (j < dstBits) &&
        ((decide (j < 32) && dstValue.testBit j && (decide (j < 32) ^^ (decide (j < 32) && decide (p = j))))
          || (decide (j < 32) && (decide (p ≤ j) && value.testBit (j - p))))) := by
    intro j
    simp only [BinaryPack.AddToAggregate, BinaryPack.GetAggregationContext, hp8,
      Nat.testBit_mod_two_pow, Nat.testBit_or, Nat.testBit_and, Nat.testBit_xor,
      Nat.testBit_two_pow_sub_one, Nat.testBit_shiftLeft, Nat.one_shiftLeft,
      Nat.testBit_two_pow, ge_iff_le]
  refine ⟨?_, ?_⟩
  · rw [hcell p, testBit_of_le_one hv]
    simp [hp, hp32]
  · intro j hj
    rw [hcell j, testBit_of_le_one hv]
    by_cases hjb : j < dstBits
    · have hj32 : j < 32 := Nat.lt_of_lt_of_le hjb hbits
      have hpj : ¬ p = j := fun h => hj h.symm
      have hsub : ¬ (p ≤ j ∧ j - p = 0) := by omega
      by_cases hle : p ≤ j
      · have : ¬ j - p = 0 := fun h => hsub ⟨hle, h⟩
        simp [hjb, hj32, hpj, this]
      · simp [hjb, hj32, hpj, hle]
    · have hlt : dstValue < 2 ^ j :=
        Nat.lt_of_lt_of_le hdst (Nat.pow_le_pow_right (by decide) (Nat.le_of_not_lt hjb))
      simp [hjb, Nat.testBit_lt_two_pow hlt]

/-- Witness for C6: setting bit 3 of the byte 0b10100101, and clearing bit 0. -/
theorem BinaryPack_AddToAggregate_bits_witness :
    (BinaryPack.AddToAggregate 8 (BinaryPack.GetAggregationContext 0 3) 1 165).testBit 3
        = decide (1 = 1) ∧
    (BinaryPack.AddToAggregate 8 (BinaryPack.GetAggregationContext 0 3) 1 165 = 173) ∧
    (BinaryPack.AddToAggregate 8 (BinaryPack.GetAggregationContext 0 0) 0 165 = 164) :=
  ⟨(BinaryPack_AddToAggregate_bits 8 0 3 1 165 (by decide) (by decide) (by decide)
      (by decide)).1, by decide, by decide⟩

/-- C7: the features group combine operation, for a cell of `dstBits <= 32` bits and a
part index `p` whose shift `8 * p` is below 32: the cell becomes
`old cell | (v << (8 * p))` truncated to the cell width; no bit of the old cell is ever
cleared, whatever it held. -/
theorem FeaturesGroup_AddToAggregate_or (dstBits aggregateIdx p v dstValue : Nat)
    (hbits : dstBits ≤ 32) (hp : 8 * p < 32) :
    FeaturesGroup.AddToAggregate dstBits (FeaturesGroup.GetAggregationContext aggregateIdx p)
        v dstValue = (dstValue ||| (v <<< (8 * p))) % 2 ^ dstBits ∧
    ∀ i, i < dstBits → dstValue.testBit i = true →
      (FeaturesGroup.AddToAggregate dstBits (FeaturesGroup.GetAggregationContext aggregateIdx p)
        v dstValue).testBit i = true := by
  have hctx : FeaturesGroup.GetAggregationContext aggregateIdx p = 8 * p := by
    unfold FeaturesGroup.GetAggregationContext FeaturesGroup.CHAR_BIT
    have h1 : p % 2 ^ 32 = p := Nat.mod_eq_of_lt (by omega)
    rw [h1]
    have h2 : p * 8 % 2 ^ 32 = p * 8 := Nat.mod_eq_of_lt (by omega)
    rw [h2]
    omega
  rw [hctx]
  refine ⟨?_, ?_⟩
  · apply Nat.eq_of_testBit_eq
    intro i
    simp only [FeaturesGroup.AddToAggregate, Nat.testBit_mod_two_pow, Nat.testBit_or,
      Nat.testBit_shiftLeft]
    by_cases hi : i < dstBits
    · have hi32 : i < 32 := Nat.lt_of_lt_of_le hi hbits
      simp [hi, hi32]
    · simp [hi]
  · intro i hi hbit
    simp only [FeaturesGroup.AddToAggregate, Nat.testBit_mod_two_pow, Nat.testBit_or]
    simp [hi, hbit]

/-- Witness for C7: part 1 of a 16-bit cell that already holds bits in byte 1. -/
theorem FeaturesGroup_AddToAggregate_or_witness :
    FeaturesGroup.AddToAggregate 16 (FeaturesGroup.GetAggregationContext 0 1) 5 0x0203
      = (0x0203 ||| (5 <<< (8 * 1))) % 2 ^ 16 :=
  (FeaturesGroup_AddToAggregate_or 16 0 1 5 0x0203 (by decide) (by decide)).1

theorem GetDefaultQuantizedValue_eq {F C : Type} (info : TQuantizedFeaturesInfo F C)
    (part : TFeatureIdxWithType) (htype : part.FeatureType ≠ .Text) :
    GetDefaultQuantizedValue info part = .ok (BinaryPack.PartDefaultBin info part) := by
  unfold GetDefaultQuantizedValue BinaryPack.PartDefaultBin
  cases h : part.FeatureType with
  | Float => rfl
  | Categorical => rfl
  | Text => exact absurd h htype

theorem shiftLeft_bit_lt {bin i : Nat} (hbin : bin ≤ 1) (hi : i < 32) :
    (bin <<< i) % 2 ^ 32 = bin <<< i := by
  apply Nat.mod_eq_of_lt
  rw [Nat.shiftLeft_eq]
  calc bin * 2 ^ i ≤ 1 * 2 ^ i := Nat.mul_le_mul_right _ hbin
    _ = 2 ^ i := Nat.one_mul _
    _ < 2 ^ 32 := Nat.pow_lt_pow_right (by decide) hi

/-- C8: when every part of a binary pack is a float or categorical feature whose default
bin, if any, is 0 or 1 (the assertion of the source), and the pack has at most 32 parts,
`GetDefaultValue` returns the bitwise OR over the parts `i` of
`(default bin of part i) << i`, a part without a default bin contributing 0; for a pack
of two parts that is `defaultBinA | (defaultBinB << 1)`. -/
theorem BinaryPack_GetDefaultValue_composed {F C : Type} (BITS_PER_PACK : Nat)
    (PackedBinaryToSrcIndex : List TFeatureIdxWithType) (info : TQuantizedFeaturesInfo F C)
    (aggregateIdx : Nat)
    (hn : BinaryPack.GetAggregatePartsCount BITS_PER_PACK PackedBinaryToSrcIndex aggregateIdx ≤ 32)
    (htype : ∀ i, i < BinaryPack.GetAggregatePartsCount BITS_PER_PACK PackedBinaryToSrcIndex aggregateIdx →
      (BinaryPack.GetSrcPart BITS_PER_PACK PackedBinaryToSrcIndex aggregateIdx i).FeatureType ≠ .Text)
    (hbin : ∀ i, i < BinaryPack.GetAggregatePartsCount BITS_PER_PACK PackedBinaryToSrcIndex aggregateIdx →
      ∀ d, BinaryPack.PartDefaultBin info
        (BinaryPack.GetSrcPart BITS_PER_PACK PackedBinaryToSrcIndex aggregateIdx i) = some d → d ≤ 1) :
    BinaryPack.GetDefaultValue BITS_PER_PACK PackedBinaryToSrcIndex info aggregateIdx =
      .ok (BinaryPack.ComposedDefault
        ((List.range (BinaryPack.GetAggregatePartsCount BITS_PER_PACK PackedBinaryToSrcIndex
            aggregateIdx)).map
          (fun i => BinaryPack.PartDefaultBin info
            (BinaryPack.GetSrcPart BITS_PER_PACK PackedBinaryToSrcIndex aggregateIdx i)))) ∧
    (BinaryPack.GetAggregatePartsCount BITS_PER_PACK PackedBinaryToSrcIndex aggregateIdx = 2 →
      BinaryPack.GetDefaultValue BITS_PER_PACK PackedBinaryToSrcIndex info aggregateIdx =
        .ok (((BinaryPack.PartDefaultBin info
                (BinaryPack.GetSrcPart BITS_PER_PACK PackedBinaryToSrcIndex aggregateIdx 0)).getD 0)
          ||| (((BinaryPack.PartDefaultBin info
                (BinaryPack.GetSrcPart BITS_PER_PACK PackedBinaryToSrcIndex aggregateIdx 1)).getD 0)
            <<< 1))) := by
  have hcode : BinaryPack.GetDefaultValue BITS_PER_PACK PackedBinaryToSrcIndex info aggregateIdx =
      .ok ((List.range (BinaryPack.GetAggregatePartsCount BITS_PER_PACK PackedBinaryToSrcIndex
            aggregateIdx)).foldl
        (fun result i => result ||| (((BinaryPack.PartDefaultBin info
            (BinaryPack.GetSrcPart BITS_PER_PACK PackedBinaryToSrcIndex aggregateIdx i)).getD 0)
              <<< i)) 0) := by
    unfold BinaryPack.GetDefaultValue
    apply foldlM_ok
    intro result i hi
    have hi2 := List.mem_range.1 hi
    rw [GetDefaultQuantizedValue_eq info _ (htype i hi2)]
    cases hd : BinaryPack.PartDefaultBin info
        (BinaryPack.GetSrcPart BITS_PER_PACK PackedBinaryToSrcIndex aggregateIdx i) with
    | none =>
      show (Except.ok result : Except EError Nat) = _
      simp
    | some d =>
      show (Except.ok (result ||| (d <<< i) % 2 ^ 32) : Except EError Nat) = _
      rw [shiftLeft_bit_lt (hbin i hi2 d hd) (Nat.lt_of_lt_of_le hi2 hn)]
      simp
  refine ⟨?_, ?_⟩
  · rw [hcode]
    unfold BinaryPack.ComposedDefault
    rw [List.length_map, List.length_range]
    congr 1
    apply foldl_congr_mem
    intro result i hi
    have hi2 := List.mem_range.1 hi
    simp [List.getD_eq_getElem?_getD, hi2]
  · intro h2
    rw [hcode, h2]
    simp [List.range_succ]

/-! ## Writes by destination index -/

theorem foldl_set_length {α : Type} (upd : α → Nat → Nat) (visits : List (Nat × α))
    (dst : List Nat) :
    (visits.foldl (fun d v => d.set v.1 (upd v.2 (d.getD v.1 0))) dst).length = dst.length := by
  induction visits generalizing dst with
  | nil => rfl
  | cons v visits ih =>
    rw [List.foldl_cons, ih, List.length_set]

theorem getD_set_ne (dst : List Nat) (i o x : Nat) (h : i ≠ o) :
    (dst.set i x).getD o 0 = dst.getD o 0 := by
  simp [List.getD_eq_getElem?_getD, List.getElem?_set, h]

theorem getD_set_eq (dst : List Nat) (o x : Nat) (h : o < dst.length) :
    (dst.set o x).getD o 0 = x := by
  simp [List.getD_eq_getElem?_getD, List.getElem?_set, h]

/-- A destination index that no visit names keeps its content. -/
theorem foldl_set_getD_of_not_mem {α : Type} (upd : α → Nat → Nat) (visits : List (Nat × α))
    (dst : List Nat) (o : Nat) (ho : o ∉ visits.map Prod.fst) :
    (visits.foldl (fun d v => d.set v.1 (upd v.2 (d.getD v.1 0))) dst).getD o 0 = dst.getD o 0 := by
  induction visits generalizing dst with
  | nil => rfl
  | cons v visits ih =>
    rw [List.map_cons, List.mem_cons, not_or] at ho
    rw [List.foldl_cons, ih _ ho.2]
    exact getD_set_ne dst v.1 o _ (fun h => ho.1 h.symm)

/-- When the visits name pairwise distinct destination indices, the cell of a visited
index is updated exactly once, with the value of its own visit. -/
theorem foldl_set_getD_of_mem {α : Type} (upd : α → Nat → Nat) (visits : List (Nat × α))
    (dst : List Nat) (hnd : (visits.map Prod.fst).Nodup) (o : Nat) (a : α)
    (hmem : (o, a) ∈ visits) (ho : o < dst.length) :
    (visits.foldl (fun d v => d.set v.1 (upd v.2 (d.getD v.1 0))) dst).getD o 0 =
      upd a (dst.getD o 0) := by
  induction visits generalizing dst with
  | nil => cases hmem
  | cons v visits ih =>
    rw [List.map_cons, List.nodup_cons] at hnd
    rw [List.foldl_cons]
    rcases List.mem_cons.1 hmem with h | h
    · subst h
      rw [foldl_set_getD_of_not_mem upd visits _ _ hnd.1]
      exact getD_set_eq dst _ _ ho
    · have hne : v.1 ≠ o := by
        intro heq
        apply hnd.1
        rw [heq]
        exact List.mem_map_of_mem Prod.fst h
      rw [ih _ hnd.2 h (by rw [List.length_set]; exact ho)]
      rw [getD_set_ne dst v.1 o _ hne]

/-- The loop of `QuantizeNonDefaultValues` when every visited value quantizes. -/
theorem QuantizeEach_ok {α σ : Type} (valueQuantizer : TValueQuantizer α) (bin : α → Nat)
    (callback : Nat → Nat → σ → σ) (visits : List (Nat × α)) (state : σ)
    (hq : ∀ v ∈ visits, valueQuantizer.Quantize v.2 = .ok (bin v.2)) :
    QuantizeEach valueQuantizer callback visits state =
      .ok (visits.foldl (fun st v => callback v.1 (bin v.2) st) state) := by
  unfold QuantizeEach
  apply foldlM_ok
  intro st v hv
  rw [hq v hv]
  rfl

/-! ## Iteration over a dense column in incremental order -/

theorem TIncrementalDenseIndexing.full_eq (s : TArraySubsetIndexing) (hasDenseData : Bool)
    (h : (hasDenseData && !s.IsFullSubset) = false) :
    TIncrementalDenseIndexing.TIncrementalDenseIndexing s hasDenseData =
      { SrcSubsetIndexing := .TFullSubset s.Size, DstIndexing := .TFullSubset s.Size } := by
  simp only [TIncrementalDenseIndexing.TIncrementalDenseIndexing, h]
  rfl

theorem map_range_getD {β : Type} (l : List Nat) (g : Nat → β) :
    (List.range l.length).map (fun i => g (l.getD i 0)) = l.map g := by
  apply List.ext_getElem
  · simp
  · intro k h1 h2
    have hk : k < l.length := by simpa using h2
    simp [List.getD_eq_getElem?_getD, List.getElem?_eq_getElem hk]

/-- For a dense column iterated through the incremental indexing built from its own
subset indexing, the callback of `QuantizeNonDefaultValues` receives the pairs
`(o, value of o)`, each object `o` once, in some order. -/
theorem QuantizeNonDefaultValuesVisits_dense {α : Type} (d : TDenseData α)
    (hasDenseData : Bool) :
    ∃ visits, QuantizeNonDefaultValuesVisits (.Dense d)
        (TIncrementalDenseIndexing.TIncrementalDenseIndexing d.SubsetIndexing hasDenseData)
        = .ok visits ∧ visits.Perm d.ForEach := by
  by_cases hcase : (hasDenseData && !d.SubsetIndexing.IsFullSubset) = true
  · have hflag : hasDenseData = true := by
      cases hasDenseData with
      | true => rfl
      | false => simp at hcase
    have hfull : d.SubsetIndexing.IsFullSubset = false := by
      cases h : d.SubsetIndexing.IsFullSubset with
      | false => rfl
      | true => simp [h] at hcase
    subst hflag
    have hpairs := TIncrementalDenseIndexing_pairs_aux d.SubsetIndexing
    rw [TIncrementalDenseIndexing.nonFull_eq _ hfull]
    refine ⟨_, rfl, ?_⟩
    obtain ⟨hperm, hsrc, hlen⟩ := hpairs
    simp only [TDenseData.ForEach, TDenseData.CloneWithNewSubsetIndexing, TDenseData.GetSize,
      TDenseData.GetValue, TArraySubsetIndexing.Size, TArraySubsetIndexing.SrcIndices_indexed,
      List.map_map]
    rw [List.length_map, hlen]
    have hfun : (List.range d.SubsetIndexing.SrcIndices.length).map
        ((fun visit : Nat × α =>
            (((SortByFirst (d.SubsetIndexing.SrcIndices.zip
                (List.range d.SubsetIndexing.SrcIndices.length))).map Prod.snd).getD visit.1 0,
              visit.2)) ∘
          fun objectIdx =>
            (objectIdx,
              d.Src (((SortByFirst (d.SubsetIndexing.SrcIndices.zip
                (List.range d.SubsetIndexing.SrcIndices.length))).map Prod.fst).getD objectIdx 0)))
        = ((SortByFirst (d.SubsetIndexing.SrcIndices.zip
                (List.range d.SubsetIndexing.SrcIndices.length))).map Prod.snd).map
            (fun o => (o, d.Src (d.SubsetIndexing.SrcIndices.getD o 0))) := by
      refine Eq.trans ?_ (map_range_getD _ _)
      rw [List.length_map, hlen]
      apply List.map_congr_left
      intro i hi
      have hi2 := List.mem_range.1 hi
      simp only [Function.comp]
      rw [hsrc i hi2]
    rw [hfun]
    exact hperm.map _
  · have hcase2 : (hasDenseData && !d.SubsetIndexing.IsFullSubset) = false := by
      simpa using hcase
    rw [TIncrementalDenseIndexing.full_eq _ _ hcase2]
    exact ⟨_, rfl, List.Perm.refl _⟩

/-! ## Sparse columns -/

theorem lookup_of_not_mem {α : Type} (l : List (Nat × α)) (o : Nat)
    (h : o ∉ l.map Prod.fst) : l.lookup o = none := by
  induction l with
  | nil => rfl
  | cons p l ih =>
    obtain ⟨k, b⟩ := p
    rw [List.map_cons, List.mem_cons, not_or] at h
    have hne : (o == k) = false := by simpa using h.1
    rw [List.lookup_cons, hne]
    exact ih h.2

theorem lookup_of_mem {α : Type} (l : List (Nat × α)) (hnd : (l.map Prod.fst).Nodup)
    (o : Nat) (a : α) (h : (o, a) ∈ l) : l.lookup o = some a := by
  induction l with
  | nil => cases h
  | cons p l ih =>
    obtain ⟨k, b⟩ := p
    rw [List.map_cons, List.nodup_cons] at hnd
    rcases List.mem_cons.1 h with h1 | h1
    · cases h1
      rw [List.lookup_cons]
      simp
    · have hne : (o == k) = false := by
        have : o ≠ k := by
          intro heq
          apply hnd.1
          rw [← heq]
          exact List.mem_map.2 ⟨(o, a), h1, rfl⟩
        simpa using this
      rw [List.lookup_cons, hne]
      exact ih hnd.2 h1

theorem TSparseArray.keys_nodup {α : Type} (a : TSparseArray α) (hwf : a.WellFormed) :
    (a.NonDefault.map Prod.fst).Nodup :=
  List.Pairwise.imp (fun h => Nat.ne_of_lt h) hwf.1

theorem TSparseArray.GetValue_of_mem {α : Type} (a : TSparseArray α) (hwf : a.WellFormed)
    (o : Nat) (v : α) (h : (o, v) ∈ a.NonDefault) : a.GetValue o = v := by
  unfold TSparseArray.GetValue
  rw [lookup_of_mem _ (a.keys_nodup hwf) o v h]

theorem TSparseArray.GetValue_of_not_mem {α : Type} (a : TSparseArray α) (o : Nat)
    (h : o ∉ a.NonDefault.map Prod.fst) : a.GetValue o = a.DefaultValue := by
  unfold TSparseArray.GetValue
  rw [lookup_of_not_mem _ o h]

/-- A well-formed sparse array with a non-zero default size has an object that holds
the default value. -/
theorem TSparseArray.exists_default {α : Type} (a : TSparseArray α)
    (hdef : a.GetDefaultSize ≠ 0) :
    ∃ o, o < a.Size ∧ o ∉ a.NonDefault.map Prod.fst := by
  by_contra hno
  have hall : List.range a.Size ⊆ a.NonDefault.map Prod.fst := by
    intro o ho
    by_contra hmem
    exact hno ⟨o, List.mem_range.1 ho, hmem⟩
  have hle := ((List.nodup_range a.Size).subperm hall).length_le
  rw [List.length_range, List.length_map] at hle
  unfold TSparseArray.GetDefaultSize at hdef
  omega

/-- A well-formed sparse array with default size zero stores an entry for every object. -/
theorem TSparseArray.all_stored {α : Type} (a : TSparseArray α) (hwf : a.WellFormed)
    (hdef : a.GetDefaultSize = 0) (o : Nat) (ho : o < a.Size) :
    o ∈ a.NonDefault.map Prod.fst := by
  have hsub : a.NonDefault.map Prod.fst ⊆ List.range a.Size := by
    intro i hi
    exact List.mem_range.2 (hwf.2 i hi)
  have hsp := (a.keys_nodup hwf).subperm hsub
  have hlen : (List.range a.Size).length ≤ (a.NonDefault.map Prod.fst).length := by
    rw [List.length_range, List.length_map]
    unfold TSparseArray.GetDefaultSize at hdef
    omega
  exact (hsp.perm_of_length_le hlen).symm.subset (List.mem_range.2 ho)

theorem getElem?_eq_some_getD (l : List Nat) (o : Nat) (h : o < l.length) :
    l[o]? = some (l.getD o 0) := by
  simp [List.getD_eq_getElem?_getD, List.getElem?_eq_getElem h]

/-! ## The dense materializer -/

theorem CreateWithUninitializedData_length (size storedBits : Nat) (uninit : Nat → Nat) :
    (CreateWithUninitializedData size storedBits uninit).length = size := by
  simp [CreateWithUninitializedData]

theorem ForEach_keys {α : Type} (d : TDenseData α) :
    d.ForEach.map Prod.fst = List.range d.GetSize := by
  simp [TDenseData.ForEach, Function.comp_def]

theorem mem_ForEach {α : Type} (d : TDenseData α) (v : Nat × α) :
    v ∈ d.ForEach ↔ v.1 < d.GetSize ∧ v.2 = d.GetValue v.1 := by
  obtain ⟨o, a⟩ := v
  simp only [TDenseData.ForEach, List.mem_map, List.mem_range, Prod.mk.injEq]
  constructor
  · rintro ⟨i, hi, rfl, rfl⟩
    exact ⟨hi, rfl⟩
  · rintro ⟨ho, ha⟩
    exact ⟨o, ho, rfl, ha.symm⟩

theorem MakeQuantizedColumnWithoutDefaultBin_dense {α : Type} (storedBits : Nat)
    (d : TDenseData α) (hasDenseData : Bool) (valueQuantizer : TValueQuantizer α)
    (uninit : Nat → Nat) (bin : α → Nat)
    (hq : ∀ o, o < d.GetSize → valueQuantizer.Quantize (d.GetValue o) = .ok (bin (d.GetValue o))) :
    ∃ dst, MakeQuantizedColumnWithoutDefaultBin storedBits (.Dense d)
        (TIncrementalDenseIndexing.TIncrementalDenseIndexing d.SubsetIndexing hasDenseData)
        valueQuantizer uninit = .ok dst ∧
      dst.Data.length = d.GetSize ∧
      ∀ o, o < d.GetSize → dst.Data[o]? = some (bin (d.GetValue o) % 2 ^ storedBits) := by
  obtain ⟨visits, hv, hperm⟩ := QuantizeNonDefaultValuesVisits_dense d hasDenseData
  have hkeys : (visits.map Prod.fst).Perm (List.range d.GetSize) := by
    rw [← ForEach_keys]
    exact hperm.map _
  have hnd : (visits.map Prod.fst).Nodup := hkeys.nodup_iff.2 (List.nodup_range _)
  have hqv : ∀ v ∈ visits, valueQuantizer.Quantize v.2 = .ok (bin v.2) := by
    intro v hvm
    have := (mem_ForEach d v).1 (hperm.subset hvm)
    rw [this.2]
    exact hq v.1 this.1
  have hrun : MakeQuantizedColumnWithoutDefaultBin storedBits (.Dense d)
      (TIncrementalDenseIndexing.TIncrementalDenseIndexing d.SubsetIndexing hasDenseData)
      valueQuantizer uninit =
      .ok { BitsPerKey := valueQuantizer.DstBitsPerKey
            Data := visits.foldl
              (fun dst v => dst.set v.1 ((fun a _ => bin a % 2 ^ storedBits) v.2 (dst.getD v.1 0)))
              (CreateWithUninitializedData d.GetSize storedBits uninit) } := by
    unfold MakeQuantizedColumnWithoutDefaultBin QuantizeNonDefaultValues
    rw [hv]
    simp only [bind, Except.bind, pure, Except.pure]
    rw [QuantizeEach_ok valueQuantizer bin _ visits _ hqv]
    rfl
  have hlen := (foldl_set_length (fun a _ => bin a % 2 ^ storedBits) visits
    (CreateWithUninitializedData d.GetSize storedBits uninit)).trans
      (CreateWithUninitializedData_length d.GetSize storedBits uninit)
  refine ⟨_, hrun, hlen, ?_⟩
  intro o ho
  have hmem : (o, d.GetValue o) ∈ visits :=
    hperm.symm.subset ((mem_ForEach d (o, d.GetValue o)).2 ⟨ho, rfl⟩)
  have hcell := foldl_set_getD_of_mem (fun a _ => bin a % 2 ^ storedBits) visits
    (CreateWithUninitializedData d.GetSize storedBits uninit) hnd o (d.GetValue o) hmem
    (by rw [CreateWithUninitializedData_length]; exact ho)
  exact (getElem?_eq_some_getD _ o (by rw [hlen]; exact ho)).trans (congrArg some hcell)

theorem ParallelFill_length (value : Nat) (dst : List Nat) :
    (ParallelFill value dst).length = dst.length := by
  simp [ParallelFill]

theorem ParallelFill_getD (value : Nat) (dst : List Nat) (o : Nat) (ho : o < dst.length) :
    (ParallelFill value dst).getD o 0 = value := by
  simp [ParallelFill, List.getD_eq_getElem?_getD, List.getElem?_replicate, ho]

theorem MakeQuantizedColumnWithoutDefaultBin_sparse {α : Type} (storedBits : Nat)
    (a : TSparseArray α) (incr : TIncrementalDenseIndexing)
    (valueQuantizer : TValueQuantizer α) (uninit : Nat → Nat) (bin : α → Nat)
    (hwf : a.WellFormed)
    (hq : ∀ o, o < a.Size → valueQuantizer.Quantize (a.GetValue o) = .ok (bin (a.GetValue o))) :
    ∃ dst, MakeQuantizedColumnWithoutDefaultBin storedBits (.Sparse a) incr valueQuantizer uninit
        = .ok dst ∧
      dst.Data.length = a.Size ∧
      ∀ o, o < a.Size → dst.Data[o]? = some (bin (a.GetValue o) % 2 ^ storedBits) := by
  have hnd := a.keys_nodup hwf
  have hqv : ∀ v ∈ a.NonDefault, valueQuantizer.Quantize v.2 = .ok (bin v.2) := by
    intro v hv
    have h1 : v.1 < a.Size := hwf.2 v.1 (List.mem_map_of_mem Prod.fst hv)
    have h2 := a.GetValue_of_mem hwf v.1 v.2 hv
    have := hq v.1 h1
    rw [h2] at this
    exact this
  have hstored : ∀ o, o ∈ a.NonDefault.map Prod.fst → ∃ v, (o, v) ∈ a.NonDefault := by
    intro o ho
    obtain ⟨p, hp, hpo⟩ := List.mem_map.1 ho
    exact ⟨p.2, by rw [← hpo]; exact hp⟩
  by_cases hdef : a.GetDefaultSize = 0
  · have hrun : MakeQuantizedColumnWithoutDefaultBin storedBits (.Sparse a) incr valueQuantizer
        uninit =
        .ok { BitsPerKey := valueQuantizer.DstBitsPerKey
              Data := a.NonDefault.foldl
                (fun dst v => dst.set v.1 ((fun x _ => bin x % 2 ^ storedBits) v.2 (dst.getD v.1 0)))
                (CreateWithUninitializedData a.Size storedBits uninit) } := by
      unfold MakeQuantizedColumnWithoutDefaultBin QuantizeNonDefaultValues
      simp only [hdef, ne_eq, not_true_eq_false, if_false, bind, Except.bind, pure, Except.pure,
        QuantizeNonDefaultValuesVisits, TSparseArray.ForEachNonDefault]
      rw [QuantizeEach_ok valueQuantizer bin _ a.NonDefault _ hqv]
      rfl
    have hlen := (foldl_set_length (fun x _ => bin x % 2 ^ storedBits) a.NonDefault
      (CreateWithUninitializedData a.Size storedBits uninit)).trans
        (CreateWithUninitializedData_length a.Size storedBits uninit)
    refine ⟨_, hrun, hlen, ?_⟩
    intro o ho
    obtain ⟨v, hv⟩ := hstored o (a.all_stored hwf hdef o ho)
    have hcell := foldl_set_getD_of_mem (fun x _ => bin x % 2 ^ storedBits) a.NonDefault
      (CreateWithUninitializedData a.Size storedBits uninit) hnd o v hv
      (by rw [CreateWithUninitializedData_length]; exact ho)
    rw [a.GetValue_of_mem hwf o v hv]
    exact (getElem?_eq_some_getD _ o (by rw [hlen]; exact ho)).trans (congrArg some hcell)
  · obtain ⟨o0, ho0, hno0⟩ := a.exists_default hdef
    have hqd : valueQuantizer.Quantize a.DefaultValue = .ok (bin a.DefaultValue) := by
      have := hq o0 ho0
      rw [a.GetValue_of_not_mem o0 hno0] at this
      exact this
    have hrun : MakeQuantizedColumnWithoutDefaultBin storedBits (.Sparse a) incr valueQuantizer
        uninit =
        .ok { BitsPerKey := valueQuantizer.DstBitsPerKey
              Data := a.NonDefault.foldl
                (fun dst v => dst.set v.1 ((fun x _ => bin x % 2 ^ storedBits) v.2 (dst.getD v.1 0)))
                (ParallelFill (bin a.DefaultValue % 2 ^ storedBits)
                  (CreateWithUninitializedData a.Size storedBits uninit)) } := by
      unfold MakeQuantizedColumnWithoutDefaultBin QuantizeNonDefaultValues
      simp only [hdef, ne_eq, not_false_eq_true, if_true, bind, Except.bind, pure, Except.pure,
        QuantizeNonDefaultValuesVisits, TSparseArray.ForEachNonDefault,
        TSparseArray.GetDefaultValue, hqd]
      rw [QuantizeEach_ok valueQuantizer bin _ a.NonDefault _ hqv]
      rfl
    have hlen0 : (ParallelFill (bin a.DefaultValue % 2 ^ storedBits)
        (CreateWithUninitializedData a.Size storedBits uninit)).length = a.Size := by
      rw [ParallelFill_length, CreateWithUninitializedData_length]
    have hlen := (foldl_set_length (fun x _ => bin x % 2 ^ storedBits) a.NonDefault
      (ParallelFill (bin a.DefaultValue % 2 ^ storedBits)
        (CreateWithUninitializedData a.Size storedBits uninit))).trans hlen0
    refine ⟨_, hrun, hlen, ?_⟩
    intro o ho
    by_cases hmem : o ∈ a.NonDefault.map Prod.fst
    · obtain ⟨v, hv⟩ := hstored o hmem
      have hcell := foldl_set_getD_of_mem (fun x _ => bin x % 2 ^ storedBits) a.NonDefault
        (ParallelFill (bin a.DefaultValue % 2 ^ storedBits)
          (CreateWithUninitializedData a.Size storedBits uninit)) hnd o v hv
        (by rw [hlen0]; exact ho)
      rw [a.GetValue_of_mem hwf o v hv]
      exact (getElem?_eq_some_getD _ o (by rw [hlen]; exact ho)).trans (congrArg some hcell)
    · have hcell := foldl_set_getD_of_not_mem (fun x _ => bin x % 2 ^ storedBits) a.NonDefault
        (ParallelFill (bin a.DefaultValue % 2 ^ storedBits)
          (CreateWithUninitializedData a.Size storedBits uninit)) o hmem
      rw [ParallelFill_getD _ _ o (by rw [CreateWithUninitializedData_length]; exact ho)] at hcell
      rw [a.GetValue_of_not_mem o hmem]
      exact (getElem?_eq_some_getD _ o (by rw [hlen]; exact ho)).trans (congrArg some hcell)

/-- C1: `MakeQuantizedColumnWithoutDefaultBin` on a dense column (iterated through the
`TIncrementalDenseIndexing` of its own subset indexing, whatever that is) or on a
well-formed sparse column, with a quantizer that accepts every value of the column and
whose bins fit the stored width: it produces an array with one entry per object, the
entry of every object `o` being the bin of the value of `o` (for a sparse column the
value of `o` is the source default when `o` has no stored entry); and for a dense column
the destination indices handed to the callback are a permutation of the objects, so
every one is written exactly once. -/
theorem MakeQuantizedColumnWithoutDefaultBin_entries {α : Type} (storedBits : Nat)
    (srcFeature : TTypedFeatureValuesHolder α) (incr : TIncrementalDenseIndexing)
    (hasDenseData : Bool) (valueQuantizer : TValueQuantizer α) (uninit : Nat → Nat)
    (bin : α → Nat)
    (hsup : srcFeature.Supported)
    (hincr : ∀ d, srcFeature = .Dense d →
      incr = TIncrementalDenseIndexing.TIncrementalDenseIndexing d.SubsetIndexing hasDenseData)
    (hq : ∀ o, o < srcFeature.GetSize → ∀ v, srcFeature.GetValue? o = some v →
      valueQuantizer.Quantize v = .ok (bin v) ∧ bin v < 2 ^ storedBits) :
    ∃ dst, MakeQuantizedColumnWithoutDefaultBin storedBits srcFeature incr valueQuantizer uninit
        = .ok dst ∧
      dst.Data.length = srcFeature.GetSize ∧
      (∀ o, o < srcFeature.GetSize → ∀ v, srcFeature.GetValue? o = some v →
        dst.Data[o]? = some (bin v)) ∧
      (∀ d, srcFeature = .Dense d →
        ∃ visits, QuantizeNonDefaultValuesVisits srcFeature incr = .ok visits ∧
          (visits.map Prod.fst).Perm (List.range d.GetSize)) := by
  cases srcFeature with
  | Dense d =>
    rw [hincr d rfl]
    obtain ⟨dst, hrun, hlen, hcells⟩ := MakeQuantizedColumnWithoutDefaultBin_dense storedBits d
      hasDenseData valueQuantizer uninit bin (fun o ho => (hq o ho _ rfl).1)
    refine ⟨dst, hrun, hlen, ?_, ?_⟩
    · intro o ho v hv
      cases hv
      rw [hcells o ho, Nat.mod_eq_of_lt (hq o ho _ rfl).2]
    · intro d2 hd2
      cases hd2
      obtain ⟨visits, hv, hperm⟩ := QuantizeNonDefaultValuesVisits_dense d hasDenseData
      refine ⟨visits, hv, ?_⟩
      rw [← ForEach_keys]
      exact hperm.map _
  | Sparse a =>
    obtain ⟨dst, hrun, hlen, hcells⟩ := MakeQuantizedColumnWithoutDefaultBin_sparse storedBits a
      incr valueQuantizer uninit bin hsup (fun o ho => (hq o ho _ rfl).1)
    refine ⟨dst, hrun, hlen, ?_, ?_⟩
    · intro o ho v hv
      cases hv
      rw [hcells o ho, Nat.mod_eq_of_lt (hq o ho _ rfl).2]
    · intro d hd
      cases hd
  | Other size => exact absurd hsup (by simp [TTypedFeatureValuesHolder.Supported])

/-- Witness for C1: the sparse example column (bins 5, 7, 5, 9) and, evaluated, the
dense example column iterated in incremental order (bins 20, 0, 20, 10). -/
theorem MakeQuantizedColumnWithoutDefaultBin_entries_witness :
    (∃ dst, MakeQuantizedColumnWithoutDefaultBin 8 (.Sparse exampleSparse)
        (TIncrementalDenseIndexing.TIncrementalDenseIndexing (.TFullSubset 4) false)
        (exampleQuantizer 8 none) (fun i => 1000 + i) = .ok dst ∧
      dst.Data.length = 4 ∧
      (∀ o, o < 4 → ∀ v, some (exampleSparse.GetValue o) = some v → dst.Data[o]? = some v)) ∧
    MakeQuantizedColumnWithoutDefaultBin 8 (.Sparse exampleSparse)
        (TIncrementalDenseIndexing.TIncrementalDenseIndexing (.TFullSubset 4) false)
        (exampleQuantizer 8 none) (fun i => 1000 + i)
      = .ok { BitsPerKey := 8, Data := [5, 7, 5, 9] } ∧
    MakeQuantizedColumnWithoutDefaultBin 8 (.Dense exampleDense)
        (TIncrementalDenseIndexing.TIncrementalDenseIndexing exampleDense.SubsetIndexing true)
        (exampleQuantizer 8 none) (fun i => 1000 + i)
      = .ok { BitsPerKey := 8, Data := [20, 0, 20, 10] } := by
  refine ⟨?_, rfl, rfl⟩
  obtain ⟨dst, h1, h2, h3, _⟩ := MakeQuantizedColumnWithoutDefaultBin_entries 8
    (.Sparse exampleSparse)
    (TIncrementalDenseIndexing.TIncrementalDenseIndexing (.TFullSubset 4) false) false
    (exampleQuantizer 8 none) (fun i => 1000 + i) id
    (by decide)
    (by intro d hd; cases hd)
    (by
      intro o ho v hv
      cases hv
      refine ⟨rfl, ?_⟩
      have ho4 : o < 4 := ho
      interval_cases o <;> decide)
  exact ⟨dst, h1, h2, h3⟩

/-! ## The sparse materializer -/

theorem foldl_defaultBin_state {α : Type} (storedBits defaultBin : Nat) (bin : α → Nat)
    (visits : List (Nat × α)) (state : TDefaultBinBuilderState) :
    (visits.foldl
      (fun st v =>
        if bin v.2 ≠ defaultBin then
          { Indexing := st.Indexing ++ [v.1], Values := st.Values ++ [bin v.2 % 2 ^ storedBits] }
        else st) state).Indexing =
      state.Indexing ++ (visits.filter (fun v => decide (bin v.2 ≠ defaultBin))).map Prod.fst := by
  induction visits generalizing state with
  | nil => simp
  | cons v visits ih =>
    rw [List.foldl_cons, ih]
    by_cases h : bin v.2 = defaultBin
    · simp [h]
    · simp [h]

/-- What `MakeQuantizedColumnWithDefaultBin` stores for a sparse source: the index list
holds, in order, the indices of the stored (non-default) source entries whose bin
differs from the default bin of the quantizer; objects without a stored entry are never
quantized. -/
theorem MakeQuantizedColumnWithDefaultBin_sparse_indexing {α : Type} (storedBits : Nat)
    (a : TSparseArray α) (valueQuantizer : TValueQuantizer α) (bin : α → Nat)
    (defaultBin : Nat) (hdef : valueQuantizer.DefaultBin = some defaultBin)
    (hq : ∀ v ∈ a.NonDefault, valueQuantizer.Quantize v.2 = .ok (bin v.2)) :
    ∃ dst, MakeQuantizedColumnWithDefaultBin storedBits (.Sparse a) valueQuantizer = .ok dst ∧
      dst.Indexing =
        (a.NonDefault.filter (fun v => decide (bin v.2 ≠ defaultBin))).map Prod.fst ∧
      dst.DefaultValue = defaultBin ∧ dst.Size = a.Size := by
  have hloop : a.NonDefault.foldlM
      (onSrcNonDefaultValueCallback storedBits valueQuantizer defaultBin)
      { Indexing := [], Values := [] } =
      .ok (a.NonDefault.foldl
        (fun st v =>
          if bin v.2 ≠ defaultBin then
            { Indexing := st.Indexing ++ [v.1], Values := st.Values ++ [bin v.2 % 2 ^ storedBits] }
          else st) { Indexing := [], Values := [] }) := by
    apply foldlM_ok
    intro st v hv
    unfold onSrcNonDefaultValueCallback
    rw [hq v hv]
    by_cases h : bin v.2 = defaultBin
    · simp [h, bind, Except.bind, pure, Except.pure]
    · simp [h, bind, Except.bind, pure, Except.pure]
  have hrun : MakeQuantizedColumnWithDefaultBin storedBits (.Sparse a) valueQuantizer =
      .ok { Size := a.Size
            Indexing := (a.NonDefault.foldl
              (fun (st : TDefaultBinBuilderState) (v : Nat × α) =>
                if bin v.2 ≠ defaultBin then
                  { Indexing := st.Indexing ++ [v.1]
                    Values := st.Values ++ [bin v.2 % 2 ^ storedBits] }
                else st) ({ Indexing := [], Values := [] } : TDefaultBinBuilderState)).Indexing
            NonDefaultValues :=
              { BitsPerKey := valueQuantizer.DstBitsPerKey
                Data := (a.NonDefault.foldl
                  (fun (st : TDefaultBinBuilderState) (v : Nat × α) =>
                    if bin v.2 ≠ defaultBin then
                      { Indexing := st.Indexing ++ [v.1]
                        Values := st.Values ++ [bin v.2 % 2 ^ storedBits] }
                    else st) ({ Indexing := [], Values := [] } : TDefaultBinBuilderState)).Values }
            DefaultValue := defaultBin } := by
    unfold MakeQuantizedColumnWithDefaultBin
    rw [hdef]
    simp only [bind, Except.bind, pure, Except.pure, TSparseArray.ForEachNonDefault]
    rw [hloop]
    rfl
  refine ⟨_, hrun, ?_, rfl, rfl⟩
  have := foldl_defaultBin_state storedBits defaultBin bin a.NonDefault
    { Indexing := [], Values := [] }
  simpa using this

/-- C2 fails on the code: for the sparse example column whose default value 1 quantizes to
bin 1 while the quantizer reports the default bin 0, `MakeQuantizedColumnWithDefaultBin`
stores the single index 2, although three objects of the column (0, 2 and 3) have a bin
that differs from the default bin. -/
theorem MakeQuantizedColumnWithDefaultBin_skips_source_default :
    exampleSparseOtherDefault.WellFormed ∧
    MakeQuantizedColumnWithDefaultBin 8 (.Sparse exampleSparseOtherDefault)
        (exampleQuantizer 8 (some 0)) =
      .ok { Size := 4, Indexing := [2], NonDefaultValues := { BitsPerKey := 8, Data := [3] },
            DefaultValue := 0 } ∧
    CountObjectsOutsideDefaultBin (.Sparse exampleSparseOtherDefault)
        (exampleQuantizer 8 (some 0)) 0 = 3 :=
  ⟨by decide, rfl, by decide⟩

/-! ## AggregateFeatures over dense source columns -/

/-- The bin of a value as a total function: the result of `Quantize` when it succeeds. -/
theorem exists_bin {α : Type} (valueQuantizer : TValueQuantizer α) :
    ∃ bin : α → Nat, ∀ v b, valueQuantizer.Quantize v = .ok b → bin v = b := by
  refine ⟨fun v => match valueQuantizer.Quantize v with
    | .ok b => b
    | .error _ => 0, ?_⟩
  intro v b h
  simp only [h]

/-- One part over a dense column: every cell is combined once with the bin of its own
object. -/
theorem QuantizeNonDefaultValues_dense_pointwise {α : Type} (d : TDenseData α)
    (hasDenseData : Bool) (valueQuantizer : TValueQuantizer α) (B : Nat → Nat)
    (upd : Nat → Nat → Nat) (dst : List Nat) (hlen : dst.length = d.GetSize)
    (hq : ∀ o, o < d.GetSize → valueQuantizer.Quantize (d.GetValue o) = .ok (B o)) :
    ∃ dst2, QuantizeNonDefaultValues (.Dense d)
        (TIncrementalDenseIndexing.TIncrementalDenseIndexing d.SubsetIndexing hasDenseData)
        valueQuantizer (fun dstIdx quantizedValue dstDataRef =>
          dstDataRef.set dstIdx (upd quantizedValue (dstDataRef.getD dstIdx 0))) dst = .ok dst2 ∧
      dst2.length = dst.length ∧
      ∀ o, o < d.GetSize → dst2.getD o 0 = upd (B o) (dst.getD o 0) := by
  obtain ⟨bin, hbin⟩ := exists_bin valueQuantizer
  obtain ⟨visits, hv, hperm⟩ := QuantizeNonDefaultValuesVisits_dense d hasDenseData
  have hkeys : (visits.map Prod.fst).Perm (List.range d.GetSize) := by
    rw [← ForEach_keys]
    exact hperm.map _
  have hnd : (visits.map Prod.fst).Nodup := hkeys.nodup_iff.2 (List.nodup_range _)
  have hqv : ∀ v ∈ visits, valueQuantizer.Quantize v.2 = .ok (bin v.2) := by
    intro v hvm
    have hm := (mem_ForEach d v).1 (hperm.subset hvm)
    have h1 := hq v.1 hm.1
    rw [← hm.2] at h1
    rw [h1, hbin v.2 (B v.1) h1]
  have hrun : QuantizeNonDefaultValues (.Dense d)
      (TIncrementalDenseIndexing.TIncrementalDenseIndexing d.SubsetIndexing hasDenseData)
      valueQuantizer (fun dstIdx quantizedValue dstDataRef =>
        dstDataRef.set dstIdx (upd quantizedValue (dstDataRef.getD dstIdx 0))) dst =
      .ok (visits.foldl
        (fun dst v => dst.set v.1 ((fun a old => upd (bin a) old) v.2 (dst.getD v.1 0))) dst) := by
    unfold QuantizeNonDefaultValues
    rw [hv]
    simp only [bind, Except.bind]
    rw [QuantizeEach_ok valueQuantizer bin _ visits _ hqv]
  refine ⟨_, hrun, foldl_set_length (fun a old => upd (bin a) old) visits dst, ?_⟩
  intro o ho
  have hmem : (o, d.GetValue o) ∈ visits :=
    hperm.symm.subset ((mem_ForEach d (o, d.GetValue o)).2 ⟨ho, rfl⟩)
  have hcell := foldl_set_getD_of_mem (fun a old => upd (bin a) old) visits dst hnd o
    (d.GetValue o) hmem (by rw [hlen]; exact ho)
  have h2 := hbin _ _ (hq o ho)
  refine hcell.trans ?_
  show upd (bin (d.GetValue o)) (dst.getD o 0) = _
  rw [h2]

/-- One iteration of the loop over the parts, for a part whose source column is dense. -/
theorem AggregatePart_dense {F C Ctx : Type} (q : TColumnsQuantizer F C)
    (agg : TColumnsAggregator Ctx) (aggregateIdx bitsPerKey : Nat) (S : TArraySubsetIndexing)
    (hasDenseData : Bool)
    (hincr : q.IncrementalDenseIndexing =
      TIncrementalDenseIndexing.TIncrementalDenseIndexing S hasDenseData)
    (partIdx : Nat) (hdense : q.PartIsDenseOver S (agg.GetSrcPart aggregateIdx partIdx))
    (B : Nat → Nat)
    (hq : ∀ o, o < S.Size →
      q.QuantizePartValue (agg.GetSrcPart aggregateIdx partIdx) o = .ok (B o))
    (dst : List Nat) (hlen : dst.length = S.Size) :
    ∃ dst2, AggregatePart q agg aggregateIdx bitsPerKey dst partIdx = .ok dst2 ∧
      dst2.length = dst.length ∧
      ∀ o, o < S.Size → dst2.getD o 0 =
        agg.AddToAggregate bitsPerKey (agg.GetAggregationContext aggregateIdx partIdx) (B o)
          (dst.getD o 0) := by
  unfold AggregatePart
  unfold TColumnsQuantizer.PartIsDenseOver at hdense
  unfold TColumnsQuantizer.QuantizePartValue at hq
  rw [hincr]
  cases htype : (agg.GetSrcPart aggregateIdx partIdx).FeatureType with
  | Float =>
    rw [htype] at hdense hq
    simp only at hdense hq
    simp only [htype]
    cases hcol : q.RawObjectsData.FloatFeatures (agg.GetSrcPart aggregateIdx partIdx).FeatureIdx with
    | Dense d =>
      rw [hcol] at hdense hq
      have hS : d.SubsetIndexing = S := hdense
      subst hS
      exact QuantizeNonDefaultValues_dense_pointwise d hasDenseData _ B
        (agg.AddToAggregate bitsPerKey (agg.GetAggregationContext aggregateIdx partIdx)) dst hlen
        (fun o ho => hq o ho)
    | Sparse a => rw [hcol] at hdense; exact absurd hdense (fun h => h)
    | Other n => rw [hcol] at hdense; exact absurd hdense (fun h => h)
  | Categorical =>
    rw [htype] at hdense hq
    simp only at hdense hq
    simp only [htype]
    cases hcol : q.RawObjectsData.CatFeatures (agg.GetSrcPart aggregateIdx partIdx).FeatureIdx with
    | Dense d =>
      rw [hcol] at hdense hq
      have hS : d.SubsetIndexing = S := hdense
      subst hS
      exact QuantizeNonDefaultValues_dense_pointwise d hasDenseData _ B
        (agg.AddToAggregate bitsPerKey (agg.GetAggregationContext aggregateIdx partIdx)) dst hlen
        (fun o ho => hq o ho)
    | Sparse a => rw [hcol] at hdense; exact absurd hdense (fun h => h)
    | Other n => rw [hcol] at hdense; exact absurd hdense (fun h => h)
  | Text =>
    rw [htype] at hdense
    exact absurd hdense (fun h => h)

/-- The loop over the first `k` parts, all with dense source columns: every cell is
combined with the bins of its own object, part after part. -/
theorem AggregateParts_dense {F C Ctx : Type} (q : TColumnsQuantizer F C)
    (agg : TColumnsAggregator Ctx) (aggregateIdx bitsPerKey : Nat) (S : TArraySubsetIndexing)
    (hasDenseData : Bool)
    (hincr : q.IncrementalDenseIndexing =
      TIncrementalDenseIndexing.TIncrementalDenseIndexing S hasDenseData)
    (B : Nat → Nat → Nat) (k : Nat)
    (hparts : ∀ p, p < k → q.PartIsDenseOver S (agg.GetSrcPart aggregateIdx p) ∧
      ∀ o, o < S.Size → q.QuantizePartValue (agg.GetSrcPart aggregateIdx p) o = .ok (B p o))
    (dst : List Nat) (hlen : dst.length = S.Size) :
    ∃ dst2, (List.range k).foldlM (AggregatePart q agg aggregateIdx bitsPerKey) dst = .ok dst2 ∧
      dst2.length = dst.length ∧
      ∀ o, o < S.Size → dst2.getD o 0 =
        (List.range k).foldl
          (fun cell p =>
            agg.AddToAggregate bitsPerKey (agg.GetAggregationContext aggregateIdx p) (B p o) cell)
          (dst.getD o 0) := by
  induction k with
  | zero => exact ⟨dst, rfl, rfl, fun o _ => rfl⟩
  | succ k ih =>
    obtain ⟨dst1, hrun1, hlen1, hcells1⟩ :=
      ih (fun p hp => hparts p (Nat.lt_succ_of_lt hp))
    obtain ⟨dst2, hrun2, hlen2, hcells2⟩ := AggregatePart_dense q agg aggregateIdx bitsPerKey S
      hasDenseData hincr k (hparts k (Nat.lt_succ_self k)).1 (B k)
      (hparts k (Nat.lt_succ_self k)).2 dst1 (by rw [hlen1]; exact hlen)
    refine ⟨dst2, ?_, by rw [hlen2, hlen1], ?_⟩
    · rw [List.range_succ, List.foldlM_append, hrun1]
      simp only [bind, Except.bind, List.foldlM_cons, List.foldlM_nil]
      rw [hrun2]
      rfl
    · intro o ho
      rw [hcells2 o ho, hcells1 o ho, List.range_succ, List.foldl_append]
      rfl

/-- The cells `AggregateFeatures` produces over dense source columns: the aggregate
default, converted to the cell type, combined with the bin of every part in part order. -/
theorem AggregateFeatures_dense {F C Ctx : Type} (q : TColumnsQuantizer F C)
    (agg : TColumnsAggregator Ctx) (aggregateIdx : Nat) (uninit : Nat → Nat)
    (S : TArraySubsetIndexing) (hasDenseData : Bool)
    (hincr : q.IncrementalDenseIndexing =
      TIncrementalDenseIndexing.TIncrementalDenseIndexing S hasDenseData)
    (hcount : q.ObjectCount = S.Size)
    (hbits : agg.GetAggregateBitsPerKey aggregateIdx = 8 ∨
      agg.GetAggregateBitsPerKey aggregateIdx = 16 ∨ agg.GetAggregateBitsPerKey aggregateIdx = 32)
    (defaultValue : Nat) (hdefault : agg.GetDefaultValue aggregateIdx = .ok defaultValue)
    (B : Nat → Nat → Nat)
    (hparts : ∀ p, p < agg.GetAggregatePartsCount aggregateIdx →
      q.PartIsDenseOver S (agg.GetSrcPart aggregateIdx p) ∧
      ∀ o, o < S.Size → q.QuantizePartValue (agg.GetSrcPart aggregateIdx p) o = .ok (B p o)) :
    ∃ arr, AggregateFeatures q agg aggregateIdx uninit = .ok arr ∧
      arr.BitsPerKey = agg.GetAggregateBitsPerKey aggregateIdx ∧
      arr.Data.length = S.Size ∧
      ∀ o, o < S.Size → arr.Data.getD o 0 =
        (List.range (agg.GetAggregatePartsCount aggregateIdx)).foldl
          (fun cell p =>
            agg.AddToAggregate (agg.GetAggregateBitsPerKey aggregateIdx)
              (agg.GetAggregationContext aggregateIdx p) (B p o) cell)
          (defaultValue % 2 ^ agg.GetAggregateBitsPerKey aggregateIdx) := by
  have hlen0 : (ParallelFill (defaultValue % 2 ^ agg.GetAggregateBitsPerKey aggregateIdx)
      (CreateWithUninitializedData q.ObjectCount (agg.GetAggregateBitsPerKey aggregateIdx)
        uninit)).length = S.Size := by
    rw [ParallelFill_length, CreateWithUninitializedData_length, hcount]
  obtain ⟨dst2, hrun, hlen, hcells⟩ := AggregateParts_dense q agg aggregateIdx
    (agg.GetAggregateBitsPerKey aggregateIdx) S hasDenseData hincr B
    (agg.GetAggregatePartsCount aggregateIdx) hparts _ hlen0
  refine ⟨{ BitsPerKey := agg.GetAggregateBitsPerKey aggregateIdx, Data := dst2 }, ?_, rfl,
    by rw [hlen, hlen0], ?_⟩
  · unfold AggregateFeatures
    simp only [hbits, if_true, hdefault, bind, Except.bind]
    rw [hrun]
    rfl
  · intro o ho
    rw [hcells o ho, ParallelFill_getD _ _ o
      (by rw [CreateWithUninitializedData_length, hcount]; exact ho)]

/-! ## Exclusive feature bundle -/

/-- Parts whose bin is 0 leave the cell as it is. -/
theorem bundle_fold_zero (dstBits : Nat) (ctx B : Nat → Nat) (k : Nat) (cell : Nat)
    (hzero : ∀ p, p < k → B p = 0) :
    (List.range k).foldl
      (fun cell p => ExclusiveFeatureBundle.AddToAggregate dstBits (ctx p) (B p) cell) cell
      = cell := by
  induction k with
  | zero => rfl
  | succ k ih =>
    rw [List.range_succ, List.foldl_append, ih (fun p hp => hzero p (Nat.lt_succ_of_lt hp))]
    simp [ExclusiveFeatureBundle.AddToAggregate, hzero k (Nat.lt_succ_self k)]

/-- The cell holds what the highest-index part with a non-zero bin writes. -/
theorem bundle_fold_last (dstBits : Nat) (ctx B : Nat → Nat) (k : Nat) (cell : Nat)
    (q : Nat) (hq : q < k) (hne : B q ≠ 0) (hzero : ∀ p, q < p → p < k → B p = 0) :
    (List.range k).foldl
      (fun cell p => ExclusiveFeatureBundle.AddToAggregate dstBits (ctx p) (B p) cell) cell
      = ((ctx q + B q - 1) % 2 ^ 32) % 2 ^ dstBits := by
  induction k with
  | zero => exact absurd hq (Nat.not_lt_zero q)
  | succ k ih =>
    rw [List.range_succ, List.foldl_append]
    rcases Nat.lt_succ_iff_lt_or_eq.1 hq with hlt | heq
    · rw [ih hlt (fun p h1 h2 => hzero p h1 (Nat.lt_succ_of_lt h2))]
      simp [ExclusiveFeatureBundle.AddToAggregate, hzero k hlt (Nat.lt_succ_self k)]
    · subst heq
      simp [ExclusiveFeatureBundle.AddToAggregate, hne]

/-- C3 (as amended): for an exclusive feature bundle over dense source columns whose
parts have pairwise disjoint bounds, none above the bundle default, the default fitting
the cell, and bins within the range of their part: after `AggregateFeatures`, for every
object on which at most one part has a non-zero bin, reading any part `p` back from the
cell of the object gives the bin obtained by quantizing the value of that feature for
the object directly. -/
theorem ExclusiveFeatureBundle_roundtrip {F C : Type} (q : TColumnsQuantizer F C)
    (MetaData : List TExclusiveFeaturesBundle) (aggregateIdx : Nat) (uninit : Nat → Nat)
    (S : TArraySubsetIndexing) (hasDenseData : Bool) (B : Nat → Nat → Nat)
    (hincr : q.IncrementalDenseIndexing =
      TIncrementalDenseIndexing.TIncrementalDenseIndexing S hasDenseData)
    (hcount : q.ObjectCount = S.Size)
    (hbits : ExclusiveFeatureBundle.GetAggregateBitsPerKey MetaData aggregateIdx = 8 ∨
      ExclusiveFeatureBundle.GetAggregateBitsPerKey MetaData aggregateIdx = 16 ∨
      ExclusiveFeatureBundle.GetAggregateBitsPerKey MetaData aggregateIdx = 32)
    (hparts : ∀ p, p < ExclusiveFeatureBundle.GetAggregatePartsCount MetaData aggregateIdx →
      q.PartIsDenseOver S (ExclusiveFeatureBundle.GetSrcPart MetaData aggregateIdx p) ∧
      ∀ o, o < S.Size →
        q.QuantizePartValue (ExclusiveFeatureBundle.GetSrcPart MetaData aggregateIdx p) o
          = .ok (B p o))
    (hrange : ∀ p, p < ExclusiveFeatureBundle.GetAggregatePartsCount MetaData aggregateIdx →
      ∀ o, o < S.Size →
        B p o ≤ (ExclusiveFeatureBundle.PartBounds MetaData aggregateIdx p).End -
          (ExclusiveFeatureBundle.PartBounds MetaData aggregateIdx p).Begin)
    (hdisj : ∀ p1 p2, p1 < ExclusiveFeatureBundle.GetAggregatePartsCount MetaData aggregateIdx →
      p2 < ExclusiveFeatureBundle.GetAggregatePartsCount MetaData aggregateIdx → p1 ≠ p2 →
      (ExclusiveFeatureBundle.PartBounds MetaData aggregateIdx p1).End ≤
          (ExclusiveFeatureBundle.PartBounds MetaData aggregateIdx p2).Begin ∨
        (ExclusiveFeatureBundle.PartBounds MetaData aggregateIdx p2).End ≤
          (ExclusiveFeatureBundle.PartBounds MetaData aggregateIdx p1).Begin)
    (hdef : ∀ p, p < ExclusiveFeatureBundle.GetAggregatePartsCount MetaData aggregateIdx →
      (ExclusiveFeatureBundle.PartBounds MetaData aggregateIdx p).End ≤
        ExclusiveFeatureBundle.GetDefaultValue MetaData aggregateIdx)
    (hfit : ExclusiveFeatureBundle.GetDefaultValue MetaData aggregateIdx <
      2 ^ ExclusiveFeatureBundle.GetAggregateBitsPerKey MetaData aggregateIdx) :
    ∃ arr, AggregateFeatures q (ExclusiveFeatureBundle.Aggregator MetaData) aggregateIdx uninit
        = .ok arr ∧
      arr.Data.length = S.Size ∧
      ∀ o, o < S.Size →
        (∀ p1 p2, p1 < ExclusiveFeatureBundle.GetAggregatePartsCount MetaData aggregateIdx →
          p2 < ExclusiveFeatureBundle.GetAggregatePartsCount MetaData aggregateIdx →
          B p1 o ≠ 0 → B p2 o ≠ 0 → p1 = p2) →
        ∀ p, p < ExclusiveFeatureBundle.GetAggregatePartsCount MetaData aggregateIdx →
          ExclusiveFeatureBundle.GetBinFromBundle (arr.Data.getD o 0)
            (ExclusiveFeatureBundle.PartBounds MetaData aggregateIdx p) = B p o := by
  obtain ⟨arr, hrun, _, hlen, hcells⟩ := AggregateFeatures_dense q
    (ExclusiveFeatureBundle.Aggregator MetaData) aggregateIdx uninit S hasDenseData hincr hcount
    hbits (ExclusiveFeatureBundle.GetDefaultValue MetaData aggregateIdx) rfl B hparts
  refine ⟨arr, hrun, hlen, ?_⟩
  intro o ho hexcl p hp
  have hbits32 : ExclusiveFeatureBundle.GetAggregateBitsPerKey MetaData aggregateIdx ≤ 32 := by
    rcases hbits with h | h | h <;> rw [h] <;> decide
  have hpow : 2 ^ ExclusiveFeatureBundle.GetAggregateBitsPerKey MetaData aggregateIdx ≤ 2 ^ 32 :=
    Nat.pow_le_pow_right (by decide) hbits32
  have hcell := hcells o ho
  by_cases hex : ∃ r, r < ExclusiveFeatureBundle.GetAggregatePartsCount MetaData aggregateIdx ∧
      B r o ≠ 0
  · obtain ⟨r, hr, hrne⟩ := hex
    have hzero : ∀ p2, r < p2 →
        p2 < ExclusiveFeatureBundle.GetAggregatePartsCount MetaData aggregateIdx →
        B p2 o = 0 := by
      intro p2 h1 h2
      by_contra hne2
      have := hexcl r p2 hr h2 hrne hne2
      omega
    have hfold := bundle_fold_last
      (ExclusiveFeatureBundle.GetAggregateBitsPerKey MetaData aggregateIdx)
      (ExclusiveFeatureBundle.GetAggregationContext MetaData aggregateIdx) (fun p2 => B p2 o)
      (ExclusiveFeatureBundle.GetAggregatePartsCount MetaData aggregateIdx)
      (ExclusiveFeatureBundle.GetDefaultValue MetaData aggregateIdx %
        2 ^ ExclusiveFeatureBundle.GetAggregateBitsPerKey MetaData aggregateIdx)
      r hr hrne hzero
    have hcell2 := hcell.trans hfold
    have hrr := hrange r hr o ho
    have hdr := hdef r hr
    have hctx : ExclusiveFeatureBundle.GetAggregationContext MetaData aggregateIdx r =
        (ExclusiveFeatureBundle.PartBounds MetaData aggregateIdx r).Begin := by
      unfold ExclusiveFeatureBundle.GetAggregationContext ExclusiveFeatureBundle.PartBounds
      apply Nat.mod_eq_of_lt
      unfold ExclusiveFeatureBundle.PartBounds at hrr hdr
      omega
    rw [hctx] at hcell2
    have hval : arr.Data.getD o 0 =
        (ExclusiveFeatureBundle.PartBounds MetaData aggregateIdx r).Begin + B r o - 1 := by
      rw [hcell2, Nat.mod_eq_of_lt (a := _ + B r o - 1) (by omega), Nat.mod_eq_of_lt (by omega)]
    rw [hval]
    unfold ExclusiveFeatureBundle.GetBinFromBundle
    by_cases hpr : p = r
    · subst hpr
      rw [if_pos (by omega)]
      omega
    · have hp0 : B p o = 0 := by
        by_contra hne2
        exact hpr (hexcl p r hp hr hne2 hrne)
      have hd := hdisj p r hp hr hpr
      rw [hp0, if_neg (by omega)]
  · have hzero : ∀ p2, p2 < ExclusiveFeatureBundle.GetAggregatePartsCount MetaData aggregateIdx →
        B p2 o = 0 := by
      intro p2 h2
      by_contra hne2
      exact hex ⟨p2, h2, hne2⟩
    have hfold := bundle_fold_zero
      (ExclusiveFeatureBundle.GetAggregateBitsPerKey MetaData aggregateIdx)
      (ExclusiveFeatureBundle.GetAggregationContext MetaData aggregateIdx) (fun p2 => B p2 o)
      (ExclusiveFeatureBundle.GetAggregatePartsCount MetaData aggregateIdx)
      (ExclusiveFeatureBundle.GetDefaultValue MetaData aggregateIdx %
        2 ^ ExclusiveFeatureBundle.GetAggregateBitsPerKey MetaData aggregateIdx) hzero
    have hcell2 := hcell.trans hfold
    rw [Nat.mod_eq_of_lt hfit] at hcell2
    have hdp := hdef p hp
    rw [hcell2, hzero p hp]
    unfold ExclusiveFeatureBundle.GetBinFromBundle
    rw [if_neg (by omega)]

/-- Witness for C3: the example bundle; on object 1 only part 1 has a non-zero bin, and
both parts read back their own bin (0 and 1). -/
theorem ExclusiveFeatureBundle_roundtrip_witness :
    ∃ arr, AggregateFeatures exampleColumnsQuantizer
        (ExclusiveFeatureBundle.Aggregator exampleBundles) 0 (fun _ => 0) = .ok arr ∧
      arr.Data.length = 2 ∧
      ExclusiveFeatureBundle.GetBinFromBundle (arr.Data.getD 1 0)
        (ExclusiveFeatureBundle.PartBounds exampleBundles 0 0) = 0 ∧
      ExclusiveFeatureBundle.GetBinFromBundle (arr.Data.getD 1 0)
        (ExclusiveFeatureBundle.PartBounds exampleBundles 0 1) = 1 := by
  obtain ⟨arr, h1, h2, h3⟩ := ExclusiveFeatureBundle_roundtrip exampleColumnsQuantizer
    exampleBundles 0 (fun _ => 0) (.TFullSubset 2) true exampleBundleBins rfl rfl
    (Or.inl rfl)
    (by
      intro p hp
      have hp2 : p < 2 := hp
      interval_cases p
      · refine ⟨by decide, ?_⟩
        intro o ho
        have ho2 : o < 2 := ho
        interval_cases o <;> rfl
      · refine ⟨by decide, ?_⟩
        intro o ho
        have ho2 : o < 2 := ho
        interval_cases o <;> rfl)
    (by
      intro p hp o ho
      have hp2 : p < 2 := hp
      have ho2 : o < 2 := ho
      interval_cases p <;> interval_cases o <;> decide)
    (by
      intro p1 p2 hp1 hp2 hne
      have hp12 : p1 < 2 := hp1
      have hp22 : p2 < 2 := hp2
      interval_cases p1 <;> interval_cases p2 <;> first | exact absurd rfl hne | decide)
    (by
      intro p hp
      have hp2 : p < 2 := hp
      interval_cases p <;> decide)
    (by decide)
  have hexcl : ∀ p1 p2, p1 < ExclusiveFeatureBundle.GetAggregatePartsCount exampleBundles 0 →
      p2 < ExclusiveFeatureBundle.GetAggregatePartsCount exampleBundles 0 →
      exampleBundleBins p1 1 ≠ 0 → exampleBundleBins p2 1 ≠ 0 → p1 = p2 := by
    intro p1 p2 hp1 hp2 hb1 hb2
    have hp12 : p1 < 2 := hp1
    have hp22 : p2 < 2 := hp2
    interval_cases p1 <;> interval_cases p2 <;> first | rfl | exact absurd rfl hb1 | exact absurd rfl hb2
  exact ⟨arr, h1, h2, h3 1 (by decide) hexcl 0 (by decide), h3 1 (by decide) hexcl 1 (by decide)⟩

/-- C3 (as stated) fails: in the example bundle both parts have bin 1 on object 0; part 1
overwrites what part 0 wrote, the cell holds 1, and reading part 0 (bounds [0, 1)) back
gives 0 although quantizing float feature 0 for object 0 directly gives 1. -/
theorem ExclusiveFeatureBundle_roundtrip_overwritten :
    AggregateFeatures exampleColumnsQuantizer
        (ExclusiveFeatureBundle.Aggregator exampleBundles) 0 (fun _ => 0)
      = .ok { BitsPerKey := 8, Data := [1, 1] } ∧
    exampleColumnsQuantizer.QuantizePartValue
        (ExclusiveFeatureBundle.GetSrcPart exampleBundles 0 0) 0 = .ok 1 ∧
    ExclusiveFeatureBundle.GetBinFromBundle 1
        (ExclusiveFeatureBundle.PartBounds exampleBundles 0 0) = 0 ∧
    ExclusiveFeatureBundle.GetBinFromBundle 1
        (ExclusiveFeatureBundle.PartBounds exampleBundles 0 0) ≠ 1 :=
  ⟨rfl, rfl, rfl, by decide⟩

/-! ## Binary pack -/

/-- Every bit of the cell after the binary pack combine operation. -/
theorem BinaryPack_combine_testBit (dstBits aggregateIdx p value cell j : Nat)
    (hbits : dstBits ≤ 32) (hp : p < dstBits) (hv : value ≤ 1) :
    (BinaryPack.AddToAggregate dstBits (BinaryPack.GetAggregationContext aggregateIdx p)
        value cell).testBit j =
      if j = p then decide (value = 1) else (decide (j < dstBits) && cell.testBit j) := by
  have hp32 : p < 32 := Nat.lt_of_lt_of_le hp hbits
  have hp8 : p % 2 ^ 8 = p := Nat.mod_eq_of_lt (by omega)
  simp only [BinaryPack.AddToAggregate, BinaryPack.GetAggregationContext, hp8,
    Nat.testBit_mod_two_pow, Nat.testBit_or, Nat.testBit_and, Nat.testBit_xor,
    Nat.testBit_two_pow_sub_one, Nat.testBit_shiftLeft, Nat.one_shiftLeft,
    Nat.testBit_two_pow, ge_iff_le]
  rw [testBit_of_le_one hv]
  by_cases hjp : j = p
  · subst hjp
    simp [hp, hp32]
  · rw [if_neg hjp]
    have hpj : ¬ p = j := fun h => hjp h.symm
    by_cases hjb : j < dstBits
    · have hj32 : j < 32 := Nat.lt_of_lt_of_le hjb hbits
      by_cases hle : p ≤ j
      · have : ¬ j - p = 0 := by omega
        simp [hjb, hj32, hpj, this]
      · simp [hjb, hj32, hpj, hle]
    · simp [hjb]

/-- After the first `k` parts of a binary pack, bit `j < k` of the cell is the bin of
part `j` and the other bits are those of the initial cell. -/
theorem binaryPack_fold_testBit (dstBits aggregateIdx : Nat) (B : Nat → Nat) (k : Nat)
    (cell : Nat) (hbits : dstBits ≤ 32) (hk : k ≤ dstBits) (hcell : cell < 2 ^ dstBits)
    (hB : ∀ p, p < k → B p ≤ 1) (j : Nat) :
    ((List.range k).foldl
      (fun cell p => BinaryPack.AddToAggregate dstBits
        (BinaryPack.GetAggregationContext aggregateIdx p) (B p) cell) cell).testBit j =
      if j < k then decide (B j = 1) else cell.testBit j := by
  induction k with
  | zero => simp
  | succ k ih =>
    rw [List.range_succ, List.foldl_append]
    simp only [List.foldl_cons, List.foldl_nil]
    rw [BinaryPack_combine_testBit dstBits aggregateIdx k (B k) _ j hbits (by omega)
      (hB k (Nat.lt_succ_self k)),
      ih (by omega) (fun p hp => hB p (Nat.lt_succ_of_lt hp))]
    by_cases hjk : j = k
    · subst hjk
      simp
    · rw [if_neg hjk]
      by_cases hlt : j < k
      · have hjb : j < dstBits := by omega
        simp [hlt, hjb, Nat.lt_succ_of_lt hlt]
      · have hn : ¬ j < k + 1 := by omega
        rw [if_neg hlt, if_neg hn]
        by_cases hjb : j < dstBits
        · simp [hjb]
        · have hlt2 : cell < 2 ^ j :=
            Nat.lt_of_lt_of_le hcell (Nat.pow_le_pow_right (by decide) (Nat.le_of_not_lt hjb))
          simp [hjb, Nat.testBit_lt_two_pow hlt2]

/-- The default of a binary pack whose parts are float or categorical features. -/
theorem BinaryPack_GetDefaultValue_ok {F C : Type} (BITS_PER_PACK : Nat)
    (PackedBinaryToSrcIndex : List TFeatureIdxWithType) (info : TQuantizedFeaturesInfo F C)
    (aggregateIdx : Nat)
    (htype : ∀ i, i < BinaryPack.GetAggregatePartsCount BITS_PER_PACK PackedBinaryToSrcIndex aggregateIdx →
      (BinaryPack.GetSrcPart BITS_PER_PACK PackedBinaryToSrcIndex aggregateIdx i).FeatureType ≠ .Text) :
    BinaryPack.GetDefaultValue BITS_PER_PACK PackedBinaryToSrcIndex info aggregateIdx =
      .ok ((List.range (BinaryPack.GetAggregatePartsCount BITS_PER_PACK PackedBinaryToSrcIndex
            aggregateIdx)).foldl
        (fun result i => result ||| ((((BinaryPack.PartDefaultBin info
            (BinaryPack.GetSrcPart BITS_PER_PACK PackedBinaryToSrcIndex aggregateIdx i)).getD 0)
              <<< i) % 2 ^ 32)) 0) := by
  unfold BinaryPack.GetDefaultValue
  apply foldlM_ok
  intro result i hi
  have hi2 := List.mem_range.1 hi
  rw [GetDefaultQuantizedValue_eq info _ (htype i hi2)]
  cases hd : BinaryPack.PartDefaultBin info
      (BinaryPack.GetSrcPart BITS_PER_PACK PackedBinaryToSrcIndex aggregateIdx i) with
  | none =>
    show (Except.ok result : Except EError Nat) = _
    simp
  | some d =>
    show (Except.ok (result ||| (d <<< i) % 2 ^ 32) : Except EError Nat) = _
    simp

theorem foldl_or_testBit_false (t : Nat → Nat) (k j : Nat)
    (h : ∀ i, i < k → (t i).testBit j = false) :
    ((List.range k).foldl (fun result i => result ||| t i) 0).testBit j = false := by
  induction k with
  | zero => simp
  | succ k ih =>
    rw [List.range_succ, List.foldl_append]
    simp only [List.foldl_cons, List.foldl_nil, Nat.testBit_or]
    rw [ih (fun i hi => h i (Nat.lt_succ_of_lt hi)), h k (Nat.lt_succ_self k)]
    rfl

theorem PartIsDenseOver_type {F C : Type} (q : TColumnsQuantizer F C)
    (S : TArraySubsetIndexing) (part : TFeatureIdxWithType) (h : q.PartIsDenseOver S part) :
    part.FeatureType ≠ .Text := by
  intro htext
  unfold TColumnsQuantizer.PartIsDenseOver at h
  rw [htext] at h
  exact h

theorem BinaryPack_partsCount_le (BITS_PER_PACK : Nat)
    (PackedBinaryToSrcIndex : List TFeatureIdxWithType) (aggregateIdx : Nat) :
    BinaryPack.GetAggregatePartsCount BITS_PER_PACK PackedBinaryToSrcIndex aggregateIdx
      ≤ BITS_PER_PACK := by
  unfold BinaryPack.GetAggregatePartsCount
  exact Nat.le_trans (Nat.mod_le _ _) (Nat.min_le_left _ _)

/-- C4: for a binary pack (of 8, 16 or 32 bits) over dense source columns whose bins are
0 or 1, after `AggregateFeatures` bit `i` of the cell of object `o` is the bin of part
`i` for `o`, for every part `i` and every object `o`; and when the default bins of the
parts are 0 or 1 too, a pack of two parts with the bins (1, 0) on an object holds 1 in
the cell of that object. -/
theorem BinaryPack_AggregateFeatures_bits {F C : Type} (q : TColumnsQuantizer F C)
    (BITS_PER_PACK : Nat) (PackedBinaryToSrcIndex : List TFeatureIdxWithType)
    (aggregateIdx : Nat) (uninit : Nat → Nat) (S : TArraySubsetIndexing)
    (hasDenseData : Bool) (B : Nat → Nat → Nat)
    (hincr : q.IncrementalDenseIndexing =
      TIncrementalDenseIndexing.TIncrementalDenseIndexing S hasDenseData)
    (hcount : q.ObjectCount = S.Size)
    (hbits : BITS_PER_PACK = 8 ∨ BITS_PER_PACK = 16 ∨ BITS_PER_PACK = 32)
    (hparts : ∀ p,
      p < BinaryPack.GetAggregatePartsCount BITS_PER_PACK PackedBinaryToSrcIndex aggregateIdx →
      q.PartIsDenseOver S
        (BinaryPack.GetSrcPart BITS_PER_PACK PackedBinaryToSrcIndex aggregateIdx p) ∧
      ∀ o, o < S.Size →
        q.QuantizePartValue
          (BinaryPack.GetSrcPart BITS_PER_PACK PackedBinaryToSrcIndex aggregateIdx p) o
          = .ok (B p o))
    (hbin : ∀ p,
      p < BinaryPack.GetAggregatePartsCount BITS_PER_PACK PackedBinaryToSrcIndex aggregateIdx →
      ∀ o, o < S.Size → B p o ≤ 1) :
    ∃ arr, AggregateFeatures q
        (BinaryPack.Aggregator BITS_PER_PACK PackedBinaryToSrcIndex q.QuantizedFeaturesInfo)
        aggregateIdx uninit = .ok arr ∧
      arr.Data.length = S.Size ∧
      (∀ o, o < S.Size → ∀ i,
        i < BinaryPack.GetAggregatePartsCount BITS_PER_PACK PackedBinaryToSrcIndex aggregateIdx →
        (arr.Data.getD o 0).testBit i = decide (B i o = 1)) ∧
      ((∀ p,
          p < BinaryPack.GetAggregatePartsCount BITS_PER_PACK PackedBinaryToSrcIndex aggregateIdx →
          ∀ d, BinaryPack.PartDefaultBin q.QuantizedFeaturesInfo
            (BinaryPack.GetSrcPart BITS_PER_PACK PackedBinaryToSrcIndex aggregateIdx p) = some d →
            d ≤ 1) →
        BinaryPack.GetAggregatePartsCount BITS_PER_PACK PackedBinaryToSrcIndex aggregateIdx = 2 →
        ∀ o, o < S.Size → B 0 o = 1 → B 1 o = 0 → arr.Data.getD o 0 = 1) := by
  have hb32 : BITS_PER_PACK ≤ 32 := by
    rcases hbits with h | h | h <;> rw [h] <;> decide
  have hb : BinaryPack.GetAggregateBitsPerKey BITS_PER_PACK aggregateIdx = BITS_PER_PACK :=
    Nat.mod_eq_of_lt (by omega)
  have hbits2 : BinaryPack.GetAggregateBitsPerKey BITS_PER_PACK aggregateIdx = 8 ∨
      BinaryPack.GetAggregateBitsPerKey BITS_PER_PACK aggregateIdx = 16 ∨
      BinaryPack.GetAggregateBitsPerKey BITS_PER_PACK aggregateIdx = 32 := by
    rw [hb]
    exact hbits
  have hk := BinaryPack_partsCount_le BITS_PER_PACK PackedBinaryToSrcIndex aggregateIdx
  have hdv := BinaryPack_GetDefaultValue_ok BITS_PER_PACK PackedBinaryToSrcIndex
    q.QuantizedFeaturesInfo aggregateIdx
    (fun i hi => PartIsDenseOver_type q S _ (hparts i hi).1)
  obtain ⟨arr, hrun, _, hlen, hcells⟩ := AggregateFeatures_dense q
    (BinaryPack.Aggregator BITS_PER_PACK PackedBinaryToSrcIndex q.QuantizedFeaturesInfo)
    aggregateIdx uninit S hasDenseData hincr hcount hbits2 _ hdv B hparts
  have hbitsOf : ∀ o, o < S.Size → ∀ j, (arr.Data.getD o 0).testBit j =
      if j < BinaryPack.GetAggregatePartsCount BITS_PER_PACK PackedBinaryToSrcIndex aggregateIdx
      then decide (B j o = 1)
      else (((List.range (BinaryPack.GetAggregatePartsCount BITS_PER_PACK PackedBinaryToSrcIndex
            aggregateIdx)).foldl
        (fun result i => result ||| ((((BinaryPack.PartDefaultBin q.QuantizedFeaturesInfo
            (BinaryPack.GetSrcPart BITS_PER_PACK PackedBinaryToSrcIndex aggregateIdx i)).getD 0)
              <<< i) % 2 ^ 32)) 0) %
          2 ^ BinaryPack.GetAggregateBitsPerKey BITS_PER_PACK aggregateIdx).testBit j := by
    intro o ho j
    have h1 := congrArg (fun c => Nat.testBit c j) (hcells o ho)
    exact h1.trans (binaryPack_fold_testBit
      (BinaryPack.GetAggregateBitsPerKey BITS_PER_PACK aggregateIdx) aggregateIdx
      (fun p => B p o) _ _ (by rw [hb]; exact hb32) (by rw [hb]; exact hk)
      (Nat.mod_lt _ (Nat.two_pow_pos _)) (fun p hp => hbin p hp o ho) j)
  refine ⟨arr, hrun, hlen, ?_, ?_⟩
  · intro o ho i hi
    rw [hbitsOf o ho i, if_pos hi]
  · intro hdefbin h2 o ho h10 h00
    apply Nat.eq_of_testBit_eq
    intro j
    rw [hbitsOf o ho j, h2, testBit_of_le_one (Nat.le_refl 1)]
    by_cases hj : j < 2
    · rw [if_pos hj]
      have hj01 : j = 0 ∨ j = 1 := by omega
      rcases hj01 with h | h
      · subst h
        simp [h10]
      · subst h
        simp [h00]
    · rw [if_neg hj, Nat.testBit_mod_two_pow]
      have hzero := foldl_or_testBit_false
        (fun i => (((BinaryPack.PartDefaultBin q.QuantizedFeaturesInfo
            (BinaryPack.GetSrcPart BITS_PER_PACK PackedBinaryToSrcIndex aggregateIdx i)).getD 0)
              <<< i) % 2 ^ 32) 2 j
        (by
          intro i hi
          have hi2 : i < BinaryPack.GetAggregatePartsCount BITS_PER_PACK PackedBinaryToSrcIndex
              aggregateIdx := by rw [h2]; exact hi
          have hd : (BinaryPack.PartDefaultBin q.QuantizedFeaturesInfo
              (BinaryPack.GetSrcPart BITS_PER_PACK PackedBinaryToSrcIndex aggregateIdx i)).getD 0
              ≤ 1 := by
            cases hpd : BinaryPack.PartDefaultBin q.QuantizedFeaturesInfo
                (BinaryPack.GetSrcPart BITS_PER_PACK PackedBinaryToSrcIndex aggregateIdx i) with
            | none => simp
            | some d => simpa using hdefbin i hi2 d hpd
          rw [Nat.testBit_mod_two_pow, Nat.testBit_shiftLeft, testBit_of_le_one hd]
          have : ¬ j - i = 0 := by omega
          simp [this])
      rw [hzero]
      have hj0 : ¬ j = 0 := by omega
      simp [hj0]

/-- Witness for C4: the example pack of two parts; object 0 has the bins (1, 0) and its
byte is 1, object 1 has the bins (0, 1) and its byte is 2. -/
theorem BinaryPack_AggregateFeatures_bits_witness :
    (∃ arr, AggregateFeatures exampleColumnsQuantizer
        (BinaryPack.Aggregator 8 examplePackedBinaryToSrcIndex
          exampleColumnsQuantizer.QuantizedFeaturesInfo) 0 (fun _ => 0) = .ok arr ∧
      arr.Data.length = 2 ∧
      (arr.Data.getD 1 0).testBit 1 = decide (examplePackBins 1 1 = 1) ∧
      arr.Data.getD 0 0 = 1) ∧
    AggregateFeatures exampleColumnsQuantizer
        (BinaryPack.Aggregator 8 examplePackedBinaryToSrcIndex
          exampleColumnsQuantizer.QuantizedFeaturesInfo) 0 (fun _ => 0)
      = .ok { BitsPerKey := 8, Data := [1, 2] } := by
  refine ⟨?_, rfl⟩
  obtain ⟨arr, h1, h2, h3, h4⟩ := BinaryPack_AggregateFeatures_bits exampleColumnsQuantizer 8
    examplePackedBinaryToSrcIndex 0 (fun _ => 0) (.TFullSubset 2) true examplePackBins rfl rfl
    (Or.inl rfl)
    (by
      intro p hp
      have hp2 : p < 2 := hp
      interval_cases p
      · refine ⟨by decide, ?_⟩
        intro o ho
        have ho2 : o < 2 := ho
        interval_cases o <;> rfl
      · refine ⟨by decide, ?_⟩
        intro o ho
        have ho2 : o < 2 := ho
        interval_cases o <;> rfl)
    (by
      intro p hp o ho
      have hp2 : p < 2 := hp
      have ho2 : o < 2 := ho
      interval_cases p <;> interval_cases o <;> decide)
  refine ⟨arr, h1, h2, h3 1 (by decide) 1 (by decide), ?_⟩
  refine h4 ?_ rfl 0 (by decide) rfl rfl
  intro p hp d hd
  have hp2 : p < 2 := hp
  interval_cases p
  · have hnone : (none : Option Nat) = some d := hd
    cases hnone
  · have hnone : (none : Option Nat) = some d := hd
    cases hnone

/-- Witness for C8: a pack of two parts whose quantizers both report the default bin 1
has the default `1 | (1 << 1) = 3`. -/
theorem BinaryPack_GetDefaultValue_composed_witness :
    BinaryPack.GetDefaultValue 8 examplePackedBinaryToSrcIndex exampleInfoWithDefaults 0
      = .ok 3 :=
  (BinaryPack_GetDefaultValue_composed 8 examplePackedBinaryToSrcIndex exampleInfoWithDefaults 0
    (by decide)
    (by
      intro i hi
      have hi2 : i < 2 := hi
      interval_cases i <;> decide)
    (by
      intro i hi d hd
      have hi2 : i < 2 := hi
      interval_cases i
      · have hsome : some 1 = some d := hd
        cases hsome
        decide
      · have hsome : some 1 = some d := hd
        cases hsome
        decide)).2 rfl

/-! ## Incremental dense indexing: the identity case -/

/-- C11: if the source has no dense data, or the input subset indexing is a full subset,
`TIncrementalDenseIndexing` sets both `SrcSubsetIndexing` and `DstIndexing` to the full
subset of the size of the input. -/
theorem TIncrementalDenseIndexing_identity (s : TArraySubsetIndexing) (hasDenseData : Bool)
    (h : hasDenseData = false ∨ s.IsFullSubset = true) :
    (TIncrementalDenseIndexing.TIncrementalDenseIndexing s hasDenseData).SrcSubsetIndexing =
      .TFullSubset s.Size ∧
    (TIncrementalDenseIndexing.TIncrementalDenseIndexing s hasDenseData).DstIndexing =
      .TFullSubset s.Size := by
  have hcond : (hasDenseData && !s.IsFullSubset) = false := by
    rcases h with h | h
    · rw [h]
      rfl
    · rw [h]
      cases hasDenseData <;> rfl
  rw [TIncrementalDenseIndexing.full_eq s hasDenseData hcond]
  exact ⟨rfl, rfl⟩

/-- Witness for C11: an indexed subset over a source without dense data, and a full
subset over a source with dense data. -/
theorem TIncrementalDenseIndexing_identity_witness :
    (TIncrementalDenseIndexing.TIncrementalDenseIndexing (.TIndexedSubset [5, 2, 5]) false
      = { SrcSubsetIndexing := .TFullSubset 3, DstIndexing := .TFullSubset 3 }) ∧
    (TIncrementalDenseIndexing.TIncrementalDenseIndexing (.TFullSubset 4) true).DstIndexing
      = .TFullSubset (TArraySubsetIndexing.TFullSubset 4).Size :=
  ⟨rfl, (TIncrementalDenseIndexing_identity (.TFullSubset 4) true (Or.inr rfl)).2⟩

/-! ## NaN values and the non-default test of float features -/

theorem TIsNonDefault_eq {V : Type} (Lowest : V) (info : TQuantizedFloatFeaturesInfo V)
    (flatFeatureIdx : Nat) (nanMode : ENanMode) (quantization : TQuantization V)
    (hm : info.NanModes (info.GetInternalFeatureIdx flatFeatureIdx) = some nanMode)
    (hq : info.Quantizations (info.GetInternalFeatureIdx flatFeatureIdx) = some quantization) :
    TIsNonDefaultFloat.TIsNonDefault Lowest info flatFeatureIdx =
      .ok { FlatFeatureIdx := flatFeatureIdx
            NanMode := nanMode
            AllowNans := (nanMode != ENanMode.Forbidden) || info.FloatFeaturesAllowNansInTestOnly
            DefaultBinLowerBorder := .Value Lowest
            DefaultBinUpperBorder := quantization.Borders.headD .NaN } := by
  unfold TIsNonDefaultFloat.TIsNonDefault TQuantizedFloatFeaturesInfo.GetNanMode
    TQuantizedFloatFeaturesInfo.GetQuantization
  simp only [hm, hq]
  rfl

theorem TValueQuantizer_Float_eq {V : Type} [LinearOrder V]
    (info : TQuantizedFloatFeaturesInfo V)
    (flatFeatureIdx : Nat) (nanMode : ENanMode) (quantization : TQuantization V)
    (hm : info.NanModes (info.GetInternalFeatureIdx flatFeatureIdx) = some nanMode)
    (hq : info.Quantizations (info.GetInternalFeatureIdx flatFeatureIdx) = some quantization) :
    TValueQuantizer.Float info flatFeatureIdx =
      .ok { DstBitsPerKey := CalcHistogramWidthForBorders quantization.Borders.length
            Quantize := Quantize flatFeatureIdx
              ((nanMode != ENanMode.Forbidden) || info.FloatFeaturesAllowNansInTestOnly)
              nanMode quantization.Borders
            DefaultBin := quantization.DefaultQuantizedBin } := by
  unfold TValueQuantizer.Float TQuantizedFloatFeaturesInfo.GetNanMode
    TQuantizedFloatFeaturesInfo.GetQuantization
  simp only [hm, hq]
  rfl

/-- C19: for a float feature whose NaN mode and quantization are in the registry, a NaN is
rejected, by the non-default test and by the value quantizer alike, with the validation
error that carries the flat feature index, exactly when the NaN mode is `Forbidden` and
the allow-NaNs-in-test-only override is off; otherwise `IsNonDefault(NaN)` is true
exactly under mode `Max`, and the quantizer maps the NaN to the last bin under `Max` and
to bin 0 under `Min` or under the override. -/
theorem NaN_rejected_iff_forbidden {V : Type} [LinearOrder V] (Lowest : V)
    (info : TQuantizedFloatFeaturesInfo V) (flatFeatureIdx : Nat) (nanMode : ENanMode)
    (quantization : TQuantization V)
    (hm : info.NanModes (info.GetInternalFeatureIdx flatFeatureIdx) = some nanMode)
    (hq : info.Quantizations (info.GetInternalFeatureIdx flatFeatureIdx) = some quantization) :
    ∃ f valueQuantizer,
      TIsNonDefaultFloat.TIsNonDefault Lowest info flatFeatureIdx = .ok f ∧
      TValueQuantizer.Float info flatFeatureIdx = .ok valueQuantizer ∧
      f.IsNonDefault .NaN =
        (if nanMode = ENanMode.Forbidden ∧ info.FloatFeaturesAllowNansInTestOnly = false then
          .error (.NanInTestDataset flatFeatureIdx)
        else .ok (decide (nanMode = ENanMode.Max))) ∧
      valueQuantizer.Quantize .NaN =
        (if nanMode = ENanMode.Forbidden ∧ info.FloatFeaturesAllowNansInTestOnly = false then
          .error (.NanInTestDataset flatFeatureIdx)
        else .ok (if nanMode = ENanMode.Max then quantization.Borders.length else 0)) := by
  refine ⟨_, _, TIsNonDefault_eq Lowest info flatFeatureIdx nanMode quantization hm hq,
    TValueQuantizer_Float_eq info flatFeatureIdx nanMode quantization hm hq, ?_, ?_⟩
  · cases nanMode <;> cases h : info.FloatFeaturesAllowNansInTestOnly <;>
      simp [TIsNonDefaultFloat.IsNonDefault, TFloat.IsNan, h, pure, Except.pure, throw,
        throwThe, MonadExceptOf.throw]
  · cases nanMode <;> cases h : info.FloatFeaturesAllowNansInTestOnly <;>
      simp [Quantize, TFloat.IsNan, h, pure, Except.pure, throw, throwThe,
        MonadExceptOf.throw]

/-- Witness for C19: NaN mode `Forbidden` without the override rejects a NaN of feature 0;
NaN mode `Max` accepts it as non-default. -/
theorem NaN_rejected_iff_forbidden_witness :
    (∃ f, TIsNonDefaultFloat.TIsNonDefault exampleFloatLowest
        (exampleFloatInfo .Forbidden false) 0 = .ok f ∧
      f.IsNonDefault .NaN = .error (.NanInTestDataset 0)) ∧
    (∃ f, TIsNonDefaultFloat.TIsNonDefault exampleFloatLowest
        (exampleFloatInfo .Max false) 0 = .ok f ∧
      f.IsNonDefault .NaN = .ok true) := by
  obtain ⟨f1, _, h1, _, h2, _⟩ := NaN_rejected_iff_forbidden exampleFloatLowest
    (exampleFloatInfo .Forbidden false) 0 .Forbidden
    { Borders := [.Value 5], DefaultQuantizedBin := none } rfl rfl
  obtain ⟨f2, _, h3, _, h4, _⟩ := NaN_rejected_iff_forbidden exampleFloatLowest
    (exampleFloatInfo .Max false) 0 .Max
    { Borders := [.Value 5], DefaultQuantizedBin := none } rfl rfl
  exact ⟨⟨f1, h1, h2⟩, ⟨f2, h3, h4⟩⟩

/-- What holds of C18: above `lowest()` the non-default test is the comparison with the
first border, `IsNonDefault(v) = (v > DefaultBinUpperBorder)`. -/
theorem IsNonDefault_above_lowest {V : Type} [LinearOrder V] (f : TIsNonDefaultFloat V)
    (Lowest v : V) (hlow : f.DefaultBinLowerBorder = .Value Lowest) (hv : Lowest < v) :
    f.IsNonDefault (.Value v) = .ok (f.DefaultBinUpperBorder.lt (.Value v)) := by
  have hle : (TFloat.Value v).le (.Value Lowest) = false := by
    simp [TFloat.le, hv]
  unfold TIsNonDefaultFloat.IsNonDefault
  rw [hlow, hle]
  cases h : f.DefaultBinUpperBorder.lt (.Value v) <;> simp [TFloat.IsNan, pure, Except.pure]

/-- C18 fails on the code: with the borders `[0.5]` and NaN mode `Forbidden`, the value
`lowest()` is not greater than the first border and its quantized bin is 0, yet
`IsNonDefault` reports it as non-default. -/
theorem IsNonDefault_at_lowest :
    (TIsNonDefaultFloat.TIsNonDefault exampleFloatLowest (exampleFloatInfo .Forbidden false) 0
      >>= fun f => f.IsNonDefault (.Value exampleFloatLowest)) = .ok true ∧
    (TValueQuantizer.Float (exampleFloatInfo .Forbidden false) 0
      >>= fun valueQuantizer => valueQuantizer.Quantize (.Value exampleFloatLowest)) = .ok 0 ∧
    (TFloat.Value (5 : Int)).lt (.Value exampleFloatLowest) = false :=
  ⟨rfl, rfl, rfl⟩

/-! ## Sampling for the border search -/

theorem foldl_processNonDefaultValue {V : Type} (vs : List (TFloat V))
    (st : Bool × List (TFloat V)) :
    vs.foldl processNonDefaultValue st =
      (st.1 || vs.any TFloat.IsNan, st.2 ++ vs.filter (fun v => !v.IsNan)) := by
  induction vs generalizing st with
  | nil => simp
  | cons v vs ih =>
    rw [List.foldl_cons, ih]
    unfold processNonDefaultValue
    cases hv : v.IsNan <;> simp [hv]

/-- The loop over the stored entries of a sparse column that are in the sample. -/
theorem foldl_processPresent {V : Type} (P : Nat → Bool) (entries : List (Nat × TFloat V))
    (st : Bool × List (TFloat V)) (n : Nat) :
    entries.foldl
      (fun acc entry =>
        if P entry.1 then (processNonDefaultValue acc.1 entry.2, acc.2 + 1) else acc)
      (st, n) =
      (((entries.filter (fun e => P e.1)).map Prod.snd).foldl processNonDefaultValue st,
        n + (entries.filter (fun e => P e.1)).length) := by
  induction entries generalizing st n with
  | nil => simp
  | cons e entries ih =>
    rw [List.foldl_cons]
    cases hp : P e.1
    · simp only [hp, Bool.false_eq_true, if_false]
      rw [ih, List.filter_cons_of_neg (by simp [hp])]
    · simp only [hp, if_true]
      rw [ih, List.filter_cons_of_pos (by simp [hp])]
      simp only [List.map_cons, List.foldl_cons, List.length_cons]
      congr 1
      omega

theorem foldl_process_snd {V : Type} (entries : List (Nat × TFloat V))
    (st : Bool × List (TFloat V)) :
    entries.foldl (fun st entry => processNonDefaultValue st entry.2) st =
      (entries.map Prod.snd).foldl processNonDefaultValue st := by
  rw [List.foldl_map]

/-- The number of sampled objects of a sparse column is the number of its sampled stored
entries plus the number of sampled objects without a stored entry. -/
theorem sample_count_split {V : Type} (a : TSparseArray V) (hwf : a.WellFormed)
    (P : Nat → Bool) :
    ((List.range a.Size).filter P).length =
      (a.NonDefault.filter (fun e => P e.1)).length +
      ((List.range a.Size).filter
        (fun o => P o && !decide (o ∈ a.NonDefault.map Prod.fst))).length := by
  have hsplit := List.length_eq_countP_add_countP
    (fun o => decide (o ∈ a.NonDefault.map Prod.fst)) ((List.range a.Size).filter P)
  rw [List.countP_eq_length_filter, List.countP_eq_length_filter, List.filter_filter,
    List.filter_filter] at hsplit
  have hstored : ((List.range a.Size).filter
      (fun o => decide (o ∈ a.NonDefault.map Prod.fst) && P o)).length =
      (a.NonDefault.filter (fun e => P e.1)).length := by
    have hperm : ((List.range a.Size).filter
        (fun o => decide (o ∈ a.NonDefault.map Prod.fst))).Perm (a.NonDefault.map Prod.fst) := by
      apply (List.perm_ext_iff_of_nodup ((List.nodup_range _).filter _) (a.keys_nodup hwf)).2
      intro o
      simp only [List.mem_filter, List.mem_range, decide_eq_true_eq]
      constructor
      · exact fun h => h.2
      · exact fun h => ⟨hwf.2 o h, h⟩
    have h2 := (hperm.filter P).length_eq
    rw [List.filter_filter] at h2
    have h3 : ((a.NonDefault.map Prod.fst).filter P).length =
        (a.NonDefault.filter (fun e => P e.1)).length := by
      rw [List.filter_map, List.length_map]
      rfl
    rw [← h3, ← h2]
    congr 1
    apply List.filter_congr
    intro o _
    exact Bool.and_comm _ _
  rw [hsplit, hstored]
  congr 2
  apply List.filter_congr
  intro o _
  simp [Bool.and_comm]

theorem filter_not_nan {V : Type} (vs : List (TFloat V)) :
    ∀ v ∈ vs.filter (fun v => !v.IsNan), v.IsNan = false := by
  intro v hv
  have := (List.mem_filter.1 hv).2
  simpa using this

theorem any_map_eq {α β : Type} (f : α → β) (p : β → Bool) (l : List α) :
    (l.map f).any p = l.any (fun x => p (f x)) := by
  induction l with
  | nil => rfl
  | cons x l ih => simp [ih]

theorem CollectSampleValues_dense {V : Type} (d : TDenseData (TFloat V))
    (sub : TSubsetIndexingForBuildBorders) :
    ∃ fv, CollectSampleValues (.Dense d) sub = .ok (SampleHasNan (.Dense d) sub, fv) ∧
      (∀ v ∈ fv.Values, v.IsNan = false) ∧
      (∀ dv, fv.DefaultValue = some dv → dv.1.IsNan = false) := by
  have hvalues : ((d.CloneWithNewSubsetIndexing sub.ComposedSubset).ForEach).map Prod.snd =
      sub.ComposedSubset.SrcIndices.map d.Src := by
    simp only [TDenseData.ForEach, TDenseData.CloneWithNewSubsetIndexing, TDenseData.GetSize,
      TDenseData.GetValue, TArraySubsetIndexing.Size, List.map_map]
    exact map_range_getD sub.ComposedSubset.SrcIndices d.Src
  have hfold : ((d.CloneWithNewSubsetIndexing sub.ComposedSubset).ForEach).foldl
      (fun st visit => processNonDefaultValue st visit.2) (false, []) =
      (sub.ComposedSubset.SrcIndices.any (fun srcIdx => (d.Src srcIdx).IsNan),
        (sub.ComposedSubset.SrcIndices.map d.Src).filter (fun v => !v.IsNan)) := by
    rw [foldl_process_snd, hvalues, foldl_processNonDefaultValue, any_map_eq]
    simp
  refine ⟨{ Values := (sub.ComposedSubset.SrcIndices.map d.Src).filter (fun v => !v.IsNan)
            DefaultValue := none }, ?_, filter_not_nan _, ?_⟩
  · unfold CollectSampleValues SampleHasNan
    simp only [hfold]
    rfl
  · intro dv hdv
    cases hdv

/-- The loop of `CalcQuantizationAndNanMode` over the stored entries of a sparse column,
for either alternative of the inverted subset. -/
theorem sparse_sample_loop {V : Type} (a : TSparseArray (TFloat V))
    (inv : TArraySubsetInvertedIndexing) :
    (match inv with
      | .TInvertedIndexedSubset _ invertedMapping =>
        a.ForEachNonDefault.foldl
          (fun acc entry =>
            if (invertedMapping.getD entry.1 none).isSome then
              (processNonDefaultValue acc.1 entry.2, acc.2 + 1)
            else acc)
          (((false, []) : Bool × List (TFloat V)), 0)
      | .TFullSubset _ =>
        (a.ForEachNonDefault.foldl
            (fun st entry => processNonDefaultValue st entry.2) (false, []),
          a.GetNonDefaultSize)) =
      ((((a.NonDefault.filter (fun e => inv.IsPresent e.1)).map Prod.snd).any TFloat.IsNan,
        ((a.NonDefault.filter (fun e => inv.IsPresent e.1)).map Prod.snd).filter
          (fun v => !v.IsNan)),
        (a.NonDefault.filter (fun e => inv.IsPresent e.1)).length) := by
  cases inv with
  | TFullSubset n =>
    simp only [TArraySubsetInvertedIndexing.IsPresent, List.filter_true,
      TSparseArray.ForEachNonDefault, TSparseArray.GetNonDefaultSize]
    rw [foldl_process_snd, foldl_processNonDefaultValue]
    simp
  | TInvertedIndexedSubset n mapping =>
    simp only [TArraySubsetInvertedIndexing.IsPresent, TSparseArray.ForEachNonDefault]
    rw [foldl_processPresent (fun o => (mapping.getD o none).isSome),
      foldl_processNonDefaultValue]
    simp

/-- Some sampled object of a sparse column holds a NaN exactly when a sampled stored entry
is a NaN, or the default value is a NaN and some sampled object has no stored entry. -/
theorem sparse_sample_has_nan {V : Type} (a : TSparseArray (TFloat V)) (hwf : a.WellFormed)
    (P : Nat → Bool) :
    (List.range a.Size).any (fun o => P o && (a.GetValue o).IsNan) =
      (((a.NonDefault.filter (fun e => P e.1)).map Prod.snd).any TFloat.IsNan ||
        (decide (((List.range a.Size).filter
          (fun o => P o && !decide (o ∈ a.NonDefault.map Prod.fst))).length ≠ 0)
          && a.DefaultValue.IsNan)) := by
  rw [Bool.eq_iff_iff, any_map_eq]
  simp only [List.any_eq_true, List.mem_range, Bool.and_eq_true, Bool.or_eq_true,
    decide_eq_true_eq]
  constructor
  · rintro ⟨o, ho, hop, hnan⟩
    by_cases hmem : o ∈ a.NonDefault.map Prod.fst
    · left
      obtain ⟨e, he, heo⟩ := List.mem_map.1 hmem
      refine ⟨e, List.mem_filter.2 ⟨he, by rw [heo]; exact hop⟩, ?_⟩
      have hval := a.GetValue_of_mem hwf e.1 e.2 he
      rw [heo] at hval
      rw [← hval]
      exact hnan
    · right
      rw [a.GetValue_of_not_mem o hmem] at hnan
      refine ⟨?_, hnan⟩
      intro hzero
      have hin : o ∈ (List.range a.Size).filter
          (fun o => P o && !decide (o ∈ a.NonDefault.map Prod.fst)) := by
        apply List.mem_filter.2
        refine ⟨List.mem_range.2 ho, ?_⟩
        rw [hop, decide_eq_false hmem]
        rfl
      rw [List.length_eq_zero.1 hzero] at hin
      cases hin
  · rintro (⟨e, he, hnan⟩ | ⟨hne, hnan⟩)
    · have he2 := List.mem_filter.1 he
      refine ⟨e.1, hwf.2 e.1 (List.mem_map_of_mem Prod.fst he2.1), he2.2, ?_⟩
      rw [a.GetValue_of_mem hwf e.1 e.2 he2.1]
      exact hnan
    · obtain ⟨o, ho⟩ := List.exists_mem_of_length_pos (Nat.pos_of_ne_zero hne)
      have ho2 := List.mem_filter.1 ho
      have ho3 : P o = true ∧ (!decide (o ∈ a.NonDefault.map Prod.fst)) = true := by
        have := ho2.2
        rw [Bool.and_eq_true] at this
        exact this
      have ho4 : o ∉ a.NonDefault.map Prod.fst := by
        intro hmem
        have := ho3.2
        rw [decide_eq_true hmem] at this
        cases this
      refine ⟨o, List.mem_range.1 ho2.1, ho3.1, ?_⟩
      rw [a.GetValue_of_not_mem o ho4]
      exact hnan

theorem CollectSampleValues_sparse {V : Type} (a : TSparseArray (TFloat V))
    (sub : TSubsetIndexingForBuildBorders) (hc : SampleIsConsistent (.Sparse a) sub) :
    ∃ fv, CollectSampleValues (.Sparse a) sub = .ok (SampleHasNan (.Sparse a) sub, fv) ∧
      (∀ v ∈ fv.Values, v.IsNan = false) ∧
      (∀ dv, fv.DefaultValue = some dv → dv.1.IsNan = false) := by
  obtain ⟨hwf, hsize, hrest⟩ := hc
  cases hinv : sub.InvertedSubset with
  | none => rw [hinv] at hrest; exact hrest.elim
  | some inv =>
    rw [hinv] at hrest
    have hrest2 : sub.ComposedSubset.Size =
        ((List.range a.Size).filter inv.IsPresent).length := hrest
    have hsplit := sample_count_split a hwf inv.IsPresent
    have hle : ((List.range a.Size).filter inv.IsPresent).length ≤ a.Size := by
      have := List.length_filter_le inv.IsPresent (List.range a.Size)
      rw [List.length_range] at this
      exact this
    have hcount : (sub.ComposedSubset.Size % 2 ^ 32 + 2 ^ 32 -
        (a.NonDefault.filter (fun e => inv.IsPresent e.1)).length % 2 ^ 32) % 2 ^ 32 =
        ((List.range a.Size).filter
          (fun o => inv.IsPresent o && !decide (o ∈ a.NonDefault.map Prod.fst))).length := by
      rw [hrest2]
      generalize ((List.range a.Size).filter inv.IsPresent).length = n at hsplit hle
      generalize (a.NonDefault.filter (fun e => inv.IsPresent e.1)).length = k at hsplit
      generalize ((List.range a.Size).filter
          (fun o => inv.IsPresent o && !decide (o ∈ a.NonDefault.map Prod.fst))).length = u
        at hsplit
      have h1 : n % 2 ^ 32 = n := Nat.mod_eq_of_lt (by omega)
      have h2 : k % 2 ^ 32 = k := Nat.mod_eq_of_lt (by omega)
      rw [h1, h2]
      have h3 : n + 2 ^ 32 - k = u + 2 ^ 32 := by omega
      rw [h3, Nat.add_mod_right]
      exact Nat.mod_eq_of_lt (by omega)
    have hspec : SampleHasNan (.Sparse a) sub =
        (((a.NonDefault.filter (fun e => inv.IsPresent e.1)).map Prod.snd).any TFloat.IsNan ||
          (decide (((List.range a.Size).filter
            (fun o => inv.IsPresent o && !decide (o ∈ a.NonDefault.map Prod.fst))).length ≠ 0)
            && a.DefaultValue.IsNan)) := by
      rw [← sparse_sample_has_nan a hwf inv.IsPresent]
      unfold SampleHasNan
      simp only [hinv]
    have hloop := sparse_sample_loop a inv
    have hcollect : CollectSampleValues (.Sparse a) sub =
        (if ((List.range a.Size).filter
            (fun o => inv.IsPresent o && !decide (o ∈ a.NonDefault.map Prod.fst))).length ≠ 0 then
          if a.DefaultValue.IsNan then
            .ok (true,
              { Values := ((a.NonDefault.filter (fun e => inv.IsPresent e.1)).map Prod.snd).filter
                  (fun v => !v.IsNan)
                DefaultValue := none })
          else
            .ok (((a.NonDefault.filter (fun e => inv.IsPresent e.1)).map Prod.snd).any
                TFloat.IsNan,
              { Values := ((a.NonDefault.filter (fun e => inv.IsPresent e.1)).map Prod.snd).filter
                  (fun v => !v.IsNan)
                DefaultValue := some (a.DefaultValue,
                  ((List.range a.Size).filter
                    (fun o => inv.IsPresent o &&
                      !decide (o ∈ a.NonDefault.map Prod.fst))).length) })
        else
          .ok (((a.NonDefault.filter (fun e => inv.IsPresent e.1)).map Prod.snd).any
              TFloat.IsNan,
            { Values := ((a.NonDefault.filter (fun e => inv.IsPresent e.1)).map Prod.snd).filter
                (fun v => !v.IsNan)
              DefaultValue := none })) := by
      unfold CollectSampleValues
      simp only [hinv]
      cases inv with
      | TFullSubset n =>
        have hpair : (a.ForEachNonDefault.foldl
            (fun st entry => processNonDefaultValue st entry.2)
              ((false, []) : Bool × List (TFloat V)), a.GetNonDefaultSize) = _ := hloop
        have h1 := congrArg (fun p => p.1.1) hpair
        have h2 := congrArg (fun p => p.1.2) hpair
        have h3 := congrArg (fun p => p.2) hpair
        simp only at h1 h2 h3
        simp only [h1, h2, h3, hcount]
        rfl
      | TInvertedIndexedSubset n mapping =>
        have hpair : a.ForEachNonDefault.foldl
            (fun acc entry =>
              if (mapping.getD entry.1 none).isSome then
                (processNonDefaultValue acc.1 entry.2, acc.2 + 1)
              else acc)
            (((false, []) : Bool × List (TFloat V)), 0) = _ := hloop
        simp only [hpair, hcount]
        rfl
    rw [hcollect, hspec]
    by_cases hzero : ((List.range a.Size).filter
        (fun o => inv.IsPresent o && !decide (o ∈ a.NonDefault.map Prod.fst))).length = 0
    · refine ⟨⟨((a.NonDefault.filter (fun e => inv.IsPresent e.1)).map Prod.snd).filter (fun v => !v.IsNan), none⟩, ?_, filter_not_nan _, ?_⟩
      · rw [if_neg (by simpa using hzero)]
        simp [hzero]
      · intro dv hdv
        cases hdv
    · cases hnan : a.DefaultValue.IsNan
      · refine ⟨⟨((a.NonDefault.filter (fun e => inv.IsPresent e.1)).map Prod.snd).filter (fun v => !v.IsNan),
          some (a.DefaultValue,
            ((List.range a.Size).filter (fun o => inv.IsPresent o && !decide (o ∈ a.NonDefault.map Prod.fst))).length)⟩,
          ?_, filter_not_nan _, ?_⟩
        · rw [if_pos hzero]
          simp [hzero]
        · intro dv hdv
          simp only [Option.some.injEq] at hdv
          rw [← hdv]
          exact hnan
      · refine ⟨⟨((a.NonDefault.filter (fun e => inv.IsPresent e.1)).map Prod.snd).filter (fun v => !v.IsNan), none⟩, ?_, filter_not_nan _, ?_⟩
        · rw [if_pos hzero]
          simp [hzero]
        · intro dv hdv
          cases hdv

/-- The sample drawn by `CalcQuantizationAndNanMode`: `hasNans` is set exactly when the sample
contains a NaN, and neither the collected values nor the default value is a NaN. -/
theorem CollectSampleValues_spec {V : Type} (srcFeature : TTypedFeatureValuesHolder (TFloat V))
    (sub : TSubsetIndexingForBuildBorders) (hc : SampleIsConsistent srcFeature sub) :
    ∃ fv, CollectSampleValues srcFeature sub = .ok (SampleHasNan srcFeature sub, fv) ∧
      (∀ v ∈ fv.Values, v.IsNan = false) ∧
      (∀ dv, fv.DefaultValue = some dv → dv.1.IsNan = false) := by
  cases srcFeature with
  | Dense d => exact CollectSampleValues_dense d sub
  | Sparse a => exact CollectSampleValues_sparse a sub hc
  | Other n => exact hc.elim

/-- Claim C13: when the border count is positive and the sample subset fits the column,
`CalcQuantizationAndNanMode` fails with the data-validation error that names the feature
exactly when the NaN policy is `Forbidden` and the sample contains a NaN, where the default
value of a sparse column counts when a sampled object holds it; in every other case it
returns; and the split search is only ever called with values and a default value that are
not NaN, so that replacing the search by one that agrees with it on such requests changes
nothing. -/
theorem CalcQuantizationAndNanMode_forbidden_nan {V : Type}
    (bestSplit : TBestSplitRequest V → TQuantization V) (Lowest Max : V)
    (srcFeature : TTypedFeatureValuesHolder (TFloat V)) (featureId : Nat)
    (sub : TSubsetIndexingForBuildBorders) (binarizationOptions : TBinarizationOptions)
    (initialBorders : Option (List (TFloat V)))
    (quantizedDefaultBinFraction : Option (TFloat V)) (quantization : TQuantization V)
    (hcount : binarizationOptions.BorderCount > 0)
    (hc : SampleIsConsistent srcFeature sub) :
    (CalcQuantizationAndNanMode bestSplit Lowest Max srcFeature featureId sub
        binarizationOptions initialBorders quantizedDefaultBinFraction quantization =
        .error (.NanValuesNotAllowed featureId) ↔
      (binarizationOptions.NanMode = ENanMode.Forbidden ∧
        SampleHasNan srcFeature sub = true)) ∧
    (¬ (binarizationOptions.NanMode = ENanMode.Forbidden ∧
        SampleHasNan srcFeature sub = true) →
      ∃ result, CalcQuantizationAndNanMode bestSplit Lowest Max srcFeature featureId sub
        binarizationOptions initialBorders quantizedDefaultBinFraction quantization =
        .ok result) ∧
    (∀ otherSplit : TBestSplitRequest V → TQuantization V,
      (∀ request : TBestSplitRequest V,
        (∀ v ∈ request.FeatureValues.Values, v.IsNan = false) →
        (∀ dv, request.FeatureValues.DefaultValue = some dv → dv.1.IsNan = false) →
        request.FeatureValuesMayContainNans = false →
        otherSplit request = bestSplit request) →
      CalcQuantizationAndNanMode otherSplit Lowest Max srcFeature featureId sub
        binarizationOptions initialBorders quantizedDefaultBinFraction quantization =
      CalcQuantizationAndNanMode bestSplit Lowest Max srcFeature featureId sub
        binarizationOptions initialBorders quantizedDefaultBinFraction quantization) := by
  obtain ⟨fv, hcollect, hvalues, hdefault⟩ := CollectSampleValues_spec srcFeature sub hc
  refine ⟨?_, ?_, ?_⟩
  · unfold CalcQuantizationAndNanMode
    rw [hcollect]
    generalize SampleHasNan srcFeature sub = hasNans
    cases hasNans <;> cases hm : binarizationOptions.NanMode <;>
      simp [hcount, bind, Except.bind, pure, Except.pure, throw, throwThe, MonadExceptOf.throw]
  · unfold CalcQuantizationAndNanMode
    rw [hcollect]
    generalize SampleHasNan srcFeature sub = hasNans
    cases hasNans <;> cases hm : binarizationOptions.NanMode <;>
      simp [hcount, bind, Except.bind, pure, Except.pure, throw, throwThe, MonadExceptOf.throw]
  · intro otherSplit hagree
    unfold CalcQuantizationAndNanMode
    rw [hcollect]
    simp only [bind, Except.bind, pure, Except.pure]
    rw [hagree _ hvalues hdefault rfl]

/-- Claim C13, an instance: a sparse column whose default value is NaN fails under the policy
`Forbidden` when the sampled object 3 holds the default, and is accepted when only the
objects 0 and 2, which have stored values, are sampled. -/
theorem CalcQuantizationAndNanMode_forbidden_nan_witness :
    CalcQuantizationAndNanMode exampleBestSplit exampleFloatLowest exampleFloatMax
        (.Sparse exampleNanSparse) 7 exampleNanSparseSub
        { BorderCount := 2, NanMode := .Forbidden, BorderSelectionType := 0 } none none
        { Borders := [], DefaultQuantizedBin := none } =
      .error (.NanValuesNotAllowed 7) ∧
    ∃ result, CalcQuantizationAndNanMode exampleBestSplit exampleFloatLowest exampleFloatMax
        (.Sparse exampleNanSparse) 7 exampleStoredOnlySub
        { BorderCount := 2, NanMode := .Forbidden, BorderSelectionType := 0 } none none
        { Borders := [], DefaultQuantizedBin := none } = .ok result :=
  ⟨(CalcQuantizationAndNanMode_forbidden_nan exampleBestSplit exampleFloatLowest
      exampleFloatMax (.Sparse exampleNanSparse) 7 exampleNanSparseSub
      { BorderCount := 2, NanMode := .Forbidden, BorderSelectionType := 0 } none none
      { Borders := [], DefaultQuantizedBin := none } (by decide)
      ⟨by decide, by decide, rfl⟩).1.2 ⟨rfl, by decide⟩,
   (CalcQuantizationAndNanMode_forbidden_nan exampleBestSplit exampleFloatLowest
      exampleFloatMax (.Sparse exampleNanSparse) 7 exampleStoredOnlySub
      { BorderCount := 2, NanMode := .Forbidden, BorderSelectionType := 0 } none none
      { Borders := [], DefaultQuantizedBin := none } (by decide)
      ⟨by decide, by decide, rfl⟩).2.1 (by decide)⟩

/-- The bins of the example of C12 for any searched border `b` with `1.0 ≤ b < 2.0`. -/
theorem example_bins_of_border (b : Int) (hlow : 10 ≤ b) (hhigh : b < 20) :
    exampleNanValues.map
        (Quantize 0 true .Min [.Value exampleFloatLowest, .Value b]) =
      [.ok 1, .ok 2, .ok 0, .ok 2] := by
  have h1 : decide (b < 10) = false := decide_eq_false (by omega)
  have h2 : decide (b < 20) = true := decide_eq_true hhigh
  have h3 : decide (b < 30) = true := decide_eq_true (by omega)
  simp only [exampleNanValues, List.map, Quantize, TFloat.IsNan, TFloat.lt, List.filter,
    h1, h2, h3, Bool.false_eq_true, if_false, if_true, pure, Except.pure]
  rfl

/-- With the raw values `[1.0, 2.0, NaN, 3.0]`, a border count of 1 and the policy `Min` the
number of borders left for the search is 0 and no split search is run: the result is the
same for every search, the border list `[lowest()]`, also for a search that would answer
a request for no border with the border `1.5`. -/
theorem CalcQuantizationAndNanMode_single_border_no_search :
    (∀ bestSplit : TBestSplitRequest Int → TQuantization Int,
      CalcQuantizationAndNanMode bestSplit exampleFloatLowest exampleFloatMax
        (.Dense exampleNanDense) 0 exampleNanSub
        { BorderCount := 1, NanMode := .Min, BorderSelectionType := 0 } none none
        { Borders := [], DefaultQuantizedBin := none } =
      .ok (.Min, { Borders := [.Value exampleFloatLowest], DefaultQuantizedBin := none })) ∧
    (∀ request, (exampleConstantSplit request).Borders = [.Value 15]) ∧
    CalcQuantizationAndNanMode exampleConstantSplit exampleFloatLowest exampleFloatMax
        (.Dense exampleNanDense) 0 exampleNanSub
        { BorderCount := 1, NanMode := .Min, BorderSelectionType := 0 } none none
        { Borders := [], DefaultQuantizedBin := none } =
      .ok (.Min, { Borders := [.Value exampleFloatLowest], DefaultQuantizedBin := none }) :=
  ⟨fun _ => rfl, fun _ => rfl, rfl⟩

/-! ## The stored width -/

theorem foldlM_invariant {σ β : Type} (f : σ → β → Except EError σ) (P : σ → Prop)
    (hstep : ∀ s b s2, P s → f s b = .ok s2 → P s2) (l : List β) :
    ∀ s r, P s → l.foldlM f s = .ok r → P r := by
  induction l with
  | nil =>
    intro s r hs hrun
    simp only [List.foldlM, pure, Except.pure, Except.ok.injEq] at hrun
    rw [← hrun]
    exact hs
  | cons b l ih =>
    intro s r hs hrun
    rw [List.foldlM_cons] at hrun
    cases hb : f s b with
    | error e =>
      rw [hb] at hrun
      cases hrun
    | ok s2 =>
      rw [hb] at hrun
      exact ih s2 r (hstep s b s2 hs hb) hrun

theorem set_all_lt (l : List Nat) (i v B : Nat) (hl : ∀ x ∈ l, x < B) (hv : v < B) :
    ∀ x ∈ l.set i v, x < B := by
  intro x hx
  rcases List.mem_or_eq_of_mem_set hx with h | h
  · exact hl x h
  · rw [h]
    exact hv

theorem QuantizeEach_invariant {α σ : Type} (valueQuantizer : TValueQuantizer α)
    (callback : Nat → Nat → σ → σ) (P : σ → Prop)
    (hstep : ∀ i v s, P s → P (callback i v s)) (visits : List (Nat × α)) (state result : σ)
    (hs : P state) (hrun : QuantizeEach valueQuantizer callback visits state = .ok result) :
    P result := by
  refine foldlM_invariant _ P ?_ visits state result hs hrun
  intro s b s2 hsP hb
  cases hq : valueQuantizer.Quantize b.2 with
  | error e =>
    simp only [hq, bind, Except.bind] at hb
    cases hb
  | ok bin =>
    simp only [hq, bind, Except.bind, pure, Except.pure, Except.ok.injEq] at hb
    rw [← hb]
    exact hstep _ _ _ hsP

theorem QuantizeNonDefaultValues_invariant {α σ : Type}
    (srcFeature : TTypedFeatureValuesHolder α) (incr : TIncrementalDenseIndexing)
    (valueQuantizer : TValueQuantizer α) (callback : Nat → Nat → σ → σ) (P : σ → Prop)
    (hstep : ∀ i v s, P s → P (callback i v s)) (state result : σ) (hs : P state)
    (hrun : QuantizeNonDefaultValues srcFeature incr valueQuantizer callback state
      = .ok result) : P result := by
  unfold QuantizeNonDefaultValues at hrun
  cases hv : QuantizeNonDefaultValuesVisits srcFeature incr with
  | error e =>
    simp only [hv, bind, Except.bind] at hrun
    cases hrun
  | ok visits =>
    simp only [hv, bind, Except.bind] at hrun
    exact QuantizeEach_invariant valueQuantizer callback P hstep visits state result hs hrun

theorem CreateWithUninitializedData_lt (size storedBits : Nat) (uninit : Nat → Nat) :
    ∀ x ∈ CreateWithUninitializedData size storedBits uninit, x < 2 ^ storedBits := by
  intro x hx
  unfold CreateWithUninitializedData at hx
  obtain ⟨i, -, hi⟩ := List.mem_map.1 hx
  rw [← hi]
  exact Nat.mod_lt _ (Nat.two_pow_pos _)

theorem ParallelFill_lt (value B : Nat) (dst : List Nat) (hv : value < B) :
    ∀ x ∈ ParallelFill value dst, x < B := by
  intro x hx
  unfold ParallelFill at hx
  rw [(List.mem_replicate.1 hx).2]
  exact hv

/-- Every value `MakeQuantizedColumnWithoutDefaultBin` stores fits the stored width. -/
theorem MakeQuantizedColumnWithoutDefaultBin_width {α : Type} (storedBits : Nat)
    (srcFeature : TTypedFeatureValuesHolder α) (incr : TIncrementalDenseIndexing)
    (valueQuantizer : TValueQuantizer α) (uninit : Nat → Nat) (dst : TCompressedArray)
    (hrun : MakeQuantizedColumnWithoutDefaultBin storedBits srcFeature incr valueQuantizer
      uninit = .ok dst) :
    dst.BitsPerKey = valueQuantizer.DstBitsPerKey ∧ ∀ x ∈ dst.Data, x < 2 ^ storedBits := by
  have htail : ∀ filled data, (∀ x ∈ filled, x < 2 ^ storedBits) →
      QuantizeNonDefaultValues srcFeature incr valueQuantizer
        (fun dstIdx quantizedValue (dst : List Nat) =>
          dst.set dstIdx (quantizedValue % 2 ^ storedBits))
        filled = .ok data → ∀ x ∈ data, x < 2 ^ storedBits := by
    intro filled data hfilled hdata
    exact QuantizeNonDefaultValues_invariant srcFeature incr valueQuantizer _
      (fun l => ∀ x ∈ l, x < 2 ^ storedBits)
      (fun i v s hsl => set_all_lt s i _ _ hsl (Nat.mod_lt _ (Nat.two_pow_pos _)))
      filled data hfilled hdata
  unfold MakeQuantizedColumnWithoutDefaultBin at hrun
  cases srcFeature with
  | Sparse a =>
    by_cases hdef : a.GetDefaultSize ≠ 0
    · simp only [hdef, bind, Except.bind, pure, Except.pure, ne_eq, not_false_eq_true,
        if_true] at hrun
      split at hrun
      · cases hrun
      · split at hrun
        · cases hrun
        · rename_i data hdata
          simp only [Except.ok.injEq] at hrun
          rw [← hrun]
          exact ⟨rfl, htail _ data
            (ParallelFill_lt _ _ _ (Nat.mod_lt _ (Nat.two_pow_pos _))) hdata⟩
    · simp only [hdef, bind, Except.bind, pure, Except.pure, if_false] at hrun
      split at hrun
      · cases hrun
      · rename_i data hdata
        simp only [Except.ok.injEq] at hrun
        rw [← hrun]
        exact ⟨rfl, htail _ data (CreateWithUninitializedData_lt _ _ _) hdata⟩
  | Dense d =>
    simp only [bind, Except.bind, pure, Except.pure] at hrun
    split at hrun
    · cases hrun
    · rename_i data hdata
      simp only [Except.ok.injEq] at hrun
      rw [← hrun]
      exact ⟨rfl, htail _ data (CreateWithUninitializedData_lt _ _ _) hdata⟩
  | Other n =>
    simp only [bind, Except.bind, pure, Except.pure] at hrun
    split at hrun
    · cases hrun
    · rename_i data hdata
      simp only [Except.ok.injEq] at hrun
      rw [← hrun]
      exact ⟨rfl, htail _ data (CreateWithUninitializedData_lt _ _ _) hdata⟩

/-- The three aggregators of the source return a value of the type of the cell. -/
theorem AddToAggregate_width (dstBits : Nat) (context : BinaryPack.TAggregationContext)
    (boundsBegin partShift value cell : Nat) (hcell : cell < 2 ^ dstBits) :
    ExclusiveFeatureBundle.AddToAggregate dstBits boundsBegin value cell < 2 ^ dstBits ∧
    BinaryPack.AddToAggregate dstBits context value cell < 2 ^ dstBits ∧
    FeaturesGroup.AddToAggregate dstBits partShift value cell < 2 ^ dstBits := by
  refine ⟨?_, Nat.mod_lt _ (Nat.two_pow_pos _), Nat.mod_lt _ (Nat.two_pow_pos _)⟩
  unfold ExclusiveFeatureBundle.AddToAggregate
  split
  · exact Nat.mod_lt _ (Nat.two_pow_pos _)
  · exact hcell

theorem QuantizeEach_accepts {α σ : Type} (valueQuantizer : TValueQuantizer α)
    (callback : Nat → Nat → σ → σ) (visits : List (Nat × α)) :
    ∀ (state result : σ), QuantizeEach valueQuantizer callback visits state = .ok result →
      ∀ v ∈ visits, ∃ bin, valueQuantizer.Quantize v.2 = .ok bin := by
  induction visits with
  | nil =>
    intro state result _ v hv
    cases hv
  | cons w visits ih =>
    intro state result hrun v hv
    unfold QuantizeEach at hrun
    rw [List.foldlM_cons] at hrun
    cases hw : valueQuantizer.Quantize w.2 with
    | error e =>
      simp only [hw, bind, Except.bind] at hrun
      cases hrun
    | ok bin =>
      simp only [hw, bind, Except.bind, pure, Except.pure] at hrun
      rcases List.mem_cons.1 hv with h | h
      · rw [h]
        exact ⟨bin, hw⟩
      · exact ih _ result hrun v h

theorem compressed_ext (dst1 dst2 : TCompressedArray) (size : Nat) (cell : Nat → Nat)
    (hbits : dst1.BitsPerKey = dst2.BitsPerKey)
    (hlen1 : dst1.Data.length = size) (hlen2 : dst2.Data.length = size)
    (h1 : ∀ o, o < size → dst1.Data[o]? = some (cell o))
    (h2 : ∀ o, o < size → dst2.Data[o]? = some (cell o)) : dst1 = dst2 := by
  cases dst1 with
  | mk bits1 data1 =>
    cases dst2 with
    | mk bits2 data2 =>
      simp only at hbits hlen1 hlen2 h1 h2
      subst hbits
      congr
      apply List.ext_getElem?
      intro o
      by_cases ho : o < size
      · rw [h1 o ho, h2 o ho]
      · rw [List.getElem?_eq_none (by omega), List.getElem?_eq_none (by omega)]

/-- A run of `MakeQuantizedColumnWithoutDefaultBin` that returns gives the same column
whatever the uninitialized storage held, for a dense column iterated through the
incremental indexing of its own subset indexing and for a well-formed sparse column. -/
theorem MakeQuantizedColumnWithoutDefaultBin_uninit {α : Type} (storedBits : Nat)
    (srcFeature : TTypedFeatureValuesHolder α) (incr : TIncrementalDenseIndexing)
    (hasDenseData : Bool) (valueQuantizer : TValueQuantizer α) (uninit1 uninit2 : Nat → Nat)
    (dst : TCompressedArray)
    (hsup : srcFeature.Supported)
    (hincr : ∀ d, srcFeature = .Dense d →
      incr = TIncrementalDenseIndexing.TIncrementalDenseIndexing d.SubsetIndexing hasDenseData)
    (hrun : MakeQuantizedColumnWithoutDefaultBin storedBits srcFeature incr valueQuantizer
      uninit1 = .ok dst) :
    MakeQuantizedColumnWithoutDefaultBin storedBits srcFeature incr valueQuantizer
      uninit2 = .ok dst := by
  obtain ⟨bin, hbin⟩ := exists_bin valueQuantizer
  have hwidth1 := (MakeQuantizedColumnWithoutDefaultBin_width storedBits srcFeature incr
    valueQuantizer uninit1 dst hrun).1
  cases srcFeature with
  | Other n => exact absurd hsup (by simp [TTypedFeatureValuesHolder.Supported])
  | Dense d =>
    have hi := hincr d rfl
    subst hi
    obtain ⟨visits, hv, hperm⟩ := QuantizeNonDefaultValuesVisits_dense d hasDenseData
    have haccept : ∀ o, o < d.GetSize →
        valueQuantizer.Quantize (d.GetValue o) = .ok (bin (d.GetValue o)) := by
      intro o ho
      have hmem : (o, d.GetValue o) ∈ visits :=
        hperm.mem_iff.2 ((mem_ForEach d (o, d.GetValue o)).2 ⟨ho, rfl⟩)
      have hrun2 := hrun
      unfold MakeQuantizedColumnWithoutDefaultBin QuantizeNonDefaultValues at hrun2
      simp only [hv, bind, Except.bind, pure, Except.pure] at hrun2
      split at hrun2
      · cases hrun2
      · rename_i data hdata
        obtain ⟨b, hb⟩ := QuantizeEach_accepts valueQuantizer _ visits _ data hdata _ hmem
        have hb2 : valueQuantizer.Quantize (d.GetValue o) = .ok b := hb
        rw [hb2, hbin _ _ hb2]
    obtain ⟨dst1, hrun1, hlen1, hcells1⟩ := MakeQuantizedColumnWithoutDefaultBin_dense storedBits
      d hasDenseData valueQuantizer uninit1 bin haccept
    obtain ⟨dst2, hrun2, hlen2, hcells2⟩ := MakeQuantizedColumnWithoutDefaultBin_dense storedBits
      d hasDenseData valueQuantizer uninit2 bin haccept
    rw [hrun] at hrun1
    simp only [Except.ok.injEq] at hrun1
    subst hrun1
    rw [hrun2]
    have hwidth2 := (MakeQuantizedColumnWithoutDefaultBin_width storedBits _ _
      valueQuantizer uninit2 dst2 hrun2).1
    rw [compressed_ext dst2 dst d.GetSize _ (hwidth2.trans hwidth1.symm) hlen2 hlen1
      hcells2 hcells1]
  | Sparse a =>
    have hwf : a.WellFormed := hsup
    have hstoredok : ∀ v ∈ a.NonDefault, ∃ b, valueQuantizer.Quantize v.2 = .ok b := by
      intro v hvmem
      have hrun2 := hrun
      unfold MakeQuantizedColumnWithoutDefaultBin QuantizeNonDefaultValues
        QuantizeNonDefaultValuesVisits at hrun2
      by_cases hdef : a.GetDefaultSize ≠ 0
      · simp only [hdef, bind, Except.bind, pure, Except.pure, ne_eq, not_false_eq_true,
          if_true] at hrun2
        split at hrun2
        · cases hrun2
        · split at hrun2
          · cases hrun2
          · rename_i data hdata
            exact QuantizeEach_accepts valueQuantizer _ _ _ data hdata v hvmem
      · simp only [hdef, bind, Except.bind, pure, Except.pure, if_false] at hrun2
        split at hrun2
        · cases hrun2
        · rename_i data hdata
          exact QuantizeEach_accepts valueQuantizer _ _ _ data hdata v hvmem
    have hdefaultok : a.GetDefaultSize ≠ 0 →
        ∃ b, valueQuantizer.Quantize a.DefaultValue = .ok b := by
      intro hdef
      have hrun2 := hrun
      unfold MakeQuantizedColumnWithoutDefaultBin at hrun2
      simp only [hdef, bind, Except.bind, pure, Except.pure, ne_eq, not_false_eq_true,
        if_true] at hrun2
      split at hrun2
      · cases hrun2
      · rename_i b hb
        exact ⟨b, hb⟩
    have haccept : ∀ o, o < a.Size →
        valueQuantizer.Quantize (a.GetValue o) = .ok (bin (a.GetValue o)) := by
      intro o ho
      have hex : ∃ b, valueQuantizer.Quantize (a.GetValue o) = .ok b := by
        by_cases hmem : o ∈ a.NonDefault.map Prod.fst
        · obtain ⟨e, he, heo⟩ := List.mem_map.1 hmem
          have hval := a.GetValue_of_mem hwf e.1 e.2 he
          rw [heo] at hval
          rw [hval]
          exact hstoredok e he
        · rw [a.GetValue_of_not_mem o hmem]
          apply hdefaultok
          intro hzero
          exact hmem (a.all_stored hwf hzero o ho)
      obtain ⟨b, hb⟩ := hex
      rw [hb, hbin _ _ hb]
    obtain ⟨dst1, hrun1, hlen1, hcells1⟩ := MakeQuantizedColumnWithoutDefaultBin_sparse
      storedBits a incr valueQuantizer uninit1 bin hwf haccept
    obtain ⟨dst2, hrun2, hlen2, hcells2⟩ := MakeQuantizedColumnWithoutDefaultBin_sparse
      storedBits a incr valueQuantizer uninit2 bin hwf haccept
    rw [hrun] at hrun1
    simp only [Except.ok.injEq] at hrun1
    subst hrun1
    rw [hrun2]
    have hwidth2 := (MakeQuantizedColumnWithoutDefaultBin_width storedBits _ _
      valueQuantizer uninit2 dst2 hrun2).1
    rw [compressed_ext dst2 dst a.Size _ (hwidth2.trans hwidth1.symm) hlen2 hlen1
      hcells2 hcells1]

/-! ## ProcessFloatFeature -/

theorem ProcessFloatFeatureCalc_mismatch {V : Type}
    (bestSplit : TBestSplitRequest V → TQuantization V) (Lowest Max : V)
    (floatFeatureIdx : Nat) (srcFeature : TTypedFeatureValuesHolder (TFloat V))
    (featureId : Nat) (sub : TSubsetIndexingForBuildBorders)
    (options : TQuantizationOptions V) (initialBorders : Option (List (List (TFloat V))))
    (info : TQuantizedFloatFeaturesInfo V)
    (hne : info.HasNanMode floatFeatureIdx ≠ info.HasQuantization floatFeatureIdx) :
    ProcessFloatFeatureCalc bestSplit Lowest Max floatFeatureIdx srcFeature featureId sub
      options initialBorders info = .error (.NanModeAndQuantizationMismatch featureId) := by
  unfold ProcessFloatFeatureCalc
  unfold TQuantizedFloatFeaturesInfo.HasNanMode TQuantizedFloatFeaturesInfo.HasQuantization
    at hne ⊢
  unfold TQuantizedFloatFeaturesInfo.GetNanMode TQuantizedFloatFeaturesInfo.GetQuantization
  cases hm : info.NanModes floatFeatureIdx <;> cases hq : info.Quantizations floatFeatureIdx <;>
    simp [hm, hq, bind, Except.bind, pure, Except.pure, throw, throwThe,
      MonadExceptOf.throw] at hne ⊢

theorem ProcessFloatFeatureCalc_set {V : Type}
    (bestSplit : TBestSplitRequest V → TQuantization V) (Lowest Max : V)
    (floatFeatureIdx : Nat) (srcFeature : TTypedFeatureValuesHolder (TFloat V))
    (featureId : Nat) (sub : TSubsetIndexingForBuildBorders)
    (options : TQuantizationOptions V) (initialBorders : Option (List (List (TFloat V))))
    (info : TQuantizedFloatFeaturesInfo V) (nanMode : ENanMode)
    (quantization : TQuantization V)
    (hm : info.NanModes floatFeatureIdx = some nanMode)
    (hq : info.Quantizations floatFeatureIdx = some quantization) :
    ProcessFloatFeatureCalc bestSplit Lowest Max floatFeatureIdx srcFeature featureId sub
      options initialBorders info = .ok (nanMode, quantization) := by
  unfold ProcessFloatFeatureCalc
  unfold TQuantizedFloatFeaturesInfo.HasNanMode TQuantizedFloatFeaturesInfo.HasQuantization
  unfold TQuantizedFloatFeaturesInfo.GetNanMode TQuantizedFloatFeaturesInfo.GetQuantization
  simp [hm, hq, bind, Except.bind, pure, Except.pure]

theorem ProcessFloatFeatureCalc_unset {V : Type}
    (bestSplit : TBestSplitRequest V → TQuantization V) (Lowest Max : V)
    (floatFeatureIdx : Nat) (srcFeature : TTypedFeatureValuesHolder (TFloat V))
    (featureId : Nat) (sub : TSubsetIndexingForBuildBorders)
    (options : TQuantizationOptions V) (initialBorders : Option (List (List (TFloat V))))
    (info : TQuantizedFloatFeaturesInfo V)
    (hm : info.NanModes floatFeatureIdx = none)
    (hq : info.Quantizations floatFeatureIdx = none) :
    ProcessFloatFeatureCalc bestSplit Lowest Max floatFeatureIdx srcFeature featureId sub
      options initialBorders info =
    CalcQuantizationAndNanMode bestSplit Lowest Max srcFeature featureId sub
      (info.FloatFeatureBinarization featureId)
      (initialBorders.map (fun borders => borders.getD floatFeatureIdx []))
      options.DefaultValueFractionToEnableSparseStorage
      { Borders := [], DefaultQuantizedBin := none } := by
  unfold ProcessFloatFeatureCalc
  unfold TQuantizedFloatFeaturesInfo.HasNanMode TQuantizedFloatFeaturesInfo.HasQuantization
  simp [hm, hq, bind, Except.bind, pure, Except.pure]

theorem ProcessFloatFeatureRecord_set {V : Type} (floatFeatureIdx featureId : Nat)
    (nanMode : ENanMode) (quantization : TQuantization V)
    (info : TQuantizedFloatFeaturesInfo V)
    (hm : info.HasNanMode floatFeatureIdx = true)
    (hq : info.HasQuantization floatFeatureIdx = true) :
    ProcessFloatFeatureRecord floatFeatureIdx featureId nanMode quantization info = info := by
  unfold ProcessFloatFeatureRecord
  simp [hm, hq]

theorem ProcessFloatFeatureRecord_unset {V : Type} (floatFeatureIdx featureId : Nat)
    (nanMode : ENanMode) (quantization : TQuantization V)
    (info : TQuantizedFloatFeaturesInfo V)
    (hm : info.HasNanMode floatFeatureIdx = false)
    (hq : info.HasQuantization floatFeatureIdx = false) :
    ProcessFloatFeatureRecord floatFeatureIdx featureId nanMode quantization info =
      (if quantization.Borders.isEmpty then
        (info.SetNanMode floatFeatureIdx nanMode).IgnoreExternalFeature featureId
      else info.SetNanMode floatFeatureIdx nanMode).SetQuantization floatFeatureIdx
        quantization := by
  unfold ProcessFloatFeatureRecord
  simp [hm, hq]

theorem ProcessFloatFeatureRecord_has {V : Type} (floatFeatureIdx featureId : Nat)
    (nanMode : ENanMode) (quantization : TQuantization V)
    (info : TQuantizedFloatFeaturesInfo V)
    (heq : info.HasNanMode floatFeatureIdx = info.HasQuantization floatFeatureIdx) :
    (ProcessFloatFeatureRecord floatFeatureIdx featureId nanMode quantization
        info).HasNanMode floatFeatureIdx = true ∧
    (ProcessFloatFeatureRecord floatFeatureIdx featureId nanMode quantization
        info).HasQuantization floatFeatureIdx = true := by
  cases hm : info.HasNanMode floatFeatureIdx
  · have hq : info.HasQuantization floatFeatureIdx = false := by rw [← heq, hm]
    rw [ProcessFloatFeatureRecord_unset _ _ _ _ _ hm hq]
    unfold TQuantizedFloatFeaturesInfo.HasNanMode TQuantizedFloatFeaturesInfo.HasQuantization
      TQuantizedFloatFeaturesInfo.SetQuantization
    split <;>
      simp [TQuantizedFloatFeaturesInfo.SetNanMode,
        TQuantizedFloatFeaturesInfo.IgnoreExternalFeature]
  · have hq : info.HasQuantization floatFeatureIdx = true := by rw [← heq, hm]
    rw [ProcessFloatFeatureRecord_set _ _ _ _ _ hm hq]
    exact ⟨hm, hq⟩

/-- Claim C14: if `ProcessFloatFeature` is entered with a registry in which the NaN mode and
the quantization of the feature are both there or both missing and it returns, then both
are there in the registry it leaves; in that case they are also both there or both missing
when it throws. If it is entered with exactly one of the two, it throws the internal error
that names the feature and leaves the registry as it was. -/
theorem ProcessFloatFeature_sets_together {V : Type} [LinearOrder V]
    (bestSplit : TBestSplitRequest V → TQuantization V) (Lowest Max : V)
    (floatFeatureIdx : Nat) (srcFeature : TTypedFeatureValuesHolder (TFloat V))
    (featureId : Nat) (sub : TSubsetIndexingForBuildBorders)
    (options : TQuantizationOptions V) (initialBorders : Option (List (List (TFloat V))))
    (calcQuantizationAndNanModeOnly storeFeaturesDataAsExternalValuesHolder : Bool)
    (incrementalDenseIndexing : Option TIncrementalDenseIndexing) (uninit : Nat → Nat)
    (info : TQuantizedFloatFeaturesInfo V) :
    (info.HasNanMode floatFeatureIdx = info.HasQuantization floatFeatureIdx →
      (∀ column,
        (ProcessFloatFeature bestSplit Lowest Max floatFeatureIdx srcFeature featureId sub
          options initialBorders calcQuantizationAndNanModeOnly
          storeFeaturesDataAsExternalValuesHolder incrementalDenseIndexing uninit info).1 =
          .ok column →
        (ProcessFloatFeature bestSplit Lowest Max floatFeatureIdx srcFeature featureId sub
          options initialBorders calcQuantizationAndNanModeOnly
          storeFeaturesDataAsExternalValuesHolder incrementalDenseIndexing uninit
          info).2.HasNanMode floatFeatureIdx = true ∧
        (ProcessFloatFeature bestSplit Lowest Max floatFeatureIdx srcFeature featureId sub
          options initialBorders calcQuantizationAndNanModeOnly
          storeFeaturesDataAsExternalValuesHolder incrementalDenseIndexing uninit
          info).2.HasQuantization floatFeatureIdx = true) ∧
      (ProcessFloatFeature bestSplit Lowest Max floatFeatureIdx srcFeature featureId sub
          options initialBorders calcQuantizationAndNanModeOnly
          storeFeaturesDataAsExternalValuesHolder incrementalDenseIndexing uninit
          info).2.HasNanMode floatFeatureIdx =
        (ProcessFloatFeature bestSplit Lowest Max floatFeatureIdx srcFeature featureId sub
          options initialBorders calcQuantizationAndNanModeOnly
          storeFeaturesDataAsExternalValuesHolder incrementalDenseIndexing uninit
          info).2.HasQuantization floatFeatureIdx) ∧
    (info.HasNanMode floatFeatureIdx ≠ info.HasQuantization floatFeatureIdx →
      ProcessFloatFeature bestSplit Lowest Max floatFeatureIdx srcFeature featureId sub
        options initialBorders calcQuantizationAndNanModeOnly
        storeFeaturesDataAsExternalValuesHolder incrementalDenseIndexing uninit info =
      (.error (.NanModeAndQuantizationMismatch featureId), info)) := by
  constructor
  · intro heq
    unfold ProcessFloatFeature
    cases hcalc : ProcessFloatFeatureCalc bestSplit Lowest Max floatFeatureIdx srcFeature
        featureId sub options initialBorders info with
    | error e =>
      refine ⟨?_, heq⟩
      intro column hcolumn
      cases hcolumn
    | ok calculated =>
      obtain ⟨nanMode, quantization⟩ := calculated
      have hboth := ProcessFloatFeatureRecord_has floatFeatureIdx featureId nanMode
        quantization info heq
      refine ⟨fun _ _ => hboth, ?_⟩
      exact hboth.1.trans hboth.2.symm
  · intro hne
    unfold ProcessFloatFeature
    rw [ProcessFloatFeatureCalc_mismatch bestSplit Lowest Max floatFeatureIdx srcFeature
      featureId sub options initialBorders info hne]

/-- Claim C14, instances: entered with an empty registry, the call for the raw values
`[1.0, 2.0, NaN, 3.0]` returns the column of the bins `[1, 2, 0, 2]` and leaves both the
NaN mode and the quantization set; entered with the NaN mode alone, it throws. -/
theorem ProcessFloatFeature_sets_together_witness :
    (ProcessFloatFeature exampleBestSplit exampleFloatLowest exampleFloatMax 0
        (.Dense exampleNanDense) 0 exampleNanSub exampleOptions none false false
        (some (TIncrementalDenseIndexing.TIncrementalDenseIndexing (.TFullSubset 4) true))
        (fun i => 1000 + i) exampleEmptyFloatInfo).1 =
      .ok (some (.Compressed { BitsPerKey := 8, Data := [1, 2, 0, 2] })) ∧
    (ProcessFloatFeature exampleBestSplit exampleFloatLowest exampleFloatMax 0
        (.Dense exampleNanDense) 0 exampleNanSub exampleOptions none false false
        (some (TIncrementalDenseIndexing.TIncrementalDenseIndexing (.TFullSubset 4) true))
        (fun i => 1000 + i) exampleEmptyFloatInfo).2.HasNanMode 0 = true ∧
    (ProcessFloatFeature exampleBestSplit exampleFloatLowest exampleFloatMax 0
        (.Dense exampleNanDense) 0 exampleNanSub exampleOptions none false false
        (some (TIncrementalDenseIndexing.TIncrementalDenseIndexing (.TFullSubset 4) true))
        (fun i => 1000 + i) exampleEmptyFloatInfo).2.HasQuantization 0 = true ∧
    ProcessFloatFeature exampleBestSplit exampleFloatLowest exampleFloatMax 0
        (.Dense exampleNanDense) 0 exampleNanSub exampleOptions none false false
        (some (TIncrementalDenseIndexing.TIncrementalDenseIndexing (.TFullSubset 4) true))
        (fun i => 1000 + i) exampleNanModeOnlyFloatInfo =
      (.error (.NanModeAndQuantizationMismatch 0), exampleNanModeOnlyFloatInfo) := by
  have hrun : (ProcessFloatFeature exampleBestSplit exampleFloatLowest exampleFloatMax 0
      (.Dense exampleNanDense) 0 exampleNanSub exampleOptions none false false
      (some (TIncrementalDenseIndexing.TIncrementalDenseIndexing (.TFullSubset 4) true))
      (fun i => 1000 + i) exampleEmptyFloatInfo).1 =
      .ok (some (.Compressed { BitsPerKey := 8, Data := [1, 2, 0, 2] })) := rfl
  have hboth := ((ProcessFloatFeature_sets_together exampleBestSplit exampleFloatLowest
    exampleFloatMax 0 (.Dense exampleNanDense) 0 exampleNanSub exampleOptions none false false
    (some (TIncrementalDenseIndexing.TIncrementalDenseIndexing (.TFullSubset 4) true))
    (fun i => 1000 + i) exampleEmptyFloatInfo).1 rfl).1 _ hrun
  exact ⟨hrun, hboth.1, hboth.2,
    (ProcessFloatFeature_sets_together exampleBestSplit exampleFloatLowest
      exampleFloatMax 0 (.Dense exampleNanDense) 0 exampleNanSub exampleOptions none false false
      (some (TIncrementalDenseIndexing.TIncrementalDenseIndexing (.TFullSubset 4) true))
      (fun i => 1000 + i) exampleNanModeOnlyFloatInfo).2 (by decide)⟩

theorem MakeQuantizedColumn_uninit {α : Type}
    (newValueQuantizer : Nat → Except EError (TValueQuantizer α))
    (srcFeature : TTypedFeatureValuesHolder α) (featureId : Nat)
    (incr : TIncrementalDenseIndexing) (hasDenseData : Bool) (uninit1 uninit2 : Nat → Nat)
    (column : TQuantizedColumn α)
    (hsup : srcFeature.Supported)
    (hincr : ∀ d, srcFeature = .Dense d →
      incr = TIncrementalDenseIndexing.TIncrementalDenseIndexing d.SubsetIndexing hasDenseData)
    (hrun : MakeQuantizedColumn newValueQuantizer srcFeature featureId incr uninit1 =
      .ok column) :
    MakeQuantizedColumn newValueQuantizer srcFeature featureId incr uninit2 = .ok column := by
  unfold MakeQuantizedColumn at hrun ⊢
  cases hnq : newValueQuantizer featureId with
  | error e =>
    rw [hnq] at hrun
    cases hrun
  | ok valueQuantizer =>
    rw [hnq] at hrun
    simp only [bind, Except.bind] at hrun ⊢
    have hmake : ∀ storedBits : Nat,
        (if valueQuantizer.DefaultBin.isSome then
          (MakeQuantizedColumnWithDefaultBin storedBits srcFeature valueQuantizer).map
            TQuantizedColumn.SparseCompressed
        else
          (MakeQuantizedColumnWithoutDefaultBin storedBits srcFeature incr
            valueQuantizer uninit1).map TQuantizedColumn.Compressed) = .ok column →
        (if valueQuantizer.DefaultBin.isSome then
          (MakeQuantizedColumnWithDefaultBin storedBits srcFeature valueQuantizer).map
            TQuantizedColumn.SparseCompressed
        else
          (MakeQuantizedColumnWithoutDefaultBin storedBits srcFeature incr
            valueQuantizer uninit2).map TQuantizedColumn.Compressed) = .ok column := by
      intro storedBits hcol
      by_cases hdb : valueQuantizer.DefaultBin.isSome = true
      · rw [if_pos hdb] at hcol ⊢
        exact hcol
      · rw [if_neg hdb] at hcol ⊢
        cases hw : MakeQuantizedColumnWithoutDefaultBin storedBits srcFeature incr
            valueQuantizer uninit1 with
        | error e =>
          rw [hw] at hcol
          cases hcol
        | ok dst =>
          rw [hw] at hcol
          rw [MakeQuantizedColumnWithoutDefaultBin_uninit storedBits srcFeature incr
            hasDenseData valueQuantizer uninit1 uninit2 dst hsup hincr hw]
          exact hcol
    by_cases h8 : valueQuantizer.DstBitsPerKey = 8
    · rw [if_pos h8] at hrun ⊢
      exact hmake 8 hrun
    · rw [if_neg h8] at hrun ⊢
      by_cases h16 : valueQuantizer.DstBitsPerKey = 16
      · rw [if_pos h16] at hrun ⊢
        exact hmake 16 hrun
      · rw [if_neg h16] at hrun ⊢
        by_cases h32 : valueQuantizer.DstBitsPerKey = 32
        · rw [if_pos h32] at hrun ⊢
          exact hmake 32 hrun
        · rw [if_neg h32] at hrun
          cases hrun

theorem ProcessFloatFeatureColumn_uninit {V : Type} [LinearOrder V] (borderCount : Nat)
    (srcFeature : TTypedFeatureValuesHolder (TFloat V)) (featureId : Nat)
    (options : TQuantizationOptions V)
    (calcQuantizationAndNanModeOnly storeFeaturesDataAsExternalValuesHolder : Bool)
    (incrementalDenseIndexing : Option TIncrementalDenseIndexing) (hasDenseData : Bool)
    (uninit1 uninit2 : Nat → Nat) (info : TQuantizedFloatFeaturesInfo V)
    (column : Option (TQuantizedColumn (TFloat V)))
    (hsup : srcFeature.Supported)
    (hincr : ∀ d, srcFeature = .Dense d → incrementalDenseIndexing =
      some (TIncrementalDenseIndexing.TIncrementalDenseIndexing d.SubsetIndexing hasDenseData))
    (hrun : ProcessFloatFeatureColumn borderCount srcFeature featureId options
      calcQuantizationAndNanModeOnly storeFeaturesDataAsExternalValuesHolder
      incrementalDenseIndexing uninit1 info = .ok column) :
    ProcessFloatFeatureColumn borderCount srcFeature featureId options
      calcQuantizationAndNanModeOnly storeFeaturesDataAsExternalValuesHolder
      incrementalDenseIndexing uninit2 info = .ok column := by
  unfold ProcessFloatFeatureColumn at hrun ⊢
  split
  · rename_i hcond
    rw [if_pos hcond] at hrun
    split
    · rename_i hext
      rw [if_pos hext] at hrun
      exact hrun
    · rename_i hext
      rw [if_neg hext] at hrun
      split
      · rename_i hmake
        rw [if_pos hmake] at hrun
        cases incrementalDenseIndexing with
        | none => exact hrun
        | some incr =>
          simp only at hrun ⊢
          cases hm : MakeQuantizedColumn (TValueQuantizer.Float info) srcFeature featureId incr
              uninit1 with
          | error e =>
            rw [hm] at hrun
            cases hrun
          | ok made =>
            rw [hm] at hrun
            rw [MakeQuantizedColumn_uninit (TValueQuantizer.Float info) srcFeature featureId
              incr hasDenseData uninit1 uninit2 made hsup
              (fun d hd => Option.some.inj (hincr d hd)) hm]
            exact hrun
      · rename_i hmake
        rw [if_neg hmake] at hrun
        exact hrun
  · rename_i hcond
    rw [if_neg hcond] at hrun
    exact hrun

/-- Claim C15: when the registry already holds the NaN mode and the quantization of the
feature, `ProcessFloatFeature` runs no border search, as its outcome is the same for every
search; it leaves the registry as it was, with the NaN mode, the borders and the ignored
flags; and running it again on the registry it leaves, with whatever search and whatever
content of the uninitialized storage, gives the same column. The column is dense over the
incremental indexing of its own subset indexing, or sparse and well formed. -/
theorem ProcessFloatFeature_keeps_set_borders {V : Type} [LinearOrder V]
    (bestSplit : TBestSplitRequest V → TQuantization V) (Lowest Max : V)
    (floatFeatureIdx : Nat) (srcFeature : TTypedFeatureValuesHolder (TFloat V))
    (featureId : Nat) (sub : TSubsetIndexingForBuildBorders)
    (options : TQuantizationOptions V) (initialBorders : Option (List (List (TFloat V))))
    (calcQuantizationAndNanModeOnly storeFeaturesDataAsExternalValuesHolder : Bool)
    (incrementalDenseIndexing : Option TIncrementalDenseIndexing) (hasDenseData : Bool)
    (uninit : Nat → Nat) (info : TQuantizedFloatFeaturesInfo V)
    (nanMode : ENanMode) (quantization : TQuantization V)
    (hm : info.NanModes floatFeatureIdx = some nanMode)
    (hq : info.Quantizations floatFeatureIdx = some quantization)
    (hsup : srcFeature.Supported)
    (hincr : ∀ d, srcFeature = .Dense d → incrementalDenseIndexing =
      some (TIncrementalDenseIndexing.TIncrementalDenseIndexing d.SubsetIndexing
        hasDenseData)) :
    (∀ (otherSplit : TBestSplitRequest V → TQuantization V)
        (otherSub : TSubsetIndexingForBuildBorders),
      ProcessFloatFeature otherSplit Lowest Max floatFeatureIdx srcFeature featureId otherSub
        options initialBorders calcQuantizationAndNanModeOnly
        storeFeaturesDataAsExternalValuesHolder incrementalDenseIndexing uninit info =
      ProcessFloatFeature bestSplit Lowest Max floatFeatureIdx srcFeature featureId sub
        options initialBorders calcQuantizationAndNanModeOnly
        storeFeaturesDataAsExternalValuesHolder incrementalDenseIndexing uninit info) ∧
    (ProcessFloatFeature bestSplit Lowest Max floatFeatureIdx srcFeature featureId sub
        options initialBorders calcQuantizationAndNanModeOnly
        storeFeaturesDataAsExternalValuesHolder incrementalDenseIndexing uninit info).2 =
      info ∧
    (∀ (column : Option (TQuantizedColumn (TFloat V)))
        (otherSplit : TBestSplitRequest V → TQuantization V) (otherUninit : Nat → Nat),
      (ProcessFloatFeature bestSplit Lowest Max floatFeatureIdx srcFeature featureId sub
        options initialBorders calcQuantizationAndNanModeOnly
        storeFeaturesDataAsExternalValuesHolder incrementalDenseIndexing uninit info).1 =
        .ok column →
      (ProcessFloatFeature otherSplit Lowest Max floatFeatureIdx srcFeature featureId sub
        options initialBorders calcQuantizationAndNanModeOnly
        storeFeaturesDataAsExternalValuesHolder incrementalDenseIndexing otherUninit
        (ProcessFloatFeature bestSplit Lowest Max floatFeatureIdx srcFeature featureId sub
          options initialBorders calcQuantizationAndNanModeOnly
          storeFeaturesDataAsExternalValuesHolder incrementalDenseIndexing uninit info).2).1 =
        .ok column) := by
  have hhm : info.HasNanMode floatFeatureIdx = true := by
    unfold TQuantizedFloatFeaturesInfo.HasNanMode
    rw [hm]
    rfl
  have hhq : info.HasQuantization floatFeatureIdx = true := by
    unfold TQuantizedFloatFeaturesInfo.HasQuantization
    rw [hq]
    rfl
  have hrun : ∀ (anySplit : TBestSplitRequest V → TQuantization V)
      (anySub : TSubsetIndexingForBuildBorders) (anyUninit : Nat → Nat),
      ProcessFloatFeature anySplit Lowest Max floatFeatureIdx srcFeature featureId anySub
        options initialBorders calcQuantizationAndNanModeOnly
        storeFeaturesDataAsExternalValuesHolder incrementalDenseIndexing anyUninit info =
      (ProcessFloatFeatureColumn quantization.Borders.length srcFeature featureId options
        calcQuantizationAndNanModeOnly storeFeaturesDataAsExternalValuesHolder
        incrementalDenseIndexing anyUninit info, info) := by
    intro anySplit anySub anyUninit
    unfold ProcessFloatFeature
    rw [ProcessFloatFeatureCalc_set anySplit Lowest Max floatFeatureIdx srcFeature featureId
      anySub options initialBorders info nanMode quantization hm hq]
    simp only [ProcessFloatFeatureRecord_set floatFeatureIdx featureId nanMode quantization
      info hhm hhq]
  refine ⟨?_, ?_, ?_⟩
  · intro otherSplit otherSub
    rw [hrun otherSplit otherSub uninit, hrun bestSplit sub uninit]
  · rw [hrun bestSplit sub uninit]
  · intro column otherSplit otherUninit hcolumn
    rw [hrun bestSplit sub uninit] at hcolumn ⊢
    rw [hrun otherSplit sub otherUninit]
    exact ProcessFloatFeatureColumn_uninit _ srcFeature featureId options
      calcQuantizationAndNanModeOnly storeFeaturesDataAsExternalValuesHolder
      incrementalDenseIndexing hasDenseData uninit otherUninit info column hsup hincr hcolumn

/-- Claim C15, an instance: with the NaN mode `Min` and the borders `[lowest(), 1.5]` in the
registry, the raw values `[1.0, 2.0, NaN, 3.0]` give the bins `[1, 2, 0, 2]`, the registry
stays as it was, and a second run with a search that finds no border and another content
of the uninitialized storage gives the same bins. -/
theorem ProcessFloatFeature_keeps_set_borders_witness :
    (ProcessFloatFeature exampleBestSplit exampleFloatLowest exampleFloatMax 0
        (.Dense exampleNanDense) 0 exampleNanSub exampleOptions none false false
        (some (TIncrementalDenseIndexing.TIncrementalDenseIndexing (.TFullSubset 4) true))
        (fun i => 1000 + i) examplePopulatedFloatInfo).1 =
      .ok (some (.Compressed { BitsPerKey := 8, Data := [1, 2, 0, 2] })) ∧
    (ProcessFloatFeature exampleBestSplit exampleFloatLowest exampleFloatMax 0
        (.Dense exampleNanDense) 0 exampleNanSub exampleOptions none false false
        (some (TIncrementalDenseIndexing.TIncrementalDenseIndexing (.TFullSubset 4) true))
        (fun i => 1000 + i) examplePopulatedFloatInfo).2 = examplePopulatedFloatInfo ∧
    (ProcessFloatFeature exampleNoBorderSplit exampleFloatLowest exampleFloatMax 0
        (.Dense exampleNanDense) 0 exampleNanSub exampleOptions none false false
        (some (TIncrementalDenseIndexing.TIncrementalDenseIndexing (.TFullSubset 4) true))
        (fun i => 77 * i)
        (ProcessFloatFeature exampleBestSplit exampleFloatLowest exampleFloatMax 0
          (.Dense exampleNanDense) 0 exampleNanSub exampleOptions none false false
          (some (TIncrementalDenseIndexing.TIncrementalDenseIndexing (.TFullSubset 4) true))
          (fun i => 1000 + i) examplePopulatedFloatInfo).2).1 =
      .ok (some (.Compressed { BitsPerKey := 8, Data := [1, 2, 0, 2] })) := by
  have hrun : (ProcessFloatFeature exampleBestSplit exampleFloatLowest exampleFloatMax 0
      (.Dense exampleNanDense) 0 exampleNanSub exampleOptions none false false
      (some (TIncrementalDenseIndexing.TIncrementalDenseIndexing (.TFullSubset 4) true))
      (fun i => 1000 + i) examplePopulatedFloatInfo).1 =
      .ok (some (.Compressed { BitsPerKey := 8, Data := [1, 2, 0, 2] })) := rfl
  have h := ProcessFloatFeature_keeps_set_borders exampleBestSplit exampleFloatLowest
    exampleFloatMax 0 (.Dense exampleNanDense) 0 exampleNanSub exampleOptions none false false
    (some (TIncrementalDenseIndexing.TIncrementalDenseIndexing (.TFullSubset 4) true)) true
    (fun i => 1000 + i) examplePopulatedFloatInfo .Min
    { Borders := [.Value exampleFloatLowest, .Value 15], DefaultQuantizedBin := none }
    rfl rfl trivial (by intro d hd; cases hd; rfl)
  exact ⟨hrun, h.2.1, h.2.2 _ exampleNoBorderSplit (fun i => 77 * i) hrun⟩

/-- Claim C16: when `ProcessFloatFeature` is entered with neither the NaN mode nor the
quantization of the feature in the registry and computes a quantization whose border list
is empty, it returns without writing a column and leaves a registry in which the feature
is marked ignored and the NaN mode and the empty quantization are recorded, everything
else being as before. -/
theorem ProcessFloatFeature_empty_borders {V : Type} [LinearOrder V]
    (bestSplit : TBestSplitRequest V → TQuantization V) (Lowest Max : V)
    (floatFeatureIdx : Nat) (srcFeature : TTypedFeatureValuesHolder (TFloat V))
    (featureId : Nat) (sub : TSubsetIndexingForBuildBorders)
    (options : TQuantizationOptions V) (initialBorders : Option (List (List (TFloat V))))
    (calcQuantizationAndNanModeOnly storeFeaturesDataAsExternalValuesHolder : Bool)
    (incrementalDenseIndexing : Option TIncrementalDenseIndexing) (uninit : Nat → Nat)
    (info : TQuantizedFloatFeaturesInfo V)
    (nanMode : ENanMode) (quantization : TQuantization V)
    (hm : info.NanModes floatFeatureIdx = none)
    (hq : info.Quantizations floatFeatureIdx = none)
    (hcalc : CalcQuantizationAndNanMode bestSplit Lowest Max srcFeature featureId sub
      (info.FloatFeatureBinarization featureId)
      (initialBorders.map (fun borders => borders.getD floatFeatureIdx []))
      options.DefaultValueFractionToEnableSparseStorage
      { Borders := [], DefaultQuantizedBin := none } = .ok (nanMode, quantization))
    (hempty : quantization.Borders = []) :
    ProcessFloatFeature bestSplit Lowest Max floatFeatureIdx srcFeature featureId sub
        options initialBorders calcQuantizationAndNanModeOnly
        storeFeaturesDataAsExternalValuesHolder incrementalDenseIndexing uninit info =
      (.ok none,
        ((info.SetNanMode floatFeatureIdx nanMode).IgnoreExternalFeature
          featureId).SetQuantization floatFeatureIdx quantization) ∧
    (((info.SetNanMode floatFeatureIdx nanMode).IgnoreExternalFeature
        featureId).SetQuantization floatFeatureIdx quantization).IgnoredExternalFeatures
      featureId = true ∧
    (((info.SetNanMode floatFeatureIdx nanMode).IgnoreExternalFeature
        featureId).SetQuantization floatFeatureIdx quantization).GetNanMode floatFeatureIdx =
      .ok nanMode ∧
    (((info.SetNanMode floatFeatureIdx nanMode).IgnoreExternalFeature
        featureId).SetQuantization floatFeatureIdx quantization).GetQuantization
      floatFeatureIdx = .ok quantization := by
  have hhm : info.HasNanMode floatFeatureIdx = false := by
    unfold TQuantizedFloatFeaturesInfo.HasNanMode
    rw [hm]
    rfl
  have hhq : info.HasQuantization floatFeatureIdx = false := by
    unfold TQuantizedFloatFeaturesInfo.HasQuantization
    rw [hq]
    rfl
  refine ⟨?_, ?_, ?_, ?_⟩
  · unfold ProcessFloatFeature
    rw [ProcessFloatFeatureCalc_unset bestSplit Lowest Max floatFeatureIdx srcFeature featureId
      sub options initialBorders info hm hq, hcalc]
    simp only [ProcessFloatFeatureRecord_unset floatFeatureIdx featureId nanMode quantization
      info hhm hhq, hempty, List.isEmpty_nil, if_true, List.length_nil]
    unfold ProcessFloatFeatureColumn
    simp
    rfl
  · simp [TQuantizedFloatFeaturesInfo.SetQuantization,
      TQuantizedFloatFeaturesInfo.IgnoreExternalFeature]
  · simp [TQuantizedFloatFeaturesInfo.SetQuantization,
      TQuantizedFloatFeaturesInfo.IgnoreExternalFeature,
      TQuantizedFloatFeaturesInfo.SetNanMode, TQuantizedFloatFeaturesInfo.GetNanMode]
    rfl
  · simp [TQuantizedFloatFeaturesInfo.SetQuantization,
      TQuantizedFloatFeaturesInfo.GetQuantization]
    rfl

/-- Claim C16, an instance: for a column that holds `1.0` everywhere and a search that finds
no border, no column is written and feature 0 is marked ignored. -/
theorem ProcessFloatFeature_empty_borders_witness :
    (ProcessFloatFeature exampleNoBorderSplit exampleFloatLowest exampleFloatMax 0
        (.Dense exampleConstantDense) 0 exampleNanSub exampleOptions none false false
        (some (TIncrementalDenseIndexing.TIncrementalDenseIndexing (.TFullSubset 4) true))
        (fun i => 1000 + i) exampleEmptyFloatInfo).1 = .ok none ∧
    (ProcessFloatFeature exampleNoBorderSplit exampleFloatLowest exampleFloatMax 0
        (.Dense exampleConstantDense) 0 exampleNanSub exampleOptions none false false
        (some (TIncrementalDenseIndexing.TIncrementalDenseIndexing (.TFullSubset 4) true))
        (fun i => 1000 + i) exampleEmptyFloatInfo).2.IgnoredExternalFeatures 0 = true ∧
    exampleEmptyFloatInfo.IgnoredExternalFeatures 0 = false := by
  have h := ProcessFloatFeature_empty_borders exampleNoBorderSplit exampleFloatLowest
    exampleFloatMax 0 (.Dense exampleConstantDense) 0 exampleNanSub exampleOptions none false
    false (some (TIncrementalDenseIndexing.TIncrementalDenseIndexing (.TFullSubset 4) true))
    (fun i => 1000 + i) exampleEmptyFloatInfo .Forbidden
    { Borders := [], DefaultQuantizedBin := none } rfl rfl rfl rfl
  refine ⟨?_, ?_, rfl⟩
  · rw [h.1]
  · rw [h.1]
    exact h.2.1

/-! ## Masks of the non-default values -/

open TGetQuantizedNonDefaultValuesMasks

theorem bitMask_testBit (i b : Nat) :
    ((1 <<< (i % 64)) % 2 ^ 64).testBit b = decide (b = i % 64) := by
  rw [Nat.testBit_mod_two_pow, Nat.one_shiftLeft, Nat.testBit_two_pow]
  have hlt : i % 64 < 64 := Nat.mod_lt _ (by decide)
  rw [Bool.eq_iff_iff]
  simp only [Bool.and_eq_true, decide_eq_true_eq]
  constructor
  · rintro ⟨_, h⟩
    exact h.symm
  · intro h
    exact ⟨by omega, h.symm⟩

theorem eq_of_div_mod_eq {i k : Nat} (hdiv : k / 64 = i / 64) (hmod : k % 64 = i % 64) :
    k = i := by
  have h1 := Nat.div_add_mod k 64
  have h2 := Nat.div_add_mod i 64
  omega

theorem MasksCover_nil : MasksCover [] [] := by
  refine ⟨List.Pairwise.nil, ?_, ?_, ?_⟩
  · intro m hm
    cases hm
  · intro m hm
    cases hm
  · intro i
    constructor
    · rintro ⟨mask, hmem, _⟩
      cases hmem
    · intro h
      cases h

theorem MasksCover_snoc_new (masks : List (Nat × Nat)) (indices : List Nat) (i : Nat)
    (hcover : MasksCover masks indices) (hblocks : ∀ m ∈ masks, m.1 < i / 64) :
    MasksCover (masks ++ [(i / 64, (1 <<< (i % 64)) % 2 ^ 64)]) (indices ++ [i]) := by
  obtain ⟨h1, h2, h3, h4⟩ := hcover
  have hbit : ((1 <<< (i % 64)) % 2 ^ 64).testBit (i % 64) = true := by
    rw [bitMask_testBit]
    exact decide_eq_true rfl
  refine ⟨?_, ?_, ?_, ?_⟩
  · rw [List.map_append, List.pairwise_append]
    refine ⟨h1, List.pairwise_singleton _ _, ?_⟩
    intro a ha b hb
    obtain ⟨m, hm, hma⟩ := List.mem_map.1 ha
    rw [List.map_cons, List.map_nil, List.mem_singleton] at hb
    rw [hb, ← hma]
    exact hblocks m hm
  · intro m hm
    rcases List.mem_append.1 hm with h | h
    · exact h2 m h
    · rw [List.mem_singleton.1 h]
      intro hzero
      have hbit2 := hbit
      simp only at hzero
      rw [hzero, Nat.zero_testBit] at hbit2
      cases hbit2
  · intro m hm
    rcases List.mem_append.1 hm with h | h
    · obtain ⟨j, hj, hjm⟩ := h3 m h
      exact ⟨j, List.mem_append_left _ hj, hjm⟩
    · rw [List.mem_singleton.1 h]
      exact ⟨i, List.mem_append_right _ (List.mem_singleton.2 rfl), rfl⟩
  · intro k
    constructor
    · rintro ⟨mask, hmem, hbitk⟩
      rcases List.mem_append.1 hmem with h | h
      · exact List.mem_append_left _ ((h4 k).1 ⟨mask, h, hbitk⟩)
      · have hpair := List.mem_singleton.1 h
        have hblk : k / 64 = i / 64 := congrArg Prod.fst hpair
        have hmask : mask = (1 <<< (i % 64)) % 2 ^ 64 := congrArg Prod.snd hpair
        rw [hmask, bitMask_testBit] at hbitk
        have hmod : k % 64 = i % 64 := of_decide_eq_true hbitk
        rw [eq_of_div_mod_eq hblk hmod]
        exact List.mem_append_right _ (List.mem_singleton.2 rfl)
    · intro hk
      rcases List.mem_append.1 hk with h | h
      · obtain ⟨mask, hmem, hbitk⟩ := (h4 k).2 h
        exact ⟨mask, List.mem_append_left _ hmem, hbitk⟩
      · rw [List.mem_singleton.1 h]
        exact ⟨_, List.mem_append_right _ (List.mem_singleton.2 rfl), hbit⟩

theorem MasksCover_snoc_same (closed : List (Nat × Nat)) (block mask : Nat)
    (indices : List Nat) (i : Nat)
    (hcover : MasksCover (closed ++ [(block, mask)]) indices) (hblock : i / 64 = block) :
    MasksCover (closed ++ [(block, mask ||| (1 <<< (i % 64)) % 2 ^ 64)]) (indices ++ [i]) := by
  obtain ⟨h1, h2, h3, h4⟩ := hcover
  have hbit : (mask ||| (1 <<< (i % 64)) % 2 ^ 64).testBit (i % 64) = true := by
    rw [Nat.testBit_or, bitMask_testBit, decide_eq_true rfl, Bool.or_true]
  refine ⟨?_, ?_, ?_, ?_⟩
  · rw [List.map_append] at h1 ⊢
    exact h1
  · intro m hm
    rcases List.mem_append.1 hm with h | h
    · exact h2 m (List.mem_append_left _ h)
    · rw [List.mem_singleton.1 h]
      intro hzero
      have hbit2 := hbit
      simp only at hzero
      rw [hzero, Nat.zero_testBit] at hbit2
      cases hbit2
  · intro m hm
    rcases List.mem_append.1 hm with h | h
    · obtain ⟨j, hj, hjm⟩ := h3 m (List.mem_append_left _ h)
      exact ⟨j, List.mem_append_left _ hj, hjm⟩
    · rw [List.mem_singleton.1 h]
      exact ⟨i, List.mem_append_right _ (List.mem_singleton.2 rfl), hblock⟩
  · intro k
    constructor
    · rintro ⟨mask2, hmem, hbitk⟩
      rcases List.mem_append.1 hmem with h | h
      · exact List.mem_append_left _ ((h4 k).1 ⟨mask2, List.mem_append_left _ h, hbitk⟩)
      · have hpair := List.mem_singleton.1 h
        have hblk : k / 64 = block := congrArg Prod.fst hpair
        have hmask : mask2 = mask ||| (1 <<< (i % 64)) % 2 ^ 64 := congrArg Prod.snd hpair
        rw [hmask, Nat.testBit_or, Bool.or_eq_true] at hbitk
        rcases hbitk with hold | hnew
        · refine List.mem_append_left _ ((h4 k).1 ⟨mask, ?_, hold⟩)
          rw [hblk]
          exact List.mem_append_right _ (List.mem_singleton.2 rfl)
        · rw [bitMask_testBit] at hnew
          have hmod : k % 64 = i % 64 := of_decide_eq_true hnew
          rw [eq_of_div_mod_eq (hblk.trans hblock.symm) hmod]
          exact List.mem_append_right _ (List.mem_singleton.2 rfl)
    · intro hk
      rcases List.mem_append.1 hk with h | h
      · obtain ⟨mask2, hmem, hbitk⟩ := (h4 k).2 h
        rcases List.mem_append.1 hmem with hc | hc
        · exact ⟨mask2, List.mem_append_left _ hc, hbitk⟩
        · have hpair := List.mem_singleton.1 hc
          have hblk : k / 64 = block := congrArg Prod.fst hpair
          have hmask : mask2 = mask := congrArg Prod.snd hpair
          refine ⟨mask ||| (1 <<< (i % 64)) % 2 ^ 64, ?_, ?_⟩
          · rw [hblk]
            exact List.mem_append_right _ (List.mem_singleton.2 rfl)
          · rw [Nat.testBit_or, ← hmask, hbitk, Bool.true_or]
      · rw [List.mem_singleton.1 h]
        refine ⟨mask ||| (1 <<< (i % 64)) % 2 ^ 64, ?_, hbit⟩
        rw [hblock]
        exact List.mem_append_right _ (List.mem_singleton.2 rfl)

theorem UpdateInIncrementalOrder_cover (state : TMasksState) (indices : List Nat) (i : Nat)
    (hcover : MasksCover (CloseBlock state).1 indices)
    (hopen : state.currentBlockIdx = MaxUi32 → state.DstMasks = [])
    (hcount : state.DstNonDefaultCount = indices.length % 2 ^ 32)
    (hlast : ∀ j ∈ indices, j < i) (hblock : i / 64 ≠ MaxUi32) :
    MasksCover (CloseBlock (UpdateInIncrementalOrder i state)).1 (indices ++ [i]) ∧
    ((UpdateInIncrementalOrder i state).currentBlockIdx = MaxUi32 →
      (UpdateInIncrementalOrder i state).DstMasks = []) ∧
    (UpdateInIncrementalOrder i state).DstNonDefaultCount = (indices ++ [i]).length % 2 ^ 32 := by
  have hcount2 : (state.DstNonDefaultCount + 1) % 2 ^ 32 = (indices ++ [i]).length % 2 ^ 32 := by
    rw [List.length_append, List.length_singleton, hcount]
    omega
  unfold UpdateInIncrementalOrder
  simp only [BLOCK_SIZE]
  by_cases hsame : i / 64 = state.currentBlockIdx
  · have hnotmax : state.currentBlockIdx ≠ MaxUi32 := fun h => hblock (hsame.trans h)
    rw [if_pos hsame]
    refine ⟨?_, fun h => absurd h hnotmax, hcount2⟩
    unfold CloseBlock at hcover ⊢
    simp only [hnotmax, ne_eq, not_false_eq_true, if_true] at hcover ⊢
    exact MasksCover_snoc_same _ _ _ _ i hcover hsame
  · rw [if_neg hsame]
    refine ⟨?_, fun h => absurd h hblock, hcount2⟩
    unfold CloseBlock at hcover ⊢
    simp only [hblock, ne_eq, not_false_eq_true, if_true]
    by_cases hmax : state.currentBlockIdx = MaxUi32
    · simp only [hmax, ne_eq, not_true_eq_false, if_false] at hcover ⊢
      rw [hopen hmax] at hcover ⊢
      exact MasksCover_snoc_new [] indices i hcover (fun m hm => by cases hm)
    · simp only [hmax, ne_eq, not_false_eq_true, if_true] at hcover ⊢
      refine MasksCover_snoc_new _ indices i hcover ?_
      intro m hm
      obtain ⟨j, hj, hjm⟩ := hcover.2.2.1 (state.currentBlockIdx, state.currentBlockMask)
        (List.mem_append_right _ (List.mem_singleton.2 rfl))
      have hle : state.currentBlockIdx ≤ i / 64 := by
        have := Nat.div_le_div_right (c := 64) (Nat.le_of_lt (hlast j hj))
        simp only at hjm
        omega
      have hlt : state.currentBlockIdx < i / 64 := by
        have hne : state.currentBlockIdx ≠ i / 64 := fun h => hsame h.symm
        omega
      rcases List.mem_append.1 hm with h | h
      · have hpw := hcover.1
        rw [List.map_append, List.pairwise_append] at hpw
        have := hpw.2.2 m.1 (List.mem_map_of_mem Prod.fst h) state.currentBlockIdx
          (by simp)
        omega
      · rw [List.mem_singleton.1 h]
        exact hlt

theorem foldl_UpdateInIncrementalOrder_cover (later : List Nat) :
    ∀ (state : TMasksState) (indices : List Nat),
      MasksCover (CloseBlock state).1 indices →
      (state.currentBlockIdx = MaxUi32 → state.DstMasks = []) →
      state.DstNonDefaultCount = indices.length % 2 ^ 32 →
      (indices ++ later).Pairwise (fun lhs rhs => lhs < rhs) →
      (∀ i ∈ later, i / 64 ≠ MaxUi32) →
      MasksCover
        (CloseBlock (later.foldl (fun st i => UpdateInIncrementalOrder i st) state)).1
        (indices ++ later) ∧
      (later.foldl (fun st i => UpdateInIncrementalOrder i st) state).DstNonDefaultCount =
        (indices ++ later).length % 2 ^ 32 := by
  induction later with
  | nil =>
    intro state indices hcover _ hcount _ _
    rw [List.append_nil]
    exact ⟨hcover, hcount⟩
  | cons i later ih =>
    intro state indices hcover hopen hcount hsorted hblocks
    have hlast : ∀ j ∈ indices, j < i := by
      intro j hj
      exact (List.pairwise_append.1 hsorted).2.2 j hj i (List.mem_cons_self _ _)
    obtain ⟨h1, h2, h3⟩ := UpdateInIncrementalOrder_cover state indices i hcover hopen hcount
      hlast (hblocks i (List.mem_cons_self _ _))
    have happ : indices ++ i :: later = (indices ++ [i]) ++ later := by
      rw [List.append_assoc, List.singleton_append]
    rw [List.foldl_cons, happ]
    exact ih _ _ h1 h2 h3 (happ ▸ hsorted)
      (fun k hk => hblocks k (List.mem_cons_of_mem _ hk))

/-- The masks and the count that the updates for a strictly increasing list of objects
leave, starting from an empty mask list and a zero count. -/
theorem masks_of_sorted (indices : List Nat) (objectCount : Nat) (nonDefault : Nat → Bool)
    (hsorted : indices.Pairwise (fun lhs rhs => lhs < rhs))
    (hmem : ∀ i, i ∈ indices ↔ (i < objectCount ∧ nonDefault i = true))
    (hsize : objectCount < 2 ^ 32) :
    MasksCover
      (TGetQuantizedNonDefaultValuesMasks.CloseBlock
        (indices.foldl
          (fun st i => TGetQuantizedNonDefaultValuesMasks.UpdateInIncrementalOrder i st)
          (TGetQuantizedNonDefaultValuesMasks.OpenBlock ([], 0)))).1 indices ∧
    (TGetQuantizedNonDefaultValuesMasks.CloseBlock
        (indices.foldl
          (fun st i => TGetQuantizedNonDefaultValuesMasks.UpdateInIncrementalOrder i st)
          (TGetQuantizedNonDefaultValuesMasks.OpenBlock ([], 0)))).2 =
      ((List.range objectCount).filter nonDefault).length := by
  have hfold := foldl_UpdateInIncrementalOrder_cover indices
    (TGetQuantizedNonDefaultValuesMasks.OpenBlock ([], 0)) [] MasksCover_nil (fun _ => rfl) rfl
    (by rw [List.nil_append]; exact hsorted)
    (by
      intro i hi
      have := ((hmem i).1 hi).1
      unfold TGetQuantizedNonDefaultValuesMasks.MaxUi32
      omega)
  rw [List.nil_append] at hfold
  refine ⟨hfold.1, ?_⟩
  have hperm : indices.Perm ((List.range objectCount).filter nonDefault) := by
    apply (List.perm_ext_iff_of_nodup
      (List.Pairwise.imp (fun h => Nat.ne_of_lt h) hsorted)
      ((List.nodup_range _).filter _)).2
    intro i
    rw [hmem i, List.mem_filter, List.mem_range]
  have hlen : indices.length ≤ objectCount := by
    rw [hperm.length_eq]
    have := List.length_filter_le nonDefault (List.range objectCount)
    rw [List.length_range] at this
    exact this
  have hcount : (TGetQuantizedNonDefaultValuesMasks.CloseBlock
      (indices.foldl
        (fun st i => TGetQuantizedNonDefaultValuesMasks.UpdateInIncrementalOrder i st)
        (TGetQuantizedNonDefaultValuesMasks.OpenBlock ([], 0)))).2 =
      indices.length % 2 ^ 32 := hfold.2
  rw [hcount, Nat.mod_eq_of_lt (by omega), hperm.length_eq]

theorem foldlM_UpdateIfNonDefault {α : Type} (IsNonDefault : α → Except EError Bool)
    (nonDefault : α → Bool) (visits : List (Nat × α))
    (hnd : ∀ v ∈ visits, IsNonDefault v.2 = .ok (nonDefault v.2)) :
    ∀ state : TMasksState,
      visits.foldlM (UpdateIfNonDefault IsNonDefault) state =
        .ok (((visits.filter (fun v => nonDefault v.2)).map Prod.fst).foldl
          (fun st i => UpdateInIncrementalOrder i st) state) := by
  induction visits with
  | nil =>
    intro state
    rfl
  | cons v visits ih =>
    intro state
    rw [List.foldlM_cons]
    have hv := hnd v (List.mem_cons_self _ _)
    have hstep : UpdateIfNonDefault IsNonDefault state v =
        .ok (if nonDefault v.2 then UpdateInIncrementalOrder v.1 state else state) := by
      unfold UpdateIfNonDefault
      simp only [hv, bind, Except.bind, pure, Except.pure]
      cases nonDefault v.2 <;> rfl
    rw [hstep]
    simp only [bind, Except.bind]
    rw [ih (fun w hw => hnd w (List.mem_cons_of_mem _ hw))]
    cases hb : nonDefault v.2
    · rw [List.filter_cons_of_neg (by simp [hb])]
      rfl
    · rw [List.filter_cons_of_pos (by simp [hb])]
      rfl

theorem foldlM_UpdateWithGap {α : Type} (IsNonDefault : α → Except EError Bool)
    (nonDefault : α → Bool) (entries : List (Nat × α))
    (hnd : ∀ v ∈ entries, IsNonDefault v.2 = .ok (nonDefault v.2)) :
    ∀ (idx : Nat) (state : TMasksState),
      entries.foldlM (UpdateWithGap IsNonDefault) (idx, state) =
        .ok ((GapIndices nonDefault idx entries).1,
          (GapIndices nonDefault idx entries).2.foldl
            (fun st i => UpdateInIncrementalOrder i st) state) := by
  induction entries with
  | nil =>
    intro idx state
    rfl
  | cons v entries ih =>
    intro idx state
    rw [List.foldlM_cons]
    have hv := hnd v (List.mem_cons_self _ _)
    have hstep : UpdateWithGap IsNonDefault (idx, state) v =
        .ok (max idx v.1 + 1,
          (List.range' idx (v.1 - idx) ++ (if nonDefault v.2 then [v.1] else [])).foldl
            (fun st i => UpdateInIncrementalOrder i st) state) := by
      unfold UpdateWithGap UpdateIfNonDefault
      simp only [hv, bind, Except.bind, pure, Except.pure]
      rw [List.foldl_append]
      cases nonDefault v.2 <;> rfl
    rw [hstep]
    simp only [bind, Except.bind]
    rw [ih (fun w hw => hnd w (List.mem_cons_of_mem _ hw))]
    simp only [GapIndices, List.foldl_append]

/-- The objects that the loop with gaps records, for entries with strictly increasing
indices from `idx` on: they increase strictly, lie between `idx` and the index reached, and
are the objects without an entry together with those whose entry is non-default. -/
theorem GapIndices_spec {α : Type} (nonDefault : α → Bool) (entries : List (Nat × α)) :
    ∀ idx : Nat,
      (entries.map Prod.fst).Pairwise (fun lhs rhs => lhs < rhs) →
      (∀ k ∈ entries.map Prod.fst, idx ≤ k) →
      idx ≤ (GapIndices nonDefault idx entries).1 ∧
      (∀ k ∈ entries.map Prod.fst, k < (GapIndices nonDefault idx entries).1) ∧
      (GapIndices nonDefault idx entries).2.Pairwise (fun lhs rhs => lhs < rhs) ∧
      (∀ i, i ∈ (GapIndices nonDefault idx entries).2 ↔
        (idx ≤ i ∧ i < (GapIndices nonDefault idx entries).1 ∧
          (i ∉ entries.map Prod.fst ∨ ∃ v, (i, v) ∈ entries ∧ nonDefault v = true))) := by
  induction entries with
  | nil =>
    intro idx _ _
    simp only [GapIndices]
    refine ⟨Nat.le_refl _, ?_, List.Pairwise.nil, ?_⟩
    · intro k hk
      cases hk
    · intro i
      constructor
      · intro h
        cases h
      · rintro ⟨h1, h2, _⟩
        omega
  | cons e entries ih =>
    intro idx hsorted hge
    rw [List.map_cons, List.pairwise_cons] at hsorted
    have hek : idx ≤ e.1 := hge e.1 (by simp)
    have hmax : max idx e.1 = e.1 := Nat.max_eq_right hek
    obtain ⟨r1, r2, r3, r4⟩ := ih (e.1 + 1) hsorted.2
      (fun k hk => hsorted.1 k hk)
    simp only [GapIndices, hmax]
    refine ⟨by omega, ?_, ?_, ?_⟩
    · intro k hk
      rw [List.map_cons, List.mem_cons] at hk
      rcases hk with h | h
      · omega
      · exact r2 k h
    · rw [List.pairwise_append, List.pairwise_append]
      refine ⟨⟨List.pairwise_lt_range' _ _, ?_, ?_⟩, r3, ?_⟩
      · split
        · exact List.pairwise_singleton _ _
        · exact List.Pairwise.nil
      · intro a ha b hb
        rw [List.mem_range'_1] at ha
        split at hb
        · rw [List.mem_singleton.1 hb]
          omega
        · cases hb
      · intro a ha b hb
        have hb2 := ((r4 b).1 hb).1
        rcases List.mem_append.1 ha with h | h
        · rw [List.mem_range'_1] at h
          omega
        · split at h
          · rw [List.mem_singleton.1 h]
            omega
          · cases h
    · intro i
      rw [List.mem_append, List.mem_append, List.mem_range'_1, r4 i]
      have hnotlater : ∀ k ∈ entries.map Prod.fst, e.1 < k := hsorted.1
      constructor
      · rintro ((h | h) | h)
        · refine ⟨h.1, by omega, Or.inl ?_⟩
          rw [List.map_cons, List.mem_cons, not_or]
          refine ⟨by omega, ?_⟩
          intro hmem
          have := hnotlater i hmem
          omega
        · split at h
          · rename_i hnd
            rw [List.mem_singleton.1 h]
            exact ⟨hek, by omega, Or.inr ⟨e.2, List.mem_cons_self _ _, hnd⟩⟩
          · cases h
        · refine ⟨by omega, h.2.1, ?_⟩
          rcases h.2.2 with hn | ⟨v, hv, hvnd⟩
          · left
            rw [List.map_cons, List.mem_cons, not_or]
            exact ⟨by omega, hn⟩
          · exact Or.inr ⟨v, List.mem_cons_of_mem _ hv, hvnd⟩
      · rintro ⟨h1, h2, h3⟩
        by_cases hlt : i < e.1
        · exact Or.inl (Or.inl ⟨h1, by omega⟩)
        · by_cases heq : i = e.1
          · rcases h3 with hn | ⟨v, hv, hvnd⟩
            · exfalso
              apply hn
              rw [heq]
              simp
            · rcases List.mem_cons.1 hv with hhead | htail
              · left
                right
                have hv2 : v = e.2 := by
                  rw [← hhead]
                rw [hv2] at hvnd
                rw [if_pos hvnd, heq]
                exact List.mem_singleton.2 rfl
              · exfalso
                have := hnotlater i (List.mem_map.2 ⟨(i, v), htail, rfl⟩)
                omega
          · right
            refine ⟨by omega, h2, ?_⟩
            rcases h3 with hn | ⟨v, hv, hvnd⟩
            · left
              intro hmem
              apply hn
              rw [List.map_cons]
              exact List.mem_cons_of_mem _ hmem
            · right
              rcases List.mem_cons.1 hv with hhead | htail
              · exfalso
                apply heq
                rw [← hhead]
              · exact ⟨v, htail, hvnd⟩

theorem ProcessDenseColumn_eq {α : Type} (IsNonDefault : α → Except EError Bool)
    (nonDefault : α → Bool) (d : TDenseData α) (incrementalIndexing : TArraySubsetIndexing)
    (dst : List (Nat × Nat) × Nat)
    (hvalues : ∀ o, o < incrementalIndexing.Size →
      IsNonDefault ((d.CloneWithNewSubsetIndexing incrementalIndexing).GetValue o) =
        .ok (nonDefault ((d.CloneWithNewSubsetIndexing incrementalIndexing).GetValue o))) :
    ProcessDenseColumn IsNonDefault d incrementalIndexing dst =
      .ok (CloseBlock
        (((List.range incrementalIndexing.Size).filter
            (fun o => nonDefault
              ((d.CloneWithNewSubsetIndexing incrementalIndexing).GetValue o))).foldl
          (fun st i => UpdateInIncrementalOrder i st) (OpenBlock dst))) := by
  unfold ProcessDenseColumn
  rw [foldlM_UpdateIfNonDefault IsNonDefault nonDefault]
  · simp only [bind, Except.bind, pure, Except.pure]
    have hlist : (((d.CloneWithNewSubsetIndexing incrementalIndexing).ForEach).filter
        (fun v => nonDefault v.2)).map Prod.fst =
        (List.range incrementalIndexing.Size).filter
          (fun o => nonDefault
            ((d.CloneWithNewSubsetIndexing incrementalIndexing).GetValue o)) := by
      unfold TDenseData.ForEach
      rw [List.filter_map, List.map_map]
      have hid : (Prod.fst ∘ fun objectIdx =>
          (objectIdx, (d.CloneWithNewSubsetIndexing incrementalIndexing).GetValue objectIdx)) =
          id := rfl
      rw [hid, List.map_id]
      rfl
    rw [hlist]
  · intro v hv
    rw [mem_ForEach] at hv
    rw [hv.2]
    exact hvalues v.1 hv.1

theorem ProcessSparseColumn_equal_eq {α : Type} (IsNonDefault : α → Except EError Bool)
    (nonDefault : α → Bool) (NOT_PRESENT : Nat) (a : TSparseArray α) (size : Nat)
    (dst : List (Nat × Nat) × Nat)
    (hvalues : ∀ v ∈ a.NonDefault, IsNonDefault v.2 = .ok (nonDefault v.2))
    (hdefault : IsNonDefault a.DefaultValue = .ok false) :
    ProcessSparseColumn IsNonDefault NOT_PRESENT a (.TFullSubset size) dst =
      .ok (CloseBlock
        (((a.NonDefault.filter (fun v => nonDefault v.2)).map Prod.fst).foldl
          (fun st i => UpdateInIncrementalOrder i st) (OpenBlock dst))) := by
  unfold ProcessSparseColumn
  have hd : IsNonDefault a.GetDefaultValue = .ok false := hdefault
  simp only [hd, bind, Except.bind]
  unfold ProcessSparseColumnWithSrcDefaultEqualToDstDefault
  simp only [TSparseArray.ForEachNonDefault, bind, Except.bind, pure, Except.pure]
  rw [foldlM_UpdateIfNonDefault IsNonDefault nonDefault a.NonDefault hvalues]
  rfl

theorem ProcessSparseColumn_notEqual_eq {α : Type} (IsNonDefault : α → Except EError Bool)
    (nonDefault : α → Bool) (NOT_PRESENT : Nat) (a : TSparseArray α) (size : Nat)
    (dst : List (Nat × Nat) × Nat)
    (hvalues : ∀ v ∈ a.NonDefault, IsNonDefault v.2 = .ok (nonDefault v.2))
    (hdefault : IsNonDefault a.DefaultValue = .ok true) :
    ProcessSparseColumn IsNonDefault NOT_PRESENT a (.TFullSubset size) dst =
      .ok (CloseBlock
        (((GapIndices nonDefault 0 a.NonDefault).2 ++
            List.range' (GapIndices nonDefault 0 a.NonDefault).1
              (a.Size - (GapIndices nonDefault 0 a.NonDefault).1)).foldl
          (fun st i => UpdateInIncrementalOrder i st) (OpenBlock dst))) := by
  unfold ProcessSparseColumn
  have hd : IsNonDefault a.GetDefaultValue = .ok true := hdefault
  simp only [hd, bind, Except.bind]
  unfold ProcessSparseColumnWithSrcDefaultNotEqualToDstDefault
  simp only [TSparseArray.ForEachNonDefault, bind, Except.bind, pure, Except.pure]
  rw [foldlM_UpdateWithGap IsNonDefault nonDefault a.NonDefault hvalues]
  simp only [List.foldl_append]
  rfl

theorem sparse_equal_indices {α : Type} (nonDefault : α → Bool) (a : TSparseArray α)
    (hwf : a.WellFormed) (hdefault : nonDefault a.DefaultValue = false) :
    ((a.NonDefault.filter (fun v => nonDefault v.2)).map Prod.fst).Pairwise
      (fun lhs rhs => lhs < rhs) ∧
    ∀ i, i ∈ (a.NonDefault.filter (fun v => nonDefault v.2)).map Prod.fst ↔
      (i < a.Size ∧ nonDefault (a.GetValue i) = true) := by
  constructor
  · exact List.Pairwise.sublist ((List.filter_sublist _).map Prod.fst) hwf.1
  · intro i
    constructor
    · intro hi
      obtain ⟨e, he, hei⟩ := List.mem_map.1 hi
      have he2 := List.mem_filter.1 he
      have hval := a.GetValue_of_mem hwf e.1 e.2 he2.1
      rw [← hei, hval]
      exact ⟨hwf.2 e.1 (List.mem_map_of_mem Prod.fst he2.1), he2.2⟩
    · rintro ⟨_, hnd⟩
      by_cases hmem : i ∈ a.NonDefault.map Prod.fst
      · obtain ⟨e, he, hei⟩ := List.mem_map.1 hmem
        have hval := a.GetValue_of_mem hwf e.1 e.2 he
        rw [hei] at hval
        rw [hval] at hnd
        exact List.mem_map.2 ⟨e, List.mem_filter.2 ⟨he, hnd⟩, hei⟩
      · rw [a.GetValue_of_not_mem i hmem, hdefault] at hnd
        cases hnd

theorem GapIndices_reach {α : Type} (nonDefault : α → Bool) (entries : List (Nat × α)) :
    ∀ idx bound : Nat,
      (entries.map Prod.fst).Pairwise (fun lhs rhs => lhs < rhs) →
      (∀ k ∈ entries.map Prod.fst, idx ≤ k) →
      (∀ k ∈ entries.map Prod.fst, k < bound) → idx ≤ bound →
      (GapIndices nonDefault idx entries).1 ≤ bound := by
  induction entries with
  | nil =>
    intro idx bound _ _ _ hidx
    exact hidx
  | cons e entries ih =>
    intro idx bound hsorted hge hlt _
    rw [List.map_cons, List.pairwise_cons] at hsorted
    have hek : idx ≤ e.1 := hge e.1 (by simp)
    have hmax : max idx e.1 = e.1 := Nat.max_eq_right hek
    simp only [GapIndices, hmax]
    refine ih (e.1 + 1) bound hsorted.2 (fun k hk => hsorted.1 k hk) ?_ ?_
    · intro k hk
      exact hlt k (by simp [hk])
    · have := hlt e.1 (by simp)
      omega

theorem sparse_notEqual_indices {α : Type} (nonDefault : α → Bool) (a : TSparseArray α)
    (hwf : a.WellFormed) (hdefault : nonDefault a.DefaultValue = true) :
    ((GapIndices nonDefault 0 a.NonDefault).2 ++
        List.range' (GapIndices nonDefault 0 a.NonDefault).1
          (a.Size - (GapIndices nonDefault 0 a.NonDefault).1)).Pairwise
      (fun lhs rhs => lhs < rhs) ∧
    ∀ i, i ∈ (GapIndices nonDefault 0 a.NonDefault).2 ++
        List.range' (GapIndices nonDefault 0 a.NonDefault).1
          (a.Size - (GapIndices nonDefault 0 a.NonDefault).1) ↔
      (i < a.Size ∧ nonDefault (a.GetValue i) = true) := by
  obtain ⟨g1, g2, g3, g4⟩ := GapIndices_spec nonDefault a.NonDefault 0 hwf.1
    (fun k _ => Nat.zero_le k)
  have hle := GapIndices_reach nonDefault a.NonDefault 0 a.Size hwf.1
    (fun k _ => Nat.zero_le k) hwf.2 (Nat.zero_le _)
  have hvalue : ∀ i, nonDefault (a.GetValue i) = true ↔
      (i ∉ a.NonDefault.map Prod.fst ∨ ∃ v, (i, v) ∈ a.NonDefault ∧ nonDefault v = true) := by
    intro i
    by_cases hmem : i ∈ a.NonDefault.map Prod.fst
    · obtain ⟨e, he, hei⟩ := List.mem_map.1 hmem
      have hval := a.GetValue_of_mem hwf e.1 e.2 he
      rw [hei] at hval
      rw [hval]
      constructor
      · intro hnd
        refine Or.inr ⟨e.2, ?_, hnd⟩
        rw [← hei]
        exact he
      · rintro (hn | ⟨v, hv, hvnd⟩)
        · exact absurd hmem hn
        · have hval2 := a.GetValue_of_mem hwf i v hv
          rw [← hval, hval2]
          exact hvnd
    · rw [a.GetValue_of_not_mem i hmem, hdefault]
      exact ⟨fun _ => Or.inl hmem, fun _ => rfl⟩
  constructor
  · rw [List.pairwise_append]
    refine ⟨g3, List.pairwise_lt_range' _ _, ?_⟩
    intro x hx y hy
    have := ((g4 x).1 hx).2.1
    rw [List.mem_range'_1] at hy
    omega
  · intro i
    rw [List.mem_append, g4 i, List.mem_range'_1, hvalue i]
    constructor
    · rintro (⟨_, h2, h3⟩ | ⟨h1, h2⟩)
      · exact ⟨by omega, h3⟩
      · refine ⟨by omega, Or.inl ?_⟩
        intro hmem
        have := g2 i hmem
        omega
    · rintro ⟨hlt, h3⟩
      by_cases hreach : i < (GapIndices nonDefault 0 a.NonDefault).1
      · exact Or.inl ⟨Nat.zero_le _, hreach, h3⟩
      · exact Or.inr ⟨by omega, by omega⟩

/-- Claim C17: for a dense column, or a well-formed sparse column under a full subset, of
fewer than `2 ^ 32` objects, and a non-default test that accepts the values of the column,
`GetQuantizedNonDefaultValuesMasks` called with an empty mask list and a zero count returns
pairs whose block indices increase strictly and whose masks are not zero, such that bit
`i mod 64` of the pair with the block index `i / 64` is set exactly when `i` is an object
whose value is non-default, the objects that hold the default value of a sparse column
included; and the count is the number of these objects. The objects of a dense column are
those of the column seen through `incrementalIndexing`. -/
theorem GetQuantizedNonDefaultValuesMasks_bits {α : Type}
    (newIsNonDefault : Nat → Except EError (α → Except EError Bool)) (NOT_PRESENT : Nat)
    (column : TTypedFeatureValuesHolder α) (featureId : Nat)
    (incrementalIndexing : TArraySubsetIndexing)
    (invertedIncrementalIndexing : TArraySubsetInvertedIndexing)
    (IsNonDefault : α → Except EError Bool) (nonDefault : α → Bool)
    (hnew : newIsNonDefault featureId = .ok IsNonDefault)
    (hcovered : MaskedColumnCovered column invertedIncrementalIndexing)
    (hsize : MaskedObjectCount column incrementalIndexing < 2 ^ 32)
    (hvalues : ∀ o, o < MaskedObjectCount column incrementalIndexing →
      ∀ v, MaskedValue? column incrementalIndexing o = some v →
        IsNonDefault v = .ok (nonDefault v))
    (hdefault : ∀ sparseColumn, column = .Sparse sparseColumn →
      IsNonDefault sparseColumn.DefaultValue = .ok (nonDefault sparseColumn.DefaultValue)) :
    ∃ masks nonDefaultCount,
      GetQuantizedNonDefaultValuesMasks newIsNonDefault NOT_PRESENT column featureId
        incrementalIndexing invertedIncrementalIndexing [] 0 = .ok (masks, nonDefaultCount) ∧
      (masks.map Prod.fst).Pairwise (fun lhs rhs => lhs < rhs) ∧
      (∀ m ∈ masks, m.2 ≠ 0) ∧
      (∀ i, (∃ mask, (i / 64, mask) ∈ masks ∧ mask.testBit (i % 64) = true) ↔
        (i < MaskedObjectCount column incrementalIndexing ∧
          MaskedNonDefault nonDefault column incrementalIndexing i = true)) ∧
      nonDefaultCount =
        ((List.range (MaskedObjectCount column incrementalIndexing)).filter
          (MaskedNonDefault nonDefault column incrementalIndexing)).length := by
  have hfinish : ∀ (indices : List Nat),
      GetQuantizedNonDefaultValuesMasks newIsNonDefault NOT_PRESENT column featureId
        incrementalIndexing invertedIncrementalIndexing [] 0 =
        .ok (CloseBlock (indices.foldl (fun st i => UpdateInIncrementalOrder i st)
          (OpenBlock ([], 0)))) →
      indices.Pairwise (fun lhs rhs => lhs < rhs) →
      (∀ i, i ∈ indices ↔ (i < MaskedObjectCount column incrementalIndexing ∧
          MaskedNonDefault nonDefault column incrementalIndexing i = true)) →
      ∃ masks nonDefaultCount,
        GetQuantizedNonDefaultValuesMasks newIsNonDefault NOT_PRESENT column featureId
          incrementalIndexing invertedIncrementalIndexing [] 0 =
          .ok (masks, nonDefaultCount) ∧
        (masks.map Prod.fst).Pairwise (fun lhs rhs => lhs < rhs) ∧
        (∀ m ∈ masks, m.2 ≠ 0) ∧
        (∀ i, (∃ mask, (i / 64, mask) ∈ masks ∧ mask.testBit (i % 64) = true) ↔
          (i < MaskedObjectCount column incrementalIndexing ∧
            MaskedNonDefault nonDefault column incrementalIndexing i = true)) ∧
        nonDefaultCount =
          ((List.range (MaskedObjectCount column incrementalIndexing)).filter
            (MaskedNonDefault nonDefault column incrementalIndexing)).length := by
    intro indices hrun hsorted hmem
    obtain ⟨hcover, hcount⟩ := masks_of_sorted indices _ _ hsorted hmem hsize
    exact ⟨_, _, hrun, hcover.1, hcover.2.1,
      fun i => (hcover.2.2.2 i).trans (hmem i), hcount⟩
  cases column with
  | Other size => exact hcovered.elim
  | Dense d =>
    have hv : ∀ o, o < incrementalIndexing.Size →
        IsNonDefault ((d.CloneWithNewSubsetIndexing incrementalIndexing).GetValue o) =
          .ok (nonDefault ((d.CloneWithNewSubsetIndexing incrementalIndexing).GetValue o)) :=
      fun o ho => hvalues o ho _ rfl
    refine hfinish ((List.range incrementalIndexing.Size).filter
      (fun o => nonDefault ((d.CloneWithNewSubsetIndexing incrementalIndexing).GetValue o)))
      ?_ ((List.pairwise_lt_range _).filter _) ?_
    · unfold GetQuantizedNonDefaultValuesMasks
      rw [hnew]
      simp only [bind, Except.bind, ProcessColumn]
      exact ProcessDenseColumn_eq IsNonDefault nonDefault d incrementalIndexing ([], 0) hv
    · intro i
      rw [List.mem_filter, List.mem_range]
      rfl
  | Sparse a =>
    obtain ⟨hwf, size, hfull⟩ := hcovered
    subst hfull
    have hstored : ∀ v ∈ a.NonDefault, IsNonDefault v.2 = .ok (nonDefault v.2) := by
      intro v hv
      have h1 : v.1 < a.Size := hwf.2 v.1 (List.mem_map_of_mem Prod.fst hv)
      have h2 := a.GetValue_of_mem hwf v.1 v.2 hv
      have h3 := hvalues v.1 h1 (a.GetValue v.1) rfl
      rw [h2] at h3
      exact h3
    have hd := hdefault a rfl
    cases hnd : nonDefault a.DefaultValue
    · rw [hnd] at hd
      obtain ⟨hsorted, hmem⟩ := sparse_equal_indices nonDefault a hwf hnd
      refine hfinish _ ?_ hsorted hmem
      unfold GetQuantizedNonDefaultValuesMasks
      rw [hnew]
      simp only [bind, Except.bind, ProcessColumn]
      exact ProcessSparseColumn_equal_eq IsNonDefault nonDefault NOT_PRESENT a size ([], 0)
        hstored hd
    · rw [hnd] at hd
      obtain ⟨hsorted, hmem⟩ := sparse_notEqual_indices nonDefault a hwf hnd
      refine hfinish _ ?_ hsorted hmem
      unfold GetQuantizedNonDefaultValuesMasks
      rw [hnew]
      simp only [bind, Except.bind, ProcessColumn]
      exact ProcessSparseColumn_notEqual_eq IsNonDefault nonDefault NOT_PRESENT a size ([], 0)
        hstored hd

theorem exampleNonDefault_eq (f : TIsNonDefaultFloat Int)
    (hlower : f.DefaultBinLowerBorder = .Value exampleFloatLowest)
    (hupper : f.DefaultBinUpperBorder = .Value 5) (v : Int) :
    f.IsNonDefault (.Value v) = .ok (exampleNonDefault (.Value v)) := by
  unfold TIsNonDefaultFloat.IsNonDefault exampleNonDefault
  rw [hlower, hupper]
  simp only [TFloat.IsNan, TFloat.le, TFloat.lt, Bool.false_eq_true, if_false]
  split <;> rename_i h
  · rw [h]
    rfl
  · have hfalse : (decide (v ≤ exampleFloatLowest) || decide (5 < v)) = false := by
      simpa using h
    rw [hfalse]
    rfl

set_option maxRecDepth 8192

/-- Claim C17, instances: a dense column of 70 objects whose objects 1 and 65 are non-default
gives the masks `[(0, 2), (1, 2)]` and the count 2; a sparse column of 70 objects with a
non-default default value and the default entries 0 and 69 gives all the bits but those of
the objects 0 and 69, and the count 68. -/
theorem GetQuantizedNonDefaultValuesMasks_bits_witness :
    GetQuantizedNonDefaultValuesMasks
        (newIsNonDefaultFloat exampleFloatLowest (exampleFloatInfo .Forbidden false))
        (2 ^ 32 - 1) (.Dense exampleMaskDense) 0 (.TFullSubset 70) (.TFullSubset 70) [] 0 =
      .ok ([(0, 2), (1, 2)], 2) ∧
    GetQuantizedNonDefaultValuesMasks
        (newIsNonDefaultFloat exampleFloatLowest (exampleFloatInfo .Forbidden false))
        (2 ^ 32 - 1) (.Sparse exampleMaskSparse) 0 (.TFullSubset 70) (.TFullSubset 70) [] 0 =
      .ok ([(0, 2 ^ 64 - 2), (1, 31)], 68) ∧
    (∃ masks nonDefaultCount,
      GetQuantizedNonDefaultValuesMasks
        (newIsNonDefaultFloat exampleFloatLowest (exampleFloatInfo .Forbidden false))
        (2 ^ 32 - 1) (.Sparse exampleMaskSparse) 0 (.TFullSubset 70) (.TFullSubset 70) [] 0 =
        .ok (masks, nonDefaultCount) ∧
      nonDefaultCount =
        ((List.range 70).filter
          (MaskedNonDefault exampleNonDefault (.Sparse exampleMaskSparse)
            (.TFullSubset 70))).length) := by
  refine ⟨rfl, rfl, ?_⟩
  obtain ⟨masks, nonDefaultCount, hrun, -, -, -, hcount⟩ :=
    GetQuantizedNonDefaultValuesMasks_bits
      (newIsNonDefaultFloat exampleFloatLowest (exampleFloatInfo .Forbidden false))
      (2 ^ 32 - 1) (.Sparse exampleMaskSparse) 0 (.TFullSubset 70) (.TFullSubset 70)
      (TIsNonDefaultFloat.IsNonDefault
        { FlatFeatureIdx := 0, NanMode := .Forbidden, AllowNans := false,
          DefaultBinLowerBorder := .Value exampleFloatLowest,
          DefaultBinUpperBorder := .Value 5 })
      exampleNonDefault rfl ⟨by decide, 70, rfl⟩ (by decide)
      (by
        intro o _ v hv
        have hval : some (exampleMaskSparse.GetValue o) = some v := hv
        have hform : ∃ x, exampleMaskSparse.GetValue o = .Value x := by
          rcases (by omega : o = 0 ∨ o = 64 ∨ o = 69 ∨ (o ≠ 0 ∧ o ≠ 64 ∧ o ≠ 69)) with
            h | h | h | ⟨h0, h64, h69⟩
          · exact ⟨0, by rw [h]; rfl⟩
          · exact ⟨20, by rw [h]; rfl⟩
          · exact ⟨0, by rw [h]; rfl⟩
          · refine ⟨10, ?_⟩
            rw [exampleMaskSparse.GetValue_of_not_mem o
              (by simp [exampleMaskSparse, h0, h64, h69])]
            rfl
        obtain ⟨x, hx⟩ := hform
        rw [hx] at hval
        cases hval
        exact exampleNonDefault_eq _ rfl rfl x)
      (by
        intro sparseColumn hsparse
        cases hsparse
        exact exampleNonDefault_eq _ rfl rfl 10)
  exact ⟨masks, nonDefaultCount, hrun, hcount⟩

/-! ## A sample without NaN -/

/-- Claim C28: when the border count is positive, the sample subset fits the column and the
sample holds no NaN, `CalcQuantizationAndNanMode` returns, whatever the NaN policy is, the
NaN mode `Forbidden` together with the result of the split search as it is, without any
border added; the search is asked for the full border count. -/
theorem CalcQuantizationAndNanMode_no_nan {V : Type}
    (bestSplit : TBestSplitRequest V → TQuantization V) (Lowest Max : V)
    (srcFeature : TTypedFeatureValuesHolder (TFloat V)) (featureId : Nat)
    (sub : TSubsetIndexingForBuildBorders) (binarizationOptions : TBinarizationOptions)
    (initialBorders : Option (List (TFloat V)))
    (quantizedDefaultBinFraction : Option (TFloat V)) (quantization : TQuantization V)
    (hcount : binarizationOptions.BorderCount > 0)
    (hc : SampleIsConsistent srcFeature sub)
    (hnan : SampleHasNan srcFeature sub = false) :
    ∃ fv : TFeatureValues V,
      CollectSampleValues srcFeature sub = .ok (false, fv) ∧
      CalcQuantizationAndNanMode bestSplit Lowest Max srcFeature featureId sub
          binarizationOptions initialBorders quantizedDefaultBinFraction quantization =
        .ok (.Forbidden,
          bestSplit
            { FeatureValues := fv
              FeatureValuesMayContainNans := false
              MaxBordersCount := (binarizationOptions.BorderCount : Int)
              BorderSelectionType := binarizationOptions.BorderSelectionType
              QuantizedDefaultBinFraction := quantizedDefaultBinFraction
              InitialBorders := initialBorders }) := by
  obtain ⟨fv, hcollect, -, -⟩ := CollectSampleValues_spec srcFeature sub hc
  rw [hnan] at hcollect
  refine ⟨fv, hcollect, ?_⟩
  unfold CalcQuantizationAndNanMode
  rw [hcollect]
  have hpos : ((binarizationOptions.BorderCount : Int) > 0) := by omega
  simp [hcount, hpos, bind, Except.bind, pure, Except.pure]

/-- Claim C28, an example: for a column whose four values are all `1.0`, a border count of 2
and the policy `Min`, a search that answers with the borders `1.5` and `2.5` gives the NaN
mode `Forbidden` and exactly these two borders. -/
theorem CalcQuantizationAndNanMode_no_nan_witness :
    CalcQuantizationAndNanMode exampleBestSplit exampleFloatLowest exampleFloatMax
        (.Dense exampleConstantDense) 0 exampleNanSub
        { BorderCount := 2, NanMode := .Min, BorderSelectionType := 0 } none none
        { Borders := [], DefaultQuantizedBin := none } =
      .ok (.Forbidden, { Borders := [.Value 15, .Value 25], DefaultQuantizedBin := none }) := by
  obtain ⟨fv, -, h⟩ := CalcQuantizationAndNanMode_no_nan exampleBestSplit
    exampleFloatLowest exampleFloatMax (.Dense exampleConstantDense) 0 exampleNanSub
    { BorderCount := 2, NanMode := .Min, BorderSelectionType := 0 } none none
    { Borders := [], DefaultQuantizedBin := none } (by decide) trivial rfl
  exact h.trans rfl

/-! ## The memory budget -/

/-- Claim C23: the quota the executor is constructed with is the RAM limit minus the resident
set size when the resident set size is not above the limit, and 0 when it is above; it
never exceeds the limit, so the `ui64` subtraction does not wrap. -/
theorem ResourceQuota_saturates (Task : Type) (CpuRamLimit cpuRamUsage : Nat)
    (hlimit : CpuRamLimit < 2 ^ 64) :
    (NewResourceConstrainedExecutor Task CpuRamLimit cpuRamUsage).ResourceQuota =
      ResourceQuota CpuRamLimit cpuRamUsage ∧
    (cpuRamUsage ≤ CpuRamLimit →
      ResourceQuota CpuRamLimit cpuRamUsage + cpuRamUsage = CpuRamLimit) ∧
    (CpuRamLimit < cpuRamUsage → ResourceQuota CpuRamLimit cpuRamUsage = 0) ∧
    ResourceQuota CpuRamLimit cpuRamUsage = CpuRamLimit - cpuRamUsage ∧
    ResourceQuota CpuRamLimit cpuRamUsage ≤ CpuRamLimit := by
  have hpow : (2 : Nat) ^ 64 = 18446744073709551616 := by norm_num
  have hq : ResourceQuota CpuRamLimit cpuRamUsage = CpuRamLimit - cpuRamUsage := by
    unfold ResourceQuota
    rw [hpow] at hlimit ⊢
    rcases Nat.le_total cpuRamUsage CpuRamLimit with h | h
    · rw [Nat.min_eq_left h]
      omega
    · rw [Nat.min_eq_right h]
      omega
  refine ⟨rfl, ?_, ?_, hq, ?_⟩
  · intro h
    rw [hq]
    omega
  · intro h
    rw [hq]
    omega
  · rw [hq]
    omega

/-- Claim C23, examples: a limit of 1000 bytes with 300 bytes resident leaves 700 bytes, and
with 5000 bytes resident it leaves nothing. -/
theorem ResourceQuota_saturates_witness :
    ResourceQuota 1000 300 = 700 ∧ ResourceQuota 1000 5000 = 0 := by
  have h := ResourceQuota_saturates Unit 1000 300 (by norm_num)
  have h2 := ResourceQuota_saturates Unit 1000 5000 (by norm_num)
  exact ⟨h.2.2.2.1, h2.2.2.2.1⟩

/-! ## AddIgnoredFeatures -/

theorem IgnoreExternalFeature_getElem? (layout : TFeaturesLayout) (j i : Nat) :
    (layout.IgnoreExternalFeature j).ExternalIdxToMetaInfo[i]? =
      if i = j then
        (layout.ExternalIdxToMetaInfo[i]?).map
          (fun metaInfo => { metaInfo with IsIgnored := true, IsAvailable := false })
      else layout.ExternalIdxToMetaInfo[i]? := by
  unfold TFeaturesLayout.IgnoreExternalFeature
  cases hj : layout.ExternalIdxToMetaInfo[j]? with
  | none =>
    by_cases hij : i = j
    · subst hij
      simp [hj]
    · simp [hij]
  | some metaInfo =>
    by_cases hij : i = j
    · subst hij
      simp [hj, List.getElem?_set]
      by_contra hge
      rw [List.getElem?_eq_none (Nat.le_of_not_lt hge)] at hj
      cases hj
    · have hji : ¬ j = i := fun h => hij h.symm
      simp [hij, hji, List.getElem?_set]

/-- The layout after the loop of `AddIgnoredFeatures` has handled the indices below `k`. -/
theorem AddIgnoredFeatures_loop (addFromLayout updatedLayout : TFeaturesLayout) (k i : Nat) :
    ((List.range k).foldl
        (fun layout i =>
          if ((addFromLayout.GetExternalFeaturesMetaInfo[i]?).map
              (fun metaInfo => metaInfo.IsIgnored)).getD false then
            layout.IgnoreExternalFeature i
          else layout)
        updatedLayout).ExternalIdxToMetaInfo[i]? =
      if i < k ∧ ((addFromLayout.ExternalIdxToMetaInfo[i]?).map
          (fun metaInfo => metaInfo.IsIgnored)).getD false = true then
        (updatedLayout.ExternalIdxToMetaInfo[i]?).map
          (fun metaInfo => { metaInfo with IsIgnored := true, IsAvailable := false })
      else updatedLayout.ExternalIdxToMetaInfo[i]? := by
  induction k with
  | zero => simp
  | succ k ih =>
    rw [List.range_succ, List.foldl_append]
    simp only [List.foldl_cons, List.foldl_nil]
    by_cases hsrc : ((addFromLayout.GetExternalFeaturesMetaInfo[k]?).map
        (fun metaInfo => metaInfo.IsIgnored)).getD false = true
    · rw [if_pos hsrc, IgnoreExternalFeature_getElem?, ih]
      by_cases hik : i = k
      · subst hik
        have hsrc2 := hsrc
        unfold TFeaturesLayout.GetExternalFeaturesMetaInfo at hsrc2
        simp [hsrc2]
      · have h1 : (i < k + 1) = (i < k) := by
          apply propext
          omega
        simp only [hik, if_false, h1]
    · rw [if_neg hsrc, ih]
      by_cases hik : i = k
      · subst hik
        have hsrc2 := hsrc
        unfold TFeaturesLayout.GetExternalFeaturesMetaInfo at hsrc2
        simp [hsrc2]
      · have h1 : (i < k + 1) = (i < k) := by
          apply propext
          omega
        simp only [h1]

theorem AddIgnoredFeatures_getElem? (addFromLayout updatedLayout : TFeaturesLayout) (i : Nat) :
    (AddIgnoredFeatures addFromLayout updatedLayout).ExternalIdxToMetaInfo[i]? =
      if ((addFromLayout.ExternalIdxToMetaInfo[i]?).map
          (fun metaInfo => metaInfo.IsIgnored)).getD false = true then
        (updatedLayout.ExternalIdxToMetaInfo[i]?).map
          (fun metaInfo => { metaInfo with IsIgnored := true, IsAvailable := false })
      else updatedLayout.ExternalIdxToMetaInfo[i]? := by
  unfold AddIgnoredFeatures
  simp only []
  rw [AddIgnoredFeatures_loop]
  unfold TFeaturesLayout.GetExternalFeatureCount
  by_cases hsrc : ((addFromLayout.ExternalIdxToMetaInfo[i]?).map
      (fun metaInfo => metaInfo.IsIgnored)).getD false = true
  · by_cases hi : i < min addFromLayout.ExternalIdxToMetaInfo.length
        updatedLayout.ExternalIdxToMetaInfo.length
    · simp [hsrc, hi]
    · have hfrom : i < addFromLayout.ExternalIdxToMetaInfo.length := by
        by_contra hge
        rw [List.getElem?_eq_none (Nat.le_of_not_lt hge)] at hsrc
        simp at hsrc
      have hupd : updatedLayout.ExternalIdxToMetaInfo[i]? = none :=
        List.getElem?_eq_none (by omega)
      simp [hsrc, hupd]
  · simp [hsrc]

theorem IgnoreExternalFeature_length (layout : TFeaturesLayout) (j : Nat) :
    (layout.IgnoreExternalFeature j).ExternalIdxToMetaInfo.length =
      layout.ExternalIdxToMetaInfo.length := by
  unfold TFeaturesLayout.IgnoreExternalFeature
  cases hj : layout.ExternalIdxToMetaInfo[j]? with
  | none => rfl
  | some metaInfo => simp

theorem AddIgnoredFeatures_length (addFromLayout updatedLayout : TFeaturesLayout) :
    (AddIgnoredFeatures addFromLayout updatedLayout).ExternalIdxToMetaInfo.length =
      updatedLayout.ExternalIdxToMetaInfo.length := by
  unfold AddIgnoredFeatures
  simp only []
  generalize List.range _ = l
  induction l generalizing updatedLayout with
  | nil => rfl
  | cons j l ih =>
    rw [List.foldl_cons, ih]
    split
    · exact IgnoreExternalFeature_length _ _
    · rfl

/-- Claim C21: `AddIgnoredFeatures` keeps the number of features; for every index below the
feature counts of both layouts the feature of the updated layout is ignored afterwards
exactly when it was ignored before or the feature of the source layout is ignored; where
the feature of the source layout is not ignored, and at every index that is not below both
counts, the feature is what it was; and applying the function a second time changes
nothing. -/
theorem AddIgnoredFeatures_propagates (addFromLayout updatedLayout : TFeaturesLayout) :
    (AddIgnoredFeatures addFromLayout updatedLayout).GetExternalFeatureCount =
      updatedLayout.GetExternalFeatureCount ∧
    (∀ (i : Nat) (source before : TFeatureMetaInfo),
      addFromLayout.GetExternalFeaturesMetaInfo[i]? = some source →
      updatedLayout.GetExternalFeaturesMetaInfo[i]? = some before →
      ∃ after,
        (AddIgnoredFeatures addFromLayout updatedLayout).GetExternalFeaturesMetaInfo[i]? =
          some after ∧
        (after.IsIgnored = true ↔ before.IsIgnored = true ∨ source.IsIgnored = true) ∧
        (source.IsIgnored = false → after = before) ∧
        after.FeatureType = before.FeatureType) ∧
    (∀ i : Nat, ¬ (i < addFromLayout.GetExternalFeatureCount ∧
        i < updatedLayout.GetExternalFeatureCount) →
      (AddIgnoredFeatures addFromLayout updatedLayout).GetExternalFeaturesMetaInfo[i]? =
        updatedLayout.GetExternalFeaturesMetaInfo[i]?) ∧
    AddIgnoredFeatures addFromLayout (AddIgnoredFeatures addFromLayout updatedLayout) =
      AddIgnoredFeatures addFromLayout updatedLayout := by
  refine ⟨AddIgnoredFeatures_length _ _, ?_, ?_, ?_⟩
  · intro i source before hsource hbefore
    unfold TFeaturesLayout.GetExternalFeaturesMetaInfo at hsource hbefore ⊢
    rw [AddIgnoredFeatures_getElem?, hsource, hbefore]
    cases hs : source.IsIgnored with
    | true =>
      refine ⟨{ before with IsIgnored := true, IsAvailable := false }, by simp [hs], ?_, ?_, rfl⟩
      · simp
      · intro h
        cases h
    | false =>
      refine ⟨before, by simp [hs], by simp, fun _ => rfl, rfl⟩
  · intro i hi
    unfold TFeaturesLayout.GetExternalFeaturesMetaInfo TFeaturesLayout.GetExternalFeatureCount
      at *
    rw [AddIgnoredFeatures_getElem?]
    by_cases hfrom : i < addFromLayout.ExternalIdxToMetaInfo.length
    · have hupd : updatedLayout.ExternalIdxToMetaInfo[i]? = none :=
        List.getElem?_eq_none (by omega)
      simp [hupd]
    · rw [List.getElem?_eq_none (Nat.le_of_not_lt hfrom)]
      simp
  · have hext : (AddIgnoredFeatures addFromLayout
        (AddIgnoredFeatures addFromLayout updatedLayout)).ExternalIdxToMetaInfo =
        (AddIgnoredFeatures addFromLayout updatedLayout).ExternalIdxToMetaInfo := by
      apply List.ext_getElem?
      intro i
      rw [AddIgnoredFeatures_getElem? addFromLayout (AddIgnoredFeatures addFromLayout updatedLayout),
        AddIgnoredFeatures_getElem? addFromLayout updatedLayout]
      split
      · cases updatedLayout.ExternalIdxToMetaInfo[i]? <;> rfl
      · rfl
    cases h1 : AddIgnoredFeatures addFromLayout (AddIgnoredFeatures addFromLayout updatedLayout)
    cases h2 : AddIgnoredFeatures addFromLayout updatedLayout
    rw [h1, h2] at hext
    simp only at hext
    rw [hext]

/-- Claim C21, an example: adding the ignored features of a layout of four features, of which
the first and the last are ignored, to a layout of three features of which the second is
ignored leaves the first two features ignored and the third one as it was. -/
theorem AddIgnoredFeatures_example :
    (AddIgnoredFeatures exampleAddFromLayout exampleUpdatedLayout).ExternalIdxToMetaInfo =
      [{ FeatureType := .Float, IsIgnored := true, IsAvailable := false },
       { FeatureType := .Float, IsIgnored := true, IsAvailable := false },
       { FeatureType := .Categorical, IsIgnored := false, IsAvailable := true }] := by
  decide

/-! ## The sample sizes of the memory estimate -/

/-- The estimate for a sparse column of 100000 objects with 50000 stored values, with a
split search and a compressed storage that cost nothing. -/
theorem EstimateMemUsageForFloatFeature_wrapped (a : TSparseArray (TFloat Int))
    (hsize : a.GetSize = 100000) (hnon : a.GetNonDefaultSize = 50000) :
    EstimateSampleSizes 100000 (.Sparse a) = .ok (7050, some (a.GetDefaultValue, 50000)) ∧
    EstimateMemUsageForFloatFeature (fun size _ maxSubsetSize => min size maxSubsetSize)
        (fun _ _ _ _ => 0) (fun _ _ => 0) (.Sparse a) 0 exampleEmptyFloatInfo
        exampleOptions false false = .ok (4 * 7050) := by
  have hsample : EstimateSampleSizes 100000 (.Sparse a) =
      .ok (7050, some (a.GetDefaultValue, 50000)) := by
    simp only [EstimateSampleSizes, hsize, hnon, pure, Except.pure]
    norm_num
  refine ⟨hsample, ?_⟩
  have hholder : (TTypedFeatureValuesHolder.Sparse a).GetSize = 100000 := hsize
  have hquant : exampleEmptyFloatInfo.HasQuantization
      (exampleEmptyFloatInfo.GetInternalFeatureIdx 0) = false := rfl
  have hmax : exampleOptions.MaxSubsetSizeForBuildBordersAlgorithms = 200000 := rfl
  have hmin : min 100000 200000 % 2 ^ 32 = 100000 := by norm_num
  simp only [EstimateMemUsageForFloatFeature, GetNonDefaultValuesCount, hnon, hholder,
    hquant, hmax, bind, Except.bind, pure, Except.pure, Bool.not_false, if_true, hmin,
    hsample]
  rfl

/-- Claim C29, where the claim fails: for a sparse column of 100000 objects with 50000 stored
values and a sample size of 100000 the share of the stored values is 50000, and the code
gives 7050, because the product 5000000000 is taken in `ui32`; with a split search and a
compressed storage that cost nothing, the memory estimate of the feature is 4 * 7050
bytes. The estimate is the share whenever the product is below 2^32. -/
theorem EstimateSampleSizes_product_wraps :
    exampleLargeSparse.GetSize = 100000 ∧
    exampleLargeSparse.GetNonDefaultSize = 50000 ∧
    (EstimateSampleSizes 100000 (.Sparse exampleLargeSparse)).map Prod.fst = .ok 7050 ∧
    100000 * 50000 / 100000 = 50000 ∧
    EstimateMemUsageForFloatFeature (fun size _ maxSubsetSize => min size maxSubsetSize)
        (fun _ _ _ _ => 0) (fun _ _ => 0) (.Sparse exampleLargeSparse) 0 exampleEmptyFloatInfo
        exampleOptions false false = .ok (4 * 7050) ∧
    (∀ (α : Type) (sampleSize : Nat) (sparseArray : TSparseArray α),
      sampleSize * sparseArray.GetNonDefaultSize < 2 ^ 32 →
      (EstimateSampleSizes sampleSize (.Sparse sparseArray)).map Prod.fst =
        .ok (sampleSize * sparseArray.GetNonDefaultSize / sparseArray.GetSize)) := by
  have hsize : exampleLargeSparse.GetSize = 100000 := rfl
  have hnon : exampleLargeSparse.GetNonDefaultSize = 50000 := by
    simp [TSparseArray.GetNonDefaultSize, exampleLargeSparse]
  have hboth := EstimateMemUsageForFloatFeature_wrapped exampleLargeSparse hsize hnon
  refine ⟨hsize, hnon, ?_, by norm_num, hboth.2, ?_⟩
  · rw [hboth.1]
    rfl
  · intro α sampleSize sparseArray hlt
    simp only [EstimateSampleSizes, pure, Except.pure, Except.map, Nat.mod_eq_of_lt hlt]

/-! ## The storage of MakeQuantizedColumnWithDefaultBin -/

/-- One call of the callback with the storage: the write is within the storage, and the
call does what the callback without the storage does. -/
theorem onSrcNonDefaultValueCallbackWithStorage_step {α : Type} (storedBits : Nat)
    (valueQuantizer : TValueQuantizer α) (defaultQuantizedBin : Nat)
    (hbits : storedBits = 8 ∨ storedBits = 16 ∨ storedBits = 32)
    (state : TDefaultBinStorageState) (visit : Nat × α)
    (hinv : StorageInvariant storedBits state)
    (hcount : state.nonDefaultValuesCount + 1 < 2 ^ 32) :
    (∀ quantizedBin, valueQuantizer.Quantize visit.2 = .ok quantizedBin →
      (state.nonDefaultValuesCount + 1) * (storedBits / 8) ≤
        (if state.nonDefaultValuesCount % (ALLOC_BLOCK * 8 / (storedBits / 8)) = 0 then
          state.nonDefaultValuesCount + ALLOC_BLOCK
        else state.StorageSize) * 8) ∧
    (∀ e, onSrcNonDefaultValueCallback storedBits valueQuantizer defaultQuantizedBin
        state.Builder visit = .error e →
      onSrcNonDefaultValueCallbackWithStorage storedBits valueQuantizer defaultQuantizedBin
        state visit = .error e) ∧
    (∀ builder, onSrcNonDefaultValueCallback storedBits valueQuantizer defaultQuantizedBin
        state.Builder visit = .ok builder →
      ∃ next, onSrcNonDefaultValueCallbackWithStorage storedBits valueQuantizer
          defaultQuantizedBin state visit = .ok next ∧
        next.Builder = builder ∧ StorageInvariant storedBits next ∧
        next.nonDefaultValuesCount ≤ state.nonDefaultValuesCount + 1) := by
  have hpow : (2 : Nat) ^ 32 = 4294967296 := by norm_num
  rw [hpow] at hcount
  have hwrite : (state.nonDefaultValuesCount + 1) * (storedBits / 8) ≤
      (if state.nonDefaultValuesCount % (ALLOC_BLOCK * 8 / (storedBits / 8)) = 0 then
        state.nonDefaultValuesCount + ALLOC_BLOCK
      else state.StorageSize) * 8 := by
    have h2 := hinv.2
    unfold ALLOC_BLOCK at h2 ⊢
    rcases hbits with h | h | h <;> subst h <;> norm_num at h2 ⊢ <;> split <;> omega
  refine ⟨fun _ _ => hwrite, ?_, ?_⟩
  · intro e he
    unfold onSrcNonDefaultValueCallback at he
    unfold onSrcNonDefaultValueCallbackWithStorage
    cases hq : valueQuantizer.Quantize visit.2 with
    | error e2 =>
      rw [hq] at he
      simp only [bind, Except.bind, Except.error.injEq] at he ⊢
      exact he
    | ok quantizedBin =>
      rw [hq] at he
      simp only [bind, Except.bind, pure, Except.pure] at he
      split at he <;> cases he
  · intro builder hb
    unfold onSrcNonDefaultValueCallback at hb
    unfold onSrcNonDefaultValueCallbackWithStorage
    cases hq : valueQuantizer.Quantize visit.2 with
    | error e2 =>
      rw [hq] at hb
      simp only [bind, Except.bind] at hb
      cases hb
    | ok quantizedBin =>
      rw [hq] at hb
      simp only [bind, Except.bind, pure, Except.pure] at hb ⊢
      by_cases hne : quantizedBin ≠ defaultQuantizedBin
      · rw [if_pos hne] at hb
        rw [if_pos hne, if_pos hwrite]
        refine ⟨_, rfl, ?_, ?_, ?_⟩
        · simp only [Except.ok.injEq] at hb
          exact hb
        · have h1 := hinv.1
          have h2 := hinv.2
          have hmod : (state.nonDefaultValuesCount + 1) % 2 ^ 32 =
              state.nonDefaultValuesCount + 1 := Nat.mod_eq_of_lt (by omega)
          unfold StorageInvariant
          simp only [hmod, List.length_append, List.length_singleton]
          refine ⟨by omega, ?_⟩
          unfold ALLOC_BLOCK at h2 ⊢
          rcases hbits with h | h | h <;> subst h <;> norm_num at h2 ⊢ <;> intro hnz <;>
            split <;> omega
        · exact Nat.mod_le _ _
      · rw [if_neg hne] at hb
        rw [if_neg hne]
        simp only [Except.ok.injEq] at hb
        exact ⟨state, rfl, hb, hinv, by omega⟩

/-- The loop of the callback with the storage does what the loop without the storage does. -/
theorem onSrcNonDefaultValueCallbackWithStorage_loop {α : Type} (storedBits : Nat)
    (valueQuantizer : TValueQuantizer α) (defaultQuantizedBin : Nat)
    (hbits : storedBits = 8 ∨ storedBits = 16 ∨ storedBits = 32)
    (visits : List (Nat × α)) :
    ∀ state : TDefaultBinStorageState, StorageInvariant storedBits state →
      state.nonDefaultValuesCount + visits.length < 2 ^ 32 →
      (∀ e, visits.foldlM
          (onSrcNonDefaultValueCallback storedBits valueQuantizer defaultQuantizedBin)
          state.Builder = .error e →
        visits.foldlM
          (onSrcNonDefaultValueCallbackWithStorage storedBits valueQuantizer
            defaultQuantizedBin) state = .error e) ∧
      (∀ builder, visits.foldlM
          (onSrcNonDefaultValueCallback storedBits valueQuantizer defaultQuantizedBin)
          state.Builder = .ok builder →
        ∃ final, visits.foldlM
            (onSrcNonDefaultValueCallbackWithStorage storedBits valueQuantizer
              defaultQuantizedBin) state = .ok final ∧
          final.Builder = builder ∧ StorageInvariant storedBits final ∧
          final.nonDefaultValuesCount ≤ state.nonDefaultValuesCount + visits.length) := by
  induction visits with
  | nil =>
    intro state hinv _
    constructor
    · intro e he
      cases he
    · intro builder hb
      simp only [List.foldlM, pure, Except.pure, Except.ok.injEq] at hb
      exact ⟨state, rfl, hb, hinv, by omega⟩
  | cons visit visits ih =>
    intro state hinv hlen
    rw [List.length_cons] at hlen
    obtain ⟨-, herr, hok⟩ := onSrcNonDefaultValueCallbackWithStorage_step storedBits
      valueQuantizer defaultQuantizedBin hbits state visit hinv (by omega)
    rw [List.foldlM_cons, List.foldlM_cons]
    cases hstep : onSrcNonDefaultValueCallback storedBits valueQuantizer defaultQuantizedBin
        state.Builder visit with
    | error e2 =>
      rw [herr e2 hstep]
      constructor
      · intro e he
        simp only [bind, Except.bind, Except.error.injEq] at he ⊢
        exact he
      · intro builder hb
        cases hb
    | ok builder2 =>
      obtain ⟨next, hnext, hbuilder, hinv2, hle⟩ := hok builder2 hstep
      rw [hnext]
      simp only [bind, Except.bind]
      have hrec := ih next hinv2 (by omega)
      rw [hbuilder] at hrec
      refine ⟨hrec.1, ?_⟩
      intro builder hb
      obtain ⟨final, hfinal, hfb, hfinv, hfle⟩ := hrec.2 builder hb
      exact ⟨final, hfinal, hfb, hfinv, by rw [List.length_cons]; omega⟩

/-- Claim C30: for the stored widths of 1, 2 and 4 bytes and fewer than 2^32 visited values,
every write of the callback of `MakeQuantizedColumnWithDefaultBin` is within the storage:
after any part of the visits, the storage as the next call resizes it holds at least one
element more than the count of the bins stored so far; so the loop with the checked
storage fails only where the loop without it fails, and ends with the same indices and
values. -/
theorem MakeQuantizedColumnWithDefaultBin_storage_in_bounds {α : Type} (storedBits : Nat)
    (valueQuantizer : TValueQuantizer α) (defaultQuantizedBin : Nat)
    (visits : List (Nat × α))
    (hbits : storedBits = 8 ∨ storedBits = 16 ∨ storedBits = 32)
    (hlen : visits.length < 2 ^ 32) :
    (∀ done rest state, visits = done ++ rest →
      done.foldlM
        (onSrcNonDefaultValueCallbackWithStorage storedBits valueQuantizer
          defaultQuantizedBin)
        { Builder := { Indexing := [], Values := [] }
          nonDefaultValuesCount := 0
          StorageSize := 0 } = .ok state →
      state.nonDefaultValuesCount = state.Builder.Values.length ∧
      (rest ≠ [] →
        (state.nonDefaultValuesCount + 1) * (storedBits / 8) ≤
          (if state.nonDefaultValuesCount % (ALLOC_BLOCK * 8 / (storedBits / 8)) = 0 then
            state.nonDefaultValuesCount + ALLOC_BLOCK
          else state.StorageSize) * 8)) ∧
    (visits.foldlM
        (onSrcNonDefaultValueCallbackWithStorage storedBits valueQuantizer
          defaultQuantizedBin)
        { Builder := { Indexing := [], Values := [] }
          nonDefaultValuesCount := 0
          StorageSize := 0 }).map (fun state => state.Builder) =
      visits.foldlM
        (onSrcNonDefaultValueCallback storedBits valueQuantizer defaultQuantizedBin)
        { Indexing := [], Values := [] } := by
  have hinit : StorageInvariant storedBits
      { Builder := { Indexing := [], Values := [] }
        nonDefaultValuesCount := 0
        StorageSize := 0 } := by
    unfold StorageInvariant
    exact ⟨rfl, fun h => (h (Nat.zero_mod _)).elim⟩
  constructor
  · intro done rest state hsplit hrun
    have hdone : done.length + rest.length < 2 ^ 32 := by
      rw [hsplit, List.length_append] at hlen
      exact hlen
    have hloop := onSrcNonDefaultValueCallbackWithStorage_loop storedBits valueQuantizer
      defaultQuantizedBin hbits done _ hinit (by simp only []; omega)
    cases hplain : done.foldlM
        (onSrcNonDefaultValueCallback storedBits valueQuantizer defaultQuantizedBin)
        { Indexing := [], Values := [] } with
    | error e =>
      have := hloop.1 e hplain
      rw [hrun] at this
      cases this
    | ok builder =>
      obtain ⟨final, hfinal, -, hfinv, hfle⟩ := hloop.2 builder hplain
      rw [hrun] at hfinal
      simp only [Except.ok.injEq] at hfinal
      subst hfinal
      refine ⟨hfinv.1, ?_⟩
      intro hrest
      have hpos : 0 < rest.length := List.length_pos.2 hrest
      have hpow : (2 : Nat) ^ 32 = 4294967296 := by norm_num
      rw [hpow] at hdone
      simp only [] at hfle
      have h2 := hfinv.2
      unfold ALLOC_BLOCK at h2 ⊢
      rcases hbits with h | h | h <;> subst h <;> norm_num at h2 ⊢ <;> split <;> omega
  · have hloop := onSrcNonDefaultValueCallbackWithStorage_loop storedBits valueQuantizer
      defaultQuantizedBin hbits visits _ hinit (by simp only []; omega)
    cases hplain : visits.foldlM
        (onSrcNonDefaultValueCallback storedBits valueQuantizer defaultQuantizedBin)
        { Indexing := [], Values := [] } with
    | error e =>
      rw [hloop.1 e hplain]
      rfl
    | ok builder =>
      obtain ⟨final, hfinal, hfb, -, -⟩ := hloop.2 builder hplain
      rw [hfinal]
      simp only [Except.map, hfb]

/-- Claim C30, an example: three visited values of which the second has the default bin 0,
stored in one byte each. -/
theorem MakeQuantizedColumnWithDefaultBin_storage_in_bounds_witness :
    ([(0, 1), (1, 0), (2, 2)] : List (Nat × Nat)).length < 2 ^ 32 ∧
    (([(0, 1), (1, 0), (2, 2)] : List (Nat × Nat)).foldlM
        (onSrcNonDefaultValueCallbackWithStorage 8 (exampleQuantizer 8 (some 0)) 0)
        { Builder := { Indexing := [], Values := [] }
          nonDefaultValuesCount := 0
          StorageSize := 0 }).map (fun state => state.Builder) =
      ([(0, 1), (1, 0), (2, 2)] : List (Nat × Nat)).foldlM
        (onSrcNonDefaultValueCallback 8 (exampleQuantizer 8 (some 0)) 0)
        { Indexing := [], Values := [] } :=
  ⟨by norm_num,
    (MakeQuantizedColumnWithDefaultBin_storage_in_bounds 8 (exampleQuantizer 8 (some 0)) 0
      [(0, 1), (1, 0), (2, 2)] (Or.inl rfl) (by norm_num)).2⟩

/-- The end of a block of 4-byte values: the value at position 16383 is the last one the
8192 words hold, and the call for position 16384 resizes the storage to 24576 words. -/
theorem onSrcNonDefaultValueCallbackWithStorage_block_end :
    (onSrcNonDefaultValueCallbackWithStorage 32 (exampleQuantizer 32 (some 0)) 0
        exampleStorageState (16383, 1)).map
        (fun state => (state.nonDefaultValuesCount, state.StorageSize)) =
      .ok (16384, 8192) ∧
    (onSrcNonDefaultValueCallbackWithStorage 32 (exampleQuantizer 32 (some 0)) 0
        { exampleStorageState with nonDefaultValuesCount := 16384 } (16384, 1)).map
        (fun state => (state.nonDefaultValuesCount, state.StorageSize)) =
      .ok (16385, 24576) := by
  constructor <;> rfl

/-! ## The cell of an exclusive feature bundle -/

theorem getLastD_eq_getD {α : Type} (l : List α) (d : α) :
    l.getLastD d = l.getD (l.length - 1) d := by
  induction l generalizing d with
  | nil => rfl
  | cons a l ih =>
    cases l with
    | nil => rfl
    | cons b l =>
      have h := ih a
      simp only [List.getLastD_cons, List.length_cons, Nat.add_sub_cancel, List.getD_cons_succ]
        at h ⊢
      rw [h]
      cases l with
      | nil => rfl
      | cons c l => simp

/-- Claim C26: for an exclusive feature bundle over dense source columns whose parts have
ascending bounds that do not overlap, whose default fits the cell and whose bins are
within the range of their part: after `AggregateFeatures` the cell of an object on which
every part has the bin 0 is the bundle default, the `End` of the last part; otherwise the
cell is `Begin + bin - 1` of the highest part with a non-zero bin, which lies within the
bounds of that part and differs from the bundle default. -/
theorem ExclusiveFeatureBundle_cell {F C : Type} (q : TColumnsQuantizer F C)
    (MetaData : List TExclusiveFeaturesBundle) (aggregateIdx : Nat) (uninit : Nat → Nat)
    (S : TArraySubsetIndexing) (hasDenseData : Bool) (B : Nat → Nat → Nat)
    (hincr : q.IncrementalDenseIndexing =
      TIncrementalDenseIndexing.TIncrementalDenseIndexing S hasDenseData)
    (hcount : q.ObjectCount = S.Size)
    (hbits : ExclusiveFeatureBundle.GetAggregateBitsPerKey MetaData aggregateIdx = 8 ∨
      ExclusiveFeatureBundle.GetAggregateBitsPerKey MetaData aggregateIdx = 16 ∨
      ExclusiveFeatureBundle.GetAggregateBitsPerKey MetaData aggregateIdx = 32)
    (hlen : (MetaData.getD aggregateIdx default).Parts.length < 2 ^ 32)
    (hparts : ∀ p, p < ExclusiveFeatureBundle.GetAggregatePartsCount MetaData aggregateIdx →
      q.PartIsDenseOver S (ExclusiveFeatureBundle.GetSrcPart MetaData aggregateIdx p) ∧
      ∀ o, o < S.Size →
        q.QuantizePartValue (ExclusiveFeatureBundle.GetSrcPart MetaData aggregateIdx p) o
          = .ok (B p o))
    (hrange : ∀ p, p < ExclusiveFeatureBundle.GetAggregatePartsCount MetaData aggregateIdx →
      ∀ o, o < S.Size →
        B p o ≤ (ExclusiveFeatureBundle.PartBounds MetaData aggregateIdx p).End -
          (ExclusiveFeatureBundle.PartBounds MetaData aggregateIdx p).Begin)
    (hbounds : ∀ p, p < ExclusiveFeatureBundle.GetAggregatePartsCount MetaData aggregateIdx →
      (ExclusiveFeatureBundle.PartBounds MetaData aggregateIdx p).Begin ≤
        (ExclusiveFeatureBundle.PartBounds MetaData aggregateIdx p).End)
    (hasc : ∀ p, p + 1 < ExclusiveFeatureBundle.GetAggregatePartsCount MetaData aggregateIdx →
      (ExclusiveFeatureBundle.PartBounds MetaData aggregateIdx p).End ≤
        (ExclusiveFeatureBundle.PartBounds MetaData aggregateIdx (p + 1)).Begin)
    (hfit : ExclusiveFeatureBundle.GetDefaultValue MetaData aggregateIdx <
      2 ^ ExclusiveFeatureBundle.GetAggregateBitsPerKey MetaData aggregateIdx) :
    ∃ arr, AggregateFeatures q (ExclusiveFeatureBundle.Aggregator MetaData) aggregateIdx uninit
        = .ok arr ∧
      arr.Data.length = S.Size ∧
      ∀ o, o < S.Size →
        ((∀ p, p < ExclusiveFeatureBundle.GetAggregatePartsCount MetaData aggregateIdx →
            B p o = 0) →
          arr.Data.getD o 0 = ExclusiveFeatureBundle.GetDefaultValue MetaData aggregateIdx) ∧
        (∀ p, p < ExclusiveFeatureBundle.GetAggregatePartsCount MetaData aggregateIdx →
          B p o ≠ 0 →
          (∀ p2, p < p2 →
            p2 < ExclusiveFeatureBundle.GetAggregatePartsCount MetaData aggregateIdx →
            B p2 o = 0) →
          arr.Data.getD o 0 =
            (ExclusiveFeatureBundle.PartBounds MetaData aggregateIdx p).Begin + B p o - 1 ∧
          (ExclusiveFeatureBundle.PartBounds MetaData aggregateIdx p).Begin ≤
            arr.Data.getD o 0 ∧
          arr.Data.getD o 0 < (ExclusiveFeatureBundle.PartBounds MetaData aggregateIdx p).End ∧
          arr.Data.getD o 0 ≠ ExclusiveFeatureBundle.GetDefaultValue MetaData aggregateIdx) := by
  obtain ⟨arr, hrun, _, hlen2, hcells⟩ := AggregateFeatures_dense q
    (ExclusiveFeatureBundle.Aggregator MetaData) aggregateIdx uninit S hasDenseData hincr hcount
    hbits (ExclusiveFeatureBundle.GetDefaultValue MetaData aggregateIdx) rfl B hparts
  refine ⟨arr, hrun, hlen2, ?_⟩
  have hk : ExclusiveFeatureBundle.GetAggregatePartsCount MetaData aggregateIdx =
      (MetaData.getD aggregateIdx default).Parts.length := Nat.mod_eq_of_lt hlen
  have hchain : ∀ d p, p + d < ExclusiveFeatureBundle.GetAggregatePartsCount MetaData
      aggregateIdx →
      (ExclusiveFeatureBundle.PartBounds MetaData aggregateIdx p).End ≤
        (ExclusiveFeatureBundle.PartBounds MetaData aggregateIdx (p + d)).End := by
    intro d
    induction d with
    | zero =>
      intro p _
      exact Nat.le_refl _
    | succ d ih =>
      intro p hp
      have h1 := ih p (by omega)
      have h2 := hasc (p + d) (by omega)
      have h3 := hbounds (p + d + 1) (by omega)
      have : p + (d + 1) = p + d + 1 := by omega
      rw [this]
      omega
  have hdef : ∀ p, p < ExclusiveFeatureBundle.GetAggregatePartsCount MetaData aggregateIdx →
      (ExclusiveFeatureBundle.PartBounds MetaData aggregateIdx p).End ≤
        ExclusiveFeatureBundle.GetDefaultValue MetaData aggregateIdx := by
    intro p hp
    have hlast : ExclusiveFeatureBundle.GetDefaultValue MetaData aggregateIdx =
        (ExclusiveFeatureBundle.PartBounds MetaData aggregateIdx
          (ExclusiveFeatureBundle.GetAggregatePartsCount MetaData aggregateIdx - 1)).End := by
      unfold ExclusiveFeatureBundle.GetDefaultValue ExclusiveFeatureBundle.PartBounds
      rw [getLastD_eq_getD, hk]
    rw [hlast]
    have h := hchain (ExclusiveFeatureBundle.GetAggregatePartsCount MetaData aggregateIdx - 1 - p)
      p (by omega)
    have he : p + (ExclusiveFeatureBundle.GetAggregatePartsCount MetaData aggregateIdx - 1 - p) =
        ExclusiveFeatureBundle.GetAggregatePartsCount MetaData aggregateIdx - 1 := by omega
    rw [he] at h
    exact h
  have hbits32 : ExclusiveFeatureBundle.GetAggregateBitsPerKey MetaData aggregateIdx ≤ 32 := by
    rcases hbits with h | h | h <;> rw [h] <;> decide
  have hpow : 2 ^ ExclusiveFeatureBundle.GetAggregateBitsPerKey MetaData aggregateIdx ≤ 2 ^ 32 :=
    Nat.pow_le_pow_right (by decide) hbits32
  intro o ho
  have hcell := hcells o ho
  constructor
  · intro hzero
    have hfold := bundle_fold_zero
      (ExclusiveFeatureBundle.GetAggregateBitsPerKey MetaData aggregateIdx)
      (ExclusiveFeatureBundle.GetAggregationContext MetaData aggregateIdx) (fun p2 => B p2 o)
      (ExclusiveFeatureBundle.GetAggregatePartsCount MetaData aggregateIdx)
      (ExclusiveFeatureBundle.GetDefaultValue MetaData aggregateIdx %
        2 ^ ExclusiveFeatureBundle.GetAggregateBitsPerKey MetaData aggregateIdx) hzero
    have hcell2 := hcell.trans hfold
    rw [Nat.mod_eq_of_lt hfit] at hcell2
    exact hcell2
  · intro r hr hrne hzero
    have hfold := bundle_fold_last
      (ExclusiveFeatureBundle.GetAggregateBitsPerKey MetaData aggregateIdx)
      (ExclusiveFeatureBundle.GetAggregationContext MetaData aggregateIdx) (fun p2 => B p2 o)
      (ExclusiveFeatureBundle.GetAggregatePartsCount MetaData aggregateIdx)
      (ExclusiveFeatureBundle.GetDefaultValue MetaData aggregateIdx %
        2 ^ ExclusiveFeatureBundle.GetAggregateBitsPerKey MetaData aggregateIdx)
      r hr hrne hzero
    have hcell2 := hcell.trans hfold
    have hrr := hrange r hr o ho
    have hdr := hdef r hr
    have hctx : ExclusiveFeatureBundle.GetAggregationContext MetaData aggregateIdx r =
        (ExclusiveFeatureBundle.PartBounds MetaData aggregateIdx r).Begin := by
      unfold ExclusiveFeatureBundle.GetAggregationContext ExclusiveFeatureBundle.PartBounds
      apply Nat.mod_eq_of_lt
      unfold ExclusiveFeatureBundle.PartBounds at hrr hdr
      omega
    rw [hctx] at hcell2
    have hval : arr.Data.getD o 0 =
        (ExclusiveFeatureBundle.PartBounds MetaData aggregateIdx r).Begin + B r o - 1 := by
      rw [hcell2, Nat.mod_eq_of_lt (a := _ + B r o - 1) (by omega), Nat.mod_eq_of_lt (by omega)]
    rw [hval]
    refine ⟨rfl, by omega, by omega, by omega⟩

/-- Claim C26, an example: in the example bundle the parts have the bins 1 and 1 on object 0
and the bins 0 and 1 on object 1; on both the cell is what part 1 writes, 1, which lies
in the bounds [1, 2) of part 1 and is not the bundle default 2. -/
theorem ExclusiveFeatureBundle_cell_witness :
    ∃ arr, AggregateFeatures exampleColumnsQuantizer
        (ExclusiveFeatureBundle.Aggregator exampleBundles) 0 (fun _ => 0) = .ok arr ∧
      arr.Data.length = 2 ∧
      arr.Data.getD 0 0 = 1 ∧ arr.Data.getD 1 0 = 1 ∧
      arr.Data.getD 1 0 ≠ ExclusiveFeatureBundle.GetDefaultValue exampleBundles 0 := by
  obtain ⟨arr, h1, h2, h3⟩ := ExclusiveFeatureBundle_cell exampleColumnsQuantizer
    exampleBundles 0 (fun _ => 0) (.TFullSubset 2) true exampleBundleBins rfl rfl
    (Or.inl rfl) (by decide)
    (by
      intro p hp
      have hp2 : p < 2 := hp
      interval_cases p
      · refine ⟨by decide, ?_⟩
        intro o ho
        have ho2 : o < 2 := ho
        interval_cases o <;> rfl
      · refine ⟨by decide, ?_⟩
        intro o ho
        have ho2 : o < 2 := ho
        interval_cases o <;> rfl)
    (by
      intro p hp o ho
      have hp2 : p < 2 := hp
      have ho2 : o < 2 := ho
      interval_cases p <;> interval_cases o <;> decide)
    (by
      intro p hp
      have hp2 : p < 2 := hp
      interval_cases p <;> decide)
    (by
      intro p hp
      have hp2 : p + 1 < 2 := hp
      have hp0 : p = 0 := by omega
      subst hp0
      decide)
    (by decide)
  have hzero : ∀ o p2, 1 < p2 →
      p2 < ExclusiveFeatureBundle.GetAggregatePartsCount exampleBundles 0 →
      exampleBundleBins p2 o = 0 := by
    intro o p2 hlt hp2
    have hp22 : p2 < 2 := hp2
    omega
  have hobj0 := (h3 0 (by decide)).2 1 (by decide) (by decide) (hzero 0)
  have hobj1 := (h3 1 (by decide)).2 1 (by decide) (by decide) (hzero 1)
  exact ⟨arr, h1, h2, hobj0.1, hobj1.1, hobj1.2.2.2⟩

/-! ## Masks under an inverted indexed subset -/

/-- Claim C27, where the claim fails: object 1 of the example column is the only one whose
value is non-default, and it is absent from the subset of the objects 0 and 2, so no
non-default object is inside the subset. The code reads the mapping of the object, which
is `NOT_PRESENT`, without a test and records it: whatever the value of `NOT_PRESENT` is,
the count is 1 and the bit `NOT_PRESENT mod 64` of the block `NOT_PRESENT / 64` is set.
With a default value that is non-default the two absent objects that hold it are counted
as well: the count is 3 where one such object is inside the subset. -/
theorem GetQuantizedNonDefaultValuesMasks_absent_object_counted :
    (∀ NOT_PRESENT, NOT_PRESENT < 2 ^ 32 →
      GetQuantizedNonDefaultValuesMasks
          (newIsNonDefaultFloat exampleFloatLowest (exampleFloatInfo .Forbidden false))
          NOT_PRESENT (.Sparse exampleAbsentSparse) 0 (.TFullSubset 2) exampleAbsentMapping
          [] 0 =
        .ok ([(NOT_PRESENT / 64, (1 <<< (NOT_PRESENT % 64)) % 2 ^ 64)], 1)) ∧
    exampleAbsentMapping.IsPresent 1 = false ∧
    NonDefaultCountInsideSubset exampleNonDefault exampleAbsentSparse exampleAbsentMapping
      = 0 ∧
    GetQuantizedNonDefaultValuesMasks
        (newIsNonDefaultFloat exampleFloatLowest (exampleFloatInfo .Forbidden false))
        (2 ^ 32 - 1) (.Sparse exampleAbsentSparse) 0 (.TFullSubset 2) exampleAbsentMapping
        [] 0 =
      .ok ([(67108863, 2 ^ 63)], 1) ∧
    GetQuantizedNonDefaultValuesMasks
        (newIsNonDefaultFloat exampleFloatLowest (exampleFloatInfo .Forbidden false))
        (2 ^ 32 - 1) (.Sparse exampleAbsentDefaultSparse) 0 (.TFullSubset 2)
        exampleAbsentMapping [] 0 =
      .ok ([(0, 2), (67108863, 2 ^ 63)], 3) ∧
    NonDefaultCountInsideSubset exampleNonDefault exampleAbsentDefaultSparse
      exampleAbsentMapping = 1 := by
  refine ⟨?_, rfl, by decide, rfl, rfl, by decide⟩
  intro NOT_PRESENT hlt
  have hrun : GetQuantizedNonDefaultValuesMasks
      (newIsNonDefaultFloat exampleFloatLowest (exampleFloatInfo .Forbidden false))
      NOT_PRESENT (.Sparse exampleAbsentSparse) 0 (.TFullSubset 2) exampleAbsentMapping
      [] 0 =
      .ok (CloseBlock (UpdateInIncrementalOrder NOT_PRESENT (OpenBlock ([], 0)))) := rfl
  rw [hrun]
  have hpow : (2 : Nat) ^ 32 = 4294967296 := by norm_num
  have hne : ¬ NOT_PRESENT / 64 = 4294967295 := by omega
  simp [CloseBlock, UpdateInIncrementalOrder, OpenBlock, MaxUi32, BLOCK_SIZE, hne]

/-! ## Aggregation of a sparse column -/

/-- Claim C25, where the claim fails: a binary pack whose part 0 is a sparse column of four
objects with the default value 1, of which only object 1 has a stored value, 0, under a
quantizer without a default bin whose bin of a value is the value. The logical values
quantize to the bins 1, 0, 1, 1, which are also what `MakeQuantizedColumnWithoutDefaultBin`
stores; `AggregateFeatures` fills the pack with 0 and visits the stored value only, so the
cells are 0, 0, 0, 0 and bit 0 of the objects 0, 2 and 3 is not their bin. -/
theorem AggregateFeatures_sparse_default_lost :
    (∀ uninit, AggregateFeatures exampleSparseColumnsQuantizer
        (BinaryPack.Aggregator 8 exampleSparsePackedBinaryToSrcIndex
          exampleSparseColumnsQuantizer.QuantizedFeaturesInfo) 0 uninit
      = .ok { BitsPerKey := 8, Data := [0, 0, 0, 0] }) ∧
    (List.range 4).map (exampleSparseColumnsQuantizer.QuantizePartValue
        (BinaryPack.GetSrcPart 8 exampleSparsePackedBinaryToSrcIndex 0 0))
      = [.ok 1, .ok 0, .ok 1, .ok 1] ∧
    (∀ uninit, MakeQuantizedColumnWithoutDefaultBin 8
        (exampleSparseColumnsQuantizer.RawObjectsData.FloatFeatures 0)
        exampleSparseColumnsQuantizer.IncrementalDenseIndexing
        (exampleSparseColumnsQuantizer.QuantizedFeaturesInfo.FloatQuantizer 0) uninit
      = .ok { BitsPerKey := 8, Data := [1, 0, 1, 1] }) ∧
    BinaryPack.GetDefaultValue 8 exampleSparsePackedBinaryToSrcIndex
        exampleSparseColumnsQuantizer.QuantizedFeaturesInfo 0 = .ok 0 := by
  refine ⟨?_, rfl, ?_, rfl⟩
  · intro uninit
    have hlen : (CreateWithUninitializedData 4 8 uninit).length = 4 :=
      CreateWithUninitializedData_length 4 8 uninit
    have hfill : ParallelFill (0 % 2 ^ 8) (CreateWithUninitializedData 4 8 uninit) =
        [0, 0, 0, 0] := by
      unfold ParallelFill
      rw [hlen]
      rfl
    unfold AggregateFeatures
    have hbits : (BinaryPack.Aggregator 8 exampleSparsePackedBinaryToSrcIndex
        exampleSparseColumnsQuantizer.QuantizedFeaturesInfo).GetAggregateBitsPerKey 0 = 8 := rfl
    have hdef : (BinaryPack.Aggregator 8 exampleSparsePackedBinaryToSrcIndex
        exampleSparseColumnsQuantizer.QuantizedFeaturesInfo).GetDefaultValue 0 = .ok 0 := rfl
    have hcount : exampleSparseColumnsQuantizer.ObjectCount = 4 := rfl
    simp only [hbits, hdef, hcount, bind, Except.bind, true_or, if_true, hfill]
    rfl
  · intro uninit
    have hlen : (CreateWithUninitializedData 4 8 uninit).length = 4 :=
      CreateWithUninitializedData_length 4 8 uninit
    have hfill : ParallelFill (1 % 2 ^ 8) (CreateWithUninitializedData 4 8 uninit) =
        [1, 1, 1, 1] := by
      unfold ParallelFill
      rw [hlen]
      rfl
    have hcol : exampleSparseColumnsQuantizer.RawObjectsData.FloatFeatures 0 =
        .Sparse { Size := 4, NonDefault := [(1, 0)], DefaultValue := 1 } := rfl
    rw [hcol]
    unfold MakeQuantizedColumnWithoutDefaultBin
    have hsize : (TTypedFeatureValuesHolder.Sparse
        ({ Size := 4, NonDefault := [(1, 0)], DefaultValue := 1 } : TSparseArray Nat)).GetSize
        = 4 := rfl
    have hq : (exampleSparseColumnsQuantizer.QuantizedFeaturesInfo.FloatQuantizer 0).Quantize
        (TSparseArray.GetDefaultValue
          ({ Size := 4, NonDefault := [(1, 0)], DefaultValue := 1 } : TSparseArray Nat))
        = .ok 1 := rfl
    have hds : (TSparseArray.GetDefaultSize
        ({ Size := 4, NonDefault := [(1, 0)], DefaultValue := 1 } : TSparseArray Nat)) ≠ 0 := by
      decide
    simp only [hsize, hq, hds, ne_eq, not_false_eq_true, if_true, bind, Except.bind, pure,
      Except.pure, hfill]
    rfl

/-! ## The cell of a features group -/

/-- Every bit of the cell after the first `k` parts of a group have been combined. -/
theorem group_fold_testBit (dstBits aggregateIdx : Nat) (B : Nat → Nat) (k : Nat)
    (cell j : Nat) (hbits : dstBits ≤ 32) (hk : 8 * k ≤ dstBits)
    (hB : ∀ p, p < k → B p < 256) (hj : j < dstBits) :
    ((List.range k).foldl
        (fun cell p =>
          FeaturesGroup.AddToAggregate dstBits
            (FeaturesGroup.GetAggregationContext aggregateIdx p) (B p) cell) cell).testBit j =
      (cell.testBit j || (decide (j / 8 < k) && (B (j / 8)).testBit (j % 8))) := by
  induction k with
  | zero => simp
  | succ k ih =>
    rw [List.range_succ, List.foldl_append]
    simp only [List.foldl_cons, List.foldl_nil]
    have hctx : FeaturesGroup.GetAggregationContext aggregateIdx k = 8 * k := by
      unfold FeaturesGroup.GetAggregationContext FeaturesGroup.CHAR_BIT
      have hpow : (2 : Nat) ^ 32 = 4294967296 := by norm_num
      rw [hpow]
      omega
    have hj32 : j < 32 := by omega
    rw [hctx]
    have hprev := ih (by omega) (fun p hp => hB p (by omega))
    generalize (List.range k).foldl _ cell = prev at hprev ⊢
    simp only [FeaturesGroup.AddToAggregate, Nat.testBit_mod_two_pow, Nat.testBit_or,
      Nat.testBit_shiftLeft, ge_iff_le, hj, hj32, decide_True, Bool.true_and]
    rw [hprev]
    have hBk := hB k (Nat.lt_succ_self k)
    rcases Nat.lt_trichotomy (j / 8) k with hlt | heq | hgt
    · have h1 : ¬ 8 * k ≤ j := by omega
      have h2 : j / 8 < k + 1 := by omega
      simp [h1, h2, hlt]
    · have h1 : 8 * k ≤ j := by omega
      have h2 : j - 8 * k = j % 8 := by omega
      have h3 : ¬ j / 8 < k := by omega
      have h4 : j / 8 < k + 1 := by omega
      simp [h1, h2, h3, h4, heq]
    · have h1 : 8 * k ≤ j := by omega
      have h3 : ¬ j / 8 < k := by omega
      have h4 : ¬ j / 8 < k + 1 := by omega
      have h5 : (B k).testBit (j - 8 * k) = false := by
        apply Nat.testBit_lt_two_pow
        have h6 : 8 ≤ j - 8 * k := by omega
        have h7 : (2 : Nat) ^ 8 ≤ 2 ^ (j - 8 * k) := Nat.pow_le_pow_right (by decide) h6
        have h8 : (2 : Nat) ^ 8 = 256 := by norm_num
        omega
      simp [h1, h3, h4, h5]

/-- Byte `p` of the cell after the parts of a group have been combined is the bitwise OR of
byte `p` of the cell before and the bin of part `p`. -/
theorem group_fold_byte (dstBits aggregateIdx : Nat) (B : Nat → Nat) (k : Nat)
    (cell p : Nat) (hbits : dstBits ≤ 32) (hk : 8 * k ≤ dstBits)
    (hB : ∀ p, p < k → B p < 256) (hp : p < k) :
    GroupByte ((List.range k).foldl
        (fun cell p =>
          FeaturesGroup.AddToAggregate dstBits
            (FeaturesGroup.GetAggregationContext aggregateIdx p) (B p) cell) cell) p =
      GroupByte cell p ||| B p := by
  apply Nat.eq_of_testBit_eq
  intro i
  have h256 : (256 : Nat) = 2 ^ 8 := by norm_num
  unfold GroupByte
  rw [h256]
  simp only [Nat.testBit_mod_two_pow, Nat.testBit_shiftRight, Nat.testBit_or]
  by_cases hi : i < 8
  · have hj : 8 * p + i < dstBits := by omega
    rw [group_fold_testBit dstBits aggregateIdx B k cell (8 * p + i) hbits hk hB hj]
    have h1 : (8 * p + i) / 8 = p := by omega
    have h2 : (8 * p + i) % 8 = i := by omega
    simp [hi, h1, h2, hp]
  · have h5 : (B p).testBit i = false := by
      apply Nat.testBit_lt_two_pow
      have h7 : (2 : Nat) ^ 8 ≤ 2 ^ i := Nat.pow_le_pow_right (by decide) (by omega)
      have h8 : (2 : Nat) ^ 8 = 256 := by norm_num
      have := hB p hp
      omega
    simp [hi, h5]

/-- The cells of a group over dense source columns whose bins are below 256: byte `p` of the
cell of an object is the bitwise OR of byte `p` of the composed default and the bin of
part `p` for the object. -/
theorem FeaturesGroup_cell_byte {F C : Type} (q : TColumnsQuantizer F C)
    (MetaData : List TFeaturesGroup) (aggregateIdx : Nat) (uninit : Nat → Nat)
    (S : TArraySubsetIndexing) (hasDenseData : Bool) (B : Nat → Nat → Nat)
    (hincr : q.IncrementalDenseIndexing =
      TIncrementalDenseIndexing.TIncrementalDenseIndexing S hasDenseData)
    (hcount : q.ObjectCount = S.Size)
    (hbits : FeaturesGroup.GetAggregateBitsPerKey MetaData aggregateIdx = 8 ∨
      FeaturesGroup.GetAggregateBitsPerKey MetaData aggregateIdx = 16 ∨
      FeaturesGroup.GetAggregateBitsPerKey MetaData aggregateIdx = 32)
    (hfit : 8 * FeaturesGroup.GetAggregatePartsCount MetaData aggregateIdx ≤
      FeaturesGroup.GetAggregateBitsPerKey MetaData aggregateIdx)
    (defaultValue : Nat)
    (hdefault : FeaturesGroup.GetDefaultValue MetaData q.QuantizedFeaturesInfo aggregateIdx =
      .ok defaultValue)
    (hparts : ∀ p, p < FeaturesGroup.GetAggregatePartsCount MetaData aggregateIdx →
      q.PartIsDenseOver S (FeaturesGroup.GetSrcPart MetaData aggregateIdx p) ∧
      ∀ o, o < S.Size →
        q.QuantizePartValue (FeaturesGroup.GetSrcPart MetaData aggregateIdx p) o
          = .ok (B p o))
    (hrange : ∀ p, p < FeaturesGroup.GetAggregatePartsCount MetaData aggregateIdx →
      ∀ o, o < S.Size → B p o < 256) :
    ∃ arr, AggregateFeatures q (FeaturesGroup.Aggregator MetaData q.QuantizedFeaturesInfo)
        aggregateIdx uninit = .ok arr ∧
      arr.Data.length = S.Size ∧
      ∀ o, o < S.Size →
        ∀ p, p < FeaturesGroup.GetAggregatePartsCount MetaData aggregateIdx →
          GroupByte (arr.Data.getD o 0) p =
            GroupByte (defaultValue %
              2 ^ FeaturesGroup.GetAggregateBitsPerKey MetaData aggregateIdx) p ||| B p o := by
  obtain ⟨arr, hrun, _, hlen, hcells⟩ := AggregateFeatures_dense q
    (FeaturesGroup.Aggregator MetaData q.QuantizedFeaturesInfo) aggregateIdx uninit S
    hasDenseData hincr hcount hbits defaultValue hdefault B hparts
  refine ⟨arr, hrun, hlen, ?_⟩
  intro o ho p hp
  have hbits32 : FeaturesGroup.GetAggregateBitsPerKey MetaData aggregateIdx ≤ 32 := by
    rcases hbits with h | h | h <;> rw [h] <;> decide
  have hcell := hcells o ho
  have hbyte := group_fold_byte (FeaturesGroup.GetAggregateBitsPerKey MetaData aggregateIdx)
    aggregateIdx (fun p2 => B p2 o) (FeaturesGroup.GetAggregatePartsCount MetaData aggregateIdx)
    (defaultValue % 2 ^ FeaturesGroup.GetAggregateBitsPerKey MetaData aggregateIdx) p hbits32
    hfit (fun p2 hp2 => hrange p2 hp2 o ho) hp
  rw [← hbyte]
  exact congrArg (fun cell => GroupByte cell p) hcell

/-- Claim C24, where the claim fails: a group of two dense float parts whose quantizers
report the default bin 1. Part 0 has the bins 2 and 0 on the two objects, part 1 the bins
1 and 1. The group is filled with the composed default 257 and the bins are combined
with a bitwise OR that does not clear the default, so the cells are 259 and 257: byte 0
is 3 where the bin is 2, and 1 where the bin is 0. In general a byte is the bitwise OR of
that byte of the composed default and the bin, which is the bin when no part reports a
default bin other than 0. -/
theorem FeaturesGroup_default_bits_kept :
    (∀ uninit, ∃ arr, AggregateFeatures exampleGroupColumnsQuantizer
        (FeaturesGroup.Aggregator exampleGroups exampleGroupColumnsQuantizer.QuantizedFeaturesInfo)
        0 uninit = .ok arr ∧
      arr.Data.length = 2 ∧
      GroupByte (arr.Data.getD 0 0) 0 = 3 ∧ GroupByte (arr.Data.getD 1 0) 0 = 1 ∧
      GroupByte (arr.Data.getD 0 0) 1 = 1 ∧ GroupByte (arr.Data.getD 1 0) 1 = 1) ∧
    AggregateFeatures exampleGroupColumnsQuantizer
        (FeaturesGroup.Aggregator exampleGroups exampleGroupColumnsQuantizer.QuantizedFeaturesInfo)
        0 (fun _ => 0) = .ok { BitsPerKey := 16, Data := [259, 257] } ∧
    (List.range 2).map (exampleGroupColumnsQuantizer.QuantizePartValue
        (FeaturesGroup.GetSrcPart exampleGroups 0 0)) = [.ok 2, .ok 0] ∧
    FeaturesGroup.GetDefaultValue exampleGroups exampleGroupColumnsQuantizer.QuantizedFeaturesInfo
      0 = .ok 257 := by
  refine ⟨?_, rfl, rfl, rfl⟩
  intro uninit
  obtain ⟨arr, hrun, hlen, hbytes⟩ := FeaturesGroup_cell_byte exampleGroupColumnsQuantizer
    exampleGroups 0 uninit (.TFullSubset 2) true
    (fun p o => if p = 0 then (if o = 0 then 2 else 0) else 1) rfl rfl (Or.inr (Or.inl rfl))
    (by decide) 257 rfl
    (by
      intro p hp
      have hp2 : p < 2 := hp
      interval_cases p
      · refine ⟨by decide, ?_⟩
        intro o ho
        have ho2 : o < 2 := ho
        interval_cases o <;> rfl
      · refine ⟨by decide, ?_⟩
        intro o ho
        have ho2 : o < 2 := ho
        interval_cases o <;> rfl)
    (by
      intro p hp o ho
      have hp2 : p < 2 := hp
      have ho2 : o < 2 := ho
      interval_cases p <;> interval_cases o <;> decide)
  exact ⟨arr, hrun, hlen, hbytes 0 (by decide) 0 (by decide), hbytes 1 (by decide) 0 (by decide),
    hbytes 0 (by decide) 1 (by decide), hbytes 1 (by decide) 1 (by decide)⟩

/-! ## Scheduling after the first stage -/

theorem foldl_Add_tasks {Task β : Type} (skip : β → Bool) (task : β → Nat × Task)
    (l : List β) :
    ∀ executor : TResourceConstrainedExecutor Task,
      (l.foldl
        (fun executor x => if skip x then executor else executor.Add (task x))
        executor).Queue =
      executor.Queue ++ (l.filter (fun x => !skip x)).map task := by
  induction l with
  | nil =>
    intro executor
    simp
  | cons x l ih =>
    intro executor
    rw [List.foldl_cons, ih]
    cases hskip : skip x with
    | true => simp [hskip]
    | false => simp [hskip, TResourceConstrainedExecutor.Add]

theorem ScheduleAggregateFeatures_Queue {F C : Type} (q : TColumnsQuantizer F C)
    (BITS_PER_PACK : Nat) (QuantizedObjectsData : TQuantizedForCPUObjectsData)
    (FeatureValuesType : EFeatureValuesType)
    (executor : TResourceConstrainedExecutor TQuantizationTask) :
    ((TColumnsQuantizer.ScheduleAggregateFeatures q BITS_PER_PACK QuantizedObjectsData
        FeatureValuesType executor).Queue).map Prod.snd =
      executor.Queue.map Prod.snd ++
        (List.range (TColumnsQuantizer.GetAggregateCount QuantizedObjectsData
          FeatureValuesType)).map (TQuantizationTask.AggregateFeatures FeatureValuesType) := by
  unfold TColumnsQuantizer.ScheduleAggregateFeatures
  have h := foldl_Add_tasks (fun _ : Nat => false)
    (fun aggregateIdx =>
      ((q.ObjectCount *
          (TColumnsQuantizer.GetAggregateBitsPerKey BITS_PER_PACK QuantizedObjectsData
            FeatureValuesType aggregateIdx / 8)) % 2 ^ 32,
        TQuantizationTask.AggregateFeatures FeatureValuesType aggregateIdx))
    (List.range (TColumnsQuantizer.GetAggregateCount QuantizedObjectsData FeatureValuesType))
    executor
  simp only [Bool.false_eq_true, if_false, Bool.not_false, List.filter_true] at h
  simp only []
  rw [h]
  simp [Function.comp_def]

theorem ScheduleNonAggregatedFeaturesForType_Queue {F C : Type} (q : TColumnsQuantizer F C)
    (FeaturesLayout : TFeaturesLayout) (QuantizedObjectsData : TQuantizedForCPUObjectsData)
    (FeatureType : EFeatureType)
    (executor : TResourceConstrainedExecutor TQuantizationTask) :
    ((TColumnsQuantizer.ScheduleNonAggregatedFeaturesForType q FeaturesLayout
        QuantizedObjectsData FeatureType executor).Queue).map Prod.snd =
      executor.Queue.map Prod.snd ++
        ((FeaturesLayout.IterateOverAvailableFeatures FeatureType).filter
          (fun perTypeFeatureIdx =>
            !TColumnsQuantizer.IsInAggregatedColumn QuantizedObjectsData
              (FeaturesLayout.GetExternalFeatureIdx perTypeFeatureIdx FeatureType))).map
          (TQuantizationTask.QuantizeAndClearSrcData FeatureType) := by
  unfold TColumnsQuantizer.ScheduleNonAggregatedFeaturesForType
  have h := foldl_Add_tasks
    (fun perTypeFeatureIdx =>
      TColumnsQuantizer.IsInAggregatedColumn QuantizedObjectsData
        (FeaturesLayout.GetExternalFeatureIdx perTypeFeatureIdx FeatureType))
    (fun perTypeFeatureIdx =>
      ((q.ObjectCount *
          (TColumnsQuantizer.GetDstBitsPerKey q FeatureType perTypeFeatureIdx / 8)) % 2 ^ 32,
        TQuantizationTask.QuantizeAndClearSrcData FeatureType perTypeFeatureIdx))
    (FeaturesLayout.IterateOverAvailableFeatures FeatureType) executor
  simp only []
  rw [h]
  simp [Function.comp_def]

/-- The tasks of `TColumnsQuantizer::Do` when the exclusive features are bundled: the
bundles, then the float and the categorical features that are in no aggregate, then the
packs and the groups if these are asked for. -/
theorem Do_tasks {F C V : Type} (q : TColumnsQuantizer F C) (Options : TQuantizationOptions V)
    (BITS_PER_PACK : Nat) (FeaturesLayout : TFeaturesLayout)
    (QuantizedObjectsData : TQuantizedForCPUObjectsData) (cpuRamUsage : Nat)
    (hcpu : Options.CpuCompatibleFormat = true)
    (hbundle : Options.BundleExclusiveFeaturesForCpu = true) :
    ((TColumnsQuantizer.Do q Options BITS_PER_PACK FeaturesLayout QuantizedObjectsData
        cpuRamUsage).Queue).map Prod.snd =
      (List.range (TColumnsQuantizer.GetAggregateCount QuantizedObjectsData
          .ExclusiveFeatureBundle)).map
        (TQuantizationTask.AggregateFeatures .ExclusiveFeatureBundle) ++
      ((FeaturesLayout.IterateOverAvailableFeatures .Float).filter
          (fun perTypeFeatureIdx =>
            !TColumnsQuantizer.IsInAggregatedColumn QuantizedObjectsData
              (FeaturesLayout.GetExternalFeatureIdx perTypeFeatureIdx .Float))).map
        (TQuantizationTask.QuantizeAndClearSrcData .Float) ++
      ((FeaturesLayout.IterateOverAvailableFeatures .Categorical).filter
          (fun perTypeFeatureIdx =>
            !TColumnsQuantizer.IsInAggregatedColumn QuantizedObjectsData
              (FeaturesLayout.GetExternalFeatureIdx perTypeFeatureIdx .Categorical))).map
        (TQuantizationTask.QuantizeAndClearSrcData .Categorical) ++
      (if Options.PackBinaryFeaturesForCpu then
        (List.range (TColumnsQuantizer.GetAggregateCount QuantizedObjectsData .BinaryPack)).map
          (TQuantizationTask.AggregateFeatures .BinaryPack)
      else []) ++
      (if Options.GroupFeaturesForCpu then
        (List.range (TColumnsQuantizer.GetAggregateCount QuantizedObjectsData
          .FeaturesGroup)).map (TQuantizationTask.AggregateFeatures .FeaturesGroup)
      else []) := by
  unfold TColumnsQuantizer.Do TColumnsQuantizer.ScheduleNonAggregatedFeatures
  simp only [hcpu, hbundle, Bool.and_self, if_true, Bool.true_and]
  cases hpack : Options.PackBinaryFeaturesForCpu <;>
    cases hgroup : Options.GroupFeaturesForCpu <;>
    simp [ScheduleAggregateFeatures_Queue, ScheduleNonAggregatedFeaturesForType_Queue,
      NewResourceConstrainedExecutor]

theorem ProcessFloatFeature_calc_only {V : Type} [LinearOrder V]
    (bestSplit : TBestSplitRequest V → TQuantization V) (Lowest Max : V)
    (floatFeatureIdx : Nat) (srcFeature : TTypedFeatureValuesHolder (TFloat V))
    (featureId : Nat) (sub : TSubsetIndexingForBuildBorders)
    (options : TQuantizationOptions V) (initialBorders : Option (List (List (TFloat V))))
    (storeFeaturesDataAsExternalValuesHolder : Bool)
    (incrementalDenseIndexing : Option TIncrementalDenseIndexing) (uninit : Nat → Nat)
    (quantizedFeaturesInfo : TQuantizedFloatFeaturesInfo V)
    (column : TQuantizedColumn (TFloat V)) :
    (ProcessFloatFeature bestSplit Lowest Max floatFeatureIdx srcFeature featureId sub options
      initialBorders true storeFeaturesDataAsExternalValuesHolder incrementalDenseIndexing
      uninit quantizedFeaturesInfo).1 ≠ .ok (some column) := by
  unfold ProcessFloatFeature
  cases ProcessFloatFeatureCalc bestSplit Lowest Max floatFeatureIdx srcFeature featureId sub
      options initialBorders quantizedFeaturesInfo with
  | error e =>
    intro h
    cases h
  | ok result =>
    obtain ⟨nanMode, quantization⟩ := result
    intro h
    simp only [ProcessFloatFeatureColumn, Bool.not_true, Bool.false_and, Bool.false_eq_true,
      if_false, pure, Except.pure, Except.ok.injEq] at h
    cases h

theorem ProcessCatFeature_hash_only {V R : Type}
    (UpdatePerfectHashAndMaybeQuantize :
      Nat → List Nat → Bool → Option (Nat × Nat) → Option (TFloat V) → Option (List Nat) → R →
        Except EError (R × Option (List Nat)))
    (GetUniqueValuesCountsOnLearnOnly : R → Nat → Nat)
    (IgnoreExternalFeature : R → Nat → R)
    (newValueQuantizer : R → Nat → Except EError (TValueQuantizer Nat))
    (catFeatureIdx : Nat) (srcFeature : TTypedFeatureValuesHolder Nat) (featureId : Nat)
    (options : TQuantizationOptions V) (storeFeaturesDataAsExternalValuesHolder : Bool)
    (incrementalDenseIndexing : TIncrementalDenseIndexing) (uninit : Nat → Nat)
    (quantizedFeaturesInfo : R) (column : TQuantizedColumn Nat) :
    (ProcessCatFeature UpdatePerfectHashAndMaybeQuantize GetUniqueValuesCountsOnLearnOnly
      IgnoreExternalFeature newValueQuantizer catFeatureIdx srcFeature featureId options true
      storeFeaturesDataAsExternalValuesHolder incrementalDenseIndexing uninit
      quantizedFeaturesInfo).1 ≠ .ok (some column) := by
  unfold ProcessCatFeature
  simp only []
  split
  · intro h
    cases h
  · split
    · intro h
      simp only [Bool.not_true, Bool.false_eq_true, if_false, pure, Except.pure,
        Except.ok.injEq] at h
      cases h
    · intro h
      simp only [pure, Except.pure, Except.ok.injEq] at h
      cases h

theorem ProcessFloatFeatureTask_keeps_columns {V R : Type} [LinearOrder V]
    (bestSplit : TBestSplitRequest V → TQuantization V) (Lowest Max : V)
    (options : TQuantizationOptions V) (featuresLayout : TFeaturesLayout)
    (rawObjectsData : TRawObjectsData (TFloat V) Nat)
    (sub : TSubsetIndexingForBuildBorders)
    (initialBorders : Option (List (List (TFloat V))))
    (calcQuantizationAndNanModeOnly storeFeaturesDataAsExternalValuesHolders : Bool)
    (incrementalIndexing : Option TIncrementalDenseIndexing) (uninit : Nat → Nat)
    (hcpu : options.CpuCompatibleFormat = true)
    (hbundle : options.BundleExclusiveFeaturesForCpu = true)
    (data : TQuantizedForCPUBuilderData V R) (floatFeatureIdx : Nat)
    (next : TQuantizedForCPUBuilderData V R)
    (hrun : TQuantizationImpl.ProcessFloatFeatureTask bestSplit Lowest Max options
      featuresLayout rawObjectsData sub initialBorders calcQuantizationAndNanModeOnly
      storeFeaturesDataAsExternalValuesHolders incrementalIndexing uninit data
      floatFeatureIdx = .ok next) :
    next.FloatFeatures = data.FloatFeatures ∧ next.CatFeatures = data.CatFeatures := by
  unfold TQuantizationImpl.ProcessFloatFeatureTask at hrun
  simp only [hcpu, hbundle, Bool.and_self, Bool.or_true, if_true] at hrun
  split at hrun
  · cases hrun
  · simp only [pure, Except.pure, Except.ok.injEq] at hrun
    rw [← hrun]
    exact ⟨rfl, rfl⟩

theorem ProcessCatFeatureTask_keeps_columns {V R : Type}
    (UpdatePerfectHashAndMaybeQuantize :
      Nat → List Nat → Bool → Option (Nat × Nat) → Option (TFloat V) → Option (List Nat) → R →
        Except EError (R × Option (List Nat)))
    (GetUniqueValuesCountsOnLearnOnly : R → Nat → Nat)
    (IgnoreExternalFeature : R → Nat → R)
    (newValueQuantizer : R → Nat → Except EError (TValueQuantizer Nat))
    (options : TQuantizationOptions V) (featuresLayout : TFeaturesLayout)
    (rawObjectsData : TRawObjectsData (TFloat V) Nat)
    (storeFeaturesDataAsExternalValuesHolders : Bool)
    (incrementalIndexing : Option TIncrementalDenseIndexing) (uninit : Nat → Nat)
    (hcpu : options.CpuCompatibleFormat = true)
    (hbundle : options.BundleExclusiveFeaturesForCpu = true)
    (data : TQuantizedForCPUBuilderData V R) (catFeatureIdx : Nat)
    (next : TQuantizedForCPUBuilderData V R)
    (hrun : TQuantizationImpl.ProcessCatFeatureTask UpdatePerfectHashAndMaybeQuantize
      GetUniqueValuesCountsOnLearnOnly IgnoreExternalFeature newValueQuantizer options
      featuresLayout rawObjectsData storeFeaturesDataAsExternalValuesHolders
      incrementalIndexing uninit data catFeatureIdx = .ok next) :
    next.FloatFeatures = data.FloatFeatures ∧ next.CatFeatures = data.CatFeatures := by
  unfold TQuantizationImpl.ProcessCatFeatureTask at hrun
  simp only [hcpu, hbundle, Bool.and_self] at hrun
  cases incrementalIndexing with
  | none => cases hrun
  | some incrementalDenseIndexing =>
    simp only [] at hrun
    have hnone := ProcessCatFeature_hash_only UpdatePerfectHashAndMaybeQuantize
      GetUniqueValuesCountsOnLearnOnly IgnoreExternalFeature newValueQuantizer catFeatureIdx
      (rawObjectsData.CatFeatures catFeatureIdx)
      (featuresLayout.GetExternalFeatureIdx catFeatureIdx .Categorical) options
      storeFeaturesDataAsExternalValuesHolders incrementalDenseIndexing uninit
      data.QuantizedCatFeaturesInfo
    generalize ProcessCatFeature UpdatePerfectHashAndMaybeQuantize
      GetUniqueValuesCountsOnLearnOnly IgnoreExternalFeature newValueQuantizer catFeatureIdx
      (rawObjectsData.CatFeatures catFeatureIdx)
      (featuresLayout.GetExternalFeatureIdx catFeatureIdx .Categorical) options true
      storeFeaturesDataAsExternalValuesHolders incrementalDenseIndexing uninit
      data.QuantizedCatFeaturesInfo = result at hrun hnone
    obtain ⟨outcome, info⟩ := result
    cases outcome with
    | error e => cases hrun
    | ok dstQuantizedFeature =>
      cases dstQuantizedFeature with
      | some column => exact absurd rfl (hnone column)
      | none =>
        simp only [pure, Except.pure, Except.ok.injEq] at hrun
        rw [← hrun]
        exact ⟨rfl, rfl⟩

theorem DoFirstStage_keeps_columns {V R : Type} [LinearOrder V]
    (bestSplit : TBestSplitRequest V → TQuantization V) (Lowest Max : V)
    (UpdatePerfectHashAndMaybeQuantize :
      Nat → List Nat → Bool → Option (Nat × Nat) → Option (TFloat V) → Option (List Nat) → R →
        Except EError (R × Option (List Nat)))
    (GetUniqueValuesCountsOnLearnOnly : R → Nat → Nat)
    (IgnoreExternalFeature : R → Nat → R)
    (newValueQuantizer : R → Nat → Except EError (TValueQuantizer Nat))
    (options : TQuantizationOptions V) (featuresLayout : TFeaturesLayout)
    (rawObjectsData : TRawObjectsData (TFloat V) Nat)
    (sub : TSubsetIndexingForBuildBorders)
    (initialBorders : Option (List (List (TFloat V))))
    (calcQuantizationAndNanModeOnly storeFeaturesDataAsExternalValuesHolders : Bool)
    (srcSubsetIndexing : TArraySubsetIndexing) (hasDenseSrcData : Bool) (uninit : Nat → Nat)
    (hcpu : options.CpuCompatibleFormat = true)
    (hbundle : options.BundleExclusiveFeaturesForCpu = true)
    (data final : TQuantizedForCPUBuilderData V R)
    (hrun : TQuantizationImpl.DoFirstStage bestSplit Lowest Max
      UpdatePerfectHashAndMaybeQuantize GetUniqueValuesCountsOnLearnOnly IgnoreExternalFeature
      newValueQuantizer options featuresLayout rawObjectsData sub initialBorders
      calcQuantizationAndNanModeOnly storeFeaturesDataAsExternalValuesHolders
      srcSubsetIndexing hasDenseSrcData uninit data = .ok final) :
    final.FloatFeatures = data.FloatFeatures ∧ final.CatFeatures = data.CatFeatures := by
  unfold TQuantizationImpl.DoFirstStage at hrun
  simp only [bind, Except.bind] at hrun
  split at hrun
  · cases hrun
  · rename_i middle hfloat
    have hmiddle := foldlM_invariant _
      (fun st : TQuantizedForCPUBuilderData V R =>
        st.FloatFeatures = data.FloatFeatures ∧ st.CatFeatures = data.CatFeatures)
      (fun s b s2 hs hstep => by
        have h := ProcessFloatFeatureTask_keeps_columns bestSplit Lowest Max options
          featuresLayout rawObjectsData sub initialBorders calcQuantizationAndNanModeOnly
          storeFeaturesDataAsExternalValuesHolders _ uninit hcpu hbundle s b s2 hstep
        exact ⟨h.1.trans hs.1, h.2.trans hs.2⟩)
      _ data middle ⟨rfl, rfl⟩ hfloat
    split at hrun
    · exact foldlM_invariant _
        (fun st : TQuantizedForCPUBuilderData V R =>
          st.FloatFeatures = data.FloatFeatures ∧ st.CatFeatures = data.CatFeatures)
        (fun s b s2 hs hstep => by
          have h := ProcessCatFeatureTask_keeps_columns UpdatePerfectHashAndMaybeQuantize
            GetUniqueValuesCountsOnLearnOnly IgnoreExternalFeature newValueQuantizer options
            featuresLayout rawObjectsData storeFeaturesDataAsExternalValuesHolders _ uninit
            hcpu hbundle s b s2 hstep
          exact ⟨h.1.trans hs.1, h.2.trans hs.2⟩)
        _ middle final hmiddle hrun
    · simp only [pure, Except.pure, Except.ok.injEq] at hrun
      rw [← hrun]
      exact hmiddle

/-- Claim C22: when `CpuCompatibleFormat` and `BundleExclusiveFeaturesForCpu` are set, the
calls of `ProcessFloatFeature` and of `ProcessCatFeature` that the first stage of
`TQuantizationImpl::Do` makes leave no column, so the float and the categorical columns
are after the first stage what they were before it; and the tasks that
`TColumnsQuantizer::Do` hands to the executor contain the quantization of a feature on its
own exactly for the float and the categorical features that the layout gives as
available and that are in no bundle, no binary pack and no group. -/
theorem Do_defers_quantization {F C V R : Type} [LinearOrder V]
    (bestSplit : TBestSplitRequest V → TQuantization V) (Lowest Max : V)
    (UpdatePerfectHashAndMaybeQuantize :
      Nat → List Nat → Bool → Option (Nat × Nat) → Option (TFloat V) → Option (List Nat) → R →
        Except EError (R × Option (List Nat)))
    (GetUniqueValuesCountsOnLearnOnly : R → Nat → Nat)
    (IgnoreExternalFeature : R → Nat → R)
    (newValueQuantizer : R → Nat → Except EError (TValueQuantizer Nat))
    (options : TQuantizationOptions V) (featuresLayout : TFeaturesLayout)
    (rawObjectsData : TRawObjectsData (TFloat V) Nat)
    (sub : TSubsetIndexingForBuildBorders)
    (initialBorders : Option (List (List (TFloat V))))
    (calcQuantizationAndNanModeOnly storeFeaturesDataAsExternalValuesHolders : Bool)
    (srcSubsetIndexing : TArraySubsetIndexing) (hasDenseSrcData : Bool) (uninit : Nat → Nat)
    (q : TColumnsQuantizer F C) (BITS_PER_PACK : Nat)
    (QuantizedObjectsData : TQuantizedForCPUObjectsData) (cpuRamUsage : Nat)
    (hcpu : options.CpuCompatibleFormat = true)
    (hbundle : options.BundleExclusiveFeaturesForCpu = true) :
    (∀ floatFeatureIdx srcFeature featureId incrementalIndexing quantizedFeaturesInfo column,
      (ProcessFloatFeature bestSplit Lowest Max floatFeatureIdx srcFeature featureId sub
        options initialBorders
        (calcQuantizationAndNanModeOnly ||
          (options.CpuCompatibleFormat && options.BundleExclusiveFeaturesForCpu))
        storeFeaturesDataAsExternalValuesHolders incrementalIndexing uninit
        quantizedFeaturesInfo).1 ≠ .ok (some column)) ∧
    (∀ catFeatureIdx srcFeature featureId incrementalDenseIndexing quantizedFeaturesInfo column,
      (ProcessCatFeature UpdatePerfectHashAndMaybeQuantize GetUniqueValuesCountsOnLearnOnly
        IgnoreExternalFeature newValueQuantizer catFeatureIdx srcFeature featureId options
        (options.CpuCompatibleFormat && options.BundleExclusiveFeaturesForCpu)
        storeFeaturesDataAsExternalValuesHolders incrementalDenseIndexing uninit
        quantizedFeaturesInfo).1 ≠ .ok (some column)) ∧
    (∀ data final,
      TQuantizationImpl.DoFirstStage bestSplit Lowest Max UpdatePerfectHashAndMaybeQuantize
        GetUniqueValuesCountsOnLearnOnly IgnoreExternalFeature newValueQuantizer options
        featuresLayout rawObjectsData sub initialBorders calcQuantizationAndNanModeOnly
        storeFeaturesDataAsExternalValuesHolders srcSubsetIndexing hasDenseSrcData uninit
        data = .ok final →
      final.FloatFeatures = data.FloatFeatures ∧ final.CatFeatures = data.CatFeatures) ∧
    (∀ featureType perTypeFeatureIdx,
      TQuantizationTask.QuantizeAndClearSrcData featureType perTypeFeatureIdx ∈
          ((TColumnsQuantizer.Do q options BITS_PER_PACK featuresLayout QuantizedObjectsData
            cpuRamUsage).Queue).map Prod.snd ↔
        ((featureType = .Float ∨ featureType = .Categorical) ∧
          perTypeFeatureIdx ∈ featuresLayout.IterateOverAvailableFeatures featureType ∧
          TColumnsQuantizer.IsInAggregatedColumn QuantizedObjectsData
            (featuresLayout.GetExternalFeatureIdx perTypeFeatureIdx featureType) = false)) := by
  refine ⟨?_, ?_, ?_, ?_⟩
  · intro floatFeatureIdx srcFeature featureId incrementalIndexing quantizedFeaturesInfo column
    rw [hcpu, hbundle]
    simp only [Bool.and_self, Bool.or_true]
    exact ProcessFloatFeature_calc_only bestSplit Lowest Max floatFeatureIdx srcFeature
      featureId sub options initialBorders storeFeaturesDataAsExternalValuesHolders
      incrementalIndexing uninit quantizedFeaturesInfo column
  · intro catFeatureIdx srcFeature featureId incrementalDenseIndexing quantizedFeaturesInfo
      column
    rw [hcpu, hbundle]
    simp only [Bool.and_self]
    exact ProcessCatFeature_hash_only UpdatePerfectHashAndMaybeQuantize
      GetUniqueValuesCountsOnLearnOnly IgnoreExternalFeature newValueQuantizer catFeatureIdx
      srcFeature featureId options storeFeaturesDataAsExternalValuesHolders
      incrementalDenseIndexing uninit quantizedFeaturesInfo column
  · intro data final hrun
    exact DoFirstStage_keeps_columns bestSplit Lowest Max UpdatePerfectHashAndMaybeQuantize
      GetUniqueValuesCountsOnLearnOnly IgnoreExternalFeature newValueQuantizer options
      featuresLayout rawObjectsData sub initialBorders calcQuantizationAndNanModeOnly
      storeFeaturesDataAsExternalValuesHolders srcSubsetIndexing hasDenseSrcData uninit
      hcpu hbundle data final hrun
  · intro featureType perTypeFeatureIdx
    rw [Do_tasks q options BITS_PER_PACK featuresLayout QuantizedObjectsData cpuRamUsage hcpu
      hbundle]
    cases hpack : options.PackBinaryFeaturesForCpu <;>
      cases hgroup : options.GroupFeaturesForCpu <;>
      cases featureType <;>
      simp [List.mem_append, List.mem_map, List.mem_filter]

/-- Claim C22, an example: a layout of two available float features, an available
categorical feature and an ignored float feature, with one bundle that holds the first
float feature. The first stage returns and leaves no column; the tasks of
`TColumnsQuantizer::Do` are the bundle, float feature 1 and categorical feature 0. -/
theorem Do_defers_quantization_witness :
    exampleOptions.CpuCompatibleFormat = true ∧
    exampleOptions.BundleExclusiveFeaturesForCpu = true ∧
    (∃ final,
      TQuantizationImpl.DoFirstStage exampleBestSplit exampleFloatLowest exampleFloatMax
        (fun _ _ _ _ _ quantizedDataValue info => .ok (info, quantizedDataValue))
        (fun _ _ => 2) (fun info _ => info) (fun _ _ => .ok (exampleQuantizer 8 none))
        exampleOptions exampleScheduleLayout exampleScheduleRawObjectsData exampleNanSub none
        false false (.TFullSubset 4) true (fun _ => 0) exampleScheduleBuilderData
        = .ok final ∧
      final.FloatFeatures 1 = none ∧ final.CatFeatures 0 = none) ∧
    ((TColumnsQuantizer.Do exampleColumnsQuantizer exampleOptions 8 exampleScheduleLayout
        exampleScheduleData 0).Queue).map Prod.snd =
      [.AggregateFeatures .ExclusiveFeatureBundle 0, .QuantizeAndClearSrcData .Float 1,
        .QuantizeAndClearSrcData .Categorical 0] ∧
    TQuantizationTask.QuantizeAndClearSrcData .Float 1 ∈
      ((TColumnsQuantizer.Do exampleColumnsQuantizer exampleOptions 8 exampleScheduleLayout
        exampleScheduleData 0).Queue).map Prod.snd ∧
    TQuantizationTask.QuantizeAndClearSrcData .Float 0 ∉
      ((TColumnsQuantizer.Do exampleColumnsQuantizer exampleOptions 8 exampleScheduleLayout
        exampleScheduleData 0).Queue).map Prod.snd := by
  have h := Do_defers_quantization exampleBestSplit exampleFloatLowest exampleFloatMax
    (fun _ _ _ _ _ quantizedDataValue (info : Unit) => .ok (info, quantizedDataValue))
    (fun _ _ => 2) (fun info _ => info) (fun _ _ => .ok (exampleQuantizer 8 none))
    exampleOptions exampleScheduleLayout exampleScheduleRawObjectsData exampleNanSub none
    false false (.TFullSubset 4) true (fun _ => 0) exampleColumnsQuantizer 8
    exampleScheduleData 0 rfl rfl
  refine ⟨rfl, rfl, ?_, by decide, ?_, ?_⟩
  · cases hrun : TQuantizationImpl.DoFirstStage exampleBestSplit exampleFloatLowest
        exampleFloatMax
        (fun _ _ _ _ _ quantizedDataValue (info : Unit) => .ok (info, quantizedDataValue))
        (fun _ _ => 2) (fun info _ => info) (fun _ _ => .ok (exampleQuantizer 8 none))
        exampleOptions exampleScheduleLayout exampleScheduleRawObjectsData exampleNanSub none
        false false (.TFullSubset 4) true (fun _ => 0) exampleScheduleBuilderData with
    | error e =>
      have hok : (TQuantizationImpl.DoFirstStage exampleBestSplit exampleFloatLowest
        exampleFloatMax
        (fun _ _ _ _ _ quantizedDataValue (info : Unit) => .ok (info, quantizedDataValue))
        (fun _ _ => 2) (fun info _ => info) (fun _ _ => .ok (exampleQuantizer 8 none))
        exampleOptions exampleScheduleLayout exampleScheduleRawObjectsData exampleNanSub none
        false false (.TFullSubset 4) true (fun _ => 0) exampleScheduleBuilderData).toBool
          = true := rfl
      rw [hrun] at hok
      cases hok
    | ok final =>
      have hkeep := h.2.2.1 exampleScheduleBuilderData final hrun
      exact ⟨final, rfl, congrFun hkeep.1 1, congrFun hkeep.2 0⟩
  · exact (h.2.2.2 .Float 1).2 ⟨Or.inl rfl, by decide, by decide⟩
  · intro hmem
    have := ((h.2.2.2 .Float 0).1 hmem).2.2
    revert this
    decide

end NCB
